import Mathlib

/-!
Verification of the multi-region heap allocator in `kern/mm.c` of the
zfsonlinux GRUB fork.

The memory manager works on "cells" of `GRUB_MM_ALIGN` bytes; every block
header occupies exactly one cell.  We embed the C code shallowly:

* header memory is a total function from cell index to `Header`
  (`struct grub_mm_header`, whose four fields are machine words);
* user data bytes are a separate total function from byte address to byte
  (the C code never reads a live block's data through a header pointer and
  never writes a header into a live block's data cells, so the separation
  is faithful for every state the claims quantify over);
* pointers are modelled as numeric addresses: cell indices inside the
  block engine, byte addresses (= 32 * cell) at the public API;
* `grub_size_t` / `grub_addr_t` are 64-bit; arithmetic is wrapped modulo
  `2 ^ 64` exactly at the places where the C expression can overflow
  (the `n` computation, the entry truncation of parameters, and the
  region-installation arithmetic); every other arithmetic expression in
  the code is guarded by a comparison that rules the wrap out, which we
  note at each definition;
* `grub_fatal` (which never returns) and ring-walk fuel exhaustion are
  the two non-`ok` outcomes of an operation.

Unbounded `for` loops over the free ring become fuel recursion; the fuel
used by the public entry points is one more than the number of cells of
the region, an upper bound for one full traversal of any intact ring.
-/

namespace GrubMM

/-- Machine-word modulus: `grub_size_t` and `grub_addr_t` are 64 bits wide. -/
def WORD : Nat := 2 ^ 64

def GRUB_MM_ALIGN_LOG2 : Nat := 5

/-- One cell: 32 bytes (64-bit platform, `GRUB_CPU_SIZEOF_VOID_P == 8`). -/
def GRUB_MM_ALIGN : Nat := 32

def GRUB_MM_FREE_MAGIC : Nat := 0x2d3c2808

def GRUB_MM_ALLOC_MAGIC : Nat := 0x6db08fa4

/-- Modelled from the spec: `grub/mm.h` is not among the sources.  The spec
fixes three policy ids (`DEFAULT`, `LOW`, `LOW_END`) used as indices into a
region's strategy vector. -/
inductive MmPolicy where
  | pDefault
  | pLow
  | pLowEnd
deriving DecidableEq

/-- Modelled from the spec: the four per-region strategy selectors
`FIRST`, `SECOND`, `LAST`, `SKIP` declared in the missing `grub/mm.h`. -/
inductive Strategy where
  | sFirst
  | sSecond
  | sLast
  | sSkip
deriving DecidableEq

/-- Modelled from the spec: the strategy vector `grub_size_t
policies[GRUB_MM_NPOLICIES]` of the region structure, one selector per
policy id. -/
structure Policies where
  pdef : Strategy
  plow : Strategy
  plowend : Strategy
deriving DecidableEq

def Policies.get (ps : Policies) : MmPolicy → Strategy
  | .pDefault => ps.pdef
  | .pLow => ps.plow
  | .pLowEnd => ps.plowend

/-- Modelled from the spec: `sizeof (struct grub_mm_region)` in bytes.  The
struct holds four words (`first`, `next`, `addr`, `size`) plus the policy
vector; block headers must stay cell-aligned for `grub_free` to accept the
pointers handed out, so the struct occupies whole cells: two cells of 32
bytes. -/
def sizeofRegion : Nat := 64

/-- Modelled from the spec: the numeric value of `GRUB_ERR_OUT_OF_MEMORY`
from the missing `grub/err.h`; only its distinctness from `GRUB_ERR_NONE = 0`
matters. -/
def GRUB_ERR_OUT_OF_MEMORY : Nat := 3

/-- One `struct grub_mm_header`: four machine words. -/
structure Header where
  prev : Nat
  next : Nat
  size : Nat
  magic : Nat
deriving DecidableEq

/-- Header memory: total map from cell index to header contents. -/
abbrev Mem : Type := Nat → Header

def setPrev (m : Mem) (a v : Nat) : Mem :=
  fun c => if c = a then { m c with prev := v } else m c

def setNext (m : Mem) (a v : Nat) : Mem :=
  fun c => if c = a then { m c with next := v } else m c

def setSize (m : Mem) (a v : Nat) : Mem :=
  fun c => if c = a then { m c with size := v } else m c

def setMagic (m : Mem) (a v : Nat) : Mem :=
  fun c => if c = a then { m c with magic := v } else m c

/-- One `struct grub_mm_region` (its `next` link is the position in the
global list `MMState.base`).  `first` is the cell index of a header,
`addr` and `size` are in bytes as in the source. -/
structure Region where
  first : Nat
  addr : Nat
  size : Nat
  policies : Policies
deriving DecidableEq

/-- The global allocator state: the region list headed by `base`, header
memory, user data bytes, and the process-wide error channel of
`grub_error`. -/
structure MMState where
  base : List Region
  mem : Mem
  dat : Nat → Nat
  errno : Nat
  errmsg : String

/-- Outcome of an operation: normal result, `grub_fatal` (which never
returns), or exhaustion of the ring-walk fuel. -/
inductive Res (α : Type) where
  | ok : α → Res α
  | fatal : Res α
  | nofuel : Res α
deriving DecidableEq

/-- 64-bit wrapping addition. -/
def add64 (a b : Nat) : Nat := (a + b) % WORD

/-- 64-bit wrapping subtraction. -/
def sub64 (a b : Nat) : Nat := (a + (WORD - b % WORD)) % WORD

/-- `ALIGN_UP (addr, GRUB_MM_ALIGN)` on a 64-bit address. -/
def align_up_32 (x : Nat) : Nat := ((x + 31) % WORD) / 32 * 32

/-- The cell count `n = ((size + GRUB_MM_ALIGN - 1) >> GRUB_MM_ALIGN_LOG2) + 1`
computed by `grub_real_malloc` and `grub_rememalign_policy`; the sum
`size + 31` wraps at 64 bits (there is no overflow check in the source).
The final `+ 1` cannot wrap: the shifted value is below `2 ^ 59`. -/
def calcN (size : Nat) : Nat :=
  (((size + GRUB_MM_ALIGN - 1) % WORD) >>> GRUB_MM_ALIGN_LOG2) + 1

/-- The alignment normalisation of `grub_real_malloc`:
`align >>= GRUB_MM_ALIGN_LOG2; if (align == 0) align = 1;`. -/
def normAlign (align : Nat) : Nat :=
  let a := align >>> GRUB_MM_ALIGN_LOG2
  if a = 0 then 1 else a

/-- `split_chunk (p, size)`: statement-by-statement translation; all reads
happen from the memory produced by the preceding statement, as in C.  No
word wrap: callers only pass `size` at most `(m p).size`, which is bounded
by the region's cell count. -/
def split_chunk (m : Mem) (p size : Nat) : Mem :=
  if (m p).size ≤ size then m
  else
    let q := p + size
    let m1 := setMagic m q GRUB_MM_FREE_MAGIC
    let m2 := setSize m1 q ((m1 p).size - size)
    let m3 := setNext m2 q ((m2 p).next)
    let m4 := setPrev m3 q p
    let m5 := setNext m4 p q
    let m6 := setPrev m5 ((m5 q).next) q
    setSize m6 p size

/-- The step of the search loop of `grub_real_malloc`:
`p = (allocator == GRUB_MM_ALLOCATOR_LAST) ? p->prev : p->next`. -/
def stepPtr (m : Mem) (strat : Strategy) (p : Nat) : Nat :=
  match strat with
  | .sLast => (m p).prev
  | _ => (m p).next

/-- The `for (;;)` search loop of `grub_real_malloc`, by fuel recursion.
`n` and `alignC` are in cells, `first` and `last` are cell indices.  On
success returns the new memory, the new value of `*first`, and the cell
index of the returned pointer `p + 1`.  `want` cannot wrap: `n` is below
`2 ^ 59 + 1` and the padding is below `alignC ≤ 2 ^ 59`. -/
def grub_real_malloc_loop (n alignC : Nat) (strat : Strategy) (first last : Nat) :
    Nat → Mem → Nat → Res (Option (Mem × Nat × Nat))
  | 0, _, _ => .nofuel
  | fuel + 1, m, p =>
    let want := n + ((p + 1) &&& (alignC - 1))
    if p = 0 then .fatal
    else if (m p).magic ≠ GRUB_MM_FREE_MAGIC then .fatal
    else if (m p).size ≥ want then
      let want2 :=
        if strat = .sLast then want + ((m p).size - want) / alignC * alignC else want
      let m1 := split_chunk m p want2
      if want2 = n then
        let first1 := if p = first then (m1 p).next else first
        let m2 := setNext m1 ((m1 p).prev) ((m1 p).next)
        let m3 := setPrev m2 ((m2 p).next) ((m2 p).prev)
        let m4 := setMagic m3 p GRUB_MM_ALLOC_MAGIC
        .ok (some (m4, first1, p + 1))
      else
        let m2 := setSize m1 p ((m1 p).size - n)
        let p2 := p + (m2 p).size
        let m3 := setSize m2 p2 n
        let m4 := setMagic m3 p2 GRUB_MM_ALLOC_MAGIC
        .ok (some (m4, first, p2 + 1))
    else if p = last then .ok none
    else grub_real_malloc_loop n alignC strat first last fuel m (stepPtr m strat p)

/-- `grub_real_malloc (align, size, first, allocator)`.  The `switch` on the
allocator picks the start and termination nodes; `GRUB_MM_ALLOCATOR_SKIP`
falls into the `default:` label, i.e. behaves like `FIRST`. -/
def grub_real_malloc (fuel : Nat) (m : Mem) (first : Nat) (align size : Nat)
    (strat : Strategy) : Res (Option (Mem × Nat × Nat)) :=
  let n := calcN size
  let alignC := normAlign align
  if (m first).magic = GRUB_MM_ALLOC_MAGIC then .ok none
  else
    let start :=
      match strat with
      | .sSecond => (m first).next
      | .sLast => (m first).prev
      | _ => first
    let last :=
      match strat with
      | .sSecond => first
      | .sLast => first
      | _ => (m first).prev
    grub_real_malloc_loop n alignC strat first last fuel m start

/-- Fuel sufficient for one full walk of an intact free ring of the region:
one more than the region's number of cells. -/
def regionFuel (r : Region) : Nat := (r.size >>> GRUB_MM_ALIGN_LOG2) + 1

/-- Reattach an untouched region in front of a scan result. -/
def consRegion (r : Region) :
    Res (Option (Mem × List Region × Nat)) → Res (Option (Mem × List Region × Nat))
  | .ok none => .ok none
  | .ok (some (m2, rs2, ptr)) => .ok (some (m2, r :: rs2, ptr))
  | .fatal => .fatal
  | .nofuel => .nofuel

/-- The region scan of `grub_memalign_policy`: walk the global list in
order, skip regions whose strategy for the policy is `SKIP`, call
`grub_real_malloc` on the rest, stop at the first success.  Returns the
new memory, the region list with the selected region's `first` updated,
and the returned byte pointer `32 * (p + 1)`. -/
def scanRegions (m : Mem) (align size : Nat) (pol : MmPolicy) :
    List Region → Res (Option (Mem × List Region × Nat))
  | [] => .ok none
  | r :: rs =>
    if r.policies.get pol = .sSkip then consRegion r (scanRegions m align size pol rs)
    else
      match grub_real_malloc (regionFuel r) m r.first align size (r.policies.get pol) with
      | .ok (some (m2, first2, pc)) =>
        .ok (some (m2, { r with first := first2 } :: rs, GRUB_MM_ALIGN * pc))
      | .ok none => consRegion r (scanRegions m align size pol rs)
      | .fatal => .fatal
      | .nofuel => .nofuel

/-- The `again:`/`switch (count)` retry loop of `grub_memalign_policy`.  The
counter values 0, 1 and ≥ 2 correspond to the lists `[h1, h2]`, `[h2]` and
`[]` of reclamation hooks still unused; when the scan fails and no hook is
left, `grub_error (GRUB_ERR_OUT_OF_MEMORY, "out of memory")` is recorded
and null is returned. -/
def memalignGo (align size : Nat) (pol : MmPolicy) :
    List (MMState → MMState) → MMState → Res (MMState × Option Nat)
  | [], st =>
    match scanRegions st.mem align size pol st.base with
    | .ok (some (m2, rs2, ptr)) => .ok ({ st with mem := m2, base := rs2 }, some ptr)
    | .ok none =>
      .ok ({ st with errno := GRUB_ERR_OUT_OF_MEMORY, errmsg := "out of memory" }, none)
    | .fatal => .fatal
    | .nofuel => .nofuel
  | h :: rest, st =>
    match scanRegions st.mem align size pol st.base with
    | .ok (some (m2, rs2, ptr)) => .ok ({ st with mem := m2, base := rs2 }, some ptr)
    | .ok none => memalignGo align size pol rest (h st)
    | .fatal => .fatal
    | .nofuel => .nofuel

/-- `grub_memalign_policy (align, size, policy)`, parameterised by the two
reclamation hooks `grub_disk_cache_invalidate_all` and
`grub_dl_unload_unneeded`, which are external to the allocator.  The
64-bit parameters are truncated at entry. -/
def grub_memalign_policy (h1 h2 : MMState → MMState) (st : MMState)
    (align size : Nat) (pol : MmPolicy) : Res (MMState × Option Nat) :=
  memalignGo (align % WORD) (size % WORD) pol [h1, h2] st

/-- Modelled from the spec: the reclamation hooks are black boxes outside
the allocator; the pure-allocator entry points take them as the identity
transformation of the allocator state. -/
def idHook : MMState → MMState := id

/-- `grub_memalign (align, size)`. -/
def grub_memalign (st : MMState) (align size : Nat) : Res (MMState × Option Nat) :=
  grub_memalign_policy idHook idHook st align size .pDefault

/-- `grub_malloc (size)`. -/
def grub_malloc (st : MMState) (size : Nat) : Res (MMState × Option Nat) :=
  grub_memalign st 0 size

/-- Modelled from the spec: `grub_memset` (from the missing `misc.c`) fills
`len` bytes starting at `ptr` with the byte `v`. -/
def memsetB (d : Nat → Nat) (ptr v len : Nat) : Nat → Nat :=
  fun b => if ptr ≤ b ∧ b < ptr + len then v else d b

/-- Modelled from the spec: `grub_memcpy` (from the missing `misc.c`) copies
`len` bytes from `src` to `dst`; callers only pass non-overlapping live
blocks. -/
def memcpyB (d : Nat → Nat) (dst src len : Nat) : Nat → Nat :=
  fun b => if dst ≤ b ∧ b < dst + len then d (src + (b - dst)) else d b

/-- `grub_zalloc (size)`: allocate, then clear `size` bytes on success. -/
def grub_zalloc (st : MMState) (size : Nat) : Res (MMState × Option Nat) :=
  match grub_memalign st 0 size with
  | .ok (st2, some ptr) =>
    .ok ({ st2 with dat := memsetB st2.dat ptr 0 (size % WORD) }, some ptr)
  | .ok (st2, none) => .ok (st2, none)
  | .fatal => .fatal
  | .nofuel => .nofuel

/-- Region lookup of `get_header_from_pointer`: first region of the global
list with `ptr > addr && ptr <= addr + size`; returns its index and value.
No wrap in `addr + size`: regions describe spans of the physical address
space. -/
def findRegion : List Region → Nat → Option (Nat × Region)
  | [], _ => none
  | r :: rs, ptr =>
    if r.addr < ptr ∧ ptr ≤ r.addr + r.size then some (0, r)
    else
      match findRegion rs ptr with
      | some (i, r2) => some (i + 1, r2)
      | none => none

/-- `get_header_from_pointer (ptr, &p, &r)`: cell alignment check, region
lookup, rewind one cell, magic check.  Returns the header cell index and
the owning region's index and value. -/
def get_header_from_pointer (st : MMState) (ptr : Nat) : Res (Nat × Nat × Region) :=
  if ptr &&& (GRUB_MM_ALIGN - 1) ≠ 0 then .fatal
  else
    match findRegion st.base ptr with
    | none => .fatal
    | some (i, r) =>
      let p := ptr / GRUB_MM_ALIGN - 1
      if (st.mem p).magic ≠ GRUB_MM_ALLOC_MAGIC then .fatal else .ok (p, i, r)

/-- The insertion loop of `grub_mm_init_region`: put the new region before
the first existing region of strictly greater `size`. -/
def insertRegion (r : Region) : List Region → List Region
  | [] => [r]
  | q :: qs => if q.size > r.size then r :: q :: qs else q :: insertRegion r qs

/-- `grub_mm_init_region (addr, size, policies)`.  The subtraction
`size -= (char *) r - (char *) addr + sizeof (*r)` cannot wrap once
`size ≥ 4 * GRUB_MM_ALIGN`: the alignment slack is at most 31 bytes and
the region struct 64, together below 128. -/
def grub_mm_init_region (st : MMState) (addr size0 : Nat) (pol : Policies) : MMState :=
  let size := size0 % WORD
  if size < GRUB_MM_ALIGN * 4 then st
  else
    let rB := align_up_32 (addr % WORD)
    let size1 := sub64 size (add64 (sub64 rB (addr % WORD)) sizeofRegion)
    let hc := rB / GRUB_MM_ALIGN + sizeofRegion / GRUB_MM_ALIGN
    let hsize := size1 >>> GRUB_MM_ALIGN_LOG2
    let m1 := fun c =>
      if c = hc then { prev := hc, next := hc, size := hsize, magic := GRUB_MM_FREE_MAGIC }
      else st.mem c
    let r : Region :=
      { first := hc, addr := GRUB_MM_ALIGN * hc, size := hsize <<< GRUB_MM_ALIGN_LOG2,
        policies := pol }
    { st with mem := m1, base := insertRegion r st.base }

/-- The insertion-point walk of `grub_free`:
`for (q = r->first; p >= q && q != r->first->prev; q = q->next)` with the
magic check in the body. -/
def freeScan (m : Mem) (first p : Nat) : Nat → Nat → Res Nat
  | 0, _ => .nofuel
  | fuel + 1, q =>
    if p ≥ q ∧ q ≠ (m first).prev then
      if (m q).magic ≠ GRUB_MM_FREE_MAGIC then .fatal
      else freeScan m first p fuel ((m q).next)
    else .ok q

/-- `grub_free (ptr)`: statement-by-statement translation.  The size
additions during coalescing cannot wrap: block sizes are bounded by the
region's cell count. -/
def grub_free (st : MMState) (ptr : Nat) : Res MMState :=
  if ptr = 0 then .ok st
  else
    match get_header_from_pointer st ptr with
    | .fatal => .fatal
    | .nofuel => .nofuel
    | .ok (p, i, r) =>
      if (st.mem r.first).magic = GRUB_MM_ALLOC_MAGIC then
        let m1 := setMagic st.mem p GRUB_MM_FREE_MAGIC
        let m2 := setPrev m1 p p
        let m3 := setNext m2 p p
        .ok { st with mem := m3, base := st.base.set i { r with first := p } }
      else
        match freeScan st.mem r.first p (regionFuel r) r.first with
        | .fatal => .fatal
        | .nofuel => .nofuel
        | .ok q0 =>
          let q := if p < q0 then (st.mem q0).prev else q0
          let first1 :=
            if r.first = (st.mem q).next ∧ p < (st.mem q).next then p else r.first
          let m1 := setMagic st.mem p GRUB_MM_FREE_MAGIC
          let m2 := setNext m1 p ((m1 q).next)
          let m3 := setPrev m2 ((m2 p).next) p
          let m4 := setNext m3 q p
          let m5 := setPrev m4 ((m4 q).next) q
          let m6 :=
            if p + (m5 p).size = (m5 p).next then
              let m6a := setMagic m5 ((m5 p).next) 0
              let m6b := setSize m6a p ((m6a p).size + (m6a ((m6a p).next)).size)
              let m6c := setNext m6b p ((m6b ((m6b p).next)).next)
              setPrev m6c ((m6c p).next) p
            else m5
          let m7 :=
            if q + (m6 q).size = p then
              let m7a := setMagic m6 p 0
              let m7b := setSize m7a q ((m7a q).size + (m7a p).size)
              let m7c := setNext m7b q ((m7b p).next)
              setPrev m7c ((m7c q).next) q
            else m6
          .ok { st with mem := m7, base := st.base.set i { r with first := first1 } }

/-- `grub_rememalign_policy (ptr, align, size, policy)`: null delegates to
allocation, zero size frees, a large enough block is returned unchanged,
otherwise grow in place if the following header is free and large enough,
otherwise allocate–copy–free. -/
def grub_rememalign_policy (h1 h2 : MMState → MMState) (st : MMState)
    (ptr align size : Nat) (pol : MmPolicy) : Res (MMState × Option Nat) :=
  if ptr = 0 then grub_memalign_policy h1 h2 st align size pol
  else if size % WORD = 0 then
    match grub_free st ptr with
    | .ok st2 => .ok (st2, none)
    | .fatal => .fatal
    | .nofuel => .nofuel
  else
    let n := calcN (size % WORD)
    match get_header_from_pointer st ptr with
    | .fatal => .fatal
    | .nofuel => .nofuel
    | .ok (p, i, r) =>
      if (st.mem p).size ≥ n then .ok (st, some ptr)
      else
        let p2 := p + (st.mem p).size
        if GRUB_MM_ALIGN * p2 < r.addr + (r.size <<< GRUB_MM_ALIGN_LOG2) ∧
            (st.mem p2).magic = GRUB_MM_FREE_MAGIC ∧
            (st.mem p).size + (st.mem p2).size ≥ n then
          let m1 := split_chunk st.mem p2 (n - (st.mem p).size)
          let m2 := setPrev m1 ((m1 p2).next) ((m1 p2).prev)
          let m3 := setNext m2 ((m2 p2).prev) ((m2 p2).next)
          let first1 := if r.first = p2 then (m3 p2).next else r.first
          let first2 := if first1 = p2 then p else first1
          let m4 := setSize m3 p n
          .ok ({ st with mem := m4, base := st.base.set i { r with first := first2 } },
            some ptr)
        else
          match grub_memalign_policy h1 h2 st align size pol with
          | .ok (st2, none) => .ok (st2, none)
          | .ok (st2, some qp) =>
            let st3 := { st2 with dat := memcpyB st2.dat qp ptr (size % WORD) }
            match grub_free st3 ptr with
            | .ok st4 => .ok (st4, some qp)
            | .fatal => .fatal
            | .nofuel => .nofuel
          | .fatal => .fatal
          | .nofuel => .nofuel

/-- `grub_realloc (ptr, size)`. -/
def grub_realloc (st : MMState) (ptr size : Nat) : Res (MMState × Option Nat) :=
  grub_rememalign_policy idHook idHook st ptr 1 size .pDefault

/-! ### Observers and concrete states used by the claim theorems -/

/-- Observe the returned pointer of an allocation entry point: `none` for a
fatal or fuel-exhausted run, `some p` for a normal return of `p`. -/
def resPtr : Res (MMState × Option Nat) → Option (Option Nat)
  | .ok (_, p) => some p
  | _ => none

/-- Observe one header cell of the state after an allocation entry point. -/
def resCell : Res (MMState × Option Nat) → Nat → Option Header
  | .ok (st, _), c => some (st.mem c)
  | _, _ => none

/-- Observe the `first` fields of the global region list after an
allocation entry point. -/
def resFirsts : Res (MMState × Option Nat) → Option (List Nat)
  | .ok (st, _) => some (st.base.map Region.first)
  | _ => none

def junkHeader : Header := ⟨0, 0, 0, 0⟩

/-- The boot state: no regions, zeroed memory and data, no error. -/
def mmInit : MMState :=
  { base := [], mem := fun _ => junkHeader, dat := fun _ => 0, errno := 0, errmsg := "" }

/-- A strategy vector using the default allocator `FIRST` and skipping the
low-memory policies, as a normal high-memory region would. -/
def polFirstOnly : Policies := ⟨.sFirst, .sSkip, .sSkip⟩

/-- One donated region: 1024 bytes at byte address 4096.  Its header lands
at cell 130 with a usable span of 30 cells. -/
def stOne : MMState := grub_mm_init_region mmInit 4096 1024 polFirstOnly

/-! ### Arithmetic helpers -/

theorem shiftRight_five (x : Nat) : x >>> 5 = x / 32 := by
  rw [Nat.shiftRight_eq_div_pow]

theorem calcN_of_wrap {size : Nat} (h1 : WORD - 32 < size) (h2 : size < WORD) :
    calcN size = 1 := by
  have hw : WORD = 18446744073709551616 := by norm_num [WORD]
  unfold calcN GRUB_MM_ALIGN GRUB_MM_ALIGN_LOG2
  have hge : WORD ≤ size + 32 - 1 := by omega
  rw [Nat.mod_eq_sub_mod hge, Nat.mod_eq_of_lt (by omega), shiftRight_five]
  omega

/-- `grub_real_malloc` reads its byte-size argument only through `calcN`. -/
theorem grub_real_malloc_size_congr (fuel : Nat) (m : Mem) (first align : Nat)
    (strat : Strategy) {s1 s2 : Nat} (h : calcN s1 = calcN s2) :
    grub_real_malloc fuel m first align s1 strat =
      grub_real_malloc fuel m first align s2 strat := by
  unfold grub_real_malloc
  rw [h]

theorem scanRegions_size_congr (m : Mem) (align : Nat) (pol : MmPolicy)
    {s1 s2 : Nat} (h : calcN s1 = calcN s2) :
    ∀ rs : List Region, scanRegions m align s1 pol rs = scanRegions m align s2 pol rs
  | [] => rfl
  | r :: rs => by
    unfold scanRegions
    rw [grub_real_malloc_size_congr _ _ _ _ _ h,
      scanRegions_size_congr m align pol h rs]

theorem memalignGo_size_congr (align : Nat) (pol : MmPolicy) {s1 s2 : Nat}
    (h : calcN s1 = calcN s2) :
    ∀ (hooks : List (MMState → MMState)) (st : MMState),
      memalignGo align s1 pol hooks st = memalignGo align s2 pol hooks st
  | [], st => by
    simp only [memalignGo, scanRegions_size_congr st.mem align pol h st.base]
  | hk :: rest, st => by
    simp only [memalignGo, scanRegions_size_congr st.mem align pol h st.base]
    cases hscan : scanRegions st.mem align s2 pol st.base with
    | ok v =>
      cases v with
      | none => exact memalignGo_size_congr align pol h rest (hk st)
      | some w => rfl
    | fatal => rfl
    | nofuel => rfl

/-! ### Claim C1 -/

/-- Claim C1 (code bug): on a fresh 1 KiB region, `grub_memalign` with a
requested alignment of 128 bytes (4 cells, a power of two) and a size of
32 bytes returns the pointer 4288.  The pointer is cell-aligned, but
`4288 % 128 = 64 ≠ 0`: the padding formula
`pad = ((address_of(p+1) / cell) & (align_cells - 1))` carves the block at
`p + pad`, which lands the result at cell offset `c + (c mod a)` instead of
a multiple of `a`, so the requested alignment is violated. -/
theorem C1_memalign_returns_misaligned_pointer :
    resPtr (grub_memalign stOne 128 32) = some (some 4288) ∧
      4288 % GRUB_MM_ALIGN = 0 ∧ 4288 % 128 ≠ 0 := by
  refine ⟨by decide, by decide, by decide⟩

/-! ### Claim C10 -/

/-- Claim C10: the cell count is computed as
`((size + cell - 1) / cell) + 1` in wrapping 64-bit arithmetic with no
overflow check.  For every `size` above `2^64 - 32` the sum wraps, the
computed cell count is 1, and on the fresh 1 KiB region `grub_malloc`
returns the non-null pointer 4192 whose header describes a block of a
single cell (no usable data cell at all) instead of failing with
out-of-memory. -/
theorem C10_size_overflow_wraps (size : Nat) (h1 : WORD - 32 < size)
    (h2 : size < WORD) :
    calcN size = 1 ∧
      resPtr (grub_malloc stOne size) = some (some 4192) ∧
      resCell (grub_malloc stOne size) 130 =
        some ⟨131, 131, 1, GRUB_MM_ALLOC_MAGIC⟩ := by
  have hn : calcN size = 1 := calcN_of_wrap h1 h2
  have hmod : size % WORD = size := Nat.mod_eq_of_lt h2
  have hrun : grub_malloc stOne size = memalignGo 0 0 .pDefault [idHook, idHook] stOne := by
    show memalignGo (0 % WORD) (size % WORD) .pDefault [idHook, idHook] stOne = _
    rw [hmod]
    exact memalignGo_size_congr 0 .pDefault (by rw [hn]; decide) [idHook, idHook] stOne
  refine ⟨hn, ?_, ?_⟩ <;> rw [hrun] <;> decide

/-- Witness for C10 at `size = 2^64 - 1`. -/
theorem C10_size_overflow_wraps_witness :
    calcN (2 ^ 64 - 1) = 1 ∧
      resPtr (grub_malloc stOne (2 ^ 64 - 1)) = some (some 4192) ∧
      resCell (grub_malloc stOne (2 ^ 64 - 1)) 130 =
        some ⟨131, 131, 1, GRUB_MM_ALLOC_MAGIC⟩ :=
  C10_size_overflow_wraps (2 ^ 64 - 1) (by decide) (by decide)

/-! ### Claim C9 -/

theorem add64_eq_of_lt {a b : Nat} (h : a + b < WORD) : add64 a b = a + b := by
  unfold add64
  exact Nat.mod_eq_of_lt h

theorem sub64_eq_of_le {a b : Nat} (hba : b ≤ a) (ha : a < WORD) : sub64 a b = a - b := by
  have hw : WORD = 18446744073709551616 := by norm_num [WORD]
  unfold sub64
  rw [Nat.mod_eq_of_lt (show b < WORD by omega)]
  have hsplit : a + (WORD - b) = (a - b) + 1 * WORD := by omega
  rw [hsplit, Nat.add_mul_mod_self_right, Nat.mod_eq_of_lt (by omega)]

theorem insertRegion_length (r : Region) :
    ∀ rs : List Region, (insertRegion r rs).length = rs.length + 1
  | [] => rfl
  | q :: qs => by
    unfold insertRegion
    by_cases h : q.size > r.size
    · simp [h]
    · simp [h, insertRegion_length r qs]

/-- Counterexample to claim C9: donating 128 bytes at address 0 leaves a
usable span of `(128 - 0 - 64) / 32 = 2` cells, less than the four cells
the claim requires for installation; the code installs the region anyway,
because its guard tests the raw size argument before alignment and header
reservation. -/
theorem C9_small_usable_span_still_installed :
    (grub_mm_init_region mmInit 0 128 polFirstOnly).base.length = 1 ∧
      sub64 (128 % WORD) (add64 (sub64 (align_up_32 (0 % WORD)) (0 % WORD)) sizeofRegion) >>>
          GRUB_MM_ALIGN_LOG2 < 4 := by
  constructor
  · decide
  · decide

/-- Claim C9 as amended: `grub_mm_init_region` leaves the state unchanged
(no region installed, no error reported) exactly when the raw donated size
is below four cells; the guard does not account for alignment or the
region header.  Otherwise it installs one region whose single free block
covers the usable span — donated size minus alignment slack minus region
header, rounded down to cells — with a self-loop ring. -/
theorem C9_region_installation (st : MMState) (addr size : Nat) (pol : Policies)
    (hsz : size < WORD) (had : addr + 31 < WORD) :
    (size < GRUB_MM_ALIGN * 4 → grub_mm_init_region st addr size pol = st) ∧
      (GRUB_MM_ALIGN * 4 ≤ size →
        ∀ hc usable : Nat, hc = (addr + 31) / 32 + 2 →
          usable = (size - ((addr + 31) / 32 * 32 - addr) - 64) / 32 →
          ((grub_mm_init_region st addr size pol).base =
              insertRegion
                { first := hc, addr := 32 * hc, size := 32 * usable, policies := pol }
                st.base ∧
            (grub_mm_init_region st addr size pol).base.length = st.base.length + 1 ∧
            (grub_mm_init_region st addr size pol).mem hc =
              ⟨hc, hc, usable, GRUB_MM_FREE_MAGIC⟩ ∧
            (∀ c, c ≠ hc → (grub_mm_init_region st addr size pol).mem c = st.mem c) ∧
            (grub_mm_init_region st addr size pol).dat = st.dat ∧
            (grub_mm_init_region st addr size pol).errno = st.errno ∧
            (grub_mm_init_region st addr size pol).errmsg = st.errmsg)) := by
  have hw : WORD = 18446744073709551616 := by norm_num [WORD]
  have hmod : size % WORD = size := Nat.mod_eq_of_lt hsz
  have hamod : addr % WORD = addr := Nat.mod_eq_of_lt (by omega)
  have h324 : GRUB_MM_ALIGN * 4 = 128 := by norm_num [GRUB_MM_ALIGN]
  refine ⟨fun hlt => ?_, fun hge hc usable hhc husable => ?_⟩
  · unfold grub_mm_init_region
    rw [hmod, if_pos hlt]
  · have h128 : (128 : Nat) ≤ size := by omega
    have hb1 : addr ≤ (addr + 31) / 32 * 32 := by omega
    have hb2 : (addr + 31) / 32 * 32 ≤ addr + 31 := by omega
    have hrB : align_up_32 (addr % WORD) = (addr + 31) / 32 * 32 := by
      unfold align_up_32
      rw [hamod, Nat.mod_eq_of_lt (by omega)]
    have hs1 : sub64 ((addr + 31) / 32 * 32) (addr % WORD) =
        (addr + 31) / 32 * 32 - addr := by
      rw [hamod]
      exact sub64_eq_of_le hb1 (by omega)
    have hs2 : add64 ((addr + 31) / 32 * 32 - addr) sizeofRegion =
        (addr + 31) / 32 * 32 - addr + 64 := by
      have h64 : sizeofRegion = 64 := rfl
      rw [h64]
      exact add64_eq_of_lt (by omega)
    have hs3 : sub64 size ((addr + 31) / 32 * 32 - addr + 64) =
        size - ((addr + 31) / 32 * 32 - addr) - 64 := by
      rw [sub64_eq_of_le (by omega) hsz]
      omega
    have hkey : grub_mm_init_region st addr size pol =
        { st with
          mem := fun c =>
            if c = hc then ⟨hc, hc, usable, GRUB_MM_FREE_MAGIC⟩ else st.mem c,
          base := insertRegion
            { first := hc, addr := 32 * hc, size := 32 * usable, policies := pol }
            st.base } := by
      unfold grub_mm_init_region
      rw [hmod, if_neg (by omega)]
      simp only [hrB, hs1, hs2, hs3]
      have e1 : (addr + 31) / 32 * 32 / GRUB_MM_ALIGN + sizeofRegion / GRUB_MM_ALIGN = hc := by
        have h32 : GRUB_MM_ALIGN = 32 := rfl
        have h64 : sizeofRegion = 64 := rfl
        rw [h32, h64, hhc]
        omega
      have e2 : (size - ((addr + 31) / 32 * 32 - addr) - 64) >>> GRUB_MM_ALIGN_LOG2 =
          usable := by
        have h5 : GRUB_MM_ALIGN_LOG2 = 5 := rfl
        rw [h5, shiftRight_five, husable]
      have e3 : usable <<< GRUB_MM_ALIGN_LOG2 = 32 * usable := by
        rw [Nat.shiftLeft_eq]
        have h5 : GRUB_MM_ALIGN_LOG2 = 5 := rfl
        rw [h5]
        ring
      have e4 : GRUB_MM_ALIGN * hc = 32 * hc := by
        have h32 : GRUB_MM_ALIGN = 32 := rfl
        rw [h32]
      rw [e1, e2, e3, e4]
    rw [hkey]
    refine ⟨rfl, insertRegion_length _ _, ?_, fun c hcn => ?_, rfl, rfl, rfl⟩
    · simp
    · simp [hcn]

/-- Witness for C9 on a 1 KiB donation at address 4096: one region is
installed whose single free block at cell 130 covers 30 cells. -/
theorem C9_region_installation_witness :
    (grub_mm_init_region mmInit 4096 1024 polFirstOnly).base.length =
        mmInit.base.length + 1 ∧
      (grub_mm_init_region mmInit 4096 1024 polFirstOnly).mem 130 =
        ⟨130, 130, 30, GRUB_MM_FREE_MAGIC⟩ := by
  have h := (C9_region_installation mmInit 4096 1024 polFirstOnly (by decide)
    (by decide)).2 (by decide) 130 30 (by decide) (by decide)
  exact ⟨h.2.1, h.2.2.1⟩

/-! ### Claim C7 -/

/-- Claim C7: the per-region search fails immediately when the region's
`first` header carries the ALLOC magic (region-full sentinel), and freeing
a pointer of such a region marks the freed header FREE with a self-loop
ring, makes it the new `first`, and changes nothing else. -/
theorem C7_region_full_fast_paths :
    (∀ (fuel : Nat) (m : Mem) (first align size : Nat) (strat : Strategy),
      (m first).magic = GRUB_MM_ALLOC_MAGIC →
        grub_real_malloc fuel m first align size strat = .ok none) ∧
      (∀ (st : MMState) (ptr p i : Nat) (r : Region),
        ptr ≠ 0 →
        get_header_from_pointer st ptr = .ok (p, i, r) →
        (st.mem r.first).magic = GRUB_MM_ALLOC_MAGIC →
        grub_free st ptr = .ok
          { st with
            mem := fun c =>
              if c = p then ⟨p, p, (st.mem p).size, GRUB_MM_FREE_MAGIC⟩ else st.mem c,
            base := st.base.set i { r with first := p } }) := by
  constructor
  · intro fuel m first align size strat hfull
    unfold grub_real_malloc
    rw [if_pos hfull]
  · intro st ptr p i r hptr hget hfull
    unfold grub_free
    rw [if_neg hptr, hget]
    simp only [if_pos hfull]
    congr 1
    congr 1
    funext c
    by_cases hcp : c = p
    · subst hcp
      simp [setNext, setPrev, setMagic]
    · simp [setNext, setPrev, setMagic, hcp]

/-- The single region of `stOne` completely allocated away: `grub_malloc`
of 928 bytes consumes all 30 cells, leaving `first` pointing at the ALLOC
header 130. -/
def stFull : MMState :=
  match grub_malloc stOne 928 with
  | .ok (st, _) => st
  | _ => mmInit

/-- The region value of `stFull` as found by `get_header_from_pointer`. -/
def regFull : Region := { first := 130, addr := 4160, size := 960, policies := polFirstOnly }

/-- Witness for C7: on the fully allocated region, the search returns null
at once, and freeing pointer 4192 restores a FREE self-loop at cell 130
which becomes the region's `first`. -/
theorem C7_region_full_fast_paths_witness :
    grub_real_malloc 31 stFull.mem 130 0 32 .sFirst = .ok none ∧
      grub_free stFull 4192 = .ok
        { stFull with
          mem := fun c =>
            if c = 130 then ⟨130, 130, (stFull.mem 130).size, GRUB_MM_FREE_MAGIC⟩
            else stFull.mem c,
          base := stFull.base.set 0 { regFull with first := 130 } } :=
  ⟨C7_region_full_fast_paths.1 31 stFull.mem 130 0 32 .sFirst (by decide),
    C7_region_full_fast_paths.2 stFull 4192 130 0 regFull (by decide) (by decide)
      (by decide)⟩

/-! ### Claim C6 -/

theorem mem_insertRegion {b r : Region} :
    ∀ {rs : List Region}, b ∈ insertRegion r rs → b = r ∨ b ∈ rs := by
  intro rs
  induction rs with
  | nil => intro h; simp [insertRegion] at h; exact .inl h
  | cons q qs ih =>
    intro h
    unfold insertRegion at h
    by_cases hgt : q.size > r.size
    · rw [if_pos hgt] at h
      rcases List.mem_cons.mp h with h1 | h2
      · exact .inl h1
      · exact .inr h2
    · rw [if_neg hgt] at h
      rcases List.mem_cons.mp h with h1 | h2
      · exact .inr (List.mem_cons.mpr (.inl h1))
      · rcases ih h2 with h3 | h4
        · exact .inl h3
        · exact .inr (List.mem_cons.mpr (.inr h4))

theorem insertRegion_pairwise (r : Region) :
    ∀ rs : List Region, rs.Pairwise (fun a b => a.size ≤ b.size) →
      (insertRegion r rs).Pairwise (fun a b => a.size ≤ b.size)
  | [], _ => by simp [insertRegion]
  | q :: qs, h => by
    rcases List.pairwise_cons.mp h with ⟨hq, hqs⟩
    unfold insertRegion
    by_cases hgt : q.size > r.size
    · rw [if_pos hgt]
      refine List.pairwise_cons.mpr ⟨?_, h⟩
      intro b hb
      rcases List.mem_cons.mp hb with h1 | h2
      · subst h1; omega
      · exact le_trans (le_of_lt hgt) (hq b h2)
    · rw [if_neg hgt]
      refine List.pairwise_cons.mpr ⟨?_, insertRegion_pairwise r qs hqs⟩
      intro b hb
      rcases mem_insertRegion hb with h1 | h2
      · subst h1; omega
      · exact hq b h2

/-- A sequence of `grub_mm_init_region` calls. -/
def runInits (st : MMState) : List (Nat × Nat × Policies) → MMState
  | [] => st
  | (a, s, p) :: rest => runInits (grub_mm_init_region st a s p) rest

theorem grub_mm_init_region_base_shape (st : MMState) (a s : Nat) (p : Policies) :
    (grub_mm_init_region st a s p).base = st.base ∨
      ∃ r, (grub_mm_init_region st a s p).base = insertRegion r st.base := by
  unfold grub_mm_init_region
  by_cases h : s % WORD < GRUB_MM_ALIGN * 4
  · rw [if_pos h]
    exact .inl rfl
  · rw [if_neg h]
    exact .inr ⟨_, rfl⟩

theorem runInits_pairwise (ops : List (Nat × Nat × Policies)) :
    ∀ st : MMState, st.base.Pairwise (fun a b => a.size ≤ b.size) →
      (runInits st ops).base.Pairwise (fun a b => a.size ≤ b.size) := by
  induction ops with
  | nil => intro st h; exact h
  | cons op rest ih =>
    intro st h
    obtain ⟨a, s, p⟩ := op
    refine ih (grub_mm_init_region st a s p) ?_
    rcases grub_mm_init_region_base_shape st a s p with h1 | ⟨r, h2⟩
    · rw [h1]; exact h
    · rw [h2]; exact insertRegion_pairwise r st.base h

theorem scanRegions_first_success (m : Mem) (align size : Nat) (pol : MmPolicy) :
    ∀ (pre : List Region) (r : Region) (post : List Region),
      (∀ r2 ∈ pre, r2.policies.get pol = .sSkip ∨
        grub_real_malloc (regionFuel r2) m r2.first align size (r2.policies.get pol) =
          .ok none) →
      r.policies.get pol ≠ .sSkip →
      ∀ m2 first2 pc,
        grub_real_malloc (regionFuel r) m r.first align size (r.policies.get pol) =
          .ok (some (m2, first2, pc)) →
        scanRegions m align size pol (pre ++ r :: post) =
          .ok (some (m2, pre ++ { r with first := first2 } :: post, GRUB_MM_ALIGN * pc))
  | [], r, post, _, hns, m2, first2, pc, hsucc => by
    simp only [List.nil_append]
    unfold scanRegions
    rw [if_neg hns, hsucc]
  | r2 :: pre, r, post, hpre, hns, m2, first2, pc, hsucc => by
    have hrec := scanRegions_first_success m align size pol pre r post
      (fun x hx => hpre x (List.mem_cons_of_mem r2 hx)) hns m2 first2 pc hsucc
    have hr2 := hpre r2 (List.mem_cons_self r2 pre)
    show scanRegions m align size pol (r2 :: (pre ++ r :: post)) = _
    unfold scanRegions
    by_cases hskip : r2.policies.get pol = .sSkip
    · rw [if_pos hskip, hrec]
      rfl
    · rcases hr2 with h1 | h2
      · exact absurd h1 hskip
      · rw [if_neg hskip, h2, hrec]
        rfl

/-- Claim C6: `grub_mm_init_region` inserts the new region immediately
before the first existing region of strictly greater size, so after any
sequence of registrations starting from a size-ordered list the global
list is ordered by ascending region size; and the allocation scan visits
regions in list order, skips regions whose strategy for the policy is
`SKIP`, and returns the first per-region success. -/
theorem C6_region_list_order :
    (∀ (r : Region) (rs : List Region),
      insertRegion r rs =
        rs.takeWhile (fun q => decide (q.size ≤ r.size)) ++
          r :: rs.dropWhile (fun q => decide (q.size ≤ r.size))) ∧
      (∀ (st : MMState) (ops : List (Nat × Nat × Policies)),
        st.base.Pairwise (fun a b => a.size ≤ b.size) →
        (runInits st ops).base.Pairwise (fun a b => a.size ≤ b.size)) ∧
      (∀ (m : Mem) (align size : Nat) (pol : MmPolicy) (pre : List Region) (r : Region)
          (post : List Region),
        (∀ r2 ∈ pre, r2.policies.get pol = .sSkip ∨
          grub_real_malloc (regionFuel r2) m r2.first align size (r2.policies.get pol) =
            .ok none) →
        r.policies.get pol ≠ .sSkip →
        ∀ m2 first2 pc,
          grub_real_malloc (regionFuel r) m r.first align size (r.policies.get pol) =
            .ok (some (m2, first2, pc)) →
          scanRegions m align size pol (pre ++ r :: post) =
            .ok (some (m2, pre ++ { r with first := first2 } :: post,
              GRUB_MM_ALIGN * pc))) := by
  refine ⟨?_, fun st ops h => runInits_pairwise ops st h,
    fun m align size pol => scanRegions_first_success m align size pol⟩
  intro r rs
  induction rs with
  | nil => rfl
  | cons q qs ih =>
    unfold insertRegion
    by_cases hgt : q.size > r.size
    · rw [if_pos hgt]
      have hq : (decide (q.size ≤ r.size)) = false := by
        simp only [decide_eq_false_iff_not]
        omega
      rw [List.takeWhile_cons, List.dropWhile_cons, hq]
      simp
    · rw [if_neg hgt]
      have hq : (decide (q.size ≤ r.size)) = true := by
        simp only [decide_eq_true_eq]
        omega
      rw [List.takeWhile_cons, List.dropWhile_cons, hq]
      simp only [ih]
      rfl

/-- Two donated regions of 16 KiB (at 4096) and 1 KiB (at 32768); insertion
orders the global list by ascending size. -/
def stTwo : MMState :=
  runInits mmInit [(4096, 16384, polFirstOnly), (32768, 1024, polFirstOnly)]

def smallR : Region := { first := 1026, addr := 32832, size := 960, policies := polFirstOnly }

def bigR : Region := { first := 130, addr := 4160, size := 16320, policies := polFirstOnly }

def exMem (x : Res (Option (Mem × Nat × Nat))) : Mem :=
  match x with
  | .ok (some (m, _, _)) => m
  | _ => fun _ => junkHeader

def exFst (x : Res (Option (Mem × Nat × Nat))) : Nat :=
  match x with
  | .ok (some (_, f, _)) => f
  | _ => 0

def exPc (x : Res (Option (Mem × Nat × Nat))) : Nat :=
  match x with
  | .ok (some (_, _, pc)) => pc
  | _ => 0

/-- The per-region attempt of the 16 KiB region for an 8 KiB request. -/
def bigTry : Res (Option (Mem × Nat × Nat)) :=
  grub_real_malloc (regionFuel bigR) stTwo.mem bigR.first 0 8192 .sFirst

/-- Witness for C6: the 1 KiB region is inserted before the 16 KiB one;
the two registrations leave a size-ordered list; an 8 KiB request is
refused by the 1 KiB region and satisfied by the 16 KiB one. -/
theorem C6_region_list_order_witness :
    (insertRegion smallR [bigR] =
      [bigR].takeWhile (fun q => decide (q.size ≤ smallR.size)) ++
        smallR :: [bigR].dropWhile (fun q => decide (q.size ≤ smallR.size))) ∧
      (runInits mmInit
          [(4096, 16384, polFirstOnly), (32768, 1024, polFirstOnly)]).base.Pairwise
        (fun a b => a.size ≤ b.size) ∧
      scanRegions stTwo.mem 0 8192 .pDefault [smallR, bigR] =
        .ok (some (exMem bigTry, [smallR, { bigR with first := exFst bigTry }],
          GRUB_MM_ALIGN * exPc bigTry)) := by
  refine ⟨C6_region_list_order.1 smallR [bigR],
    C6_region_list_order.2.1 mmInit _ (by decide), ?_⟩
  have h := C6_region_list_order.2.2 stTwo.mem 0 8192 .pDefault [smallR] bigR []
    (fun r2 hr2 => by
      rcases List.mem_singleton.mp hr2 with rfl
      exact .inr rfl)
    (by decide) (exMem bigTry) (exFst bigTry) (exPc bigTry) rfl
  simpa using h

/-! ### Claim C5 -/

/-- Whether a region scan produced an allocation. -/
def scanOk : Res (Option (Mem × List Region × Nat)) → Bool
  | .ok (some _) => true
  | _ => false

/-- Install a successful scan's result into the state. -/
def scanApply (st : MMState) : Res (Option (Mem × List Region × Nat)) →
    Res (MMState × Option Nat)
  | .ok (some (m2, rs2, ptr)) => .ok ({ st with mem := m2, base := rs2 }, some ptr)
  | .ok none => .ok (st, none)
  | .fatal => .fatal
  | .nofuel => .nofuel

/-- Claim C5: one full scan is tried first; on failure the disk-cache hook
runs and the scan is retried; on failure again the module-unload hook runs
and the scan is retried; each hook runs at most once per call, in that
order, and if the last rescan fails too, the process-wide error channel is
set to out-of-memory with the fixed message and null is returned. -/
theorem C5_reclaim_and_oom (h1 h2 : MMState → MMState) (st : MMState)
    (align size : Nat) (pol : MmPolicy) :
    (scanOk (scanRegions st.mem (align % WORD) (size % WORD) pol st.base) = true →
      grub_memalign_policy h1 h2 st align size pol =
        scanApply st (scanRegions st.mem (align % WORD) (size % WORD) pol st.base)) ∧
      (scanRegions st.mem (align % WORD) (size % WORD) pol st.base = .ok none →
        scanOk (scanRegions (h1 st).mem (align % WORD) (size % WORD) pol (h1 st).base) =
          true →
        grub_memalign_policy h1 h2 st align size pol =
          scanApply (h1 st)
            (scanRegions (h1 st).mem (align % WORD) (size % WORD) pol (h1 st).base)) ∧
      (scanRegions st.mem (align % WORD) (size % WORD) pol st.base = .ok none →
        scanRegions (h1 st).mem (align % WORD) (size % WORD) pol (h1 st).base = .ok none →
        scanOk (scanRegions (h2 (h1 st)).mem (align % WORD) (size % WORD) pol
          (h2 (h1 st)).base) = true →
        grub_memalign_policy h1 h2 st align size pol =
          scanApply (h2 (h1 st))
            (scanRegions (h2 (h1 st)).mem (align % WORD) (size % WORD) pol
              (h2 (h1 st)).base)) ∧
      (scanRegions st.mem (align % WORD) (size % WORD) pol st.base = .ok none →
        scanRegions (h1 st).mem (align % WORD) (size % WORD) pol (h1 st).base = .ok none →
        scanRegions (h2 (h1 st)).mem (align % WORD) (size % WORD) pol (h2 (h1 st)).base =
          .ok none →
        grub_memalign_policy h1 h2 st align size pol =
          .ok ({ h2 (h1 st) with errno := GRUB_ERR_OUT_OF_MEMORY, errmsg := "out of memory" }, none)) := by
  refine ⟨fun hok => ?_, fun hf1 hok => ?_, fun hf1 hf2 hok => ?_, fun hf1 hf2 hf3 => ?_⟩
  · show memalignGo (align % WORD) (size % WORD) pol [h1, h2] st = _
    unfold memalignGo
    cases hscan : scanRegions st.mem (align % WORD) (size % WORD) pol st.base with
    | ok v =>
      cases v with
      | none => rw [hscan] at hok; exact absurd hok (by simp [scanOk])
      | some w => obtain ⟨m2, rs2, ptr⟩ := w; rfl
    | fatal => rw [hscan] at hok; exact absurd hok (by simp [scanOk])
    | nofuel => rw [hscan] at hok; exact absurd hok (by simp [scanOk])
  · show memalignGo (align % WORD) (size % WORD) pol [h1, h2] st = _
    unfold memalignGo
    rw [hf1]
    show memalignGo (align % WORD) (size % WORD) pol [h2] (h1 st) = _
    unfold memalignGo
    cases hscan : scanRegions (h1 st).mem (align % WORD) (size % WORD) pol (h1 st).base with
    | ok v =>
      cases v with
      | none => rw [hscan] at hok; exact absurd hok (by simp [scanOk])
      | some w => obtain ⟨m2, rs2, ptr⟩ := w; rfl
    | fatal => rw [hscan] at hok; exact absurd hok (by simp [scanOk])
    | nofuel => rw [hscan] at hok; exact absurd hok (by simp [scanOk])
  · show memalignGo (align % WORD) (size % WORD) pol [h1, h2] st = _
    unfold memalignGo
    rw [hf1]
    show memalignGo (align % WORD) (size % WORD) pol [h2] (h1 st) = _
    unfold memalignGo
    rw [hf2]
    show memalignGo (align % WORD) (size % WORD) pol [] (h2 (h1 st)) = _
    unfold memalignGo
    cases hscan : scanRegions (h2 (h1 st)).mem (align % WORD) (size % WORD) pol
        (h2 (h1 st)).base with
    | ok v =>
      cases v with
      | none => rw [hscan] at hok; exact absurd hok (by simp [scanOk])
      | some w => obtain ⟨m2, rs2, ptr⟩ := w; rfl
    | fatal => rw [hscan] at hok; exact absurd hok (by simp [scanOk])
    | nofuel => rw [hscan] at hok; exact absurd hok (by simp [scanOk])
  · show memalignGo (align % WORD) (size % WORD) pol [h1, h2] st = _
    unfold memalignGo
    rw [hf1]
    show memalignGo (align % WORD) (size % WORD) pol [h2] (h1 st) = _
    unfold memalignGo
    rw [hf2]
    show memalignGo (align % WORD) (size % WORD) pol [] (h2 (h1 st)) = _
    unfold memalignGo
    rw [hf3]

/-- A marker hook (stands for `grub_disk_cache_invalidate_all`, which frees
no allocator memory): it stamps the data map. -/
def hookMark : MMState → MMState :=
  fun s => { s with dat := fun b => if b = 0 then 77 else s.dat b }

/-- A reclaiming hook (stands for `grub_dl_unload_unneeded`): it donates a
fresh region. -/
def hookDonate : MMState → MMState :=
  fun s => grub_mm_init_region s 4096 1024 polFirstOnly

/-- Witness for C5: with no regions the first two scans fail; after the
second hook donates memory the third scan succeeds, so allocation returns
its result; with two non-donating hooks all scans fail and the state is
marked out-of-memory with null returned. -/
theorem C5_reclaim_and_oom_witness :
    (grub_memalign_policy hookMark hookDonate mmInit 0 32 .pDefault =
      scanApply (hookDonate (hookMark mmInit))
        (scanRegions (hookDonate (hookMark mmInit)).mem (0 % WORD) (32 % WORD) .pDefault
          (hookDonate (hookMark mmInit)).base)) ∧
      grub_memalign_policy hookMark hookMark mmInit 0 32 .pDefault =
        .ok ({ hookMark (hookMark mmInit) with errno := GRUB_ERR_OUT_OF_MEMORY, errmsg := "out of memory" }, none) :=
  ⟨(C5_reclaim_and_oom hookMark hookDonate mmInit 0 32 .pDefault).2.2.1 rfl rfl (by decide),
    (C5_reclaim_and_oom hookMark hookMark mmInit 0 32 .pDefault).2.2.2 rfl rfl rfl⟩


/-! ### Claim C8 -/

/-- Iterate the `next` link `k` times from `a`. -/
def nextIter (m : Mem) (a : Nat) : Nat → Nat
  | 0 => a
  | k + 1 => (m (nextIter m a k)).next

theorem nextIter_shift (m : Mem) (a : Nat) :
    ∀ k, nextIter m ((m a).next) k = nextIter m a (k + 1)
  | 0 => rfl
  | k + 1 => by
    show (m (nextIter m ((m a).next) k)).next = _
    rw [nextIter_shift m a k]
    rfl

/-- The insertion walk of `grub_free` cannot die on a broken magic when the
nodes reachable from its starting point are all FREE. -/
theorem freeScan_ne_fatal (m : Mem) (first p : Nat) :
    ∀ (fuel q : Nat),
      (∀ k < fuel, (m (nextIter m q k)).magic = GRUB_MM_FREE_MAGIC) →
      freeScan m first p fuel q ≠ .fatal
  | 0, q, _ => by simp [freeScan]
  | fuel + 1, q, h => by
    unfold freeScan
    by_cases hc : p ≥ q ∧ q ≠ (m first).prev
    · rw [if_pos hc]
      have h0 : (m q).magic = GRUB_MM_FREE_MAGIC := h 0 (by omega)
      rw [if_neg (not_not_intro h0)]
      exact freeScan_ne_fatal m first p fuel ((m q).next)
        (fun k hk => by rw [nextIter_shift]; exact h (k + 1) (by omega))
    · rw [if_neg hc]
      simp

theorem get_header_fatal_iff (st : MMState) (ptr : Nat) :
    get_header_from_pointer st ptr = .fatal ↔
      (ptr &&& (GRUB_MM_ALIGN - 1) ≠ 0 ∨ findRegion st.base ptr = none ∨
        (st.mem (ptr / GRUB_MM_ALIGN - 1)).magic ≠ GRUB_MM_ALLOC_MAGIC) := by
  unfold get_header_from_pointer
  by_cases h1 : ptr &&& (GRUB_MM_ALIGN - 1) ≠ 0
  · rw [if_pos h1]
    simp [h1]
  · rw [if_neg h1]
    cases hf : findRegion st.base ptr with
    | none => simp [h1, hf]
    | some ir =>
      obtain ⟨i, r⟩ := ir
      simp only []
      by_cases h3 : (st.mem (ptr / GRUB_MM_ALIGN - 1)).magic ≠ GRUB_MM_ALLOC_MAGIC
      · rw [if_pos h3]
        simp [h1, hf, h3]
      · rw [if_neg h3]
        simp [h1, hf, h3]

theorem get_header_ne_nofuel (st : MMState) (ptr : Nat) :
    get_header_from_pointer st ptr ≠ .nofuel := by
  unfold get_header_from_pointer
  by_cases h1 : ptr &&& (GRUB_MM_ALIGN - 1) ≠ 0
  · rw [if_pos h1]
    simp
  · rw [if_neg h1]
    cases hf : findRegion st.base ptr with
    | none => simp
    | some ir =>
      obtain ⟨i, r⟩ := ir
      simp only []
      by_cases h3 : (st.mem (ptr / GRUB_MM_ALIGN - 1)).magic ≠ GRUB_MM_ALLOC_MAGIC
      · rw [if_pos h3]
        simp
      · rw [if_neg h3]
        simp

theorem get_header_ok_shape (st : MMState) (ptr p i : Nat) (r : Region)
    (h : get_header_from_pointer st ptr = .ok (p, i, r)) :
    ¬(ptr &&& (GRUB_MM_ALIGN - 1) ≠ 0) ∧ findRegion st.base ptr = some (i, r) ∧
      p = ptr / GRUB_MM_ALIGN - 1 ∧
      (st.mem (ptr / GRUB_MM_ALIGN - 1)).magic = GRUB_MM_ALLOC_MAGIC := by
  unfold get_header_from_pointer at h
  by_cases h1 : ptr &&& (GRUB_MM_ALIGN - 1) ≠ 0
  · rw [if_pos h1] at h
    exact absurd h (by simp)
  · rw [if_neg h1] at h
    cases hf : findRegion st.base ptr with
    | none =>
      rw [hf] at h
      exact absurd h (by simp)
    | some ir =>
      obtain ⟨i2, r2⟩ := ir
      rw [hf] at h
      simp only [] at h
      by_cases h3 : (st.mem (ptr / GRUB_MM_ALIGN - 1)).magic ≠ GRUB_MM_ALLOC_MAGIC
      · rw [if_pos h3] at h
        exact absurd h (by simp)
      · rw [if_neg h3] at h
        simp only [Res.ok.injEq, Prod.mk.injEq] at h
        obtain ⟨hp, hi, hr⟩ := h
        subst hi
        subst hr
        exact ⟨h1, rfl, hp.symm, not_not.mp h3⟩

/-- Claim C8: `free(null)` returns the state untouched; for non-null `ptr`
(and a region whose free ring carries FREE magic throughout, which every
intact region does) `grub_free` is fatal exactly when the pointer is not
cell-aligned, or no registered region contains it, or the header one cell
below lacks the ALLOC magic. -/
theorem C8_free_null_noop_and_fatal_iff :
    (∀ st : MMState, grub_free st 0 = .ok st) ∧
      (∀ (st : MMState) (ptr : Nat), ptr ≠ 0 →
        (∀ i r, findRegion st.base ptr = some (i, r) →
          (st.mem r.first).magic = GRUB_MM_ALLOC_MAGIC ∨
            ∀ k < regionFuel r,
              (st.mem (nextIter st.mem r.first k)).magic = GRUB_MM_FREE_MAGIC) →
        (grub_free st ptr = .fatal ↔
          ptr &&& (GRUB_MM_ALIGN - 1) ≠ 0 ∨ findRegion st.base ptr = none ∨
            (st.mem (ptr / GRUB_MM_ALIGN - 1)).magic ≠ GRUB_MM_ALLOC_MAGIC)) := by
  constructor
  · intro st
    unfold grub_free
    rw [if_pos rfl]
  · intro st ptr hptr hring
    unfold grub_free
    rw [if_neg hptr]
    cases hget : get_header_from_pointer st ptr with
    | fatal =>
      constructor
      · intro _
        exact (get_header_fatal_iff st ptr).mp hget
      · intro _
        rfl
    | nofuel => exact absurd hget (get_header_ne_nofuel st ptr)
    | ok v =>
      obtain ⟨p, i, r⟩ := v
      simp only []
      obtain ⟨hal, hfind, hp, hmag⟩ := get_header_ok_shape st ptr p i r hget
      have hrhs : ¬(ptr &&& (GRUB_MM_ALIGN - 1) ≠ 0 ∨ findRegion st.base ptr = none ∨
          (st.mem (ptr / GRUB_MM_ALIGN - 1)).magic ≠ GRUB_MM_ALLOC_MAGIC) := by
        push_neg
        refine ⟨not_not.mp hal, ?_, hmag⟩
        rw [hfind]
        simp
      by_cases hfull : (st.mem r.first).magic = GRUB_MM_ALLOC_MAGIC
      · rw [if_pos hfull]
        simp only [iff_iff_implies_and_implies]
        constructor
        · intro hcon
          exact absurd hcon (by simp)
        · intro hcon
          exact absurd hcon hrhs
      · rw [if_neg hfull]
        have hfr : ∀ k < regionFuel r,
            (st.mem (nextIter st.mem r.first k)).magic = GRUB_MM_FREE_MAGIC := by
          rcases hring i r hfind with h1 | h2
          · exact absurd h1 hfull
          · exact h2
        cases hscan : freeScan st.mem r.first p (regionFuel r) r.first with
        | fatal =>
          exact absurd hscan (freeScan_ne_fatal st.mem r.first p (regionFuel r) r.first hfr)
        | nofuel =>
          simp only [iff_iff_implies_and_implies]
          exact ⟨fun hcon => absurd hcon (by simp), fun hcon => absurd hcon hrhs⟩
        | ok q0 =>
          simp only [iff_iff_implies_and_implies]
          exact ⟨fun hcon => absurd hcon (by simp), fun hcon => absurd hcon hrhs⟩

/-- The region installed by `stOne`. -/
def regOne : Region := { first := 130, addr := 4160, size := 960, policies := polFirstOnly }

/-- Witness for C8: freeing null on the fresh region state is a no-op, and
freeing pointer 4192 — whose header cell 130 is FREE, not ALLOC — is fatal,
in agreement with the characterisation. -/
theorem C8_free_null_noop_and_fatal_iff_witness :
    grub_free mmInit 0 = .ok mmInit ∧
      (grub_free stOne 4192 = .fatal ↔
        4192 &&& (GRUB_MM_ALIGN - 1) ≠ 0 ∨ findRegion stOne.base 4192 = none ∨
          (stOne.mem (4192 / GRUB_MM_ALIGN - 1)).magic ≠ GRUB_MM_ALLOC_MAGIC) := by
  refine ⟨C8_free_null_noop_and_fatal_iff.1 mmInit,
    C8_free_null_noop_and_fatal_iff.2 stOne 4192 (by decide) ?_⟩
  intro i r h
  rw [show findRegion stOne.base 4192 = some (0, regOne) from rfl] at h
  simp only [Option.some.injEq, Prod.mk.injEq] at h
  obtain ⟨hi, hr⟩ := h
  subst hi
  subst hr
  right
  decide



/-! ### Claim C4 -/

theorem memalignGo_id_none (align size : Nat) (pol : MmPolicy) :
    ∀ (hooks : List (MMState → MMState)) (st st2 : MMState),
      (∀ h ∈ hooks, h = idHook) →
      memalignGo align size pol hooks st = .ok (st2, none) →
      st2 = { st with errno := GRUB_ERR_OUT_OF_MEMORY, errmsg := "out of memory" }
  | [], st, st2, _, h => by
    unfold memalignGo at h
    cases hscan : scanRegions st.mem align size pol st.base with
    | ok v =>
      cases v with
      | none =>
        rw [hscan] at h
        simp only [Res.ok.injEq, Prod.mk.injEq] at h
        exact h.1.symm
      | some w =>
        obtain ⟨m2, rs2, ptrv⟩ := w
        rw [hscan] at h
        simp only [Res.ok.injEq, Prod.mk.injEq] at h
        exact absurd h.2 (by simp)
    | fatal =>
      rw [hscan] at h
      exact absurd h (by simp)
    | nofuel =>
      rw [hscan] at h
      exact absurd h (by simp)
  | hk :: rest, st, st2, hid, h => by
    unfold memalignGo at h
    cases hscan : scanRegions st.mem align size pol st.base with
    | ok v =>
      cases v with
      | none =>
        rw [hscan] at h
        have hkid : hk = idHook := hid hk (List.mem_cons_self hk rest)
        have hrec := memalignGo_id_none align size pol rest (hk st) st2
          (fun x hx => hid x (List.mem_cons_of_mem hk hx)) h
        rw [hrec, hkid]
        rfl
      | some w =>
        obtain ⟨m2, rs2, ptrv⟩ := w
        rw [hscan] at h
        simp only [Res.ok.injEq, Prod.mk.injEq] at h
        exact absurd h.2 (by simp)
    | fatal =>
      rw [hscan] at h
      exact absurd h (by simp)
    | nofuel =>
      rw [hscan] at h
      exact absurd h (by simp)

theorem memalignGo_id_some (align size : Nat) (pol : MmPolicy) :
    ∀ (hooks : List (MMState → MMState)) (st st2 : MMState) (q : Nat),
      (∀ h ∈ hooks, h = idHook) →
      memalignGo align size pol hooks st = .ok (st2, some q) →
      st2.dat = st.dat ∧ st2.errno = st.errno ∧ st2.errmsg = st.errmsg
  | [], st, st2, q, _, h => by
    unfold memalignGo at h
    cases hscan : scanRegions st.mem align size pol st.base with
    | ok v =>
      cases v with
      | none =>
        rw [hscan] at h
        simp only [Res.ok.injEq, Prod.mk.injEq] at h
        exact absurd h.2 (by simp)
      | some w =>
        obtain ⟨m2, rs2, ptrv⟩ := w
        rw [hscan] at h
        simp only [Res.ok.injEq, Prod.mk.injEq] at h
        rw [← h.1]
        exact ⟨rfl, rfl, rfl⟩
    | fatal =>
      rw [hscan] at h
      exact absurd h (by simp)
    | nofuel =>
      rw [hscan] at h
      exact absurd h (by simp)
  | hk :: rest, st, st2, q, hid, h => by
    unfold memalignGo at h
    cases hscan : scanRegions st.mem align size pol st.base with
    | ok v =>
      cases v with
      | none =>
        rw [hscan] at h
        have hkid : hk = idHook := hid hk (List.mem_cons_self hk rest)
        have hrec := memalignGo_id_some align size pol rest (hk st) st2 q
          (fun x hx => hid x (List.mem_cons_of_mem hk hx)) h
        rw [hkid] at hrec
        exact hrec
      | some w =>
        obtain ⟨m2, rs2, ptrv⟩ := w
        rw [hscan] at h
        simp only [Res.ok.injEq, Prod.mk.injEq] at h
        rw [← h.1]
        exact ⟨rfl, rfl, rfl⟩
    | fatal =>
      rw [hscan] at h
      exact absurd h (by simp)
    | nofuel =>
      rw [hscan] at h
      exact absurd h (by simp)

/-- `grub_free` never touches the data bytes or the error channel. -/
theorem grub_free_ok_shape (st : MMState) (ptr : Nat) (st2 : MMState)
    (h : grub_free st ptr = .ok st2) :
    st2.dat = st.dat ∧ st2.errno = st.errno ∧ st2.errmsg = st.errmsg := by
  unfold grub_free at h
  by_cases hp : ptr = 0
  · rw [if_pos hp] at h
    simp only [Res.ok.injEq] at h
    rw [← h]
    exact ⟨rfl, rfl, rfl⟩
  · rw [if_neg hp] at h
    cases hget : get_header_from_pointer st ptr with
    | fatal =>
      rw [hget] at h
      exact absurd h (by simp)
    | nofuel =>
      rw [hget] at h
      exact absurd h (by simp)
    | ok v =>
      obtain ⟨p, i, r⟩ := v
      rw [hget] at h
      simp only [] at h
      by_cases hfull : (st.mem r.first).magic = GRUB_MM_ALLOC_MAGIC
      · rw [if_pos hfull] at h
        simp only [Res.ok.injEq] at h
        rw [← h]
        exact ⟨rfl, rfl, rfl⟩
      · rw [if_neg hfull] at h
        cases hscan : freeScan st.mem r.first p (regionFuel r) r.first with
        | fatal =>
          rw [hscan] at h
          exact absurd h (by simp)
        | nofuel =>
          rw [hscan] at h
          exact absurd h (by simp)
        | ok q0 =>
          rw [hscan] at h
          simp only [Res.ok.injEq] at h
          rw [← h]
          exact ⟨rfl, rfl, rfl⟩

/-- Claim C4: with non-null pointer and non-zero size, when the block
cannot grow in place and the fresh policy-directed allocation fails,
resize returns null and leaves memory, the region list and the data bytes
(in particular the original block and its contents) untouched; and
whenever resize returns a non-null pointer `q`, the bytes of the returned
block equal the original bytes, up to the full requested size (hence up to
`min(old_size, new_size)`). -/
theorem C4_resize_failure_and_contents (st : MMState) (ptr align size : Nat)
    (pol : MmPolicy) (hptr : ptr ≠ 0) (hsz : size % WORD ≠ 0) :
    (∀ (p i : Nat) (r : Region),
      get_header_from_pointer st ptr = .ok (p, i, r) →
      (st.mem p).size < calcN (size % WORD) →
      ¬(GRUB_MM_ALIGN * (p + (st.mem p).size) < r.addr + (r.size <<< GRUB_MM_ALIGN_LOG2) ∧
        (st.mem (p + (st.mem p).size)).magic = GRUB_MM_FREE_MAGIC ∧
        (st.mem p).size + (st.mem (p + (st.mem p).size)).size ≥ calcN (size % WORD)) →
      ∀ st2 : MMState,
        grub_memalign_policy idHook idHook st align size pol = .ok (st2, none) →
        grub_rememalign_policy idHook idHook st ptr align size pol = .ok (st2, none) ∧
          st2.mem = st.mem ∧ st2.base = st.base ∧ st2.dat = st.dat) ∧
      (∀ (st3 : MMState) (q : Nat),
        grub_rememalign_policy idHook idHook st ptr align size pol = .ok (st3, some q) →
        ∀ j, j < size % WORD → st3.dat (q + j) = st.dat (ptr + j)) := by
  constructor
  · intro p i r hget hsmall hguard st2 halloc
    have hst2 : st2 = { st with errno := GRUB_ERR_OUT_OF_MEMORY, errmsg := "out of memory" } :=
      memalignGo_id_none (align % WORD) (size % WORD) pol [idHook, idHook] st st2
        (by intro h hh; simp only [List.mem_cons, List.not_mem_nil, or_false] at hh; rcases hh with h1 | h1 <;> exact h1) halloc
    refine ⟨?_, by rw [hst2], by rw [hst2], by rw [hst2]⟩
    unfold grub_rememalign_policy
    rw [if_neg hptr, if_neg hsz, hget]
    simp only []
    rw [if_neg (by omega), if_neg hguard, halloc]
  · intro st3 q hres j hj
    unfold grub_rememalign_policy at hres
    rw [if_neg hptr, if_neg hsz] at hres
    cases hget : get_header_from_pointer st ptr with
    | fatal =>
      rw [hget] at hres
      exact absurd hres (by simp)
    | nofuel =>
      rw [hget] at hres
      exact absurd hres (by simp)
    | ok v =>
      obtain ⟨p, i, r⟩ := v
      rw [hget] at hres
      simp only [] at hres
      by_cases hshrink : (st.mem p).size ≥ calcN (size % WORD)
      · rw [if_pos hshrink] at hres
        simp only [Res.ok.injEq, Prod.mk.injEq, Option.some.injEq] at hres
        obtain ⟨h1, h2⟩ := hres
        rw [← h1, ← h2]
      · rw [if_neg hshrink] at hres
        by_cases hguard : GRUB_MM_ALIGN * (p + (st.mem p).size) <
            r.addr + (r.size <<< GRUB_MM_ALIGN_LOG2) ∧
            (st.mem (p + (st.mem p).size)).magic = GRUB_MM_FREE_MAGIC ∧
            (st.mem p).size + (st.mem (p + (st.mem p).size)).size ≥ calcN (size % WORD)
        · rw [if_pos hguard] at hres
          simp only [Res.ok.injEq, Prod.mk.injEq, Option.some.injEq] at hres
          obtain ⟨h1, h2⟩ := hres
          rw [← h1, ← h2]
        · rw [if_neg hguard] at hres
          cases halloc : grub_memalign_policy idHook idHook st align size pol with
          | fatal =>
            rw [halloc] at hres
            exact absurd hres (by simp)
          | nofuel =>
            rw [halloc] at hres
            exact absurd hres (by simp)
          | ok w =>
            obtain ⟨st2, opt⟩ := w
            cases opt with
            | none =>
              rw [halloc] at hres
              simp only [Res.ok.injEq, Prod.mk.injEq] at hres
              exact absurd hres.2 (by simp)
            | some qp =>
              rw [halloc] at hres
              simp only [] at hres
              cases hfree : grub_free
                  { st2 with dat := memcpyB st2.dat qp ptr (size % WORD) } ptr with
              | fatal =>
                rw [hfree] at hres
                exact absurd hres (by simp)
              | nofuel =>
                rw [hfree] at hres
                exact absurd hres (by simp)
              | ok st4 =>
                rw [hfree] at hres
                simp only [Res.ok.injEq, Prod.mk.injEq, Option.some.injEq] at hres
                obtain ⟨h1, h2⟩ := hres
                have hdat4 := (grub_free_ok_shape _ ptr st4 hfree).1
                have hdat2 : st2.dat = st.dat :=
                  (memalignGo_id_some (align % WORD) (size % WORD) pol [idHook, idHook]
                    st st2 qp (by intro h hh; simp only [List.mem_cons, List.not_mem_nil, or_false] at hh; rcases hh with h1 | h1 <;> exact h1) halloc).1
                rw [← h1, ← h2, hdat4]
                show memcpyB st2.dat qp ptr (size % WORD) (qp + j) = st.dat (ptr + j)
                unfold memcpyB
                rw [if_pos ⟨Nat.le_add_right qp j, by omega⟩]
                rw [hdat2]
                congr 1
                omega

/-- The out-of-memory state produced when resize on the full region cannot
allocate. -/
def stOOM : MMState :=
  { stFull with errno := GRUB_ERR_OUT_OF_MEMORY, errmsg := "out of memory" }

def exState (x : Res (MMState × Option Nat)) : MMState :=
  match x with
  | .ok (st, _) => st
  | _ => mmInit

def exQ (x : Res (MMState × Option Nat)) : Nat :=
  match x with
  | .ok (_, some q) => q
  | _ => 0

/-- State with two five-cell allocated blocks at cells 130 and 135. -/
def stA : MMState := exState (grub_malloc stOne 100)

def stAB : MMState := exState (grub_malloc stA 100)

/-- Growing the first block of `stAB` must move it: the next block is
allocated, so resize takes the allocate-copy-free path. -/
def resizeRes : Res (MMState × Option Nat) :=
  grub_rememalign_policy idHook idHook stAB 4192 1 200 .pDefault

/-- Witness for C4: on the fully allocated region, resize of pointer 4192
to 1024 bytes fails, returns null and leaves memory, regions and data
untouched; on the two-block state, resize of pointer 4192 to 200 bytes
moves the block and byte 5 of the result equals byte 5 of the original. -/
theorem C4_resize_failure_and_contents_witness :
    (grub_rememalign_policy idHook idHook stFull 4192 0 1024 .pDefault =
        .ok (stOOM, none) ∧
      stOOM.mem = stFull.mem ∧ stOOM.base = stFull.base ∧ stOOM.dat = stFull.dat) ∧
      (exState resizeRes).dat (exQ resizeRes + 5) = stAB.dat (4192 + 5) :=
  ⟨(C4_resize_failure_and_contents stFull 4192 0 1024 .pDefault (by decide)
      (by decide)).1 130 0 regFull (by decide) (by decide) (by decide) stOOM rfl,
    (C4_resize_failure_and_contents stAB 4192 1 200 .pDefault (by decide)
      (by decide)).2 (exState resizeRes) (exQ resizeRes) rfl 5 (by decide)⟩



/-! ### Block layout and free-ring invariant -/

/-- First cell of a region's usable span. -/
def startCell (r : Region) : Nat := r.addr / GRUB_MM_ALIGN

/-- Number of cells of a region's usable span. -/
def totalCells (r : Region) : Nat := r.size / GRUB_MM_ALIGN

/-- One cell past a region's usable span. -/
def endCell (r : Region) : Nat := startCell r + totalCells r

/-- Membership of a cell in a region's usable span. -/
def inSpan (r : Region) (c : Nat) : Prop := startCell r ≤ c ∧ c < endCell r

/-- `TilesFrom m start total B`: the cell addresses in `B` partition the
span `[start, start + total)` into consecutive blocks of the sizes their
headers state. -/
def TilesFrom (m : Mem) : Nat → Nat → List Nat → Prop
  | _, total, [] => total = 0
  | start, total, b :: B =>
    b = start ∧ 1 ≤ (m b).size ∧ (m b).size ≤ total ∧
      TilesFrom m (start + (m b).size) (total - (m b).size) B

/-- One doubly-linked step: `a`'s successor is `b` and `b`'s predecessor is
`a`. -/
def linkRel (m : Mem) (a b : Nat) : Prop := (m a).next = b ∧ (m b).prev = a

/-- `RingShape m first L`: the free ring is exactly the nonempty list `L`,
entered at its head `first`, with `next`/`prev` running along `L`
cyclically (the appended head closes the wrap-around pair). -/
def RingShape (m : Mem) (first : Nat) : List Nat → Prop
  | [] => False
  | a :: rest => first = a ∧ List.Chain' (linkRel m) ((a :: rest) ++ [a])

/-- The FREE blocks of a block list, in address order. -/
def freeList (m : Mem) (B : List Nat) : List Nat :=
  B.filter (fun b => decide ((m b).magic = GRUB_MM_FREE_MAGIC))

/-- The per-region invariant, with the block list `B` explicit: cell-exact
geometry fields, a block partition, only FREE/ALLOC magics, no two
address-adjacent FREE blocks, and either the region-full sentinel
(`first` an ALLOC block, no free block at all) or the free ring through
all FREE blocks entered at the lowest one. -/
def RegionB (m : Mem) (r : Region) (B : List Nat) : Prop :=
  r.addr = GRUB_MM_ALIGN * startCell r ∧
    r.size = GRUB_MM_ALIGN * totalCells r ∧
    TilesFrom m (startCell r) (totalCells r) B ∧
    (∀ b ∈ B, (m b).magic = GRUB_MM_FREE_MAGIC ∨ (m b).magic = GRUB_MM_ALLOC_MAGIC) ∧
    B.Chain' (fun a b =>
      ¬((m a).magic = GRUB_MM_FREE_MAGIC ∧ (m b).magic = GRUB_MM_FREE_MAGIC)) ∧
    ((freeList m B = [] ∧ (m r.first).magic = GRUB_MM_ALLOC_MAGIC ∧ r.first ∈ B) ∨
      RingShape m r.first (freeList m B))

/-- A region at rest: some block list satisfies the invariant. -/
def RegInv (m : Mem) (r : Region) : Prop := ∃ B, RegionB m r B

theorem chain'_imp_mem {α : Type} {R S : α → α → Prop} {l : List α}
    (H : ∀ a ∈ l, ∀ b ∈ l, R a b → S a b) (h : List.Chain' R l) : List.Chain' S l :=
  (List.Chain'.iff_mem.mp h).imp (fun a b hab => H a hab.1 b hab.2.1 hab.2.2)

theorem tiles_bounds (m : Mem) :
    ∀ {start total : Nat} {B : List Nat}, TilesFrom m start total B →
      ∀ b ∈ B, start ≤ b ∧ b < start + total := by
  intro start total B
  induction B generalizing start total with
  | nil => intro _ b hb; simp at hb
  | cons x B ih =>
    intro ht b hb
    obtain ⟨hx, h1, h2, hrec⟩ := ht
    rcases List.mem_cons.mp hb with hb1 | hb2
    · subst hb1
      omega
    · have := ih hrec b hb2
      omega

theorem tiles_congr {m m2 : Mem} :
    ∀ {start total : Nat} {B : List Nat},
      (∀ b ∈ B, (m2 b).size = (m b).size) →
      TilesFrom m start total B → TilesFrom m2 start total B := by
  intro start total B
  induction B generalizing start total with
  | nil => intro _ h; exact h
  | cons x B ih =>
    intro hsz ht
    obtain ⟨hx, h1, h2, hrec⟩ := ht
    have hx2 : (m2 x).size = (m x).size := hsz x (List.mem_cons_self x B)
    refine ⟨hx, by omega, by omega, ?_⟩
    rw [hx2]
    exact ih (fun b hb => hsz b (List.mem_cons_of_mem x hb)) hrec

theorem tiles_sorted (m : Mem) :
    ∀ {start total : Nat} {B : List Nat}, TilesFrom m start total B →
      B.Chain' (fun a b => a < b) := by
  intro start total B
  induction B generalizing start total with
  | nil => intro _; simp
  | cons x B ih =>
    intro ht
    obtain ⟨hx, h1, h2, hrec⟩ := ht
    refine List.chain'_cons'.mpr ⟨?_, ih hrec⟩
    intro y hy
    have hb := tiles_bounds m hrec y (List.mem_of_mem_head? hy)
    omega

theorem freeList_congr {m m2 : Mem} {B : List Nat}
    (h : ∀ b ∈ B, (m2 b).magic = (m b).magic) :
    freeList m2 B = freeList m B := by
  unfold freeList
  exact List.filter_congr (fun b hb => by rw [h b hb])

theorem freeList_subset {m : Mem} {B : List Nat} : ∀ b ∈ freeList m B, b ∈ B :=
  fun b hb => List.mem_of_mem_filter hb

theorem freeList_magic {m : Mem} {B : List Nat} :
    ∀ b ∈ freeList m B, (m b).magic = GRUB_MM_FREE_MAGIC := by
  intro b hb
  have := List.of_mem_filter hb
  simpa using this

theorem ringShape_congr {m m2 : Mem} {first : Nat} {L : List Nat}
    (h : ∀ a ∈ L, (m2 a).next = (m a).next ∧ (m2 a).prev = (m a).prev) :
    RingShape m first L → RingShape m2 first L := by
  cases L with
  | nil => exact id
  | cons a rest =>
    intro hsh
    obtain ⟨hf, hchain⟩ := hsh
    refine ⟨hf, ?_⟩
    have hmem : ∀ x ∈ (a :: rest) ++ [a], x ∈ a :: rest := by
      intro x hx
      rcases List.mem_append.mp hx with h1 | h1
      · exact h1
      · simp only [List.mem_singleton] at h1
        simp [h1]
    refine chain'_imp_mem ?_ hchain
    intro x hx y hy hr
    obtain ⟨hx1, hx2⟩ := h x (hmem x hx)
    obtain ⟨hy1, hy2⟩ := h y (hmem y hy)
    exact ⟨by rw [hx1]; exact hr.1, by rw [hy2]; exact hr.2⟩

theorem regionB_congr {m m2 : Mem} {r : Region} {B : List Nat}
    (hsp : ∀ c, inSpan r c → m2 c = m c) (hreg : RegionB m r B) :
    RegionB m2 r B := by
  obtain ⟨ha, hs, ht, hm, hadj, hring⟩ := hreg
  have hBsp : ∀ b ∈ B, m2 b = m b := by
    intro b hb
    have := tiles_bounds m ht b hb
    exact hsp b ⟨this.1, this.2⟩
  have hfl : freeList m2 B = freeList m B :=
    freeList_congr (fun b hb => by rw [hBsp b hb])
  refine ⟨ha, hs, tiles_congr (fun b hb => by rw [hBsp b hb]) ht, ?_, ?_, ?_⟩
  · intro b hb
    rw [hBsp b hb]
    exact hm b hb
  · refine chain'_imp_mem ?_ hadj
    intro x hx y hy hr
    rw [hBsp x hx, hBsp y hy]
    exact hr
  · rcases hring with ⟨h1, h2, h3⟩ | hr
    · refine .inl ⟨by rw [hfl]; exact h1, ?_, h3⟩
      rw [hBsp r.first h3]
      exact h2
    · right
      rw [hfl]
      refine ringShape_congr ?_ hr
      intro x hx
      rw [hBsp x (freeList_subset x hx)]
      exact ⟨rfl, rfl⟩



theorem tiles_decomp (m : Mem) :
    ∀ (B1 : List Nat) {B2 : List Nat} {start total : Nat},
      TilesFrom m start total (B1 ++ B2) →
      ∃ t1, t1 ≤ total ∧ TilesFrom m start t1 B1 ∧
        TilesFrom m (start + t1) (total - t1) B2
  | [], B2, start, total => fun h => ⟨0, by omega, rfl, by simpa using h⟩
  | x :: B1, B2, start, total => fun h => by
    obtain ⟨hx, h1, h2, hrec⟩ := h
    obtain ⟨t1, ht1, htiles1, htiles2⟩ := tiles_decomp m B1 hrec
    refine ⟨(m x).size + t1, by omega, ⟨hx, h1, by omega, ?_⟩, ?_⟩
    · have : (m x).size + t1 - (m x).size = t1 := by omega
      rw [this]
      exact htiles1
    · have e1 : start + ((m x).size + t1) = start + (m x).size + t1 := by omega
      have e2 : total - ((m x).size + t1) = total - (m x).size - t1 := by omega
      rw [e1, e2]
      exact htiles2

theorem tiles_recomb (m : Mem) :
    ∀ (B1 : List Nat) {B2 : List Nat} {start t1 t2 : Nat},
      TilesFrom m start t1 B1 → TilesFrom m (start + t1) t2 B2 →
      TilesFrom m start (t1 + t2) (B1 ++ B2)
  | [], B2, start, t1, t2 => fun h1 h2 => by
    have ht1 : t1 = 0 := h1
    subst ht1
    simpa using h2
  | x :: B1, B2, start, t1, t2 => fun h1 h2 => by
    obtain ⟨hx, ha, hb, hrec⟩ := h1
    refine ⟨hx, ha, by omega, ?_⟩
    have e : start + t1 = start + (m x).size + (t1 - (m x).size) := by omega
    rw [e] at h2
    have := tiles_recomb m B1 hrec h2
    have e2 : t1 + t2 - (m x).size = t1 - (m x).size + t2 := by omega
    rw [e2]
    exact this

theorem tiles_single (m : Mem) {start total b : Nat} :
    TilesFrom m start total [b] ↔ b = start ∧ 1 ≤ total ∧ (m b).size = total := by
  constructor
  · intro h
    obtain ⟨hx, h1, h2, hrec⟩ := h
    have : total - (m b).size = 0 := hrec
    exact ⟨hx, by omega, by omega⟩
  · intro ⟨hx, h1, h2⟩
    exact ⟨hx, by omega, by omega, by simp [TilesFrom, h2]⟩

theorem tiles_pair (m : Mem) {start total b c : Nat} :
    TilesFrom m start total [b, c] ↔
      b = start ∧ c = start + (m b).size ∧ 1 ≤ (m b).size ∧ 1 ≤ (m c).size ∧
        (m b).size + (m c).size = total := by
  constructor
  · intro h
    obtain ⟨hx, h1, h2, hc, hc1, hc2, hrec⟩ := h
    have : total - (m b).size - (m c).size = 0 := hrec
    refine ⟨hx, hc, h1, hc1, by omega⟩
  · intro ⟨hx, hc, h1, h2, h3⟩
    refine ⟨hx, h1, by omega, hc, h2, by omega, ?_⟩
    show total - (m b).size - (m c).size = 0
    omega

theorem tiles_triple (m : Mem) {start total b c d : Nat} :
    TilesFrom m start total [b, c, d] ↔
      b = start ∧ c = start + (m b).size ∧ d = c + (m c).size ∧
        1 ≤ (m b).size ∧ 1 ≤ (m c).size ∧ 1 ≤ (m d).size ∧
        (m b).size + (m c).size + (m d).size = total := by
  constructor
  · intro h
    obtain ⟨hx, h1, h2, hc, hc1, hc2, hd, hd1, hd2, hrec⟩ := h
    have : total - (m b).size - (m c).size - (m d).size = 0 := hrec
    refine ⟨hx, hc, by omega, h1, hc1, hd1, by omega⟩
  · intro ⟨hx, hc, hd, h1, h2, h3, h4⟩
    refine ⟨hx, h1, by omega, hc, h2, by omega, by omega, h3, by omega, ?_⟩
    show total - (m b).size - (m c).size - (m d).size = 0
    omega

/-- Distinct blocks of a tiling do not overlap: a later block starts at or
after the end of an earlier one. -/
theorem tiles_no_overlap (m : Mem) {start total : Nat} {B1 B2 : List Nat} {b : Nat}
    (h : TilesFrom m start total (B1 ++ b :: B2)) :
    ∀ c ∈ B2, b + (m b).size ≤ c := by
  obtain ⟨t1, _, _, h2⟩ := tiles_decomp m B1 h
  obtain ⟨hb, h1, hsz, hrec⟩ := h2
  intro c hc
  have := tiles_bounds m hrec c hc
  omega

/-- A cell strictly inside a block is not a block address. -/
theorem tiles_interior_not_mem (m : Mem) {start total : Nat} {B1 B2 : List Nat}
    {b : Nat} (h : TilesFrom m start total (B1 ++ b :: B2)) {c : Nat}
    (hlo : b < c) (hhi : c < b + (m b).size) : c ∉ B1 ++ b :: B2 := by
  intro hc
  have hsort := tiles_sorted m h
  rcases List.mem_append.mp hc with h1 | h2
  · -- members of B1 are below b
    obtain ⟨t1, _, ht1, _⟩ := tiles_decomp m B1 h
    have h2 : TilesFrom m start total (B1 ++ b :: B2) := h
    obtain ⟨t0, ht0le, ht0, ht0b⟩ := tiles_decomp m B1 h2
    have hblt : ∀ x ∈ B1, x < b := by
      intro x hx
      have hxb := tiles_bounds m ht0 x hx
      have : b = start + t0 := ht0b.1
      omega
    have := hblt c h1
    omega
  · rcases List.mem_cons.mp h2 with h3 | h4
    · omega
    · have := tiles_no_overlap m h c h4
      omega



theorem Header.extEq {h1 h2 : Header} (hp : h1.prev = h2.prev) (hn : h1.next = h2.next)
    (hs : h1.size = h2.size) (hm : h1.magic = h2.magic) : h1 = h2 := by
  cases h1
  cases h2
  simp_all

@[simp] theorem setPrev_prev (m : Mem) (a v c : Nat) :
    ((setPrev m a v) c).prev = if c = a then v else (m c).prev := by
  unfold setPrev
  by_cases h : c = a <;> simp [h]

@[simp] theorem setPrev_next (m : Mem) (a v c : Nat) :
    ((setPrev m a v) c).next = (m c).next := by
  unfold setPrev
  by_cases h : c = a <;> simp [h]

@[simp] theorem setPrev_size (m : Mem) (a v c : Nat) :
    ((setPrev m a v) c).size = (m c).size := by
  unfold setPrev
  by_cases h : c = a <;> simp [h]

@[simp] theorem setPrev_magic (m : Mem) (a v c : Nat) :
    ((setPrev m a v) c).magic = (m c).magic := by
  unfold setPrev
  by_cases h : c = a <;> simp [h]

@[simp] theorem setNext_prev (m : Mem) (a v c : Nat) :
    ((setNext m a v) c).prev = (m c).prev := by
  unfold setNext
  by_cases h : c = a <;> simp [h]

@[simp] theorem setNext_next (m : Mem) (a v c : Nat) :
    ((setNext m a v) c).next = if c = a then v else (m c).next := by
  unfold setNext
  by_cases h : c = a <;> simp [h]

@[simp] theorem setNext_size (m : Mem) (a v c : Nat) :
    ((setNext m a v) c).size = (m c).size := by
  unfold setNext
  by_cases h : c = a <;> simp [h]

@[simp] theorem setNext_magic (m : Mem) (a v c : Nat) :
    ((setNext m a v) c).magic = (m c).magic := by
  unfold setNext
  by_cases h : c = a <;> simp [h]

@[simp] theorem setSize_prev (m : Mem) (a v c : Nat) :
    ((setSize m a v) c).prev = (m c).prev := by
  unfold setSize
  by_cases h : c = a <;> simp [h]

@[simp] theorem setSize_next (m : Mem) (a v c : Nat) :
    ((setSize m a v) c).next = (m c).next := by
  unfold setSize
  by_cases h : c = a <;> simp [h]

@[simp] theorem setSize_size (m : Mem) (a v c : Nat) :
    ((setSize m a v) c).size = if c = a then v else (m c).size := by
  unfold setSize
  by_cases h : c = a <;> simp [h]

@[simp] theorem setSize_magic (m : Mem) (a v c : Nat) :
    ((setSize m a v) c).magic = (m c).magic := by
  unfold setSize
  by_cases h : c = a <;> simp [h]

@[simp] theorem setMagic_prev (m : Mem) (a v c : Nat) :
    ((setMagic m a v) c).prev = (m c).prev := by
  unfold setMagic
  by_cases h : c = a <;> simp [h]

@[simp] theorem setMagic_next (m : Mem) (a v c : Nat) :
    ((setMagic m a v) c).next = (m c).next := by
  unfold setMagic
  by_cases h : c = a <;> simp [h]

@[simp] theorem setMagic_size (m : Mem) (a v c : Nat) :
    ((setMagic m a v) c).size = (m c).size := by
  unfold setMagic
  by_cases h : c = a <;> simp [h]

@[simp] theorem setMagic_magic (m : Mem) (a v c : Nat) :
    ((setMagic m a v) c).magic = if c = a then v else (m c).magic := by
  unfold setMagic
  by_cases h : c = a <;> simp [h]

/-- `split_chunk` in the general ring case (`p`'s ring successor `np` is
neither `p` itself nor the fresh node): `p` keeps its `prev` and magic,
shrinks to `size` and points at the fresh node `p + size`, which carries
the remainder and links `p → new → np`; `np`'s `prev` is rewired. -/
theorem split_chunk_eq (m : Mem) (p size np : Nat)
    (hlt : size < (m p).size) (hsz : 1 ≤ size)
    (hnp : (m p).next = np) (hnpp : np ≠ p) (hnpq : np ≠ p + size) :
    split_chunk m p size = fun c =>
      if c = p then { m p with next := p + size, size := size }
      else if c = p + size then ⟨p, np, (m p).size - size, GRUB_MM_FREE_MAGIC⟩
      else if c = np then { m np with prev := p + size }
      else m c := by
  have hqp : ¬(p = p + size) := by omega
  have hqp2 : ¬(p + size = p) := by omega
  unfold split_chunk
  rw [if_neg (by omega)]
  funext c
  by_cases h1 : c = p
  · subst h1
    rw [if_pos rfl]
    refine Header.extEq ?_ ?_ ?_ ?_ <;>
      simp [hqp, hqp2, Ne.symm hnpp, hnpq, hnp, show size ≠ 0 by omega]
  · rw [if_neg h1]
    by_cases h2 : c = p + size
    · subst h2
      rw [if_pos rfl]
      refine Header.extEq ?_ ?_ ?_ ?_ <;>
        simp [hqp, hqp2, Ne.symm hnpq, hnp, show size ≠ 0 by omega]
    · rw [if_neg h2]
      by_cases h3 : c = np
      · subst h3
        rw [if_pos rfl]
        refine Header.extEq ?_ ?_ ?_ ?_ <;>
          simp [hnpp, hnpq, hnp, h1, h2, show size ≠ 0 by omega]
      · rw [if_neg h3]
        refine Header.extEq ?_ ?_ ?_ ?_ <;>
          simp [h1, h2, h3, hnp, show size ≠ 0 by omega]

/-- `split_chunk` on a self-looped node: the two nodes form a 2-ring. -/
theorem split_chunk_eq_self (m : Mem) (p size : Nat)
    (hlt : size < (m p).size) (hsz : 1 ≤ size) (hnp : (m p).next = p) :
    split_chunk m p size = fun c =>
      if c = p then { m p with prev := p + size, next := p + size, size := size }
      else if c = p + size then ⟨p, p, (m p).size - size, GRUB_MM_FREE_MAGIC⟩
      else m c := by
  have hqp : ¬(p = p + size) := by omega
  have hqp2 : ¬(p + size = p) := by omega
  unfold split_chunk
  rw [if_neg (by omega)]
  funext c
  by_cases h1 : c = p
  · subst h1
    rw [if_pos rfl]
    refine Header.extEq ?_ ?_ ?_ ?_ <;> simp [hqp, hqp2, hnp, show size ≠ 0 by omega]
  · rw [if_neg h1]
    by_cases h2 : c = p + size
    · subst h2
      rw [if_pos rfl]
      refine Header.extEq ?_ ?_ ?_ ?_ <;> simp [hqp, hqp2, hnp, show size ≠ 0 by omega]
    · rw [if_neg h2]
      refine Header.extEq ?_ ?_ ?_ ?_ <;> simp [h1, h2, hnp, show size ≠ 0 by omega]



/-- The ring detach of the exact-fit branch of `grub_real_malloc`:
`p->prev->next = p->next; p->next->prev = p->prev; p->magic = ALLOC`. -/
def detachMem (m : Mem) (p : Nat) : Mem :=
  setMagic (setPrev (setNext m ((m p).prev) ((m p).next))
    (((setNext m ((m p).prev) ((m p).next)) p).next)
    (((setNext m ((m p).prev) ((m p).next)) p).prev)) p GRUB_MM_ALLOC_MAGIC

/-- The tail carve of the padded branch of `grub_real_malloc`:
`p->size -= n; p += p->size; p->size = n; p->magic = ALLOC`. -/
def tailCarveMem (m : Mem) (p n : Nat) : Mem :=
  setMagic (setSize (setSize m p ((m p).size - n)) (p + ((m p).size - n)) n)
    (p + ((m p).size - n)) GRUB_MM_ALLOC_MAGIC

/-- One unfolding of the search loop at a fitting FREE node. -/
theorem loop_fit (n alignC : Nat) (strat : Strategy) (first last : Nat) (fuel : Nat)
    (m : Mem) (p : Nat) (hp0 : p ≠ 0) (hmag : (m p).magic = GRUB_MM_FREE_MAGIC)
    (hfit : (m p).size ≥ n + ((p + 1) &&& (alignC - 1)) +
      (if strat = .sLast then 0 else 0)) :
    grub_real_malloc_loop n alignC strat first last (fuel + 1) m p =
      (let want := n + ((p + 1) &&& (alignC - 1))
      let want2 :=
        if strat = .sLast then want + ((m p).size - want) / alignC * alignC else want
      let m1 := split_chunk m p want2
      if want2 = n then
        .ok (some (detachMem m1 p, (if p = first then (m1 p).next else first), p + 1))
      else
        .ok (some (tailCarveMem m1 p n, first, (p + ((m1 p).size - n)) + 1))) := by
  show (let want := n + ((p + 1) &&& (alignC - 1));
    if p = 0 then Res.fatal
    else if (m p).magic ≠ GRUB_MM_FREE_MAGIC then Res.fatal
    else if (m p).size ≥ want then
      let want2 :=
        if strat = .sLast then want + ((m p).size - want) / alignC * alignC else want
      let m1 := split_chunk m p want2
      if want2 = n then
        let first1 := if p = first then (m1 p).next else first
        let m2 := setNext m1 ((m1 p).prev) ((m1 p).next)
        let m3 := setPrev m2 ((m2 p).next) ((m2 p).prev)
        let m4 := setMagic m3 p GRUB_MM_ALLOC_MAGIC
        Res.ok (some (m4, first1, p + 1))
      else
        let m2 := setSize m1 p ((m1 p).size - n)
        let p2 := p + (m2 p).size
        let m3 := setSize m2 p2 n
        let m4 := setMagic m3 p2 GRUB_MM_ALLOC_MAGIC
        Res.ok (some (m4, first, p2 + 1))
    else if p = last then Res.ok none
    else grub_real_malloc_loop n alignC strat first last fuel m (stepPtr m strat p)) = _
  rw [if_neg hp0, if_neg (not_not_intro hmag), if_pos (by simpa using hfit)]
  simp [detachMem, tailCarveMem]

theorem chain_next_mem (m : Mem) {a : Nat} :
    ∀ {L : List Nat} {x : Nat}, List.Chain' (linkRel m) (L ++ [x]) → a ∈ L →
      (m a).next ∈ L ∨ (m a).next = x := by
  intro L
  induction L with
  | nil => intro x _ ha; simp at ha
  | cons b rest ih =>
    intro x hchain ha
    rcases List.mem_cons.mp ha with h1 | h2
    · subst h1
      cases rest with
      | nil =>
        have : linkRel m a x := by simpa using hchain
        exact .inr this.1
      | cons c rest2 =>
        have : linkRel m a c := (List.chain'_cons.mp (by simpa using hchain)).1
        rw [this.1]
        exact .inl (List.mem_cons_of_mem a (List.mem_cons_self c rest2))
    · have htail : List.Chain' (linkRel m) (rest ++ [x]) := by
        have := List.Chain'.tail hchain
        simpa using this
      rcases ih htail h2 with h3 | h3
      · exact .inl (List.mem_cons_of_mem b h3)
      · exact .inr h3

theorem chain_prev_mem (m : Mem) {a : Nat} :
    ∀ {L : List Nat} {x : Nat}, List.Chain' (linkRel m) (x :: L) → a ∈ L →
      (m a).prev ∈ x :: L := by
  intro L
  induction L with
  | nil => intro x _ ha; simp at ha
  | cons b rest ih =>
    intro x hchain ha
    rcases List.mem_cons.mp ha with h1 | h2
    · subst h1
      have : linkRel m x a := (List.chain'_cons.mp hchain).1
      rw [this.2]
      exact List.mem_cons_self x _
    · have := ih (List.Chain'.tail hchain) h2
      rcases List.mem_cons.mp this with h3 | h3
      · rw [h3]
        exact List.mem_cons_of_mem x (List.mem_cons_self b rest)
      · exact List.mem_cons_of_mem x (List.mem_cons_of_mem b h3)

theorem ring_next_mem {m : Mem} {first : Nat} {L : List Nat}
    (h : RingShape m first L) {a : Nat} (ha : a ∈ L) : (m a).next ∈ L := by
  cases L with
  | nil => exact absurd h id
  | cons hd tl =>
    obtain ⟨_, hchain⟩ := h
    rcases chain_next_mem m hchain ha with h1 | h1
    · exact h1
    · rw [h1]
      exact List.mem_cons_self hd tl

theorem ring_prev_mem {m : Mem} {first : Nat} {L : List Nat}
    (h : RingShape m first L) {a : Nat} (ha : a ∈ L) : (m a).prev ∈ L := by
  cases L with
  | nil => exact absurd h id
  | cons hd tl =>
    obtain ⟨_, hchain⟩ := h
    have hchain2 : List.Chain' (linkRel m) (hd :: (tl ++ [hd])) := by simpa using hchain
    have ha2 : a ∈ tl ++ [hd] := by
      rcases List.mem_cons.mp ha with h1 | h1
      · exact List.mem_append.mpr (.inr (by simp [h1]))
      · exact List.mem_append.mpr (.inl h1)
    have := chain_prev_mem m hchain2 ha2
    rcases List.mem_cons.mp this with h3 | h3
    · rw [h3]
      exact List.mem_cons_self hd tl
    · rcases List.mem_append.mp h3 with h4 | h4
      · exact List.mem_cons_of_mem hd h4
      · simp only [List.mem_singleton] at h4
        rw [h4]
        exact List.mem_cons_self hd tl

theorem ring_first_mem {m : Mem} {first : Nat} {L : List Nat}
    (h : RingShape m first L) : first ∈ L := by
  cases L with
  | nil => exact absurd h id
  | cons hd tl =>
    rw [h.1]
    exact List.mem_cons_self hd tl



theorem detach_eq_self (m : Mem) (p : Nat) (hpv : (m p).prev = p) (hnx : (m p).next = p) :
    detachMem m p = fun c =>
      if c = p then { m p with magic := GRUB_MM_ALLOC_MAGIC } else m c := by
  unfold detachMem
  funext c
  by_cases h1 : c = p
  · subst h1
    rw [if_pos rfl]
    refine Header.extEq ?_ ?_ ?_ ?_ <;> simp [hpv, hnx]
  · rw [if_neg h1]
    refine Header.extEq ?_ ?_ ?_ ?_ <;> simp [hpv, hnx, h1]

theorem detach_eq_two (m : Mem) (p v : Nat) (hpv : (m p).prev = v) (hnx : (m p).next = v)
    (hv : v ≠ p) :
    detachMem m p = fun c =>
      if c = p then { m p with magic := GRUB_MM_ALLOC_MAGIC }
      else if c = v then { m v with prev := v, next := v }
      else m c := by
  unfold detachMem
  funext c
  by_cases h1 : c = p
  · subst h1
    rw [if_pos rfl]
    refine Header.extEq ?_ ?_ ?_ ?_ <;> simp [hpv, hnx, hv, Ne.symm hv]
  · rw [if_neg h1]
    by_cases h2 : c = v
    · subst h2
      rw [if_pos rfl]
      refine Header.extEq ?_ ?_ ?_ ?_ <;> simp [hpv, hnx, hv, Ne.symm hv]
    · rw [if_neg h2]
      refine Header.extEq ?_ ?_ ?_ ?_ <;> simp [hpv, hnx, h1, h2]

theorem detach_eq_gen (m : Mem) (p pv nx : Nat) (hpv : (m p).prev = pv)
    (hnx : (m p).next = nx) (h1 : pv ≠ p) (h2 : nx ≠ p) (h3 : pv ≠ nx) :
    detachMem m p = fun c =>
      if c = p then { m p with magic := GRUB_MM_ALLOC_MAGIC }
      else if c = pv then { m pv with next := nx }
      else if c = nx then { m nx with prev := pv }
      else m c := by
  unfold detachMem
  funext c
  by_cases hc1 : c = p
  · subst hc1
    rw [if_pos rfl]
    refine Header.extEq ?_ ?_ ?_ ?_ <;>
      simp [hpv, hnx, h1, h2, h3, Ne.symm h1, Ne.symm h2, Ne.symm h3]
  · rw [if_neg hc1]
    by_cases hc2 : c = pv
    · subst hc2
      rw [if_pos rfl]
      refine Header.extEq ?_ ?_ ?_ ?_ <;>
        simp [hpv, hnx, h1, h2, h3, Ne.symm h1, Ne.symm h2, Ne.symm h3]
    · rw [if_neg hc2]
      by_cases hc3 : c = nx
      · subst hc3
        rw [if_pos rfl]
        refine Header.extEq ?_ ?_ ?_ ?_ <;>
          simp [hpv, hnx, h1, h2, h3, Ne.symm h1, Ne.symm h2, Ne.symm h3]
      · rw [if_neg hc3]
        refine Header.extEq ?_ ?_ ?_ ?_ <;> simp [hpv, hnx, hc1, hc2, hc3]

theorem tailCarve_eq (m : Mem) (p n : Nat) (hn : 1 ≤ n) (hlt : n < (m p).size) :
    tailCarveMem m p n = fun c =>
      if c = p then { m p with size := (m p).size - n }
      else if c = p + ((m p).size - n) then
        { m (p + ((m p).size - n)) with size := n, magic := GRUB_MM_ALLOC_MAGIC }
      else m c := by
  unfold tailCarveMem
  have hp2 : p + ((m p).size - n) ≠ p := by omega
  funext c
  by_cases h1 : c = p
  · subst h1
    rw [if_pos rfl]
    refine Header.extEq ?_ ?_ ?_ ?_ <;> simp [hp2, Ne.symm hp2]
  · rw [if_neg h1]
    by_cases h2 : c = p + ((m p).size - n)
    · subst h2
      rw [if_pos rfl]
      refine Header.extEq ?_ ?_ ?_ ?_ <;> simp [hp2, Ne.symm hp2]
    · rw [if_neg h2]
      refine Header.extEq ?_ ?_ ?_ ?_ <;> simp [h1, h2]

theorem sorted_of_tiles_freeList {m : Mem} {start total : Nat} {B : List Nat}
    (ht : TilesFrom m start total B) :
    (freeList m B).Pairwise (fun a b => a < b) := by
  have h1 : B.Pairwise (fun a b => a < b) :=
    List.chain'_iff_pairwise.mp (tiles_sorted m ht)
  exact List.Pairwise.sublist (List.filter_sublist B) h1

theorem nodup_of_pairwise_lt {L : List Nat} (h : L.Pairwise (fun a b => a < b)) :
    L.Nodup :=
  h.imp (fun hab => by omega)

theorem freeList_append (m : Mem) (B1 B2 : List Nat) :
    freeList m (B1 ++ B2) = freeList m B1 ++ freeList m B2 := by
  unfold freeList
  exact List.filter_append B1 B2

theorem freeList_cons_free (m : Mem) (b : Nat) (B : List Nat)
    (h : (m b).magic = GRUB_MM_FREE_MAGIC) :
    freeList m (b :: B) = b :: freeList m B := by
  unfold freeList
  rw [List.filter_cons_of_pos (by simp [h])]

theorem freeList_cons_nonfree (m : Mem) (b : Nat) (B : List Nat)
    (h : (m b).magic ≠ GRUB_MM_FREE_MAGIC) :
    freeList m (b :: B) = freeList m B := by
  unfold freeList
  rw [List.filter_cons_of_neg (by simp [h])]



/-- Cyclic chain: adjacent pairs of `L` together with the wrap-around pair
satisfy `linkRel`. -/
def cycChain (m : Mem) (L : List Nat) : Prop :=
  List.Chain' (linkRel m) (L ++ L.take 1)

theorem ringShape_iff (m : Mem) (f : Nat) (L : List Nat) :
    RingShape m f L ↔ L ≠ [] ∧ f = L.headD 0 ∧ cycChain m L := by
  cases L with
  | nil => simp [RingShape, cycChain]
  | cons a rest =>
    show (f = a ∧ _) ↔ _
    unfold cycChain
    simp only [List.headD_cons, List.take_cons_succ, List.take_zero, ne_eq,
      List.cons_ne_nil, not_false_iff, true_and]

/-- Characterisation of a cyclic chain split into two nonempty arcs. -/
theorem cycChain_parts (m : Mem) (a b : Nat) (A B : List Nat) :
    cycChain m ((a :: A) ++ (b :: B)) ↔
      List.Chain' (linkRel m) (a :: A) ∧ List.Chain' (linkRel m) (b :: B) ∧
        linkRel m ((a :: A).getLast (List.cons_ne_nil a A)) b ∧
        linkRel m ((b :: B).getLast (List.cons_ne_nil b B)) a := by
  unfold cycChain
  have e1 : ((a :: A) ++ (b :: B)) ++ ((a :: A) ++ (b :: B)).take 1 =
      (a :: A) ++ ((b :: B) ++ [a]) := by simp
  rw [e1, List.chain'_append, List.chain'_append]
  have hga : (a :: A).getLast? = some ((a :: A).getLast (List.cons_ne_nil a A)) :=
    List.getLast?_eq_getLast _ _
  have hgb : (b :: B).getLast? = some ((b :: B).getLast (List.cons_ne_nil b B)) :=
    List.getLast?_eq_getLast _ _
  constructor
  · intro ⟨h1, ⟨h2, _, h3⟩, h4⟩
    refine ⟨h1, h2, ?_, ?_⟩
    · exact h4 _ (by rw [hga]; rfl) b (by simp)
    · exact h3 _ (by rw [hgb]; rfl) a (by simp)
  · intro ⟨h1, h2, h3, h4⟩
    refine ⟨h1, ⟨h2, by simp, ?_⟩, ?_⟩
    · intro x hx y hy
      rw [hgb] at hx
      simp only [Option.mem_some_iff] at hx
      simp only [List.head?_cons, Option.mem_some_iff] at hy
      subst hx
      subst hy
      exact h4
    · intro x hx y hy
      rw [hga] at hx
      simp only [Option.mem_some_iff] at hx
      subst hx
      have hy2 : b = y := by simpa using hy
      subst hy2
      exact h3

/-- A cyclic chain may be rotated. -/
theorem cycChain_swap (m : Mem) (A B : List Nat) (hA : A ≠ []) (hB : B ≠ []) :
    cycChain m (A ++ B) ↔ cycChain m (B ++ A) := by
  obtain ⟨a, A2, rfl⟩ := List.exists_cons_of_ne_nil hA
  obtain ⟨b, B2, rfl⟩ := List.exists_cons_of_ne_nil hB
  rw [cycChain_parts, cycChain_parts]
  tauto

/-- Any decomposition point of a cyclic chain can be brought to the front. -/
theorem cycChain_rotate (m : Mem) (LA LC : List Nat) (p : Nat) :
    cycChain m (LA ++ p :: LC) ↔ cycChain m (p :: (LC ++ LA)) := by
  cases hLA : LA with
  | nil => simp
  | cons x A2 =>
    rw [show (x :: A2) ++ p :: LC = (x :: A2) ++ (p :: LC) from rfl,
      cycChain_swap m (x :: A2) (p :: LC) (List.cons_ne_nil x A2) (List.cons_ne_nil p LC)]
    simp

theorem cycChain_singleton (m : Mem) (p : Nat) :
    cycChain m [p] ↔ (m p).next = p ∧ (m p).prev = p := by
  unfold cycChain
  simp [List.chain'_cons, linkRel]

theorem cycChain_cons_parts (m : Mem) (p : Nat) (M : List Nat) (hM : M ≠ []) :
    cycChain m (p :: M) ↔
      List.Chain' (linkRel m) M ∧
        linkRel m p (M.headD 0) ∧ linkRel m (M.getLast hM) p := by
  obtain ⟨x, M2, rfl⟩ := List.exists_cons_of_ne_nil hM
  rw [show p :: (x :: M2) = [p] ++ (x :: M2) from rfl, cycChain_parts]
  simp only [List.getLast_singleton, List.headD_cons, List.chain'_singleton, true_and]



theorem magic_free_ne_alloc : GRUB_MM_FREE_MAGIC ≠ GRUB_MM_ALLOC_MAGIC := by decide

theorem cycChain_of_chain (m : Mem) (M : List Nat) (hM : M ≠ [])
    (hchain : List.Chain' (linkRel m) M)
    (hwrap : linkRel m (M.getLast hM) (M.headD 0)) : cycChain m M := by
  obtain ⟨a, M2, rfl⟩ := List.exists_cons_of_ne_nil hM
  show List.Chain' (linkRel m) ((a :: M2) ++ [a])
  rw [List.chain'_append]
  refine ⟨hchain, by simp, ?_⟩
  intro x hx y hy
  rw [List.getLast?_eq_getLast _ (List.cons_ne_nil a M2)] at hx
  simp only [Option.mem_some_iff] at hx
  simp only [List.head?_cons, Option.mem_some_iff] at hy
  subst hx
  subst hy
  simpa using hwrap

theorem cycChain_destruct (m : Mem) (M : List Nat) (hM : M ≠ []) (h : cycChain m M) :
    List.Chain' (linkRel m) M ∧ linkRel m (M.getLast hM) (M.headD 0) := by
  obtain ⟨a, M2, rfl⟩ := List.exists_cons_of_ne_nil hM
  have h2 : List.Chain' (linkRel m) ((a :: M2) ++ [a]) := h
  rw [List.chain'_append] at h2
  obtain ⟨h3, _, h4⟩ := h2
  refine ⟨h3, ?_⟩
  have := h4 ((a :: M2).getLast (List.cons_ne_nil a M2))
    (by rw [List.getLast?_eq_getLast]; rfl) a (by simp)
  simpa using this

/-- What a successful carve guarantees: the invariant for the updated
region, the freshly allocated block, preservation of all previously
allocated blocks, and no writes outside the region's span. -/
def CarveOut (m : Mem) (r : Region) (B : List Nat) (m2 : Mem) (f2 pc : Nat) : Prop :=
  ∃ B2 bNew, pc = bNew + 1 ∧ inSpan r bNew ∧
    RegionB m2 { r with first := f2 } B2 ∧
    bNew ∈ B2 ∧ (m2 bNew).magic = GRUB_MM_ALLOC_MAGIC ∧
    ¬(bNew ∈ B ∧ (m bNew).magic = GRUB_MM_ALLOC_MAGIC) ∧
    (∀ b ∈ B, (m b).magic = GRUB_MM_ALLOC_MAGIC → b ∈ B2 ∧ m2 b = m b) ∧
    (∀ b ∈ B2, (m2 b).magic = GRUB_MM_ALLOC_MAGIC →
      b = bNew ∨ (b ∈ B ∧ (m b).magic = GRUB_MM_ALLOC_MAGIC ∧ m2 b = m b)) ∧
    (∀ c, ¬inSpan r c → m2 c = m c)



theorem nodup_parts {Bl Br : List Nat} {p : Nat} (h : (Bl ++ p :: Br).Nodup) :
    p ∉ Bl ∧ p ∉ Br :=
  ⟨fun hmem => (List.disjoint_of_nodup_append h) hmem (List.mem_cons_self p Br),
    (List.nodup_cons.mp (List.nodup_append.mp h).2.1).1⟩

theorem carve_detach_nosplit (m : Mem) (r : Region) (Bl Br : List Nat) (p : Nat)
    (hreg : RegionB m r (Bl ++ p :: Br))
    (hpF : (m p).magic = GRUB_MM_FREE_MAGIC) :
    CarveOut m r (Bl ++ p :: Br) (detachMem m p)
      (if p = r.first then (m p).next else r.first) (p + 1) := by
  obtain ⟨haddr, hsize, htiles, hmagics, hadj, hring⟩ := hreg
  have hfl : freeList m (Bl ++ p :: Br) = freeList m Bl ++ p :: freeList m Br := by
    rw [freeList_append, freeList_cons_free m p Br hpF]
  have hpL : p ∈ freeList m (Bl ++ p :: Br) := by
    rw [hfl]
    exact List.mem_append.mpr (.inr (List.mem_cons_self p _))
  have hsh : RingShape m r.first (freeList m (Bl ++ p :: Br)) := by
    rcases hring with ⟨h1, _, _⟩ | h2
    · rw [h1] at hpL
      simp at hpL
    · exact h2
  rw [ringShape_iff] at hsh
  obtain ⟨_, hVfirst, hVcyc⟩ := hsh
  rw [hfl] at hVfirst hVcyc
  rw [cycChain_rotate] at hVcyc
  have hndB : (Bl ++ p :: Br).Nodup := nodup_of_pairwise_lt
    (List.chain'_iff_pairwise.mp (tiles_sorted m htiles))
  obtain ⟨hpBl, hpBr⟩ := nodup_parts hndB
  have hpLA : p ∉ freeList m Bl := fun hm2 => hpBl (freeList_subset p hm2)
  have hpLC : p ∉ freeList m Br := fun hm2 => hpBr (freeList_subset p hm2)
  have hBspan : ∀ b ∈ Bl ++ p :: Br, inSpan r b := fun b hb => by
    have := tiles_bounds m htiles b hb
    exact ⟨this.1, this.2⟩
  have hpB : p ∈ Bl ++ p :: Br := List.mem_append.mpr (.inr (List.mem_cons_self p Br))
  by_cases hMnil : freeList m Br ++ freeList m Bl = []
  · -- the ring was the singleton [p]
    have hLAnil : freeList m Bl = [] := (List.append_eq_nil.mp hMnil).2
    have hLCnil : freeList m Br = [] := (List.append_eq_nil.mp hMnil).1
    rw [hMnil] at hVcyc
    have hsing := (cycChain_singleton m p).mp hVcyc
    have hfirstp : r.first = p := by
      rw [hVfirst, hLAnil]
      rfl
    have hf2 : (if p = r.first then (m p).next else r.first) = p := by
      rw [if_pos hfirstp.symm, hsing.1]
    have hmd := detach_eq_self m p hsing.2 hsing.1
    rw [hmd, hf2]
    refine ⟨Bl ++ p :: Br, p, rfl, hBspan p hpB, ?_, hpB, by simp, ?_, ?_, ?_, ?_⟩
    · -- RegionB
      refine ⟨haddr, hsize, ?_, ?_, ?_, ?_⟩
      · refine tiles_congr ?_ htiles
        intro b _
        by_cases hbp : b = p <;> simp [hbp]
      · intro b hb
        by_cases hbp : b = p
        · subst hbp
          simp
        · simp only [if_neg hbp]
          exact hmagics b hb
      · refine chain'_imp_mem ?_ hadj
        intro a _ b _ hab hcon
        by_cases hap : a = p
        · rw [hap] at hcon
          simp at hcon
          exact absurd hcon.1 (by decide)
        · by_cases hbp : b = p
          · rw [hbp] at hcon
            simp at hcon
            exact absurd hcon.2 (by decide)
          · simp only [if_neg hap, if_neg hbp] at hcon
            exact hab hcon
      · left
        refine ⟨?_, by simp, hpB⟩
        unfold freeList
        rw [List.filter_eq_nil]
        intro b hb
        by_cases hbp : b = p
        · simp [hbp]
          decide
        · simp only [if_neg hbp, decide_eq_true_eq]
          intro hbf
          rcases List.mem_append.mp hb with h1 | h1
          · have : b ∈ freeList m Bl := List.mem_filter.mpr ⟨h1, by simp [hbf]⟩
            rw [hLAnil] at this
            simp at this
          · rcases List.mem_cons.mp h1 with h2 | h2
            · exact hbp h2
            · have : b ∈ freeList m Br := List.mem_filter.mpr ⟨h2, by simp [hbf]⟩
              rw [hLCnil] at this
              simp at this
    · intro ⟨_, hcon⟩
      rw [hpF] at hcon
      exact magic_free_ne_alloc hcon
    · intro b hb hbA
      have hbp : b ≠ p := fun he => by
        rw [he, hpF] at hbA
        exact magic_free_ne_alloc hbA
      exact ⟨hb, by simp [hbp]⟩
    · intro b hb hbA
      by_cases hbp : b = p
      · exact .inl hbp
      · simp only [if_neg hbp] at hbA
        exact .inr ⟨hb, hbA, by simp [hbp]⟩
    · intro c hc
      have hcp : c ≠ p := fun he => hc (he ▸ hBspan p hpB)
      simp [hcp]
  · -- the ring had other nodes
    have hcp := (cycChain_cons_parts m p _ hMnil).mp hVcyc
    obtain ⟨hchainM, hlink1, hlink2⟩ := hcp
    set M := freeList m Br ++ freeList m Bl with hM
    set nx := M.headD 0 with hnxd
    set pv := M.getLast hMnil with hpvd
    have hnxM : nx ∈ M := by
      obtain ⟨a, M2, hM2⟩ := List.exists_cons_of_ne_nil hMnil
      rw [hnxd, hM2]
      exact List.mem_cons_self a M2
    have hpvM : pv ∈ M := List.getLast_mem hMnil
    have hpM : p ∉ M := by
      intro h
      rcases List.mem_append.mp h with h1 | h1
      · exact hpLC h1
      · exact hpLA h1
    have hMfree : ∀ x ∈ M, (m x).magic = GRUB_MM_FREE_MAGIC := by
      intro x hx
      rcases List.mem_append.mp hx with h1 | h1
      · exact freeList_magic x h1
      · exact freeList_magic x h1
    have hMB : ∀ x ∈ M, x ∈ Bl ++ p :: Br := by
      intro x hx
      rcases List.mem_append.mp hx with h1 | h1
      · exact List.mem_append.mpr (.inr (List.mem_cons_of_mem p (freeList_subset x h1)))
      · exact List.mem_append.mpr (.inl (freeList_subset x h1))
    have hnxp : nx ≠ p := fun he => hpM (he ▸ hnxM)
    have hpvp : pv ≠ p := fun he => hpM (he ▸ hpvM)
    have hprev : (m p).prev = pv := hlink2.2
    have hnext : (m p).next = nx := hlink1.1
    have hnxprev : (m nx).prev = p := hlink1.2
    have hpvnext : (m pv).next = p := hlink2.1
    have hmd2 : detachMem m p = setMagic (setPrev (setNext m pv nx) nx pv) p
        GRUB_MM_ALLOC_MAGIC := by
      unfold detachMem
      rw [hprev, hnext]
      rw [show ((setNext m pv nx) p).next = nx from by simp [hnext],
        show ((setNext m pv nx) p).prev = pv from by simp [hprev]]
    have F1 : ∀ c, ((detachMem m p) c).size = (m c).size := by
      intro c
      rw [hmd2]
      simp
    have F2 : ∀ c, ((detachMem m p) c).magic =
        if c = p then GRUB_MM_ALLOC_MAGIC else (m c).magic := by
      intro c
      rw [hmd2]
      by_cases h1 : c = p <;> simp [h1]
    have F3 : ∀ c, ((detachMem m p) c).next = if c = pv then nx else (m c).next := by
      intro c
      rw [hmd2]
      by_cases h1 : c = pv <;> simp [h1]
    have F4 : ∀ c, ((detachMem m p) c).prev = if c = nx then pv else (m c).prev := by
      intro c
      rw [hmd2]
      by_cases h1 : c = nx <;> simp [h1]
    have F7 : ∀ c, c ≠ p → c ≠ pv → c ≠ nx → (detachMem m p) c = m c := by
      intro c h1 h2 h3
      refine Header.extEq ?_ ?_ ?_ ?_
      · rw [F4, if_neg h3]
      · rw [F3, if_neg h2]
      · exact F1 c
      · rw [F2, if_neg h1]
    have e1 : freeList (detachMem m p) Bl = freeList m Bl := by
      refine freeList_congr ?_
      intro b hb
      rw [F2, if_neg ?_]
      intro he
      exact hpBl (he ▸ hb)
    have e2 : freeList (detachMem m p) Br = freeList m Br := by
      refine freeList_congr ?_
      intro b hb
      rw [F2, if_neg ?_]
      intro he
      exact hpBr (he ▸ hb)
    have hflmd : freeList (detachMem m p) (Bl ++ p :: Br) =
        freeList m Bl ++ freeList m Br := by
      rw [freeList_append, freeList_cons_nonfree _ p Br (by rw [F2, if_pos rfl]; decide),
        e1, e2]
    have hLALC : freeList m Bl ++ freeList m Br ≠ [] := by
      intro hcon
      exact hMnil (by
        rw [hM, (List.append_eq_nil.mp hcon).2, (List.append_eq_nil.mp hcon).1]
        rfl)
    refine ⟨Bl ++ p :: Br, p, rfl, hBspan p hpB, ?_, hpB, by rw [F2, if_pos rfl], ?_, ?_, ?_, ?_⟩
    · refine ⟨haddr, hsize, ?_, ?_, ?_, ?_⟩
      · exact tiles_congr (fun b _ => F1 b) htiles
      · intro b hb
        rw [F2]
        by_cases hbp : b = p
        · simp [hbp]
        · simp only [if_neg hbp]
          exact hmagics b hb
      · refine chain'_imp_mem ?_ hadj
        intro a _ b _ hab hcon
        rw [F2, F2] at hcon
        by_cases hap : a = p
        · rw [if_pos hap] at hcon
          exact absurd hcon.1 (by decide)
        · by_cases hbp : b = p
          · rw [if_pos hbp] at hcon
            exact absurd hcon.2 (by decide)
          · rw [if_neg hap, if_neg hbp] at hcon
            exact hab hcon
      · right
        rw [hflmd]
        rw [ringShape_iff]
        refine ⟨hLALC, ?_, ?_⟩
        · -- first value
          cases hLAe : freeList m Bl with
          | nil =>
            have hfirstp : r.first = p := by
              rw [hVfirst, hLAe]
              rfl
            rw [if_pos hfirstp.symm, hnext]
            show nx = ([] ++ freeList m Br).headD 0
            rw [hnxd, hM, hLAe]
            simp
          | cons a A2 =>
            have hfirsta : r.first = a := by
              rw [hVfirst, hLAe]
              rfl
            have hpa : p ≠ a := by
              intro he
              exact hpLA (by rw [hLAe, he]; exact List.mem_cons_self a A2)
            rw [if_neg (by rw [hfirsta]; exact hpa), hfirsta]
            rfl
        · -- cyclic chain on the erased ring
          have hchainNew : List.Chain' (linkRel (detachMem m p)) M := by
            refine chain'_imp_mem ?_ hchainM
            intro a ha b hb hab
            constructor
            · rw [F3]
              by_cases hapv : a = pv
              · exfalso
                have hbp2 : b = p := by
                  rw [hapv] at hab
                  rw [← hab.1, hpvnext]
                exact hpM (hbp2 ▸ hb)
              · rw [if_neg hapv]
                exact hab.1
            · rw [F4]
              by_cases hbnx : b = nx
              · exfalso
                have hap2 : a = p := by
                  rw [hbnx] at hab
                  rw [← hab.2, hnxprev]
                exact hpM (hap2 ▸ ha)
              · rw [if_neg hbnx]
                exact hab.2
          have hwrap : linkRel (detachMem m p) (M.getLast hMnil) (M.headD 0) := by
            constructor
            · rw [F3, if_pos rfl]
            · rw [F4, if_pos rfl]
          have hcycM : cycChain (detachMem m p) M := cycChain_of_chain _ M hMnil hchainNew hwrap
          rw [hM] at hcycM
          cases hLAe : freeList m Bl with
          | nil =>
            rw [hLAe] at hcycM
            simpa [hLAe] using hcycM
          | cons a A2 =>
            cases hLCe : freeList m Br with
            | nil =>
              rw [hLCe, hLAe] at hcycM
              simpa using hcycM
            | cons c C2 =>
              rw [hLAe, hLCe] at hcycM
              exact (cycChain_swap _ _ _ (List.cons_ne_nil c C2) (List.cons_ne_nil a A2)).mp hcycM
    · intro ⟨_, hcon⟩
      rw [hpF] at hcon
      exact magic_free_ne_alloc hcon
    · intro b hb hbA
      have hbp : b ≠ p := fun he => by
        rw [he, hpF] at hbA
        exact magic_free_ne_alloc hbA
      have hbpv : b ≠ pv := fun he => by
        rw [he, hMfree pv hpvM] at hbA
        exact magic_free_ne_alloc hbA
      have hbnx : b ≠ nx := fun he => by
        rw [he, hMfree nx hnxM] at hbA
        exact magic_free_ne_alloc hbA
      exact ⟨hb, F7 b hbp hbpv hbnx⟩
    · intro b hb hbA
      by_cases hbp : b = p
      · exact .inl hbp
      · rw [F2, if_neg hbp] at hbA
        have hbpv : b ≠ pv := fun he => by
          rw [he, hMfree pv hpvM] at hbA
          exact magic_free_ne_alloc hbA
        have hbnx : b ≠ nx := fun he => by
          rw [he, hMfree nx hnxM] at hbA
          exact magic_free_ne_alloc hbA
        exact .inr ⟨hb, hbA, F7 b hbp hbpv hbnx⟩
    · intro c hc
      have hcp : c ≠ p := fun he => hc (he ▸ hBspan p hpB)
      have hcpv : c ≠ pv := fun he => hc (he ▸ hBspan pv (hMB pv hpvM))
      have hcnx : c ≠ nx := fun he => hc (he ▸ hBspan nx (hMB nx hnxM))
      exact F7 c hcp hcpv hcnx

/-- Tile, magic, adjacency and free-list bookkeeping shared by the two ring
shapes of the exact-want carve with a real split: the block at `p` is cut
to `n` cells and turned ALLOC, the remainder at `p + n` becomes a FREE
block. -/
theorem detachSplit_common (m M2 : Mem) (r : Region) (Bl Br : List Nat) (p n : Nat)
    (htiles : TilesFrom m (startCell r) (totalCells r) (Bl ++ p :: Br))
    (hmagics : ∀ b ∈ Bl ++ p :: Br,
      (m b).magic = GRUB_MM_FREE_MAGIC ∨ (m b).magic = GRUB_MM_ALLOC_MAGIC)
    (hadj : List.Chain' (fun a b =>
      ¬((m a).magic = GRUB_MM_FREE_MAGIC ∧ (m b).magic = GRUB_MM_FREE_MAGIC))
      (Bl ++ p :: Br))
    (hpF : (m p).magic = GRUB_MM_FREE_MAGIC)
    (hn1 : 1 ≤ n) (hlt : n < (m p).size)
    (F1 : ∀ c, (M2 c).size =
      if c = p then n else if c = p + n then (m p).size - n else (m c).size)
    (F2 : ∀ c, (M2 c).magic =
      if c = p then GRUB_MM_ALLOC_MAGIC
      else if c = p + n then GRUB_MM_FREE_MAGIC else (m c).magic) :
    TilesFrom M2 (startCell r) (totalCells r) (Bl ++ p :: (p + n) :: Br) ∧
      (∀ b ∈ Bl ++ p :: (p + n) :: Br,
        (M2 b).magic = GRUB_MM_FREE_MAGIC ∨ (M2 b).magic = GRUB_MM_ALLOC_MAGIC) ∧
      List.Chain' (fun a b =>
        ¬((M2 a).magic = GRUB_MM_FREE_MAGIC ∧ (M2 b).magic = GRUB_MM_FREE_MAGIC))
        (Bl ++ p :: (p + n) :: Br) ∧
      freeList M2 (Bl ++ p :: (p + n) :: Br) =
        freeList m Bl ++ (p + n) :: freeList m Br := by
  have hndB : (Bl ++ p :: Br).Nodup := nodup_of_pairwise_lt
    (List.chain'_iff_pairwise.mp (tiles_sorted m htiles))
  obtain ⟨hpBl, hpBr⟩ := nodup_parts hndB
  have hqB : p + n ∉ Bl ++ p :: Br :=
    tiles_interior_not_mem m htiles (by omega) (by omega)
  have hqBl : p + n ∉ Bl := fun hm2 => hqB (List.mem_append.mpr (.inl hm2))
  have hqBr : p + n ∉ Br :=
    fun hm2 => hqB (List.mem_append.mpr (.inr (List.mem_cons_of_mem p hm2)))
  have hqp : p + n ≠ p := by omega
  obtain ⟨t1, ht1le, hBlT, hmidT⟩ := tiles_decomp m Bl htiles
  obtain ⟨hpstart, hps1, hpsle, hBrT⟩ := hmidT
  have hF1p : (M2 p).size = n := by
    rw [F1]
    simp
  have hF1q : (M2 (p + n)).size = (m p).size - n := by
    rw [F1]
    simp [hqp, show n ≠ 0 by omega]
  have hF2p : (M2 p).magic = GRUB_MM_ALLOC_MAGIC := by
    rw [F2]
    simp
  have hF2q : (M2 (p + n)).magic = GRUB_MM_FREE_MAGIC := by
    rw [F2]
    simp [hqp, show n ≠ 0 by omega]
  have e1 : freeList M2 Bl = freeList m Bl := by
    refine freeList_congr ?_
    intro b hb
    have h1 : b ≠ p := fun he => hpBl (he ▸ hb)
    have h2 : b ≠ p + n := fun he => hqBl (he ▸ hb)
    rw [F2, if_neg h1, if_neg h2]
  have e2 : freeList M2 Br = freeList m Br := by
    refine freeList_congr ?_
    intro b hb
    have h1 : b ≠ p := fun he => hpBr (he ▸ hb)
    have h2 : b ≠ p + n := fun he => hqBr (he ▸ hb)
    rw [F2, if_neg h1, if_neg h2]
  refine ⟨?_, ?_, ?_, ?_⟩
  · have e : totalCells r = t1 + (totalCells r - t1) := by omega
    rw [e]
    refine tiles_recomb _ Bl ?_ ?_
    · refine tiles_congr ?_ hBlT
      intro b hb
      rw [F1]
      simp [show b ≠ p from fun he => hpBl (he ▸ hb),
        show b ≠ p + n from fun he => hqBl (he ▸ hb)]
    · refine ⟨hpstart, ?_, ?_, ?_⟩
      · rw [hF1p]
        omega
      · rw [hF1p]
        omega
      · rw [hF1p]
        refine ⟨by omega, ?_, ?_, ?_⟩
        · rw [hF1q]
          omega
        · rw [hF1q]
          omega
        · rw [hF1q]
          have e2a : startCell r + t1 + n + ((m p).size - n)
              = startCell r + t1 + (m p).size := by omega
          have e3a : totalCells r - t1 - n - ((m p).size - n)
              = totalCells r - t1 - (m p).size := by omega
          rw [e2a, e3a]
          refine tiles_congr ?_ hBrT
          intro b hb
          rw [F1]
          simp [show b ≠ p from fun he => hpBr (he ▸ hb),
            show b ≠ p + n from fun he => hqBr (he ▸ hb)]
  · intro b hb
    rw [F2]
    by_cases h1 : b = p
    · simp [h1]
    · by_cases h2 : b = p + n
      · simp [h1, h2, show n ≠ 0 by omega]
      · simp only [if_neg h1, if_neg h2]
        refine hmagics b ?_
        rcases List.mem_append.mp hb with h3 | h3
        · exact List.mem_append.mpr (.inl h3)
        · rcases List.mem_cons.mp h3 with h4 | h4
          · exact List.mem_append.mpr (.inr (by rw [h4]; exact List.mem_cons_self p Br))
          · rcases List.mem_cons.mp h4 with h5 | h5
            · exact absurd h5 h2
            · exact List.mem_append.mpr (.inr (List.mem_cons_of_mem p h5))
  · obtain ⟨hcBl, hcPBr, hjoin⟩ := List.chain'_append.mp hadj
    obtain ⟨hpHead, hcBr⟩ := List.chain'_cons'.mp hcPBr
    rw [List.chain'_append]
    refine ⟨?_, ?_, ?_⟩
    · refine chain'_imp_mem ?_ hcBl
      intro a ha b hb hab hcon
      have ha1 : a ≠ p := fun he => hpBl (he ▸ ha)
      have ha2 : a ≠ p + n := fun he => hqBl (he ▸ ha)
      have hb1 : b ≠ p := fun he => hpBl (he ▸ hb)
      have hb2 : b ≠ p + n := fun he => hqBl (he ▸ hb)
      rw [F2, F2] at hcon
      rw [if_neg ha1, if_neg ha2, if_neg hb1, if_neg hb2] at hcon
      exact hab hcon
    · rw [List.chain'_cons]
      refine ⟨?_, ?_⟩
      · intro hcon
        have h := hcon.1
        rw [hF2p] at h
        exact absurd h (by decide)
      · rw [List.chain'_cons']
        refine ⟨?_, ?_⟩
        · intro y hy hcon
          have hyBr : y ∈ Br := List.mem_of_mem_head? hy
          have hy1 : y ≠ p := fun he => hpBr (he ▸ hyBr)
          have hy2 : y ≠ p + n := fun he => hqBr (he ▸ hyBr)
          have h := hcon.2
          rw [F2, if_neg hy1, if_neg hy2] at h
          exact hpHead y hy ⟨hpF, h⟩
        · refine chain'_imp_mem ?_ hcBr
          intro a ha b hb hab hcon
          have ha1 : a ≠ p := fun he => hpBr (he ▸ ha)
          have ha2 : a ≠ p + n := fun he => hqBr (he ▸ ha)
          have hb1 : b ≠ p := fun he => hpBr (he ▸ hb)
          have hb2 : b ≠ p + n := fun he => hqBr (he ▸ hb)
          rw [F2, F2] at hcon
          rw [if_neg ha1, if_neg ha2, if_neg hb1, if_neg hb2] at hcon
          exact hab hcon
    · intro x hx y hy
      have hy2 : p = y := by simpa using hy
      intro hcon
      have h := hcon.2
      rw [← hy2, hF2p] at h
      exact absurd h (by decide)
  · rw [freeList_append, freeList_cons_nonfree _ p _ (by rw [hF2p]; decide),
      freeList_cons_free _ (p + n) Br hF2q, e1, e2]

/-- Ring surgery of the exact-want branch of `grub_real_malloc` when
`split_chunk` really splits: the candidate `p` is cut to `n` cells, the
remainder at `p + n` becomes a FREE block taking `p`'s place in the ring,
and `p` is detached as the allocated block. -/
theorem carve_detach_split (m : Mem) (r : Region) (Bl Br : List Nat) (p n : Nat)
    (hreg : RegionB m r (Bl ++ p :: Br))
    (hpF : (m p).magic = GRUB_MM_FREE_MAGIC)
    (hn1 : 1 ≤ n) (hlt : n < (m p).size) :
    CarveOut m r (Bl ++ p :: Br) (detachMem (split_chunk m p n) p)
      (if p = r.first then ((split_chunk m p n) p).next else r.first) (p + 1) := by
  obtain ⟨haddr, hsize, htiles, hmagics, hadj, hring⟩ := hreg
  have hfl : freeList m (Bl ++ p :: Br) = freeList m Bl ++ p :: freeList m Br := by
    rw [freeList_append, freeList_cons_free m p Br hpF]
  have hpL : p ∈ freeList m (Bl ++ p :: Br) := by
    rw [hfl]
    exact List.mem_append.mpr (.inr (List.mem_cons_self p _))
  have hsh : RingShape m r.first (freeList m (Bl ++ p :: Br)) := by
    rcases hring with ⟨h1, _, _⟩ | h2
    · rw [h1] at hpL
      simp at hpL
    · exact h2
  rw [ringShape_iff] at hsh
  obtain ⟨_, hVfirst, hVcyc⟩ := hsh
  rw [hfl] at hVfirst hVcyc
  rw [cycChain_rotate] at hVcyc
  have hndB : (Bl ++ p :: Br).Nodup := nodup_of_pairwise_lt
    (List.chain'_iff_pairwise.mp (tiles_sorted m htiles))
  obtain ⟨hpBl, hpBr⟩ := nodup_parts hndB
  have hpLA : p ∉ freeList m Bl := fun hm2 => hpBl (freeList_subset p hm2)
  have hpLC : p ∉ freeList m Br := fun hm2 => hpBr (freeList_subset p hm2)
  have hBspan : ∀ b ∈ Bl ++ p :: Br, inSpan r b := fun b hb => by
    have := tiles_bounds m htiles b hb
    exact ⟨this.1, this.2⟩
  have hpB : p ∈ Bl ++ p :: Br := List.mem_append.mpr (.inr (List.mem_cons_self p Br))
  have hqB : p + n ∉ Bl ++ p :: Br :=
    tiles_interior_not_mem m htiles (by omega) (by omega)
  have hqBl : p + n ∉ Bl := fun hm2 => hqB (List.mem_append.mpr (.inl hm2))
  have hqBr : p + n ∉ Br :=
    fun hm2 => hqB (List.mem_append.mpr (.inr (List.mem_cons_of_mem p hm2)))
  have hqp : p + n ≠ p := by omega
  have hn0 : n ≠ 0 := by omega
  have hqspan : inSpan r (p + n) := by
    obtain ⟨t1, ht1le, hBlT, hmidT⟩ := tiles_decomp m Bl htiles
    obtain ⟨hpstart, hps1, hpsle, hBrT⟩ := hmidT
    obtain ⟨h1, _⟩ := hBspan p hpB
    exact ⟨by omega, show p + n < startCell r + totalCells r by omega⟩
  have hB2mem : ∀ b ∈ Bl ++ p :: Br, b ∈ Bl ++ p :: (p + n) :: Br := by
    intro b hb
    rcases List.mem_append.mp hb with h1 | h1
    · exact List.mem_append.mpr (.inl h1)
    · rcases List.mem_cons.mp h1 with h2 | h2
      · exact List.mem_append.mpr (.inr (by rw [h2]; exact List.mem_cons_self _ _))
      · exact List.mem_append.mpr
          (.inr (List.mem_cons_of_mem _ (List.mem_cons_of_mem _ h2)))
  have hB2memR : ∀ b ∈ Bl ++ p :: (p + n) :: Br, b ≠ p + n → b ∈ Bl ++ p :: Br := by
    intro b hb hbq
    rcases List.mem_append.mp hb with h1 | h1
    · exact List.mem_append.mpr (.inl h1)
    · rcases List.mem_cons.mp h1 with h2 | h2
      · exact List.mem_append.mpr (.inr (by rw [h2]; exact List.mem_cons_self p Br))
      · rcases List.mem_cons.mp h2 with h3 | h3
        · exact absurd h3 hbq
        · exact List.mem_append.mpr (.inr (List.mem_cons_of_mem p h3))
  by_cases hMnil : freeList m Br ++ freeList m Bl = []
  · -- the ring was the singleton [p]
    have hLAnil : freeList m Bl = [] := (List.append_eq_nil.mp hMnil).2
    have hLCnil : freeList m Br = [] := (List.append_eq_nil.mp hMnil).1
    rw [hMnil] at hVcyc
    have hsing := (cycChain_singleton m p).mp hVcyc
    have hfirstp : r.first = p := by
      rw [hVfirst, hLAnil]
      rfl
    have hm1 := split_chunk_eq_self m p n hlt hn1 hsing.1
    have hm1p : (split_chunk m p n) p
        = { m p with prev := p + n, next := p + n, size := n } := by
      rw [hm1]
      simp
    have hm1q : (split_chunk m p n) (p + n)
        = ⟨p, p, (m p).size - n, GRUB_MM_FREE_MAGIC⟩ := by
      rw [hm1]
      simp [hqp, hn0]
    have hP : ((split_chunk m p n) p).prev = p + n := by rw [hm1p]
    have hN : ((split_chunk m p n) p).next = p + n := by rw [hm1p]
    have hm2 := detach_eq_two (split_chunk m p n) p (p + n) hP hN hqp
    have F1 : ∀ c, ((detachMem (split_chunk m p n) p) c).size =
        if c = p then n else if c = p + n then (m p).size - n else (m c).size := by
      intro c
      simp only [hm2]
      by_cases h1 : c = p
      · rw [if_pos h1]
        show ((split_chunk m p n) p).size = _
        rw [hm1p]
        simp [h1]
      · rw [if_neg h1]
        by_cases h2 : c = p + n
        · rw [if_pos h2]
          show ((split_chunk m p n) (p + n)).size = _
          rw [hm1q]
          simp [h1, h2, hn0]
        · rw [if_neg h2, hm1]
          simp [h1, h2]
    have F2 : ∀ c, ((detachMem (split_chunk m p n) p) c).magic =
        if c = p then GRUB_MM_ALLOC_MAGIC
        else if c = p + n then GRUB_MM_FREE_MAGIC else (m c).magic := by
      intro c
      simp only [hm2]
      by_cases h1 : c = p
      · rw [if_pos h1]
        simp [h1]
      · rw [if_neg h1]
        by_cases h2 : c = p + n
        · rw [if_pos h2]
          show ((split_chunk m p n) (p + n)).magic = _
          rw [hm1q]
          simp [h1, h2, hn0]
        · rw [if_neg h2, hm1]
          simp [h1, h2]
    have F3 : ∀ c, ((detachMem (split_chunk m p n) p) c).next =
        if c = p then p + n else if c = p + n then p + n else (m c).next := by
      intro c
      simp only [hm2]
      by_cases h1 : c = p
      · rw [if_pos h1]
        show ((split_chunk m p n) p).next = _
        rw [hm1p]
        simp [h1]
      · rw [if_neg h1]
        by_cases h2 : c = p + n
        · rw [if_pos h2]
          simp [h1, h2, hn0]
        · rw [if_neg h2, hm1]
          simp [h1, h2]
    have F4 : ∀ c, ((detachMem (split_chunk m p n) p) c).prev =
        if c = p then p + n else if c = p + n then p + n else (m c).prev := by
      intro c
      simp only [hm2]
      by_cases h1 : c = p
      · rw [if_pos h1]
        show ((split_chunk m p n) p).prev = _
        rw [hm1p]
        simp [h1]
      · rw [if_neg h1]
        by_cases h2 : c = p + n
        · rw [if_pos h2]
          simp [h1, h2, hn0]
        · rw [if_neg h2, hm1]
          simp [h1, h2]
    have F7 : ∀ c, c ≠ p → c ≠ p + n → (detachMem (split_chunk m p n) p) c = m c := by
      intro c h1 h2
      refine Header.extEq ?_ ?_ ?_ ?_
      · rw [F4]
        simp [h1, h2]
      · rw [F3]
        simp [h1, h2]
      · rw [F1]
        simp [h1, h2]
      · rw [F2]
        simp [h1, h2]
    have hF2p : ((detachMem (split_chunk m p n) p) p).magic = GRUB_MM_ALLOC_MAGIC := by
      rw [F2]
      simp
    have hcommon := detachSplit_common m (detachMem (split_chunk m p n) p) r Bl Br p n
      htiles hmagics hadj hpF hn1 hlt F1 F2
    refine ⟨Bl ++ p :: (p + n) :: Br, p, rfl, hBspan p hpB, ?_, hB2mem p hpB, hF2p,
      ?_, ?_, ?_, ?_⟩
    · refine ⟨haddr, hsize, hcommon.1, hcommon.2.1, hcommon.2.2.1, ?_⟩
      right
      rw [hcommon.2.2.2, ringShape_iff]
      refine ⟨by simp, ?_, ?_⟩
      · show (if p = r.first then ((split_chunk m p n) p).next else r.first)
          = (freeList m Bl ++ (p + n) :: freeList m Br).headD 0
        rw [if_pos hfirstp.symm, hN, hLAnil]
        rfl
      · rw [hLAnil, hLCnil]
        have hq1 : cycChain (detachMem (split_chunk m p n) p) [p + n] :=
          (cycChain_singleton _ _).mpr
            ⟨by rw [F3]; simp [hqp], by rw [F4]; simp [hqp]⟩
        simpa using hq1
    · intro hcon
      have h := hcon.2
      rw [hpF] at h
      exact magic_free_ne_alloc h
    · intro b hb hbA
      have hbp : b ≠ p := fun he => by
        rw [he, hpF] at hbA
        exact magic_free_ne_alloc hbA
      have hbq : b ≠ p + n := fun he => hqB (he ▸ hb)
      exact ⟨hB2mem b hb, F7 b hbp hbq⟩
    · intro b hb hbA
      by_cases hbp : b = p
      · exact .inl hbp
      · rw [F2, if_neg hbp] at hbA
        by_cases hbq : b = p + n
        · rw [if_pos hbq] at hbA
          exact absurd hbA (by decide)
        · rw [if_neg hbq] at hbA
          exact .inr ⟨hB2memR b hb hbq, hbA, F7 b hbp hbq⟩
    · intro c hc
      have hcp : c ≠ p := fun he => hc (he ▸ hBspan p hpB)
      have hcq : c ≠ p + n := fun he => hc (he ▸ hqspan)
      exact F7 c hcp hcq
  · -- the ring had other nodes
    have hcp := (cycChain_cons_parts m p _ hMnil).mp hVcyc
    obtain ⟨hchainM, hlink1, hlink2⟩ := hcp
    set M := freeList m Br ++ freeList m Bl with hM
    set nx := M.headD 0 with hnxd
    set pv := M.getLast hMnil with hpvd
    have hnxM : nx ∈ M := by
      obtain ⟨a, M2, hM2⟩ := List.exists_cons_of_ne_nil hMnil
      rw [hnxd, hM2]
      exact List.mem_cons_self a M2
    have hpvM : pv ∈ M := List.getLast_mem hMnil
    have hpM : p ∉ M := by
      intro h
      rcases List.mem_append.mp h with h1 | h1
      · exact hpLC h1
      · exact hpLA h1
    have hMfree : ∀ x ∈ M, (m x).magic = GRUB_MM_FREE_MAGIC := by
      intro x hx
      rcases List.mem_append.mp hx with h1 | h1
      · exact freeList_magic x h1
      · exact freeList_magic x h1
    have hMB : ∀ x ∈ M, x ∈ Bl ++ p :: Br := by
      intro x hx
      rcases List.mem_append.mp hx with h1 | h1
      · exact List.mem_append.mpr (.inr (List.mem_cons_of_mem p (freeList_subset x h1)))
      · exact List.mem_append.mpr (.inl (freeList_subset x h1))
    have hqM : p + n ∉ M := fun h => hqB (hMB _ h)
    have hnxp : nx ≠ p := fun he => hpM (he ▸ hnxM)
    have hpvp : pv ≠ p := fun he => hpM (he ▸ hpvM)
    have hnxq : nx ≠ p + n := fun he => hqM (he ▸ hnxM)
    have hpvq : pv ≠ p + n := fun he => hqM (he ▸ hpvM)
    have hprev : (m p).prev = pv := hlink2.2
    have hnext : (m p).next = nx := hlink1.1
    have hnxprev : (m nx).prev = p := hlink1.2
    have hpvnext : (m pv).next = p := hlink2.1
    have hm1 := split_chunk_eq m p n nx hlt hn1 hnext hnxp hnxq
    have hm1p : (split_chunk m p n) p = { m p with next := p + n, size := n } := by
      rw [hm1]
      simp
    have hm1q : (split_chunk m p n) (p + n)
        = ⟨p, nx, (m p).size - n, GRUB_MM_FREE_MAGIC⟩ := by
      rw [hm1]
      simp [hqp, hn0]
    have hP : ((split_chunk m p n) p).prev = pv := by
      rw [hm1p]
      exact hprev
    have hN : ((split_chunk m p n) p).next = p + n := by rw [hm1p]
    have hm2 := detach_eq_gen (split_chunk m p n) p pv (p + n) hP hN hpvp hqp hpvq
    have G1 : ∀ c, ((split_chunk m p n) c).size =
        if c = p then n else if c = p + n then (m p).size - n else (m c).size := by
      intro c
      simp only [hm1]
      by_cases h1 : c = p
      · simp only [h1]
        simp [hqp, Ne.symm hqp, hn0]
      · by_cases h2 : c = p + n
        · simp only [h2]
          simp [hqp, hn0]
        · by_cases h3 : c = nx
          · simp only [h3]
            simp [hnxp, hnxq]
          · simp [h1, h2, h3]
    have G2 : ∀ c, ((split_chunk m p n) c).magic =
        if c = p + n then GRUB_MM_FREE_MAGIC else (m c).magic := by
      intro c
      simp only [hm1]
      by_cases h1 : c = p
      · simp only [h1]
        simp [hqp, Ne.symm hqp, hn0]
      · by_cases h2 : c = p + n
        · simp only [h2]
          simp [hqp, hn0]
        · by_cases h3 : c = nx
          · simp only [h3]
            simp [hnxp, hnxq]
          · simp [h1, h2, h3]
    have G3 : ∀ c, ((split_chunk m p n) c).next =
        if c = p then p + n else if c = p + n then nx else (m c).next := by
      intro c
      simp only [hm1]
      by_cases h1 : c = p
      · simp only [h1]
        simp [hqp, Ne.symm hqp, hn0]
      · by_cases h2 : c = p + n
        · simp only [h2]
          simp [hqp, hn0]
        · by_cases h3 : c = nx
          · simp only [h3]
            simp [hnxp, hnxq]
          · simp [h1, h2, h3]
    have G4 : ∀ c, ((split_chunk m p n) c).prev =
        if c = p + n then p else if c = nx then p + n else (m c).prev := by
      intro c
      simp only [hm1]
      by_cases h2 : c = p + n
      · simp only [h2]
        simp [hqp, hn0]
      · by_cases h3 : c = nx
        · simp only [h3]
          simp [hnxp, hnxq]
        · by_cases h1 : c = p
          · rw [h1] at h3
            simp only [h1]
            simp [hqp, Ne.symm hqp, hn0, h3]
          · simp [h1, h2, h3]
    have F1 : ∀ c, ((detachMem (split_chunk m p n) p) c).size =
        if c = p then n else if c = p + n then (m p).size - n else (m c).size := by
      intro c
      simp only [hm2]
      by_cases h1 : c = p
      · rw [if_pos h1]
        show ((split_chunk m p n) p).size = _
        rw [G1]
        simp [h1]
      · rw [if_neg h1]
        by_cases h2 : c = pv
        · subst h2
          rw [if_pos rfl]
          show ((split_chunk m p n) pv).size = _
          rw [G1]
        · rw [if_neg h2]
          by_cases h3 : c = p + n
          · subst h3
            rw [if_pos rfl]
            show ((split_chunk m p n) (p + n)).size = _
            rw [G1]
          · rw [if_neg h3, G1]
    have F2 : ∀ c, ((detachMem (split_chunk m p n) p) c).magic =
        if c = p then GRUB_MM_ALLOC_MAGIC
        else if c = p + n then GRUB_MM_FREE_MAGIC else (m c).magic := by
      intro c
      simp only [hm2]
      by_cases h1 : c = p
      · rw [if_pos h1]
        simp [h1]
      · rw [if_neg h1]
        by_cases h2 : c = pv
        · subst h2
          rw [if_pos rfl]
          show ((split_chunk m p n) pv).magic = _
          rw [G2]
          simp [hpvp, hpvq]
        · rw [if_neg h2]
          by_cases h3 : c = p + n
          · subst h3
            rw [if_pos rfl]
            show ((split_chunk m p n) (p + n)).magic = _
            rw [G2]
            simp [hqp, hn0]
          · rw [if_neg h3, G2]
            simp [h1, h3]
    have F3 : ∀ c, ((detachMem (split_chunk m p n) p) c).next =
        if c = p then p + n else if c = p + n then nx
        else if c = pv then p + n else (m c).next := by
      intro c
      simp only [hm2]
      by_cases h1 : c = p
      · rw [if_pos h1]
        show ((split_chunk m p n) p).next = _
        rw [G3]
        simp [h1]
      · rw [if_neg h1]
        by_cases h2 : c = pv
        · subst h2
          rw [if_pos rfl]
          simp [hpvp, hpvq]
        · rw [if_neg h2]
          by_cases h3 : c = p + n
          · subst h3
            rw [if_pos rfl]
            show ((split_chunk m p n) (p + n)).next = _
            rw [G3]
            simp [hqp, hn0]
          · rw [if_neg h3, G3]
            simp [h1, h2, h3]
    have F4 : ∀ c, ((detachMem (split_chunk m p n) p) c).prev =
        if c = p then pv else if c = p + n then pv
        else if c = nx then p + n else (m c).prev := by
      intro c
      simp only [hm2]
      by_cases h1 : c = p
      · rw [if_pos h1]
        show ((split_chunk m p n) p).prev = _
        rw [G4]
        simp [h1, hqp, Ne.symm hqp, hn0, hnxp, Ne.symm hnxp, hprev]
      · rw [if_neg h1]
        by_cases h2 : c = pv
        · subst h2
          rw [if_pos rfl]
          show ((split_chunk m p n) pv).prev = _
          rw [G4]
          simp [hpvp, hpvq]
        · rw [if_neg h2]
          by_cases h3 : c = p + n
          · subst h3
            rw [if_pos rfl]
            simp [hqp, hn0]
          · rw [if_neg h3, G4]
            simp [h1, h3]
    have F7 : ∀ c, c ≠ p → c ≠ p + n → c ≠ pv → c ≠ nx →
        (detachMem (split_chunk m p n) p) c = m c := by
      intro c h1 h2 h3 h4
      refine Header.extEq ?_ ?_ ?_ ?_
      · rw [F4]
        simp [h1, h2, h4]
      · rw [F3]
        simp [h1, h2, h3]
      · rw [F1]
        simp [h1, h2]
      · rw [F2]
        simp [h1, h2]
    have hF2p : ((detachMem (split_chunk m p n) p) p).magic = GRUB_MM_ALLOC_MAGIC := by
      rw [F2]
      simp
    have hcommon := detachSplit_common m (detachMem (split_chunk m p n) p) r Bl Br p n
      htiles hmagics hadj hpF hn1 hlt F1 F2
    refine ⟨Bl ++ p :: (p + n) :: Br, p, rfl, hBspan p hpB, ?_, hB2mem p hpB, hF2p,
      ?_, ?_, ?_, ?_⟩
    · refine ⟨haddr, hsize, hcommon.1, hcommon.2.1, hcommon.2.2.1, ?_⟩
      right
      rw [hcommon.2.2.2, ringShape_iff]
      refine ⟨by simp, ?_, ?_⟩
      · cases hLAe : freeList m Bl with
        | nil =>
          have hfirstp : r.first = p := by
            rw [hVfirst, hLAe]
            rfl
          show (if p = r.first then ((split_chunk m p n) p).next else r.first)
            = ([] ++ (p + n) :: freeList m Br).headD 0
          rw [if_pos hfirstp.symm, hN]
          rfl
        | cons a A2 =>
          have hfirsta : r.first = a := by
            rw [hVfirst, hLAe]
            rfl
          have hpa : p ≠ a := fun he =>
            hpLA (by rw [hLAe, he]; exact List.mem_cons_self a A2)
          show (if p = r.first then ((split_chunk m p n) p).next else r.first)
            = (a :: A2 ++ (p + n) :: freeList m Br).headD 0
          rw [if_neg (by rw [hfirsta]; exact hpa), hfirsta]
          rfl
      · have hchainNew :
            List.Chain' (linkRel (detachMem (split_chunk m p n) p)) M := by
          refine chain'_imp_mem ?_ hchainM
          intro a ha b hb hab
          have ha1 : a ≠ p := fun he => hpM (he ▸ ha)
          have ha2 : a ≠ p + n := fun he => hqM (he ▸ ha)
          have hb1 : b ≠ p := fun he => hpM (he ▸ hb)
          have hb2 : b ≠ p + n := fun he => hqM (he ▸ hb)
          constructor
          · rw [F3]
            by_cases hapv : a = pv
            · exfalso
              have hbp2 : b = p := by
                rw [hapv] at hab
                rw [← hab.1, hpvnext]
              exact hpM (hbp2 ▸ hb)
            · rw [if_neg ha1, if_neg ha2, if_neg hapv]
              exact hab.1
          · rw [F4]
            by_cases hbnx : b = nx
            · exfalso
              have hap2 : a = p := by
                rw [hbnx] at hab
                rw [← hab.2, hnxprev]
              exact hpM (hap2 ▸ ha)
            · rw [if_neg hb1, if_neg hb2, if_neg hbnx]
              exact hab.2
        have hlkq1 : linkRel (detachMem (split_chunk m p n) p) (p + n) nx := by
          constructor
          · rw [F3, if_neg hqp, if_pos rfl]
          · rw [F4, if_neg hnxp, if_neg hnxq, if_pos rfl]
        have hlkq2 : linkRel (detachMem (split_chunk m p n) p) pv (p + n) := by
          constructor
          · rw [F3, if_neg hpvp, if_neg hpvq, if_pos rfl]
          · rw [F4, if_neg hqp, if_pos rfl]
        have hcyc2 : cycChain (detachMem (split_chunk m p n) p) ((p + n) :: M) := by
          refine (cycChain_cons_parts _ (p + n) M hMnil).mpr ⟨hchainNew, ?_, ?_⟩
          · rw [← hnxd]
            exact hlkq1
          · rw [← hpvd]
            exact hlkq2
        rw [hM] at hcyc2
        exact (cycChain_rotate _ (freeList m Bl) (freeList m Br) (p + n)).mpr hcyc2
    · intro hcon
      have h := hcon.2
      rw [hpF] at h
      exact magic_free_ne_alloc h
    · intro b hb hbA
      have hbp : b ≠ p := fun he => by
        rw [he, hpF] at hbA
        exact magic_free_ne_alloc hbA
      have hbq : b ≠ p + n := fun he => hqB (he ▸ hb)
      have hbpv : b ≠ pv := fun he => by
        rw [he, hMfree pv hpvM] at hbA
        exact magic_free_ne_alloc hbA
      have hbnx : b ≠ nx := fun he => by
        rw [he, hMfree nx hnxM] at hbA
        exact magic_free_ne_alloc hbA
      exact ⟨hB2mem b hb, F7 b hbp hbq hbpv hbnx⟩
    · intro b hb hbA
      by_cases hbp : b = p
      · exact .inl hbp
      · rw [F2, if_neg hbp] at hbA
        by_cases hbq : b = p + n
        · rw [if_pos hbq] at hbA
          exact absurd hbA (by decide)
        · rw [if_neg hbq] at hbA
          have hbpv : b ≠ pv := fun he => by
            rw [he, hMfree pv hpvM] at hbA
            exact magic_free_ne_alloc hbA
          have hbnx : b ≠ nx := fun he => by
            rw [he, hMfree nx hnxM] at hbA
            exact magic_free_ne_alloc hbA
          exact .inr ⟨hB2memR b hb hbq, hbA, F7 b hbp hbq hbpv hbnx⟩
    · intro c hc
      have hcp : c ≠ p := fun he => hc (he ▸ hBspan p hpB)
      have hcq : c ≠ p + n := fun he => hc (he ▸ hqspan)
      have hcpv : c ≠ pv := fun he => hc (he ▸ hBspan pv (hMB pv hpvM))
      have hcnx : c ≠ nx := fun he => hc (he ▸ hBspan nx (hMB nx hnxM))
      exact F7 c hcp hcq hcpv hcnx

/-- `split_chunk` is the identity when the block is not larger than the
requested span. -/
theorem split_chunk_noop (m : Mem) (p size : Nat) (h : (m p).size ≤ size) :
    split_chunk m p size = m := by
  unfold split_chunk
  rw [if_pos h]

/-- After a real split the block at `p` states the requested span. -/
theorem split_chunk_size_at (m : Mem) (p size : Nat) (hlt : size < (m p).size) :
    ((split_chunk m p size) p).size = size := by
  unfold split_chunk
  rw [if_neg (by omega)]
  simp

/-- Tail carve without a preceding split: the candidate keeps its ring
links with its size cut by `n`, and the carved tail becomes a fresh ALLOC
block. -/
theorem carve_tail_nosplit (m : Mem) (r : Region) (Bl Br : List Nat) (p n : Nat)
    (hreg : RegionB m r (Bl ++ p :: Br))
    (hpF : (m p).magic = GRUB_MM_FREE_MAGIC)
    (hn1 : 1 ≤ n) (hlt : n < (m p).size) :
    CarveOut m r (Bl ++ p :: Br) (tailCarveMem m p n) r.first
      ((p + ((m p).size - n)) + 1) := by
  obtain ⟨haddr, hsize, htiles, hmagics, hadj, hring⟩ := hreg
  have hfl : freeList m (Bl ++ p :: Br) = freeList m Bl ++ p :: freeList m Br := by
    rw [freeList_append, freeList_cons_free m p Br hpF]
  have hpL : p ∈ freeList m (Bl ++ p :: Br) := by
    rw [hfl]
    exact List.mem_append.mpr (.inr (List.mem_cons_self p _))
  have hsh : RingShape m r.first (freeList m (Bl ++ p :: Br)) := by
    rcases hring with ⟨h1, _, _⟩ | h2
    · rw [h1] at hpL
      simp at hpL
    · exact h2
  have hndB : (Bl ++ p :: Br).Nodup := nodup_of_pairwise_lt
    (List.chain'_iff_pairwise.mp (tiles_sorted m htiles))
  obtain ⟨hpBl, hpBr⟩ := nodup_parts hndB
  have hBspan : ∀ b ∈ Bl ++ p :: Br, inSpan r b := fun b hb => by
    have := tiles_bounds m htiles b hb
    exact ⟨this.1, this.2⟩
  have hpB : p ∈ Bl ++ p :: Br := List.mem_append.mpr (.inr (List.mem_cons_self p Br))
  have hcB : p + ((m p).size - n) ∉ Bl ++ p :: Br :=
    tiles_interior_not_mem m htiles (by omega) (by omega)
  have hcBl : p + ((m p).size - n) ∉ Bl :=
    fun hm2 => hcB (List.mem_append.mpr (.inl hm2))
  have hcBr : p + ((m p).size - n) ∉ Br :=
    fun hm2 => hcB (List.mem_append.mpr (.inr (List.mem_cons_of_mem p hm2)))
  have hcp : p + ((m p).size - n) ≠ p := by omega
  obtain ⟨t1, ht1le, hBlT, hmidT⟩ := tiles_decomp m Bl htiles
  obtain ⟨hpstart, hps1, hpsle, hBrT⟩ := hmidT
  have hcspan : inSpan r (p + ((m p).size - n)) := by
    obtain ⟨h1, _⟩ := hBspan p hpB
    exact ⟨by omega, show p + ((m p).size - n) < startCell r + totalCells r by omega⟩
  have hm2 := tailCarve_eq m p n hn1 hlt
  have F1 : ∀ c, ((tailCarveMem m p n) c).size =
      if c = p then (m p).size - n
      else if c = p + ((m p).size - n) then n else (m c).size := by
    intro c
    simp only [hm2]
    by_cases h1 : c = p
    · rw [if_pos h1, if_pos h1]
    · rw [if_neg h1, if_neg h1]
      by_cases h2 : c = p + ((m p).size - n)
      · rw [if_pos h2, if_pos h2]
      · rw [if_neg h2, if_neg h2]
  have F2 : ∀ c, ((tailCarveMem m p n) c).magic =
      if c = p + ((m p).size - n) then GRUB_MM_ALLOC_MAGIC else (m c).magic := by
    intro c
    simp only [hm2]
    by_cases h1 : c = p
    · have h2 : c ≠ p + ((m p).size - n) := by
        rw [h1]
        exact Ne.symm hcp
      rw [if_pos h1, if_neg h2, h1]
    · rw [if_neg h1]
      by_cases h2 : c = p + ((m p).size - n)
      · rw [if_pos h2, if_pos h2]
      · rw [if_neg h2, if_neg h2]
  have F3 : ∀ c, ((tailCarveMem m p n) c).next = (m c).next := by
    intro c
    simp only [hm2]
    by_cases h1 : c = p
    · rw [if_pos h1, h1]
    · rw [if_neg h1]
      by_cases h2 : c = p + ((m p).size - n)
      · rw [if_pos h2, h2]
      · rw [if_neg h2]
  have F4 : ∀ c, ((tailCarveMem m p n) c).prev = (m c).prev := by
    intro c
    simp only [hm2]
    by_cases h1 : c = p
    · rw [if_pos h1, h1]
    · rw [if_neg h1]
      by_cases h2 : c = p + ((m p).size - n)
      · rw [if_pos h2, h2]
      · rw [if_neg h2]
  have F7 : ∀ c, c ≠ p → c ≠ p + ((m p).size - n) → (tailCarveMem m p n) c = m c := by
    intro c h1 h2
    simp only [hm2]
    rw [if_neg h1, if_neg h2]
  have hF1p : ((tailCarveMem m p n) p).size = (m p).size - n := by
    rw [F1, if_pos rfl]
  have hF1c : ((tailCarveMem m p n) (p + ((m p).size - n))).size = n := by
    rw [F1, if_neg hcp, if_pos rfl]
  have hF2p : ((tailCarveMem m p n) p).magic = GRUB_MM_FREE_MAGIC := by
    rw [F2, if_neg (Ne.symm hcp)]
    exact hpF
  have hF2c : ((tailCarveMem m p n) (p + ((m p).size - n))).magic
      = GRUB_MM_ALLOC_MAGIC := by
    rw [F2, if_pos rfl]
  have e1 : freeList (tailCarveMem m p n) Bl = freeList m Bl := by
    refine freeList_congr ?_
    intro b hb
    have h2 : b ≠ p + ((m p).size - n) := fun he => hcBl (he ▸ hb)
    rw [F2, if_neg h2]
  have e2 : freeList (tailCarveMem m p n) Br = freeList m Br := by
    refine freeList_congr ?_
    intro b hb
    have h2 : b ≠ p + ((m p).size - n) := fun he => hcBr (he ▸ hb)
    rw [F2, if_neg h2]
  have hflB2 : freeList (tailCarveMem m p n)
        (Bl ++ p :: (p + ((m p).size - n)) :: Br)
      = freeList m Bl ++ p :: freeList m Br := by
    rw [freeList_append, freeList_cons_free _ p _ hF2p,
      freeList_cons_nonfree _ _ Br (by rw [hF2c]; decide), e1, e2]
  have hB2mem : ∀ b ∈ Bl ++ p :: Br,
      b ∈ Bl ++ p :: (p + ((m p).size - n)) :: Br := by
    intro b hb
    rcases List.mem_append.mp hb with h1 | h1
    · exact List.mem_append.mpr (.inl h1)
    · rcases List.mem_cons.mp h1 with h2 | h2
      · exact List.mem_append.mpr (.inr (by rw [h2]; exact List.mem_cons_self _ _))
      · exact List.mem_append.mpr
          (.inr (List.mem_cons_of_mem _ (List.mem_cons_of_mem _ h2)))
  have hB2memR : ∀ b ∈ Bl ++ p :: (p + ((m p).size - n)) :: Br,
      b ≠ p + ((m p).size - n) → b ∈ Bl ++ p :: Br := by
    intro b hb hbq
    rcases List.mem_append.mp hb with h1 | h1
    · exact List.mem_append.mpr (.inl h1)
    · rcases List.mem_cons.mp h1 with h2 | h2
      · exact List.mem_append.mpr (.inr (by rw [h2]; exact List.mem_cons_self p Br))
      · rcases List.mem_cons.mp h2 with h3 | h3
        · exact absurd h3 hbq
        · exact List.mem_append.mpr (.inr (List.mem_cons_of_mem p h3))
  refine ⟨Bl ++ p :: (p + ((m p).size - n)) :: Br, p + ((m p).size - n), rfl, hcspan,
    ?_, List.mem_append.mpr (.inr (List.mem_cons_of_mem p (List.mem_cons_self _ _))),
    hF2c, ?_, ?_, ?_, ?_⟩
  · refine ⟨haddr, hsize, ?_, ?_, ?_, ?_⟩
    · show TilesFrom (tailCarveMem m p n) (startCell r) (totalCells r)
        (Bl ++ p :: (p + ((m p).size - n)) :: Br)
      have e : totalCells r = t1 + (totalCells r - t1) := by omega
      rw [e]
      refine tiles_recomb _ Bl ?_ ?_
      · refine tiles_congr ?_ hBlT
        intro b hb
        have h1 : b ≠ p := fun he => hpBl (he ▸ hb)
        have h2 : b ≠ p + ((m p).size - n) := fun he => hcBl (he ▸ hb)
        rw [F1, if_neg h1, if_neg h2]
      · refine ⟨hpstart, ?_, ?_, ?_⟩
        · rw [hF1p]
          omega
        · rw [hF1p]
          omega
        · rw [hF1p]
          refine ⟨by omega, ?_, ?_, ?_⟩
          · rw [hF1c]
            omega
          · rw [hF1c]
            omega
          · rw [hF1c]
            have e2a : startCell r + t1 + ((m p).size - n) + n
                = startCell r + t1 + (m p).size := by omega
            have e3a : totalCells r - t1 - ((m p).size - n) - n
                = totalCells r - t1 - (m p).size := by omega
            rw [e2a, e3a]
            refine tiles_congr ?_ hBrT
            intro b hb
            have h1 : b ≠ p := fun he => hpBr (he ▸ hb)
            have h2 : b ≠ p + ((m p).size - n) := fun he => hcBr (he ▸ hb)
            rw [F1, if_neg h1, if_neg h2]
    · intro b hb
      rw [F2]
      by_cases h2 : b = p + ((m p).size - n)
      · simp [h2]
      · rw [if_neg h2]
        exact hmagics b (hB2memR b hb h2)
    · obtain ⟨hcBl2, hcPBr, hjoin⟩ := List.chain'_append.mp hadj
      obtain ⟨hpHead, hcBr2⟩ := List.chain'_cons'.mp hcPBr
      rw [List.chain'_append]
      refine ⟨?_, ?_, ?_⟩
      · refine chain'_imp_mem ?_ hcBl2
        intro a ha b hb hab hcon
        have ha2 : a ≠ p + ((m p).size - n) := fun he => hcBl (he ▸ ha)
        have hb2 : b ≠ p + ((m p).size - n) := fun he => hcBl (he ▸ hb)
        rw [F2, F2, if_neg ha2, if_neg hb2] at hcon
        exact hab hcon
      · rw [List.chain'_cons]
        refine ⟨?_, ?_⟩
        · intro hcon
          have h := hcon.2
          rw [hF2c] at h
          exact absurd h (by decide)
        · rw [List.chain'_cons']
          refine ⟨?_, ?_⟩
          · intro y hy hcon
            have h := hcon.1
            rw [hF2c] at h
            exact absurd h (by decide)
          · refine chain'_imp_mem ?_ hcBr2
            intro a ha b hb hab hcon
            have ha2 : a ≠ p + ((m p).size - n) := fun he => hcBr (he ▸ ha)
            have hb2 : b ≠ p + ((m p).size - n) := fun he => hcBr (he ▸ hb)
            rw [F2, F2, if_neg ha2, if_neg hb2] at hcon
            exact hab hcon
      · intro x hx y hy
        have hy2 : p = y := by simpa using hy
        have hxBl : x ∈ Bl := List.mem_of_mem_getLast? hx
        have hx2 : x ≠ p + ((m p).size - n) := fun he => hcBl (he ▸ hxBl)
        intro hcon
        have h := hcon.1
        rw [F2, if_neg hx2] at h
        refine hjoin x hx y hy ⟨h, ?_⟩
        rw [← hy2]
        exact hpF
    · right
      rw [hflB2]
      rw [hfl] at hsh
      exact ringShape_congr (fun a _ => ⟨F3 a, F4 a⟩) hsh
  · intro hcon
    exact hcB hcon.1
  · intro b hb hbA
    have hbp : b ≠ p := fun he => by
      rw [he, hpF] at hbA
      exact magic_free_ne_alloc hbA
    have hbc : b ≠ p + ((m p).size - n) := fun he => hcB (he ▸ hb)
    exact ⟨hB2mem b hb, F7 b hbp hbc⟩
  · intro b hb hbA
    by_cases hbc : b = p + ((m p).size - n)
    · exact .inl hbc
    · rw [F2, if_neg hbc] at hbA
      have hbp : b ≠ p := fun he => by
        rw [he, hpF] at hbA
        exact magic_free_ne_alloc hbA
      exact .inr ⟨hB2memR b hb hbc, hbA, F7 b hbp hbc⟩
  · intro c hc
    have hcp2 : c ≠ p := fun he => hc (he ▸ hBspan p hpB)
    have hcc : c ≠ p + ((m p).size - n) := fun he => hc (he ▸ hcspan)
    exact F7 c hcp2 hcc

/-- Tile, magic, adjacency and free-list bookkeeping shared by the two ring
shapes of the padded carve with a real split: block `p` is left FREE with
`w - n` cells, the allocated block sits at `p + (w - n)` with `n` cells,
and the split remainder at `p + w` is a FREE block. -/
theorem tailSplit_common (m M2 : Mem) (r : Region) (Bl Br : List Nat) (p n w : Nat)
    (htiles : TilesFrom m (startCell r) (totalCells r) (Bl ++ p :: Br))
    (hmagics : ∀ b ∈ Bl ++ p :: Br,
      (m b).magic = GRUB_MM_FREE_MAGIC ∨ (m b).magic = GRUB_MM_ALLOC_MAGIC)
    (hadj : List.Chain' (fun a b =>
      ¬((m a).magic = GRUB_MM_FREE_MAGIC ∧ (m b).magic = GRUB_MM_FREE_MAGIC))
      (Bl ++ p :: Br))
    (hpF : (m p).magic = GRUB_MM_FREE_MAGIC)
    (hn1 : 1 ≤ n) (hnw : n < w) (hws : w < (m p).size)
    (F1 : ∀ c, (M2 c).size =
      if c = p then w - n else if c = p + (w - n) then n
      else if c = p + w then (m p).size - w else (m c).size)
    (F2 : ∀ c, (M2 c).magic =
      if c = p + (w - n) then GRUB_MM_ALLOC_MAGIC
      else if c = p + w then GRUB_MM_FREE_MAGIC else (m c).magic) :
    TilesFrom M2 (startCell r) (totalCells r)
        (Bl ++ p :: (p + (w - n)) :: (p + w) :: Br) ∧
      (∀ b ∈ Bl ++ p :: (p + (w - n)) :: (p + w) :: Br,
        (M2 b).magic = GRUB_MM_FREE_MAGIC ∨ (M2 b).magic = GRUB_MM_ALLOC_MAGIC) ∧
      List.Chain' (fun a b =>
        ¬((M2 a).magic = GRUB_MM_FREE_MAGIC ∧ (M2 b).magic = GRUB_MM_FREE_MAGIC))
        (Bl ++ p :: (p + (w - n)) :: (p + w) :: Br) ∧
      freeList M2 (Bl ++ p :: (p + (w - n)) :: (p + w) :: Br) =
        freeList m Bl ++ p :: (p + w) :: freeList m Br := by
  have hndB : (Bl ++ p :: Br).Nodup := nodup_of_pairwise_lt
    (List.chain'_iff_pairwise.mp (tiles_sorted m htiles))
  obtain ⟨hpBl, hpBr⟩ := nodup_parts hndB
  have hcB : p + (w - n) ∉ Bl ++ p :: Br :=
    tiles_interior_not_mem m htiles (by omega) (by omega)
  have hqB : p + w ∉ Bl ++ p :: Br :=
    tiles_interior_not_mem m htiles (by omega) (by omega)
  have hcBl : p + (w - n) ∉ Bl := fun hm2 => hcB (List.mem_append.mpr (.inl hm2))
  have hcBr : p + (w - n) ∉ Br :=
    fun hm2 => hcB (List.mem_append.mpr (.inr (List.mem_cons_of_mem p hm2)))
  have hqBl : p + w ∉ Bl := fun hm2 => hqB (List.mem_append.mpr (.inl hm2))
  have hqBr : p + w ∉ Br :=
    fun hm2 => hqB (List.mem_append.mpr (.inr (List.mem_cons_of_mem p hm2)))
  have hcp : p + (w - n) ≠ p := by omega
  have hqp : p + w ≠ p := by omega
  have hqc : p + w ≠ p + (w - n) := by omega
  obtain ⟨t1, ht1le, hBlT, hmidT⟩ := tiles_decomp m Bl htiles
  obtain ⟨hpstart, hps1, hpsle, hBrT⟩ := hmidT
  have hF1p : (M2 p).size = w - n := by
    rw [F1, if_pos rfl]
  have hF1c : (M2 (p + (w - n))).size = n := by
    rw [F1, if_neg hcp, if_pos rfl]
  have hF1q : (M2 (p + w)).size = (m p).size - w := by
    rw [F1, if_neg hqp, if_neg hqc, if_pos rfl]
  have hF2p : (M2 p).magic = GRUB_MM_FREE_MAGIC := by
    rw [F2, if_neg (Ne.symm hcp), if_neg (Ne.symm hqp)]
    exact hpF
  have hF2c : (M2 (p + (w - n))).magic = GRUB_MM_ALLOC_MAGIC := by
    rw [F2, if_pos rfl]
  have hF2q : (M2 (p + w)).magic = GRUB_MM_FREE_MAGIC := by
    rw [F2, if_neg hqc, if_pos rfl]
  have e1 : freeList M2 Bl = freeList m Bl := by
    refine freeList_congr ?_
    intro b hb
    have h1 : b ≠ p + (w - n) := fun he => hcBl (he ▸ hb)
    have h2 : b ≠ p + w := fun he => hqBl (he ▸ hb)
    rw [F2, if_neg h1, if_neg h2]
  have e2 : freeList M2 Br = freeList m Br := by
    refine freeList_congr ?_
    intro b hb
    have h1 : b ≠ p + (w - n) := fun he => hcBr (he ▸ hb)
    have h2 : b ≠ p + w := fun he => hqBr (he ▸ hb)
    rw [F2, if_neg h1, if_neg h2]
  refine ⟨?_, ?_, ?_, ?_⟩
  · have e : totalCells r = t1 + (totalCells r - t1) := by omega
    rw [e]
    refine tiles_recomb _ Bl ?_ ?_
    · refine tiles_congr ?_ hBlT
      intro b hb
      have h1 : b ≠ p := fun he => hpBl (he ▸ hb)
      have h2 : b ≠ p + (w - n) := fun he => hcBl (he ▸ hb)
      have h3 : b ≠ p + w := fun he => hqBl (he ▸ hb)
      rw [F1, if_neg h1, if_neg h2, if_neg h3]
    · refine ⟨hpstart, ?_, ?_, ?_⟩
      · rw [hF1p]
        omega
      · rw [hF1p]
        omega
      · rw [hF1p]
        refine ⟨by omega, ?_, ?_, ?_⟩
        · rw [hF1c]
          omega
        · rw [hF1c]
          omega
        · rw [hF1c]
          have e2a : startCell r + t1 + (w - n) + n = startCell r + t1 + w := by omega
          rw [e2a]
          refine ⟨by omega, ?_, ?_, ?_⟩
          · rw [hF1q]
            omega
          · rw [hF1q]
            omega
          · rw [hF1q]
            have e3a : startCell r + t1 + w + ((m p).size - w)
                = startCell r + t1 + (m p).size := by omega
            have e4a : totalCells r - t1 - (w - n) - n - ((m p).size - w)
                = totalCells r - t1 - (m p).size := by omega
            rw [e3a, e4a]
            refine tiles_congr ?_ hBrT
            intro b hb
            have h1 : b ≠ p := fun he => hpBr (he ▸ hb)
            have h2 : b ≠ p + (w - n) := fun he => hcBr (he ▸ hb)
            have h3 : b ≠ p + w := fun he => hqBr (he ▸ hb)
            rw [F1, if_neg h1, if_neg h2, if_neg h3]
  · intro b hb
    rw [F2]
    by_cases h1 : b = p + (w - n)
    · simp [h1]
    · by_cases h2 : b = p + w
      · simp [h1, h2, show w ≠ w - n by omega]
      · rw [if_neg h1, if_neg h2]
        refine hmagics b ?_
        rcases List.mem_append.mp hb with h3 | h3
        · exact List.mem_append.mpr (.inl h3)
        · rcases List.mem_cons.mp h3 with h4 | h4
          · exact List.mem_append.mpr (.inr (by rw [h4]; exact List.mem_cons_self p Br))
          · rcases List.mem_cons.mp h4 with h5 | h5
            · exact absurd h5 h1
            · rcases List.mem_cons.mp h5 with h6 | h6
              · exact absurd h6 h2
              · exact List.mem_append.mpr (.inr (List.mem_cons_of_mem p h6))
  · obtain ⟨hcBl2, hcPBr, hjoin⟩ := List.chain'_append.mp hadj
    obtain ⟨hpHead, hcBr2⟩ := List.chain'_cons'.mp hcPBr
    rw [List.chain'_append]
    refine ⟨?_, ?_, ?_⟩
    · refine chain'_imp_mem ?_ hcBl2
      intro a ha b hb hab hcon
      have ha1 : a ≠ p + (w - n) := fun he => hcBl (he ▸ ha)
      have ha2 : a ≠ p + w := fun he => hqBl (he ▸ ha)
      have hb1 : b ≠ p + (w - n) := fun he => hcBl (he ▸ hb)
      have hb2 : b ≠ p + w := fun he => hqBl (he ▸ hb)
      rw [F2, F2] at hcon
      rw [if_neg ha1, if_neg ha2, if_neg hb1, if_neg hb2] at hcon
      exact hab hcon
    · rw [List.chain'_cons]
      refine ⟨?_, ?_⟩
      · intro hcon
        have h := hcon.2
        rw [hF2c] at h
        exact absurd h (by decide)
      · rw [List.chain'_cons]
        refine ⟨?_, ?_⟩
        · intro hcon
          have h := hcon.1
          rw [hF2c] at h
          exact absurd h (by decide)
        · rw [List.chain'_cons']
          refine ⟨?_, ?_⟩
          · intro y hy hcon
            have hyBr : y ∈ Br := List.mem_of_mem_head? hy
            have hy1 : y ≠ p + (w - n) := fun he => hcBr (he ▸ hyBr)
            have hy2 : y ≠ p + w := fun he => hqBr (he ▸ hyBr)
            have h := hcon.2
            rw [F2, if_neg hy1, if_neg hy2] at h
            exact hpHead y hy ⟨hpF, h⟩
          · refine chain'_imp_mem ?_ hcBr2
            intro a ha b hb hab hcon
            have ha1 : a ≠ p + (w - n) := fun he => hcBr (he ▸ ha)
            have ha2 : a ≠ p + w := fun he => hqBr (he ▸ ha)
            have hb1 : b ≠ p + (w - n) := fun he => hcBr (he ▸ hb)
            have hb2 : b ≠ p + w := fun he => hqBr (he ▸ hb)
            rw [F2, F2] at hcon
            rw [if_neg ha1, if_neg ha2, if_neg hb1, if_neg hb2] at hcon
            exact hab hcon
    · intro x hx y hy
      have hy2 : p = y := by simpa using hy
      have hxBl : x ∈ Bl := List.mem_of_mem_getLast? hx
      have hx1 : x ≠ p + (w - n) := fun he => hcBl (he ▸ hxBl)
      have hx2 : x ≠ p + w := fun he => hqBl (he ▸ hxBl)
      intro hcon
      have h := hcon.1
      rw [F2, if_neg hx1, if_neg hx2] at h
      refine hjoin x hx y hy ⟨h, ?_⟩
      rw [← hy2]
      exact hpF
  · rw [freeList_append, freeList_cons_free _ p _ hF2p,
      freeList_cons_nonfree _ _ _ (by rw [hF2c]; decide),
      freeList_cons_free _ (p + w) Br hF2q, e1, e2]

/-- Ring surgery of the padded branch of `grub_real_malloc` when
`split_chunk` really splits: `p` keeps its ring position with `w - n`
cells, the remainder at `p + w` joins the ring right after `p`, and the
allocated block is carved at `p + (w - n)`. -/
theorem carve_tail_split (m : Mem) (r : Region) (Bl Br : List Nat) (p n w : Nat)
    (hreg : RegionB m r (Bl ++ p :: Br))
    (hpF : (m p).magic = GRUB_MM_FREE_MAGIC)
    (hn1 : 1 ≤ n) (hnw : n < w) (hws : w < (m p).size) :
    CarveOut m r (Bl ++ p :: Br) (tailCarveMem (split_chunk m p w) p n) r.first
      ((p + (w - n)) + 1) := by
  obtain ⟨haddr, hsize, htiles, hmagics, hadj, hring⟩ := hreg
  have hfl : freeList m (Bl ++ p :: Br) = freeList m Bl ++ p :: freeList m Br := by
    rw [freeList_append, freeList_cons_free m p Br hpF]
  have hpL : p ∈ freeList m (Bl ++ p :: Br) := by
    rw [hfl]
    exact List.mem_append.mpr (.inr (List.mem_cons_self p _))
  have hsh : RingShape m r.first (freeList m (Bl ++ p :: Br)) := by
    rcases hring with ⟨h1, _, _⟩ | h2
    · rw [h1] at hpL
      simp at hpL
    · exact h2
  rw [ringShape_iff] at hsh
  obtain ⟨_, hVfirst, hVcyc⟩ := hsh
  rw [hfl] at hVfirst hVcyc
  rw [cycChain_rotate] at hVcyc
  have hndB : (Bl ++ p :: Br).Nodup := nodup_of_pairwise_lt
    (List.chain'_iff_pairwise.mp (tiles_sorted m htiles))
  obtain ⟨hpBl, hpBr⟩ := nodup_parts hndB
  have hpLA : p ∉ freeList m Bl := fun hm2 => hpBl (freeList_subset p hm2)
  have hpLC : p ∉ freeList m Br := fun hm2 => hpBr (freeList_subset p hm2)
  have hBspan : ∀ b ∈ Bl ++ p :: Br, inSpan r b := fun b hb => by
    have := tiles_bounds m htiles b hb
    exact ⟨this.1, this.2⟩
  have hpB : p ∈ Bl ++ p :: Br := List.mem_append.mpr (.inr (List.mem_cons_self p Br))
  have hcB : p + (w - n) ∉ Bl ++ p :: Br :=
    tiles_interior_not_mem m htiles (by omega) (by omega)
  have hqB : p + w ∉ Bl ++ p :: Br :=
    tiles_interior_not_mem m htiles (by omega) (by omega)
  have hcp : p + (w - n) ≠ p := by omega
  have hqp : p + w ≠ p := by omega
  have hcq : p + (w - n) ≠ p + w := by omega
  have hw0 : w ≠ 0 := by omega
  have he0 : w - n ≠ 0 := by omega
  have hwe : w ≠ w - n := by omega
  have hw1 : 1 ≤ w := by omega
  have hspans : inSpan r (p + (w - n)) ∧ inSpan r (p + w) := by
    obtain ⟨t1, ht1le, hBlT, hmidT⟩ := tiles_decomp m Bl htiles
    obtain ⟨hpstart, hps1, hpsle, hBrT⟩ := hmidT
    obtain ⟨h1, _⟩ := hBspan p hpB
    exact ⟨⟨by omega, show p + (w - n) < startCell r + totalCells r by omega⟩,
      ⟨by omega, show p + w < startCell r + totalCells r by omega⟩⟩
  have hB2mem : ∀ b ∈ Bl ++ p :: Br,
      b ∈ Bl ++ p :: (p + (w - n)) :: (p + w) :: Br := by
    intro b hb
    rcases List.mem_append.mp hb with h1 | h1
    · exact List.mem_append.mpr (.inl h1)
    · rcases List.mem_cons.mp h1 with h2 | h2
      · exact List.mem_append.mpr (.inr (by rw [h2]; exact List.mem_cons_self _ _))
      · exact List.mem_append.mpr (.inr (List.mem_cons_of_mem _
          (List.mem_cons_of_mem _ (List.mem_cons_of_mem _ h2))))
  have hB2memR : ∀ b ∈ Bl ++ p :: (p + (w - n)) :: (p + w) :: Br,
      b ≠ p + (w - n) → b ≠ p + w → b ∈ Bl ++ p :: Br := by
    intro b hb hbc hbq
    rcases List.mem_append.mp hb with h1 | h1
    · exact List.mem_append.mpr (.inl h1)
    · rcases List.mem_cons.mp h1 with h2 | h2
      · exact List.mem_append.mpr (.inr (by rw [h2]; exact List.mem_cons_self p Br))
      · rcases List.mem_cons.mp h2 with h3 | h3
        · exact absurd h3 hbc
        · rcases List.mem_cons.mp h3 with h4 | h4
          · exact absurd h4 hbq
          · exact List.mem_append.mpr (.inr (List.mem_cons_of_mem p h4))
  have hsz1 := split_chunk_size_at m p w hws
  have hlt2 : n < ((split_chunk m p w) p).size := by
    rw [hsz1]
    exact hnw
  have hm2 := tailCarve_eq (split_chunk m p w) p n hn1 hlt2
  rw [hsz1] at hm2
  by_cases hMnil : freeList m Br ++ freeList m Bl = []
  · -- the ring was the singleton [p]
    have hLAnil : freeList m Bl = [] := (List.append_eq_nil.mp hMnil).2
    have hLCnil : freeList m Br = [] := (List.append_eq_nil.mp hMnil).1
    rw [hMnil] at hVcyc
    have hsing := (cycChain_singleton m p).mp hVcyc
    have hfirstp : r.first = p := by
      rw [hVfirst, hLAnil]
      rfl
    have hm1 := split_chunk_eq_self m p w hws hw1 hsing.1
    have G1 : ∀ c, ((split_chunk m p w) c).size =
        if c = p then w else if c = p + w then (m p).size - w else (m c).size := by
      intro c
      simp only [hm1]
      by_cases h1 : c = p
      · simp only [h1]
        simp [hqp, Ne.symm hqp, hw0]
      · by_cases h3 : c = p + w
        · simp only [h3]
          simp [hqp, hw0]
        · simp [h1, h3]
    have G2 : ∀ c, ((split_chunk m p w) c).magic =
        if c = p + w then GRUB_MM_FREE_MAGIC else (m c).magic := by
      intro c
      simp only [hm1]
      by_cases h1 : c = p
      · simp only [h1]
        simp [hqp, Ne.symm hqp, hw0]
      · by_cases h3 : c = p + w
        · simp only [h3]
          simp [hqp, hw0]
        · simp [h1, h3]
    have G3 : ∀ c, ((split_chunk m p w) c).next =
        if c = p then p + w else if c = p + w then p else (m c).next := by
      intro c
      simp only [hm1]
      by_cases h1 : c = p
      · simp only [h1]
        simp [hqp, Ne.symm hqp, hw0]
      · by_cases h3 : c = p + w
        · simp only [h3]
          simp [hqp, hw0]
        · simp [h1, h3]
    have G4 : ∀ c, ((split_chunk m p w) c).prev =
        if c = p then p + w else if c = p + w then p else (m c).prev := by
      intro c
      simp only [hm1]
      by_cases h1 : c = p
      · simp only [h1]
        simp [hqp, Ne.symm hqp, hw0]
      · by_cases h3 : c = p + w
        · simp only [h3]
          simp [hqp, hw0]
        · simp [h1, h3]
    have F1 : ∀ c, ((tailCarveMem (split_chunk m p w) p n) c).size =
        if c = p then w - n else if c = p + (w - n) then n
        else if c = p + w then (m p).size - w else (m c).size := by
      intro c
      simp only [hm2]
      by_cases h1 : c = p
      · rw [if_pos h1]
        simp [h1, Ne.symm hcp, Ne.symm hqp, hw0, he0]
      · rw [if_neg h1]
        by_cases h2 : c = p + (w - n)
        · rw [if_pos h2]
          simp [h1, h2, he0, hwe, hcq]
        · rw [if_neg h2, G1]
          simp [h1, h2]
    have F2 : ∀ c, ((tailCarveMem (split_chunk m p w) p n) c).magic =
        if c = p + (w - n) then GRUB_MM_ALLOC_MAGIC
        else if c = p + w then GRUB_MM_FREE_MAGIC else (m c).magic := by
      intro c
      simp only [hm2]
      by_cases h1 : c = p
      · rw [if_pos h1]
        show ((split_chunk m p w) p).magic = _
        rw [G2]
        simp [h1, Ne.symm hcp, Ne.symm hqp, hw0, he0]
      · rw [if_neg h1]
        by_cases h2 : c = p + (w - n)
        · rw [if_pos h2]
          simp [h2, he0, hwe, hcq]
        · rw [if_neg h2, G2]
          simp [h2]
    have F3 : ∀ c, ((tailCarveMem (split_chunk m p w) p n) c).next =
        if c = p then p + w else if c = p + w then p else (m c).next := by
      intro c
      simp only [hm2]
      by_cases h1 : c = p
      · rw [if_pos h1]
        show ((split_chunk m p w) p).next = _
        rw [G3]
        simp [h1]
      · rw [if_neg h1]
        by_cases h2 : c = p + (w - n)
        · rw [if_pos h2]
          show ((split_chunk m p w) (p + (w - n))).next = _
          rw [G3]
          simp [h2, hcp, hcq, he0, hwe]
        · rw [if_neg h2, G3]
    have F4 : ∀ c, ((tailCarveMem (split_chunk m p w) p n) c).prev =
        if c = p then p + w else if c = p + w then p else (m c).prev := by
      intro c
      simp only [hm2]
      by_cases h1 : c = p
      · rw [if_pos h1]
        show ((split_chunk m p w) p).prev = _
        rw [G4]
        simp [h1]
      · rw [if_neg h1]
        by_cases h2 : c = p + (w - n)
        · rw [if_pos h2]
          show ((split_chunk m p w) (p + (w - n))).prev = _
          rw [G4]
          simp [h2, hcp, hcq, he0, hwe]
        · rw [if_neg h2, G4]
    have F7 : ∀ c, c ≠ p → c ≠ p + (w - n) → c ≠ p + w →
        (tailCarveMem (split_chunk m p w) p n) c = m c := by
      intro c h1 h2 h3
      refine Header.extEq ?_ ?_ ?_ ?_
      · rw [F4]
        simp [h1, h3]
      · rw [F3]
        simp [h1, h3]
      · rw [F1]
        simp [h1, h2, h3]
      · rw [F2]
        simp [h2, h3]
    have hF2c : ((tailCarveMem (split_chunk m p w) p n) (p + (w - n))).magic
        = GRUB_MM_ALLOC_MAGIC := by
      rw [F2, if_pos rfl]
    have hcommon := tailSplit_common m (tailCarveMem (split_chunk m p w) p n)
      r Bl Br p n w htiles hmagics hadj hpF hn1 hnw hws F1 F2
    refine ⟨Bl ++ p :: (p + (w - n)) :: (p + w) :: Br, p + (w - n), rfl, hspans.1, ?_,
      List.mem_append.mpr (.inr (List.mem_cons_of_mem p (List.mem_cons_self _ _))),
      hF2c, ?_, ?_, ?_, ?_⟩
    · refine ⟨haddr, hsize, hcommon.1, hcommon.2.1, hcommon.2.2.1, ?_⟩
      right
      rw [hcommon.2.2.2, hLAnil, hLCnil, ringShape_iff]
      refine ⟨by simp, ?_, ?_⟩
      · show r.first = ([] ++ p :: (p + w) :: []).headD 0
        rw [hfirstp]
        rfl
      · have hq1 : cycChain (tailCarveMem (split_chunk m p w) p n) (p :: [p + w]) := by
          refine (cycChain_cons_parts _ p [p + w] (by simp)).mpr ⟨by simp, ?_, ?_⟩
          · constructor
            · rw [F3, if_pos rfl]
              rfl
            · show ((tailCarveMem (split_chunk m p w) p n) (p + w)).prev = p
              rw [F4, if_neg hqp, if_pos rfl]
          · constructor
            · show ((tailCarveMem (split_chunk m p w) p n) (p + w)).next = p
              rw [F3, if_neg hqp, if_pos rfl]
            · rw [F4, if_pos rfl]
              rfl
        simpa using hq1
    · intro hcon
      exact hcB hcon.1
    · intro b hb hbA
      have hbp : b ≠ p := fun he => by
        rw [he, hpF] at hbA
        exact magic_free_ne_alloc hbA
      have hbc : b ≠ p + (w - n) := fun he => hcB (he ▸ hb)
      have hbq : b ≠ p + w := fun he => hqB (he ▸ hb)
      exact ⟨hB2mem b hb, F7 b hbp hbc hbq⟩
    · intro b hb hbA
      by_cases hbc : b = p + (w - n)
      · exact .inl hbc
      · rw [F2, if_neg hbc] at hbA
        by_cases hbq : b = p + w
        · rw [if_pos hbq] at hbA
          exact absurd hbA (by decide)
        · rw [if_neg hbq] at hbA
          have hbp : b ≠ p := fun he => by
            rw [he, hpF] at hbA
            exact magic_free_ne_alloc hbA
          exact .inr ⟨hB2memR b hb hbc hbq, hbA, F7 b hbp hbc hbq⟩
    · intro c hc
      have h1 : c ≠ p := fun he => hc (he ▸ hBspan p hpB)
      have h2 : c ≠ p + (w - n) := fun he => hc (he ▸ hspans.1)
      have h3 : c ≠ p + w := fun he => hc (he ▸ hspans.2)
      exact F7 c h1 h2 h3
  · -- the ring had other nodes
    have hcpp := (cycChain_cons_parts m p _ hMnil).mp hVcyc
    obtain ⟨hchainM, hlink1, hlink2⟩ := hcpp
    set M := freeList m Br ++ freeList m Bl with hM
    set nx := M.headD 0 with hnxd
    set pv := M.getLast hMnil with hpvd
    have hnxM : nx ∈ M := by
      obtain ⟨a, M2, hM2⟩ := List.exists_cons_of_ne_nil hMnil
      rw [hnxd, hM2]
      exact List.mem_cons_self a M2
    have hpvM : pv ∈ M := List.getLast_mem hMnil
    have hpM : p ∉ M := by
      intro h
      rcases List.mem_append.mp h with h1 | h1
      · exact hpLC h1
      · exact hpLA h1
    have hMfree : ∀ x ∈ M, (m x).magic = GRUB_MM_FREE_MAGIC := by
      intro x hx
      rcases List.mem_append.mp hx with h1 | h1
      · exact freeList_magic x h1
      · exact freeList_magic x h1
    have hMB : ∀ x ∈ M, x ∈ Bl ++ p :: Br := by
      intro x hx
      rcases List.mem_append.mp hx with h1 | h1
      · exact List.mem_append.mpr (.inr (List.mem_cons_of_mem p (freeList_subset x h1)))
      · exact List.mem_append.mpr (.inl (freeList_subset x h1))
    have hcM : p + (w - n) ∉ M := fun h => hcB (hMB _ h)
    have hqM : p + w ∉ M := fun h => hqB (hMB _ h)
    have hnxp : nx ≠ p := fun he => hpM (he ▸ hnxM)
    have hpvp : pv ≠ p := fun he => hpM (he ▸ hpvM)
    have hnxq : nx ≠ p + w := fun he => hqM (he ▸ hnxM)
    have hpvq : pv ≠ p + w := fun he => hqM (he ▸ hpvM)
    have hnxc : nx ≠ p + (w - n) := fun he => hcM (he ▸ hnxM)
    have hpvc : pv ≠ p + (w - n) := fun he => hcM (he ▸ hpvM)
    have hprev : (m p).prev = pv := hlink2.2
    have hnext : (m p).next = nx := hlink1.1
    have hnxprev : (m nx).prev = p := hlink1.2
    have hpvnext : (m pv).next = p := hlink2.1
    have hm1 := split_chunk_eq m p w nx hws hw1 hnext hnxp hnxq
    have G1 : ∀ c, ((split_chunk m p w) c).size =
        if c = p then w else if c = p + w then (m p).size - w else (m c).size := by
      intro c
      simp only [hm1]
      by_cases h1 : c = p
      · simp only [h1]
        simp [hqp, Ne.symm hqp, hw0]
      · by_cases h2 : c = p + w
        · simp only [h2]
          simp [hqp, hw0]
        · by_cases h3 : c = nx
          · simp only [h3]
            simp [hnxp, hnxq]
          · simp [h1, h2, h3]
    have G2 : ∀ c, ((split_chunk m p w) c).magic =
        if c = p + w then GRUB_MM_FREE_MAGIC else (m c).magic := by
      intro c
      simp only [hm1]
      by_cases h1 : c = p
      · simp only [h1]
        simp [hqp, Ne.symm hqp, hw0]
      · by_cases h2 : c = p + w
        · simp only [h2]
          simp [hqp, hw0]
        · by_cases h3 : c = nx
          · simp only [h3]
            simp [hnxp, hnxq]
          · simp [h1, h2, h3]
    have G3 : ∀ c, ((split_chunk m p w) c).next =
        if c = p then p + w else if c = p + w then nx else (m c).next := by
      intro c
      simp only [hm1]
      by_cases h1 : c = p
      · simp only [h1]
        simp [hqp, Ne.symm hqp, hw0]
      · by_cases h2 : c = p + w
        · simp only [h2]
          simp [hqp, hw0]
        · by_cases h3 : c = nx
          · simp only [h3]
            simp [hnxp, hnxq]
          · simp [h1, h2, h3]
    have G4 : ∀ c, ((split_chunk m p w) c).prev =
        if c = p + w then p else if c = nx then p + w else (m c).prev := by
      intro c
      simp only [hm1]
      by_cases h2 : c = p + w
      · simp only [h2]
        simp [hqp, hw0]
      · by_cases h3 : c = nx
        · simp only [h3]
          simp [hnxp, hnxq]
        · by_cases h1 : c = p
          · rw [h1] at h3
            simp only [h1]
            simp [hqp, Ne.symm hqp, hw0, h3]
          · simp [h1, h2, h3]
    have F1 : ∀ c, ((tailCarveMem (split_chunk m p w) p n) c).size =
        if c = p then w - n else if c = p + (w - n) then n
        else if c = p + w then (m p).size - w else (m c).size := by
      intro c
      simp only [hm2]
      by_cases h1 : c = p
      · rw [if_pos h1]
        simp [h1, Ne.symm hcp, Ne.symm hqp, hw0, he0]
      · rw [if_neg h1]
        by_cases h2 : c = p + (w - n)
        · rw [if_pos h2]
          simp [h1, h2, he0, hwe, hcq]
        · rw [if_neg h2, G1]
          simp [h1, h2]
    have F2 : ∀ c, ((tailCarveMem (split_chunk m p w) p n) c).magic =
        if c = p + (w - n) then GRUB_MM_ALLOC_MAGIC
        else if c = p + w then GRUB_MM_FREE_MAGIC else (m c).magic := by
      intro c
      simp only [hm2]
      by_cases h1 : c = p
      · rw [if_pos h1]
        show ((split_chunk m p w) p).magic = _
        rw [G2]
        simp [h1, Ne.symm hcp, Ne.symm hqp, hw0, he0]
      · rw [if_neg h1]
        by_cases h2 : c = p + (w - n)
        · rw [if_pos h2]
          simp [h2, he0, hwe, hcq]
        · rw [if_neg h2, G2]
          simp [h2]
    have F3 : ∀ c, ((tailCarveMem (split_chunk m p w) p n) c).next =
        if c = p then p + w else if c = p + w then nx else (m c).next := by
      intro c
      simp only [hm2]
      by_cases h1 : c = p
      · rw [if_pos h1]
        show ((split_chunk m p w) p).next = _
        rw [G3]
        simp [h1]
      · rw [if_neg h1]
        by_cases h2 : c = p + (w - n)
        · rw [if_pos h2]
          show ((split_chunk m p w) (p + (w - n))).next = _
          rw [G3]
          simp [h2, hcp, hcq, he0, hwe]
        · rw [if_neg h2, G3]
    have F4 : ∀ c, ((tailCarveMem (split_chunk m p w) p n) c).prev =
        if c = p + w then p else if c = nx then p + w else (m c).prev := by
      intro c
      simp only [hm2]
      by_cases h1 : c = p
      · rw [if_pos h1]
        show ((split_chunk m p w) p).prev = _
        rw [G4]
        simp [h1, Ne.symm hqp, hw0, hnxp, Ne.symm hnxp]
      · rw [if_neg h1]
        by_cases h2 : c = p + (w - n)
        · rw [if_pos h2]
          show ((split_chunk m p w) (p + (w - n))).prev = _
          rw [G4]
          simp [h2, hcq, he0, hwe, Ne.symm hnxc]
        · rw [if_neg h2, G4]
    have F7 : ∀ c, c ≠ p → c ≠ p + (w - n) → c ≠ p + w → c ≠ nx →
        (tailCarveMem (split_chunk m p w) p n) c = m c := by
      intro c h1 h2 h3 h4
      refine Header.extEq ?_ ?_ ?_ ?_
      · rw [F4]
        simp [h3, h4]
      · rw [F3]
        simp [h1, h3]
      · rw [F1]
        simp [h1, h2, h3]
      · rw [F2]
        simp [h2, h3]
    have hF2c : ((tailCarveMem (split_chunk m p w) p n) (p + (w - n))).magic
        = GRUB_MM_ALLOC_MAGIC := by
      rw [F2, if_pos rfl]
    have hcommon := tailSplit_common m (tailCarveMem (split_chunk m p w) p n)
      r Bl Br p n w htiles hmagics hadj hpF hn1 hnw hws F1 F2
    refine ⟨Bl ++ p :: (p + (w - n)) :: (p + w) :: Br, p + (w - n), rfl, hspans.1, ?_,
      List.mem_append.mpr (.inr (List.mem_cons_of_mem p (List.mem_cons_self _ _))),
      hF2c, ?_, ?_, ?_, ?_⟩
    · refine ⟨haddr, hsize, hcommon.1, hcommon.2.1, hcommon.2.2.1, ?_⟩
      right
      rw [hcommon.2.2.2, ringShape_iff]
      refine ⟨by simp, ?_, ?_⟩
      · cases hLAe : freeList m Bl with
        | nil =>
          have hfirstp : r.first = p := by
            rw [hVfirst, hLAe]
            rfl
          show r.first = ([] ++ p :: (p + w) :: freeList m Br).headD 0
          rw [hfirstp]
          rfl
        | cons a A2 =>
          have hfirsta : r.first = a := by
            rw [hVfirst, hLAe]
            rfl
          show r.first = (a :: A2 ++ p :: (p + w) :: freeList m Br).headD 0
          rw [hfirsta]
          rfl
      · have hchainNew :
            List.Chain' (linkRel (tailCarveMem (split_chunk m p w) p n)) M := by
          refine chain'_imp_mem ?_ hchainM
          intro a ha b hb hab
          have ha1 : a ≠ p := fun he => hpM (he ▸ ha)
          have ha3 : a ≠ p + w := fun he => hqM (he ▸ ha)
          have hb3 : b ≠ p + w := fun he => hqM (he ▸ hb)
          constructor
          · rw [F3, if_neg ha1, if_neg ha3]
            exact hab.1
          · rw [F4]
            by_cases hbnx : b = nx
            · exfalso
              have hap2 : a = p := by
                rw [hbnx] at hab
                rw [← hab.2, hnxprev]
              exact hpM (hap2 ▸ ha)
            · rw [if_neg hb3, if_neg hbnx]
              exact hab.2
        have hlkq1 : linkRel (tailCarveMem (split_chunk m p w) p n) (p + w) nx := by
          constructor
          · rw [F3, if_neg hqp, if_pos rfl]
          · rw [F4, if_neg hnxq, if_pos rfl]
        have hlkp : linkRel (tailCarveMem (split_chunk m p w) p n) p (p + w) := by
          constructor
          · rw [F3, if_pos rfl]
          · rw [F4, if_pos rfl]
        have hlkpv : linkRel (tailCarveMem (split_chunk m p w) p n) pv p := by
          constructor
          · rw [F3, if_neg hpvp, if_neg hpvq]
            exact hpvnext
          · rw [F4, if_neg (Ne.symm hqp), if_neg (Ne.symm hnxp)]
            exact hprev
        have hcyc2 : cycChain (tailCarveMem (split_chunk m p w) p n)
            (p :: (p + w) :: M) := by
          refine (cycChain_cons_parts _ p ((p + w) :: M)
            (List.cons_ne_nil _ M)).mpr ⟨?_, ?_, ?_⟩
          · refine List.chain'_cons'.mpr ⟨?_, hchainNew⟩
            intro y hy
            obtain ⟨a0, M0, hM0⟩ := List.exists_cons_of_ne_nil hMnil
            have hy0 : a0 = y := by
              rw [hM0] at hy
              simpa using hy
            have hnx0 : nx = a0 := by
              rw [hnxd, hM0]
              rfl
            rw [← hy0, ← hnx0]
            exact hlkq1
          · simpa using hlkp
          · have hgl : ((p + w) :: M).getLast (List.cons_ne_nil _ M)
                = M.getLast hMnil := List.getLast_cons hMnil
            rw [hgl, ← hpvd]
            exact hlkpv
        rw [hM] at hcyc2
        exact (cycChain_rotate _ (freeList m Bl)
          ((p + w) :: freeList m Br) p).mpr hcyc2
    · intro hcon
      exact hcB hcon.1
    · intro b hb hbA
      have hbp : b ≠ p := fun he => by
        rw [he, hpF] at hbA
        exact magic_free_ne_alloc hbA
      have hbc : b ≠ p + (w - n) := fun he => hcB (he ▸ hb)
      have hbq : b ≠ p + w := fun he => hqB (he ▸ hb)
      have hbnx : b ≠ nx := fun he => by
        rw [he, hMfree nx hnxM] at hbA
        exact magic_free_ne_alloc hbA
      exact ⟨hB2mem b hb, F7 b hbp hbc hbq hbnx⟩
    · intro b hb hbA
      by_cases hbc : b = p + (w - n)
      · exact .inl hbc
      · rw [F2, if_neg hbc] at hbA
        by_cases hbq : b = p + w
        · rw [if_pos hbq] at hbA
          exact absurd hbA (by decide)
        · rw [if_neg hbq] at hbA
          have hbp : b ≠ p := fun he => by
            rw [he, hpF] at hbA
            exact magic_free_ne_alloc hbA
          have hbnx : b ≠ nx := fun he => by
            rw [he, hMfree nx hnxM] at hbA
            exact magic_free_ne_alloc hbA
          exact .inr ⟨hB2memR b hb hbc hbq, hbA, F7 b hbp hbc hbq hbnx⟩
    · intro c hc
      have h1 : c ≠ p := fun he => hc (he ▸ hBspan p hpB)
      have h2 : c ≠ p + (w - n) := fun he => hc (he ▸ hspans.1)
      have h3 : c ≠ p + w := fun he => hc (he ▸ hspans.2)
      have h4 : c ≠ nx := fun he => hc (he ▸ hBspan nx (hMB nx hnxM))
      exact F7 c h1 h2 h3 h4

/-- Exact-fit carve, split or not, as one statement. -/
theorem carve_detach (m : Mem) (r : Region) (Bl Br : List Nat) (p n : Nat)
    (hreg : RegionB m r (Bl ++ p :: Br))
    (hpF : (m p).magic = GRUB_MM_FREE_MAGIC)
    (hn1 : 1 ≤ n) (hns : n ≤ (m p).size) :
    CarveOut m r (Bl ++ p :: Br) (detachMem (split_chunk m p n) p)
      (if p = r.first then ((split_chunk m p n) p).next else r.first) (p + 1) := by
  rcases Nat.lt_or_ge n (m p).size with hlt | hge
  · exact carve_detach_split m r Bl Br p n hreg hpF hn1 hlt
  · rw [split_chunk_noop m p n hge]
    exact carve_detach_nosplit m r Bl Br p hreg hpF

/-- Padded carve, split or not, as one statement. -/
theorem carve_tail (m : Mem) (r : Region) (Bl Br : List Nat) (p n w : Nat)
    (hreg : RegionB m r (Bl ++ p :: Br))
    (hpF : (m p).magic = GRUB_MM_FREE_MAGIC)
    (hn1 : 1 ≤ n) (hnw : n < w) (hws : w ≤ (m p).size) :
    CarveOut m r (Bl ++ p :: Br) (tailCarveMem (split_chunk m p w) p n) r.first
      ((p + (((split_chunk m p w) p).size - n)) + 1) := by
  rcases Nat.lt_or_ge w (m p).size with hlt | hge
  · rw [split_chunk_size_at m p w hlt]
    exact carve_tail_split m r Bl Br p n w hreg hpF hn1 hnw hlt
  · rw [split_chunk_noop m p w hge]
    exact carve_tail_nosplit m r Bl Br p n hreg hpF hn1 (by omega)

/-- One unfolding of the search loop at a non-fitting FREE node. -/
theorem loop_nofit (n alignC : Nat) (strat : Strategy) (first last : Nat) (fuel : Nat)
    (m : Mem) (p : Nat) (hp0 : p ≠ 0) (hmag : (m p).magic = GRUB_MM_FREE_MAGIC)
    (hnofit : ¬((m p).size ≥ n + ((p + 1) &&& (alignC - 1)))) :
    grub_real_malloc_loop n alignC strat first last (fuel + 1) m p =
      if p = last then .ok none
      else grub_real_malloc_loop n alignC strat first last fuel m (stepPtr m strat p) := by
  show (let want := n + ((p + 1) &&& (alignC - 1));
    if p = 0 then Res.fatal
    else if (m p).magic ≠ GRUB_MM_FREE_MAGIC then Res.fatal
    else if (m p).size ≥ want then
      let want2 :=
        if strat = .sLast then want + ((m p).size - want) / alignC * alignC else want
      let m1 := split_chunk m p want2
      if want2 = n then
        let first1 := if p = first then (m1 p).next else first
        let m2 := setNext m1 ((m1 p).prev) ((m1 p).next)
        let m3 := setPrev m2 ((m2 p).next) ((m2 p).prev)
        let m4 := setMagic m3 p GRUB_MM_ALLOC_MAGIC
        Res.ok (some (m4, first1, p + 1))
      else
        let m2 := setSize m1 p ((m1 p).size - n)
        let p2 := p + (m2 p).size
        let m3 := setSize m2 p2 n
        let m4 := setMagic m3 p2 GRUB_MM_ALLOC_MAGIC
        Res.ok (some (m4, first, p2 + 1))
    else if p = last then Res.ok none
    else grub_real_malloc_loop n alignC strat first last fuel m (stepPtr m strat p)) = _
  rw [if_neg hp0, if_neg (by simp [hmag]), if_neg hnofit]

/-- The search loop of `grub_real_malloc`, started anywhere on the free
ring of a region satisfying the invariant, either runs out of fuel, fails,
or carves one block while preserving the invariant. -/
theorem loop_preserve (n alignC : Nat) (strat : Strategy) (last : Nat)
    (m : Mem) (r : Region) (B : List Nat)
    (hreg : RegionB m r B) (h0 : 0 < startCell r) (hn1 : 1 ≤ n) :
    ∀ fuel p, p ∈ freeList m B →
      grub_real_malloc_loop n alignC strat r.first last fuel m p = .nofuel ∨
      grub_real_malloc_loop n alignC strat r.first last fuel m p = .ok none ∨
      ∃ m2 f2 pc, grub_real_malloc_loop n alignC strat r.first last fuel m p
          = .ok (some (m2, f2, pc)) ∧ CarveOut m r B m2 f2 pc := by
  intro fuel
  induction fuel with
  | zero =>
    intro p _
    exact .inl rfl
  | succ fuel ih =>
    intro p hpL
    have hpB : p ∈ B := freeList_subset p hpL
    have hpF : (m p).magic = GRUB_MM_FREE_MAGIC := freeList_magic p hpL
    have htiles := hreg.2.2.1
    have hp0 : p ≠ 0 := by
      have hb := tiles_bounds m htiles p hpB
      omega
    by_cases hfit : (m p).size ≥ n + ((p + 1) &&& (alignC - 1))
    · right
      right
      obtain ⟨Bl, Br, hB⟩ := List.append_of_mem hpB
      subst hB
      have hfit2 : (m p).size ≥ n + ((p + 1) &&& (alignC - 1)) +
          (if strat = Strategy.sLast then 0 else 0) := by
        have h00 : (if strat = Strategy.sLast then 0 else 0) = 0 := by
          cases strat <;> simp
        rw [h00, Nat.add_zero]
        exact hfit
      rw [loop_fit n alignC strat r.first last fuel m p hp0 hpF hfit2]
      dsimp only
      set W := (if strat = Strategy.sLast
          then n + ((p + 1) &&& (alignC - 1))
            + ((m p).size - (n + ((p + 1) &&& (alignC - 1)))) / alignC * alignC
          else n + ((p + 1) &&& (alignC - 1))) with hW
      have hWle : W ≤ (m p).size := by
        rw [hW]
        split
        · have := Nat.div_mul_le_self
            ((m p).size - (n + ((p + 1) &&& (alignC - 1)))) alignC
          omega
        · exact hfit
      have hWge : n ≤ W := by
        rw [hW]
        split
        · omega
        · omega
      by_cases hw2 : W = n
      · rw [if_pos hw2, hw2]
        exact ⟨_, _, _, rfl, carve_detach m r Bl Br p n hreg hpF hn1 (by omega)⟩
      · rw [if_neg hw2]
        exact ⟨_, _, _, rfl,
          carve_tail m r Bl Br p n W hreg hpF hn1 (by omega) hWle⟩
    · rw [loop_nofit n alignC strat r.first last fuel m p hp0 hpF hfit]
      by_cases hl : p = last
      · rw [if_pos hl]
        exact .inr (.inl rfl)
      · rw [if_neg hl]
        have hsh : RingShape m r.first (freeList m B) := by
          rcases hreg.2.2.2.2.2 with ⟨h1, _, _⟩ | h2
          · rw [h1] at hpL
            simp at hpL
          · exact h2
        have hstep : stepPtr m strat p ∈ freeList m B := by
          cases strat with
          | sLast => exact ring_prev_mem hsh hpL
          | sFirst => exact ring_next_mem hsh hpL
          | sSecond => exact ring_next_mem hsh hpL
          | sSkip => exact ring_next_mem hsh hpL
        exact ih (stepPtr m strat p) hstep

theorem calcN_pos (size : Nat) : 1 ≤ calcN size := by
  unfold calcN
  exact Nat.le_add_left 1 _

/-- `grub_real_malloc` on a region satisfying the invariant either fails
(region full, no fit, or out of fuel) or returns a carved block, the
invariant preserved. -/
theorem real_malloc_preserve (fuel : Nat) (m : Mem) (r : Region) (B : List Nat)
    (align size : Nat) (strat : Strategy)
    (hreg : RegionB m r B) (h0 : 0 < startCell r) :
    grub_real_malloc fuel m r.first align size strat = .nofuel ∨
    grub_real_malloc fuel m r.first align size strat = .ok none ∨
    ∃ m2 f2 pc, grub_real_malloc fuel m r.first align size strat
        = .ok (some (m2, f2, pc)) ∧ CarveOut m r B m2 f2 pc := by
  have hn1 : 1 ≤ calcN size := calcN_pos size
  unfold grub_real_malloc
  dsimp only
  by_cases hsent : (m r.first).magic = GRUB_MM_ALLOC_MAGIC
  · rw [if_pos hsent]
    exact .inr (.inl rfl)
  · rw [if_neg hsent]
    have hsh : RingShape m r.first (freeList m B) := by
      rcases hreg.2.2.2.2.2 with ⟨_, h2, _⟩ | h2
      · exact absurd h2 hsent
      · exact h2
    have hfirst : r.first ∈ freeList m B := ring_first_mem hsh
    cases strat with
    | sFirst =>
      exact loop_preserve (calcN size) (normAlign align) .sFirst ((m r.first).prev)
        m r B hreg h0 hn1 fuel r.first hfirst
    | sSkip =>
      exact loop_preserve (calcN size) (normAlign align) .sSkip ((m r.first).prev)
        m r B hreg h0 hn1 fuel r.first hfirst
    | sSecond =>
      exact loop_preserve (calcN size) (normAlign align) .sSecond r.first
        m r B hreg h0 hn1 fuel ((m r.first).next) (ring_next_mem hsh hfirst)
    | sLast =>
      exact loop_preserve (calcN size) (normAlign align) .sLast r.first
        m r B hreg h0 hn1 fuel ((m r.first).prev) (ring_prev_mem hsh hfirst)

theorem tiles_length_le (m : Mem) :
    ∀ {start total : Nat} {B : List Nat}, TilesFrom m start total B →
      B.length ≤ total := by
  intro start total B
  induction B generalizing start total with
  | nil =>
    intro _
    simp
  | cons x B ih =>
    intro h
    obtain ⟨_, h1, h2, hrec⟩ := h
    have := ih hrec
    simp only [List.length_cons]
    omega

theorem regionFuel_eq (r : Region) (h : r.size = GRUB_MM_ALIGN * totalCells r) :
    regionFuel r = totalCells r + 1 := by
  unfold regionFuel
  rw [h]
  show (GRUB_MM_ALIGN * totalCells r) >>> GRUB_MM_ALIGN_LOG2 + 1 = totalCells r + 1
  rw [show GRUB_MM_ALIGN_LOG2 = 5 from rfl, shiftRight_five]
  have h32 : GRUB_MM_ALIGN = 32 := rfl
  rw [h32]
  omega

/-- The insertion scan of `grub_free`, walked along a sorted free ring
suffix: it returns the first node above `p`, or the ring's last node when
every node is at or below `p`. -/
theorem freeScan_sorted (m : Mem) (first p : Nat) :
    ∀ (L2 : List Nat) (q fuel : Nat),
      List.Chain' (linkRel m) (q :: L2) →
      List.Chain' (fun a b => a < b) (q :: L2) →
      (∀ x ∈ q :: L2, (m x).magic = GRUB_MM_FREE_MAGIC) →
      (m first).prev = (q :: L2).getLast (List.cons_ne_nil q L2) →
      L2.length + 1 ≤ fuel →
      freeScan m first p fuel q =
        .ok (((q :: L2).find? (fun x => decide (p < x))).getD
          ((q :: L2).getLast (List.cons_ne_nil q L2))) := by
  intro L2
  induction L2 with
  | nil =>
    intro q fuel hchain hsort hfree hlast hfuel
    obtain ⟨f, rfl⟩ : ∃ f, fuel = f + 1 := ⟨fuel - 1, by omega⟩
    show (if p ≥ q ∧ q ≠ (m first).prev then
        if (m q).magic ≠ GRUB_MM_FREE_MAGIC then Res.fatal
        else freeScan m first p f ((m q).next)
      else Res.ok q) = _
    rw [if_neg (by rw [hlast]; simp)]
    by_cases hpq : p < q
    · simp [List.find?, hpq]
    · simp [List.find?, hpq]
  | cons y L2 ih =>
    intro q fuel hchain hsort hfree hlast hfuel
    obtain ⟨f, rfl⟩ : ∃ f, fuel = f + 1 := ⟨fuel - 1, by omega⟩
    by_cases hpq : p < q
    · show (if p ≥ q ∧ q ≠ (m first).prev then
          if (m q).magic ≠ GRUB_MM_FREE_MAGIC then Res.fatal
          else freeScan m first p f ((m q).next)
        else Res.ok q) = _
      rw [if_neg (fun hcon => absurd hcon.1 (by omega))]
      simp [List.find?, hpq]
    · show (if p ≥ q ∧ q ≠ (m first).prev then
          if (m q).magic ≠ GRUB_MM_FREE_MAGIC then Res.fatal
          else freeScan m first p f ((m q).next)
        else Res.ok q) = _
      have hqlt : q < (y :: L2).getLast (List.cons_ne_nil y L2) := by
        have hpw := List.chain'_iff_pairwise.mp hsort
        exact (List.pairwise_cons.mp hpw).1 _
          (List.getLast_mem (List.cons_ne_nil y L2))
      have hgl : (q :: y :: L2).getLast (List.cons_ne_nil q (y :: L2))
          = (y :: L2).getLast (List.cons_ne_nil y L2) :=
        List.getLast_cons (List.cons_ne_nil y L2)
      rw [if_pos ⟨by omega, by rw [hlast, hgl]; omega⟩]
      rw [if_neg (by simp [hfree q (List.mem_cons_self _ _)])]
      have hnext : (m q).next = y := (List.chain'_cons.mp hchain).1.1
      rw [hnext]
      rw [ih y f (List.Chain'.tail hchain) (List.Chain'.tail hsort)
        (fun x hx => hfree x (List.mem_cons_of_mem _ hx))
        (by rw [hlast, hgl]) (by simp at hfuel ⊢; omega)]
      rw [hgl, List.find?_cons_of_neg (y :: L2) (by simpa using hpq)]

/-- The ring insertion of `grub_free`, statement by statement
(`p->magic = FREE; p->next = q->next; p->next->prev = p; q->next = p;
q->next->prev = q`), split out of `grub_free` for the invariant proof. -/
def freeLink (m : Mem) (p q : Nat) : Mem :=
  let m1 := setMagic m p GRUB_MM_FREE_MAGIC
  let m2 := setNext m1 p ((m1 q).next)
  let m3 := setPrev m2 ((m2 p).next) p
  let m4 := setNext m3 q p
  setPrev m4 ((m4 q).next) q

/-- The forward coalesce of `grub_free`, split out of `grub_free`. -/
def freeMergeFwd (m5 : Mem) (p : Nat) : Mem :=
  if p + (m5 p).size = (m5 p).next then
    let m6a := setMagic m5 ((m5 p).next) 0
    let m6b := setSize m6a p ((m6a p).size + (m6a ((m6a p).next)).size)
    let m6c := setNext m6b p ((m6b ((m6b p).next)).next)
    setPrev m6c ((m6c p).next) p
  else m5

/-- The backward coalesce of `grub_free`, split out of `grub_free`. -/
def freeMergeBwd (m6 : Mem) (p q : Nat) : Mem :=
  if q + (m6 q).size = p then
    let m7a := setMagic m6 p 0
    let m7b := setSize m7a q ((m7a q).size + (m7a p).size)
    let m7c := setNext m7b q ((m7b p).next)
    setPrev m7c ((m7c q).next) q
  else m6

/-- Run equation for `grub_free` on the region-full fast path. -/
theorem grub_free_run_sentinel (st : MMState) (ptr p i : Nat) (r : Region)
    (hptr : ptr ≠ 0)
    (hget : get_header_from_pointer st ptr = .ok (p, i, r))
    (hsent : (st.mem r.first).magic = GRUB_MM_ALLOC_MAGIC) :
    grub_free st ptr = .ok { st with
      mem := setNext (setPrev (setMagic st.mem p GRUB_MM_FREE_MAGIC) p p) p p,
      base := st.base.set i { r with first := p } } := by
  unfold grub_free
  rw [if_neg hptr, hget]
  simp only []
  rw [if_pos hsent]

/-- Run equation for `grub_free` on the ring insertion path. -/
theorem grub_free_run (st : MMState) (ptr p i : Nat) (r : Region) (q0 : Nat)
    (hptr : ptr ≠ 0)
    (hget : get_header_from_pointer st ptr = .ok (p, i, r))
    (hsent : ¬((st.mem r.first).magic = GRUB_MM_ALLOC_MAGIC))
    (hscan : freeScan st.mem r.first p (regionFuel r) r.first = .ok q0) :
    grub_free st ptr = .ok { st with
      mem := freeMergeBwd (freeMergeFwd
          (freeLink st.mem p (if p < q0 then (st.mem q0).prev else q0)) p)
        p (if p < q0 then (st.mem q0).prev else q0),
      base := st.base.set i { r with first :=
        if r.first = (st.mem (if p < q0 then (st.mem q0).prev else q0)).next ∧
            p < (st.mem (if p < q0 then (st.mem q0).prev else q0)).next
        then p else r.first } } := by
  unfold grub_free
  rw [if_neg hptr, hget]
  simp only []
  rw [if_neg hsent, hscan]
  simp only []
  unfold freeLink freeMergeFwd freeMergeBwd
  rfl

/-- What a successful free guarantees: the invariant for the updated
region, preservation of every other allocated block, no allocated block
gained, and no write outside the region's span. -/
def FreeOut (m : Mem) (r : Region) (B : List Nat) (p : Nat) (m2 : Mem)
    (f2 : Nat) : Prop :=
  ∃ B2, RegionB m2 { r with first := f2 } B2 ∧
    (∀ b ∈ B, (m b).magic = GRUB_MM_ALLOC_MAGIC → b ≠ p → b ∈ B2 ∧ m2 b = m b) ∧
    (∀ b ∈ B2, (m2 b).magic = GRUB_MM_ALLOC_MAGIC →
      b ∈ B ∧ (m b).magic = GRUB_MM_ALLOC_MAGIC ∧ b ≠ p ∧ m2 b = m b) ∧
    (∀ c, ¬inSpan r c → m2 c = m c)

/-- Freeing into a region in the full-sentinel state restores the
invariant: the freed block becomes a one-element free ring. -/
theorem free_sentinel_preserve (m : Mem) (r : Region) (Bl Br : List Nat) (p : Nat)
    (hreg : RegionB m r (Bl ++ p :: Br))
    (hpA : (m p).magic = GRUB_MM_ALLOC_MAGIC)
    (hsent : (m r.first).magic = GRUB_MM_ALLOC_MAGIC) :
    FreeOut m r (Bl ++ p :: Br) p
      (setNext (setPrev (setMagic m p GRUB_MM_FREE_MAGIC) p p) p p) p := by
  obtain ⟨haddr, hsize, htiles, hmagics, hadj, hring⟩ := hreg
  have hfl0 : freeList m (Bl ++ p :: Br) = [] := by
    rcases hring with ⟨h1, _, _⟩ | h2
    · exact h1
    · exfalso
      have hf := ring_first_mem h2
      have := freeList_magic r.first hf
      rw [this] at hsent
      exact magic_free_ne_alloc hsent
  have hallA : ∀ b ∈ Bl ++ p :: Br, (m b).magic = GRUB_MM_ALLOC_MAGIC := by
    intro b hb
    rcases hmagics b hb with h1 | h1
    · exfalso
      have : b ∈ freeList m (Bl ++ p :: Br) := List.mem_filter.mpr ⟨hb, by simp [h1]⟩
      rw [hfl0] at this
      simp at this
    · exact h1
  have hpB : p ∈ Bl ++ p :: Br := List.mem_append.mpr (.inr (List.mem_cons_self p Br))
  have hBspan : ∀ b ∈ Bl ++ p :: Br, inSpan r b := fun b hb => by
    have := tiles_bounds m htiles b hb
    exact ⟨this.1, this.2⟩
  have F0 : ∀ c, c ≠ p →
      (setNext (setPrev (setMagic m p GRUB_MM_FREE_MAGIC) p p) p p) c = m c := by
    intro c h1
    simp [setNext, setPrev, setMagic, h1]
  have Fp : (setNext (setPrev (setMagic m p GRUB_MM_FREE_MAGIC) p p) p p) p
      = { m p with magic := GRUB_MM_FREE_MAGIC, prev := p, next := p } := by
    refine Header.extEq ?_ ?_ ?_ ?_ <;> simp
  have hfl2 : freeList (setNext (setPrev (setMagic m p GRUB_MM_FREE_MAGIC) p p) p p)
      (Bl ++ p :: Br) = [p] := by
    have e0 : freeList m Bl = [] ∧ freeList m Br = [] := by
      rw [freeList_append, freeList_cons_nonfree m p Br (by rw [hpA]; decide)] at hfl0
      exact ⟨(List.append_eq_nil.mp hfl0).1, (List.append_eq_nil.mp hfl0).2⟩
    have hndB : (Bl ++ p :: Br).Nodup := nodup_of_pairwise_lt
      (List.chain'_iff_pairwise.mp (tiles_sorted m htiles))
    obtain ⟨hpBl, hpBr⟩ := nodup_parts hndB
    rw [freeList_append, freeList_cons_free _ p Br (by rw [Fp])]
    have e1 : freeList (setNext (setPrev (setMagic m p GRUB_MM_FREE_MAGIC) p p) p p) Bl
        = freeList m Bl := by
      refine freeList_congr ?_
      intro b hb
      rw [F0 b (fun he => hpBl (he ▸ hb))]
    have e2 : freeList (setNext (setPrev (setMagic m p GRUB_MM_FREE_MAGIC) p p) p p) Br
        = freeList m Br := by
      refine freeList_congr ?_
      intro b hb
      rw [F0 b (fun he => hpBr (he ▸ hb))]
    rw [e1, e2, e0.1, e0.2]
    rfl
  refine ⟨Bl ++ p :: Br, ?_, ?_, ?_, ?_⟩
  · refine ⟨haddr, hsize, ?_, ?_, ?_, ?_⟩
    · refine tiles_congr ?_ htiles
      intro b _
      by_cases h1 : b = p
      · rw [h1, Fp]
      · rw [F0 b h1]
    · intro b hb
      by_cases h1 : b = p
      · rw [h1, Fp]
        left
        rfl
      · rw [F0 b h1]
        exact hmagics b hb
    · refine chain'_imp_mem ?_ (tiles_sorted m htiles)
      intro a ha b hb hab hcon
      have hfa : a = p := by
        by_contra h1
        rw [F0 a h1] at hcon
        rw [hallA a ha] at hcon
        exact absurd hcon.1 (by decide)
      have hfb : b = p := by
        by_contra h1
        rw [F0 b h1] at hcon
        rw [hallA b hb] at hcon
        exact absurd hcon.2 (by decide)
      rw [hfa, hfb] at hab
      omega
    · right
      rw [hfl2]
      exact ⟨rfl, by simp [List.chain'_cons, linkRel, Fp]⟩
  · intro b hb hbA hbp
    exact ⟨hb, F0 b hbp⟩
  · intro b hb hbA
    by_cases h1 : b = p
    · exfalso
      rw [h1, Fp] at hbA
      exact magic_free_ne_alloc hbA
    · rw [F0 b h1] at hbA
      exact ⟨hb, hbA, h1, F0 b h1⟩
  · intro c hc
    exact F0 c (fun he => hc (he ▸ hBspan p hpB))

/-- Field effect of the ring insertion `freeLink`. -/
theorem freeLink_facts (m : Mem) (p q qn : Nat)
    (hqp : q ≠ p) (hqnp : qn ≠ p) (hqn : (m q).next = qn) :
    (∀ c, ((freeLink m p q) c).size = (m c).size) ∧
    (∀ c, ((freeLink m p q) c).magic =
      if c = p then GRUB_MM_FREE_MAGIC else (m c).magic) ∧
    (∀ c, ((freeLink m p q) c).next =
      if c = p then qn else if c = q then p else (m c).next) ∧
    (∀ c, ((freeLink m p q) c).prev =
      if c = p then q else if c = qn then p else (m c).prev) := by
  refine ⟨?_, ?_, ?_, ?_⟩
  · intro c
    unfold freeLink
    simp
  · intro c
    unfold freeLink
    by_cases h1 : c = p <;> simp [h1]
  · intro c
    unfold freeLink
    simp only [setMagic_next, setNext_next, setPrev_next, setMagic_prev, setNext_prev,
      setPrev_prev, setMagic_magic, setNext_magic, setPrev_magic, if_pos rfl]
    by_cases h1 : c = p
    · simp [h1, hqp, Ne.symm hqp, hqn]
    · by_cases h2 : c = q
      · simp [h1, h2, hqp]
      · simp [h1, h2, hqn]
  · intro c
    unfold freeLink
    simp only [setMagic_next, setNext_next, setPrev_next, setMagic_prev, setNext_prev,
      setPrev_prev, setMagic_magic, setNext_magic, setPrev_magic, if_pos rfl]
    by_cases h1 : c = p
    · simp [h1, hqp, Ne.symm hqp, hqnp, Ne.symm hqnp, hqn]
    · by_cases h2 : c = qn
      · simp [h1, h2, hqnp, hqn]
      · simp [h1, h2, hqn]

/-- Chain transport along membership in the initial segment and tail:
adjacent pairs never put the last element first or the head second. -/
theorem chain'_imp_mem2 {α : Type} {R S : α → α → Prop} :
    ∀ {l : List α}, (∀ a ∈ l.dropLast, ∀ b ∈ l.tail, R a b → S a b) →
      List.Chain' R l → List.Chain' S l := by
  intro l
  induction l with
  | nil =>
    intro _ _
    exact List.chain'_nil
  | cons x t ih =>
    intro H h
    cases t with
    | nil => exact List.chain'_singleton x
    | cons y t2 =>
      rw [List.chain'_cons] at h ⊢
      refine ⟨H x (by simp) y (by simp) h.1, ?_⟩
      refine ih ?_ h.2
      intro a ha b hb hr
      refine H a ?_ b ?_ hr
      · show a ∈ (x :: y :: t2).dropLast
        rw [List.dropLast_cons₂]
        exact List.mem_cons_of_mem x ha
      · exact List.mem_cons_of_mem y hb

theorem getLast_not_mem_dropLast {l : List Nat} (hnd : l.Nodup) (h : l ≠ []) :
    l.getLast h ∉ l.dropLast := by
  intro hmem
  have he : l.dropLast ++ [l.getLast h] = l := List.dropLast_append_getLast h
  rw [← he] at hnd
  have := List.disjoint_of_nodup_append hnd
  exact this hmem (by simp)

theorem head_not_mem_tail {l : List Nat} (hnd : l.Nodup) (h : l ≠ []) :
    l.headD 0 ∉ l.tail := by
  obtain ⟨a, t, rfl⟩ := List.exists_cons_of_ne_nil h
  simp only [List.headD_cons, List.tail_cons]
  exact (List.nodup_cons.mp hnd).1

theorem nodup_M {m : Mem} {Bl Br : List Nat} {p : Nat}
    (hndB : (Bl ++ p :: Br).Nodup) :
    (freeList m Br ++ freeList m Bl).Nodup := by
  have hd := List.nodup_append.mp hndB
  refine List.nodup_append.mpr ⟨?_, ?_, ?_⟩
  · exact List.Nodup.filter _ (List.nodup_cons.mp hd.2.1).2
  · exact List.Nodup.filter _ hd.1
  · intro a ha hb
    have h1 : a ∈ Br := freeList_subset a ha
    have h2 : a ∈ Bl := freeList_subset a hb
    exact hd.2.2 h2 (List.mem_cons_of_mem p h1)

/-- Rebuilding the region invariant after `grub_free` splices `p` into the
ring between `q` (the ring node before it in cyclic address order) and
`qn = q.next`, with no coalescing: the neighbouring tiles are not free. -/
theorem free_rebuild_insert (m m2 : Mem) (r : Region) (Bl Br : List Nat) (p q qn : Nat)
    (haddr : r.addr = GRUB_MM_ALIGN * startCell r)
    (hsize : r.size = GRUB_MM_ALIGN * totalCells r)
    (htiles : TilesFrom m (startCell r) (totalCells r) (Bl ++ p :: Br))
    (hmagics : ∀ b ∈ Bl ++ p :: Br,
      (m b).magic = GRUB_MM_FREE_MAGIC ∨ (m b).magic = GRUB_MM_ALLOC_MAGIC)
    (hadj : List.Chain' (fun a b =>
      ¬((m a).magic = GRUB_MM_FREE_MAGIC ∧ (m b).magic = GRUB_MM_FREE_MAGIC))
      (Bl ++ p :: Br))
    (hpA : (m p).magic = GRUB_MM_ALLOC_MAGIC)
    (hMnil : freeList m Br ++ freeList m Bl ≠ [])
    (hq : q = (freeList m Br ++ freeList m Bl).getLast hMnil)
    (hqn : qn = (freeList m Br ++ freeList m Bl).headD 0)
    (hcycM : cycChain m (freeList m Br ++ freeList m Bl))
    (hBlNF : ∀ x ∈ Bl.getLast?, (m x).magic ≠ GRUB_MM_FREE_MAGIC)
    (hBrNF : ∀ x ∈ Br.head?, (m x).magic ≠ GRUB_MM_FREE_MAGIC)
    (F1 : ∀ c, (m2 c).size = (m c).size)
    (F2 : ∀ c, (m2 c).magic = if c = p then GRUB_MM_FREE_MAGIC else (m c).magic)
    (F3 : ∀ c, (m2 c).next = if c = p then qn else if c = q then p else (m c).next)
    (F4 : ∀ c, (m2 c).prev = if c = p then q else if c = qn then p else (m c).prev) :
    FreeOut m r (Bl ++ p :: Br) p m2
      ((freeList m Bl ++ p :: freeList m Br).headD 0) := by
  have hndB : (Bl ++ p :: Br).Nodup := nodup_of_pairwise_lt
    (List.chain'_iff_pairwise.mp (tiles_sorted m htiles))
  obtain ⟨hpBl, hpBr⟩ := nodup_parts hndB
  have hBspan : ∀ b ∈ Bl ++ p :: Br, inSpan r b := fun b hb => by
    have := tiles_bounds m htiles b hb
    exact ⟨this.1, this.2⟩
  have hpB : p ∈ Bl ++ p :: Br := List.mem_append.mpr (.inr (List.mem_cons_self p Br))
  have hMB : ∀ x ∈ freeList m Br ++ freeList m Bl, x ∈ Bl ++ p :: Br := by
    intro x hx
    rcases List.mem_append.mp hx with h1 | h1
    · exact List.mem_append.mpr (.inr (List.mem_cons_of_mem p (freeList_subset x h1)))
    · exact List.mem_append.mpr (.inl (freeList_subset x h1))
  have hMfree : ∀ x ∈ freeList m Br ++ freeList m Bl,
      (m x).magic = GRUB_MM_FREE_MAGIC := by
    intro x hx
    rcases List.mem_append.mp hx with h1 | h1
    · exact freeList_magic x h1
    · exact freeList_magic x h1
  have hpM : p ∉ freeList m Br ++ freeList m Bl := by
    intro h
    rcases List.mem_append.mp h with h1 | h1
    · exact hpBr (freeList_subset p h1)
    · exact hpBl (freeList_subset p h1)
  have hqM : q ∈ freeList m Br ++ freeList m Bl := by
    rw [hq]
    exact List.getLast_mem hMnil
  have hqnM : qn ∈ freeList m Br ++ freeList m Bl := by
    obtain ⟨a, t, he⟩ := List.exists_cons_of_ne_nil hMnil
    rw [hqn, he]
    exact List.mem_cons_self a t
  have hqp : q ≠ p := fun he => hpM (he ▸ hqM)
  have hqnp : qn ≠ p := fun he => hpM (he ▸ hqnM)
  have hndM : (freeList m Br ++ freeList m Bl).Nodup := nodup_M hndB
  have F7 : ∀ c, c ≠ p → c ≠ q → c ≠ qn → m2 c = m c := by
    intro c h1 h2 h3
    refine Header.extEq ?_ ?_ ?_ ?_
    · rw [F4]
      simp [h1, h3]
    · rw [F3]
      simp [h1, h2]
    · exact F1 c
    · rw [F2]
      simp [h1]
  have hF2p : (m2 p).magic = GRUB_MM_FREE_MAGIC := by
    rw [F2, if_pos rfl]
  have e1 : freeList m2 Bl = freeList m Bl := by
    refine freeList_congr ?_
    intro b hb
    have h1 : b ≠ p := fun he => hpBl (he ▸ hb)
    rw [F2, if_neg h1]
  have e2 : freeList m2 Br = freeList m Br := by
    refine freeList_congr ?_
    intro b hb
    have h1 : b ≠ p := fun he => hpBr (he ▸ hb)
    rw [F2, if_neg h1]
  have hfl2 : freeList m2 (Bl ++ p :: Br) = freeList m Bl ++ p :: freeList m Br := by
    rw [freeList_append, freeList_cons_free _ p Br hF2p, e1, e2]
  refine ⟨Bl ++ p :: Br, ?_, ?_, ?_, ?_⟩
  · refine ⟨haddr, hsize, ?_, ?_, ?_, ?_⟩
    · exact tiles_congr (fun b _ => F1 b) htiles
    · intro b hb
      rw [F2]
      by_cases h1 : b = p
      · simp [h1]
      · rw [if_neg h1]
        exact hmagics b hb
    · obtain ⟨hcBl, hcPBr, hjoin⟩ := List.chain'_append.mp hadj
      obtain ⟨hpHead, hcBr⟩ := List.chain'_cons'.mp hcPBr
      rw [List.chain'_append]
      refine ⟨?_, ?_, ?_⟩
      · refine chain'_imp_mem ?_ hcBl
        intro a ha b hb hab hcon
        have ha1 : a ≠ p := fun he => hpBl (he ▸ ha)
        have hb1 : b ≠ p := fun he => hpBl (he ▸ hb)
        rw [F2, F2, if_neg ha1, if_neg hb1] at hcon
        exact hab hcon
      · rw [List.chain'_cons']
        refine ⟨?_, ?_⟩
        · intro y hy hcon
          have hyBr : y ∈ Br := List.mem_of_mem_head? hy
          have hy1 : y ≠ p := fun he => hpBr (he ▸ hyBr)
          have h := hcon.2
          rw [F2, if_neg hy1] at h
          exact hBrNF y hy h
        · refine chain'_imp_mem ?_ hcBr
          intro a ha b hb hab hcon
          have ha1 : a ≠ p := fun he => hpBr (he ▸ ha)
          have hb1 : b ≠ p := fun he => hpBr (he ▸ hb)
          rw [F2, F2, if_neg ha1, if_neg hb1] at hcon
          exact hab hcon
      · intro x hx y hy
        have hxBl : x ∈ Bl := List.mem_of_mem_getLast? hx
        have hx1 : x ≠ p := fun he => hpBl (he ▸ hxBl)
        intro hcon
        have h := hcon.1
        rw [F2, if_neg hx1] at h
        exact hBlNF x hx h
    · right
      rw [hfl2, ringShape_iff]
      refine ⟨by simp, rfl, ?_⟩
      rw [cycChain_rotate]
      refine (cycChain_cons_parts m2 p (freeList m Br ++ freeList m Bl) hMnil).mpr
        ⟨?_, ?_, ?_⟩
      · have hchainM := (cycChain_destruct m _ hMnil hcycM).1
        refine chain'_imp_mem2 ?_ hchainM
        intro a ha b hb hab
        have haM : a ∈ freeList m Br ++ freeList m Bl :=
          (List.dropLast_sublist _).subset ha
        have hbM : b ∈ freeList m Br ++ freeList m Bl := List.mem_of_mem_tail hb
        have ha1 : a ≠ p := fun he => hpM (he ▸ haM)
        have hb1 : b ≠ p := fun he => hpM (he ▸ hbM)
        have ha2 : a ≠ q := by
          intro he
          refine getLast_not_mem_dropLast hndM hMnil ?_
          rw [← hq, ← he]
          exact ha
        have hb2 : b ≠ qn := by
          intro he
          refine head_not_mem_tail hndM hMnil ?_
          rw [← hqn, ← he]
          exact hb
        constructor
        · rw [F3, if_neg ha1, if_neg ha2]
          exact hab.1
        · rw [F4, if_neg hb1, if_neg hb2]
          exact hab.2
      · rw [← hqn]
        exact ⟨by rw [F3, if_pos rfl], by rw [F4, if_neg hqnp, if_pos rfl]⟩
      · rw [← hq]
        refine ⟨?_, ?_⟩
        · rw [F3, if_neg hqp, if_pos rfl]
        · rw [F4, if_pos rfl]
  · intro b hb hbA hbp
    have hbq : b ≠ q := fun he => by
      rw [he, hMfree q hqM] at hbA
      exact magic_free_ne_alloc hbA
    have hbqn : b ≠ qn := fun he => by
      rw [he, hMfree qn hqnM] at hbA
      exact magic_free_ne_alloc hbA
    exact ⟨hb, F7 b hbp hbq hbqn⟩
  · intro b hb hbA
    have hbp : b ≠ p := fun he => by
      rw [he, hF2p] at hbA
      exact magic_free_ne_alloc hbA
    rw [F2, if_neg hbp] at hbA
    have hbq : b ≠ q := fun he => by
      rw [he, hMfree q hqM] at hbA
      exact magic_free_ne_alloc hbA
    have hbqn : b ≠ qn := fun he => by
      rw [he, hMfree qn hqnM] at hbA
      exact magic_free_ne_alloc hbA
    exact ⟨hb, hbA, hbp, F7 b hbp hbq hbqn⟩
  · intro c hc
    have h1 : c ≠ p := fun he => hc (he ▸ hBspan p hpB)
    have h2 : c ≠ q := fun he => hc (he ▸ hBspan q (hMB q hqM))
    have h3 : c ≠ qn := fun he => hc (he ▸ hBspan qn (hMB qn hqnM))
    exact F7 c h1 h2 h3

/-- Rebuilding the region invariant after `grub_free` splices `p` and then
coalesces it with the next free block `qn`, which is the tile directly
after `p`: the merged block keeps `p`'s header, `qn`'s header is retired
with magic 0. -/
theorem free_rebuild_fwd (m m2 : Mem) (r : Region) (Bl Br' : List Nat)
    (p q qn qnn : Nat)
    (haddr : r.addr = GRUB_MM_ALIGN * startCell r)
    (hsize : r.size = GRUB_MM_ALIGN * totalCells r)
    (htiles : TilesFrom m (startCell r) (totalCells r) (Bl ++ p :: qn :: Br'))
    (hmagics : ∀ b ∈ Bl ++ p :: qn :: Br',
      (m b).magic = GRUB_MM_FREE_MAGIC ∨ (m b).magic = GRUB_MM_ALLOC_MAGIC)
    (hadj : List.Chain' (fun a b =>
      ¬((m a).magic = GRUB_MM_FREE_MAGIC ∧ (m b).magic = GRUB_MM_FREE_MAGIC))
      (Bl ++ p :: qn :: Br'))
    (hpA : (m p).magic = GRUB_MM_ALLOC_MAGIC)
    (hqnF : (m qn).magic = GRUB_MM_FREE_MAGIC)
    (hMnil : freeList m (qn :: Br') ++ freeList m Bl ≠ [])
    (hq : q = (freeList m (qn :: Br') ++ freeList m Bl).getLast hMnil)
    (hcycM : cycChain m (freeList m (qn :: Br') ++ freeList m Bl))
    (hqnn : qnn = (freeList m Br' ++ freeList m Bl).headD p)
    (hBlNF : ∀ x ∈ Bl.getLast?, (m x).magic ≠ GRUB_MM_FREE_MAGIC)
    (G1 : ∀ c, (m2 c).size =
      if c = p then (m p).size + (m qn).size else (m c).size)
    (G2 : ∀ c, (m2 c).magic =
      if c = p then GRUB_MM_FREE_MAGIC else if c = qn then 0 else (m c).magic)
    (G3 : ∀ c, (m2 c).next = if c = p then qnn else if c = q then p else (m c).next)
    (G4 : ∀ c, (m2 c).prev = if c = qnn then p else if c = p then q
      else if c = qn then p else (m c).prev) :
    FreeOut m r (Bl ++ p :: qn :: Br') p m2
      ((freeList m Bl ++ p :: freeList m (qn :: Br')).headD 0) := by
  have hndB : (Bl ++ p :: qn :: Br').Nodup := nodup_of_pairwise_lt
    (List.chain'_iff_pairwise.mp (tiles_sorted m htiles))
  obtain ⟨hpBl, hpT⟩ := nodup_parts hndB
  have hqnT : qn ∉ Br' := by
    have := (List.nodup_append.mp hndB).2.1
    exact (List.nodup_cons.mp (List.nodup_cons.mp this).2).1
  have hqnBl : qn ∉ Bl := by
    intro hmem
    exact (List.nodup_append.mp hndB).2.2 hmem
      (List.mem_cons_of_mem p (List.mem_cons_self qn Br'))
  have hpqn : p ≠ qn := by
    intro he
    have := (List.nodup_cons.mp (List.nodup_append.mp hndB).2.1).1
    exact this (he ▸ List.mem_cons_self qn Br')
  have hpBr' : p ∉ Br' := fun hmem => hpT (List.mem_cons_of_mem qn hmem)
  have hBspan : ∀ b ∈ Bl ++ p :: qn :: Br', inSpan r b := fun b hb => by
    have := tiles_bounds m htiles b hb
    exact ⟨this.1, this.2⟩
  have hpB : p ∈ Bl ++ p :: qn :: Br' :=
    List.mem_append.mpr (.inr (List.mem_cons_self p _))
  have hqnB : qn ∈ Bl ++ p :: qn :: Br' :=
    List.mem_append.mpr (.inr (List.mem_cons_of_mem p (List.mem_cons_self qn Br')))
  have hLC : freeList m (qn :: Br') = qn :: freeList m Br' :=
    freeList_cons_free m qn Br' hqnF
  have hM : freeList m (qn :: Br') ++ freeList m Bl
      = qn :: (freeList m Br' ++ freeList m Bl) := by
    rw [hLC]
    rfl
  have hndM : (freeList m (qn :: Br') ++ freeList m Bl).Nodup := by
    have h : ((Bl ++ p :: qn :: Br') : List Nat).Nodup := hndB
    exact nodup_M h
  have hndM2 : (qn :: (freeList m Br' ++ freeList m Bl)).Nodup := by
    rw [← hM]
    exact hndM
  have hqnM' : qn ∉ freeList m Br' ++ freeList m Bl := (List.nodup_cons.mp hndM2).1
  have hndM' : (freeList m Br' ++ freeList m Bl).Nodup := (List.nodup_cons.mp hndM2).2
  have hM'B : ∀ x ∈ freeList m Br' ++ freeList m Bl, x ∈ Bl ++ p :: qn :: Br' := by
    intro x hx
    rcases List.mem_append.mp hx with h1 | h1
    · exact List.mem_append.mpr (.inr (List.mem_cons_of_mem p
        (List.mem_cons_of_mem qn (freeList_subset x h1))))
    · exact List.mem_append.mpr (.inl (freeList_subset x h1))
  have hM'free : ∀ x ∈ freeList m Br' ++ freeList m Bl,
      (m x).magic = GRUB_MM_FREE_MAGIC := by
    intro x hx
    rcases List.mem_append.mp hx with h1 | h1
    · exact freeList_magic x h1
    · exact freeList_magic x h1
  have hpM' : p ∉ freeList m Br' ++ freeList m Bl := by
    intro h
    rcases List.mem_append.mp h with h1 | h1
    · exact hpBr' (freeList_subset p h1)
    · exact hpBl (freeList_subset p h1)
  have hqM : q ∈ qn :: (freeList m Br' ++ freeList m Bl) := by
    rw [← hM, hq]
    exact List.getLast_mem hMnil
  have hqB : q ∈ Bl ++ p :: qn :: Br' := by
    rcases List.mem_cons.mp hqM with h1 | h1
    · rw [h1]
      exact hqnB
    · exact hM'B q h1
  have hqF : (m q).magic = GRUB_MM_FREE_MAGIC := by
    rcases List.mem_cons.mp hqM with h1 | h1
    · rw [h1]
      exact hqnF
    · exact hM'free q h1
  have hqp : q ≠ p := by
    intro he
    rw [he, hpA] at hqF
    exact magic_free_ne_alloc hqF.symm
  have hqnnB : qnn = p ∨ qnn ∈ Bl ++ p :: qn :: Br' := by
    cases he : freeList m Br' ++ freeList m Bl with
    | nil =>
      left
      rw [hqnn, he]
      rfl
    | cons a t =>
      right
      refine hM'B qnn ?_
      rw [hqnn, he]
      exact List.mem_cons_self a t
  have G7 : ∀ c, c ≠ p → c ≠ q → c ≠ qn → c ≠ qnn → m2 c = m c := by
    intro c h1 h2 h3 h4
    refine Header.extEq ?_ ?_ ?_ ?_
    · rw [G4]
      simp [h1, h3, h4]
    · rw [G3]
      simp [h1, h2]
    · rw [G1]
      simp [h1]
    · rw [G2]
      simp [h1, h3]
  have hG2p : (m2 p).magic = GRUB_MM_FREE_MAGIC := by
    rw [G2, if_pos rfl]
  have hG2qn : (m2 qn).magic = 0 := by
    rw [G2, if_neg (Ne.symm hpqn), if_pos rfl]
  have e1 : freeList m2 Bl = freeList m Bl := by
    refine freeList_congr ?_
    intro b hb
    have h1 : b ≠ p := fun he => hpBl (he ▸ hb)
    have h3 : b ≠ qn := fun he => hqnBl (he ▸ hb)
    rw [G2, if_neg h1, if_neg h3]
  have e2 : freeList m2 Br' = freeList m Br' := by
    refine freeList_congr ?_
    intro b hb
    have h1 : b ≠ p := fun he => hpBr' (he ▸ hb)
    have h3 : b ≠ qn := fun he => hqnT (he ▸ hb)
    rw [G2, if_neg h1, if_neg h3]
  have hfl2 : freeList m2 (Bl ++ p :: Br') = freeList m Bl ++ p :: freeList m Br' := by
    rw [freeList_append, freeList_cons_free _ p Br' hG2p, e1, e2]
  have hheads : (freeList m Bl ++ p :: freeList m Br').headD 0
      = (freeList m Bl ++ p :: freeList m (qn :: Br')).headD 0 := by
    cases freeList m Bl with
    | nil => rfl
    | cons a t => rfl
  have hB2mem : ∀ b ∈ Bl ++ p :: qn :: Br', b ≠ qn → b ∈ Bl ++ p :: Br' := by
    intro b hb hbqn
    rcases List.mem_append.mp hb with h1 | h1
    · exact List.mem_append.mpr (.inl h1)
    · rcases List.mem_cons.mp h1 with h2 | h2
      · exact List.mem_append.mpr (.inr (by rw [h2]; exact List.mem_cons_self _ _))
      · rcases List.mem_cons.mp h2 with h3 | h3
        · exact absurd h3 hbqn
        · exact List.mem_append.mpr (.inr (List.mem_cons_of_mem p h3))
  have hB2memR : ∀ b ∈ Bl ++ p :: Br', b ∈ Bl ++ p :: qn :: Br' := by
    intro b hb
    rcases List.mem_append.mp hb with h1 | h1
    · exact List.mem_append.mpr (.inl h1)
    · rcases List.mem_cons.mp h1 with h2 | h2
      · exact List.mem_append.mpr (.inr (by rw [h2]; exact List.mem_cons_self _ _))
      · exact List.mem_append.mpr (.inr (List.mem_cons_of_mem p
          (List.mem_cons_of_mem qn h2)))
  obtain ⟨t1, ht1le, hBlT, hmidT⟩ := tiles_decomp m Bl htiles
  obtain ⟨hpstart, hps1, hpsle, hmidT2⟩ := hmidT
  obtain ⟨hqnstart, hqs1, hqsle, hBrT⟩ := hmidT2
  refine ⟨Bl ++ p :: Br', ?_, ?_, ?_, ?_⟩
  · refine ⟨haddr, hsize, ?_, ?_, ?_, ?_⟩
    · show TilesFrom m2 (startCell r) (totalCells r) (Bl ++ p :: Br')
      have e : totalCells r = t1 + (totalCells r - t1) := by omega
      rw [e]
      refine tiles_recomb _ Bl ?_ ?_
      · refine tiles_congr ?_ hBlT
        intro b hb
        have h1 : b ≠ p := fun he => hpBl (he ▸ hb)
        rw [G1, if_neg h1]
      · have hG1p : (m2 p).size = (m p).size + (m qn).size := by
          rw [G1, if_pos rfl]
        refine ⟨hpstart, ?_, ?_, ?_⟩
        · rw [hG1p]
          omega
        · rw [hG1p]
          omega
        · rw [hG1p]
          have e2a : startCell r + t1 + ((m p).size + (m qn).size)
              = startCell r + t1 + (m p).size + (m qn).size := by omega
          have e3a : totalCells r - t1 - ((m p).size + (m qn).size)
              = totalCells r - t1 - (m p).size - (m qn).size := by omega
          rw [e2a, e3a]
          refine tiles_congr ?_ hBrT
          intro b hb
          have h1 : b ≠ p := fun he => hpBr' (he ▸ hb)
          rw [G1, if_neg h1]
    · intro b hb
      rw [G2]
      by_cases h1 : b = p
      · simp [h1]
      · rw [if_neg h1]
        have h3 : b ≠ qn := by
          intro he
          rw [he] at hb
          rcases List.mem_append.mp hb with h4 | h4
          · exact hqnBl h4
          · rcases List.mem_cons.mp h4 with h5 | h5
            · exact hpqn h5.symm
            · exact hqnT h5
        rw [if_neg h3]
        exact hmagics b (hB2memR b hb)
    · obtain ⟨hcBl, hcPBr, hjoin⟩ := List.chain'_append.mp hadj
      have hcQBr : List.Chain' _ (qn :: Br') := List.Chain'.tail hcPBr
      obtain ⟨hqnHead, hcBr⟩ := List.chain'_cons'.mp hcQBr
      rw [List.chain'_append]
      refine ⟨?_, ?_, ?_⟩
      · refine chain'_imp_mem ?_ hcBl
        intro a ha b hb hab hcon
        have ha1 : a ≠ p := fun he => hpBl (he ▸ ha)
        have ha3 : a ≠ qn := fun he => hqnBl (he ▸ ha)
        have hb1 : b ≠ p := fun he => hpBl (he ▸ hb)
        have hb3 : b ≠ qn := fun he => hqnBl (he ▸ hb)
        rw [G2, G2, if_neg ha1, if_neg ha3, if_neg hb1, if_neg hb3] at hcon
        exact hab hcon
      · rw [List.chain'_cons']
        refine ⟨?_, ?_⟩
        · intro y hy hcon
          have hyBr : y ∈ Br' := List.mem_of_mem_head? hy
          have hy1 : y ≠ p := fun he => hpBr' (he ▸ hyBr)
          have hy3 : y ≠ qn := fun he => hqnT (he ▸ hyBr)
          have h := hcon.2
          rw [G2, if_neg hy1, if_neg hy3] at h
          exact hqnHead y hy ⟨hqnF, h⟩
        · refine chain'_imp_mem ?_ hcBr
          intro a ha b hb hab hcon
          have ha1 : a ≠ p := fun he => hpBr' (he ▸ ha)
          have ha3 : a ≠ qn := fun he => hqnT (he ▸ ha)
          have hb1 : b ≠ p := fun he => hpBr' (he ▸ hb)
          have hb3 : b ≠ qn := fun he => hqnT (he ▸ hb)
          rw [G2, G2, if_neg ha1, if_neg ha3, if_neg hb1, if_neg hb3] at hcon
          exact hab hcon
      · intro x hx y hy
        have hxBl : x ∈ Bl := List.mem_of_mem_getLast? hx
        have hx1 : x ≠ p := fun he => hpBl (he ▸ hxBl)
        have hx3 : x ≠ qn := fun he => hqnBl (he ▸ hxBl)
        intro hcon
        have h := hcon.1
        rw [G2, if_neg hx1, if_neg hx3] at h
        exact hBlNF x hx h
    · right
      rw [hfl2, ringShape_iff]
      refine ⟨by simp, hheads.symm, ?_⟩
      rw [cycChain_rotate]
      cases hM'e : freeList m Br' ++ freeList m Bl with
      | nil =>
        have hqnn2 : qnn = p := by
          rw [hqnn, hM'e]
          rfl
        refine (cycChain_singleton m2 p).mpr ⟨?_, ?_⟩
        · rw [G3, if_pos rfl, hqnn2]
        · rw [G4, if_pos hqnn2.symm]
      | cons a M2' =>
        have hne : freeList m Br' ++ freeList m Bl ≠ [] := by
          rw [hM'e]
          simp
        have hqval : q = (freeList m Br' ++ freeList m Bl).getLast hne := by
          rw [hq]
          have hgeq : (freeList m (qn :: Br') ++ freeList m Bl).getLast hMnil
              = (qn :: (freeList m Br' ++ freeList m Bl)).getLast
                (List.cons_ne_nil _ _) := by
            congr 1
          rw [hgeq]
          exact List.getLast_cons hne
        have hqnn2 : qnn = a := by
          rw [hqnn, hM'e]
          rfl
        have hchainM2 : List.Chain' (linkRel m) (qn :: (freeList m Br' ++ freeList m Bl)) := by
          have h := (cycChain_destruct m _ hMnil hcycM).1
          rw [hM] at h
          exact h
        have hlinkqn : linkRel m qn a := by
          rw [hM'e] at hchainM2
          exact (List.chain'_cons.mp hchainM2).1
        have hchainM' : List.Chain' (linkRel m) (freeList m Br' ++ freeList m Bl) :=
          List.Chain'.tail hchainM2
        rw [← hM'e]
        refine (cycChain_cons_parts m2 p (freeList m Br' ++ freeList m Bl) hne).mpr
          ⟨?_, ?_, ?_⟩
        · refine chain'_imp_mem2 ?_ hchainM'
          intro a2 ha2 b hb hab
          have haM : a2 ∈ freeList m Br' ++ freeList m Bl :=
            (List.dropLast_sublist _).subset ha2
          have hbM : b ∈ freeList m Br' ++ freeList m Bl := List.mem_of_mem_tail hb
          have ha1 : a2 ≠ p := fun he => hpM' (he ▸ haM)
          have hb1 : b ≠ p := fun he => hpM' (he ▸ hbM)
          have hbqn : b ≠ qn := fun he => hqnM' (he ▸ hbM)
          have ha4 : a2 ≠ q := by
            intro he
            refine getLast_not_mem_dropLast hndM' hne ?_
            rw [← hqval, ← he]
            exact ha2
          have hb4 : b ≠ qnn := by
            intro he
            refine head_not_mem_tail hndM' hne ?_
            have : (freeList m Br' ++ freeList m Bl).headD 0 = a := by
              rw [hM'e]
              rfl
            rw [this, ← hqnn2, ← he]
            exact hb
          constructor
          · rw [G3, if_neg ha1, if_neg ha4]
            exact hab.1
          · rw [G4, if_neg hb4, if_neg hb1, if_neg hbqn]
            exact hab.2
        · refine ⟨?_, ?_⟩
          · rw [G3, if_pos rfl, hqnn2, hM'e]
            rfl
          · show (m2 ((freeList m Br' ++ freeList m Bl).headD 0)).prev = p
            have hhead : (freeList m Br' ++ freeList m Bl).headD 0 = a := by
              rw [hM'e]
              rfl
            rw [hhead, ← hqnn2, G4, if_pos rfl]
        · refine ⟨?_, ?_⟩
          · rw [← hqval, G3, if_neg hqp, if_pos rfl]
          · rw [G4]
            have hpqnn : p ≠ qnn := by
              intro he
              refine hpM' ?_
              rw [hM'e, he, hqnn2]
              exact List.mem_cons_self a M2'
            rw [if_neg hpqnn, if_pos rfl, ← hqval]
  · intro b hb hbA hbp
    have hbq : b ≠ q := fun he => by
      rw [he, hqF] at hbA
      exact magic_free_ne_alloc hbA
    have hbqn : b ≠ qn := fun he => by
      rw [he, hqnF] at hbA
      exact magic_free_ne_alloc hbA
    have hbqnn : b ≠ qnn := by
      intro he
      cases heM : freeList m Br' ++ freeList m Bl with
      | nil =>
        have : qnn = p := by rw [hqnn, heM]; rfl
        exact hbp (he.trans this)
      | cons a t =>
        have hmem : qnn ∈ freeList m Br' ++ freeList m Bl := by
          rw [hqnn, heM]
          exact List.mem_cons_self a t
        have := hM'free qnn hmem
        rw [he, this] at hbA
        exact magic_free_ne_alloc hbA
    exact ⟨hB2mem b hb hbqn, G7 b hbp hbq hbqn hbqnn⟩
  · intro b hb hbA
    have hbp : b ≠ p := fun he => by
      rw [he, hG2p] at hbA
      exact magic_free_ne_alloc hbA
    have hbqn : b ≠ qn := fun he => by
      rw [he, hG2qn] at hbA
      exact absurd hbA (by decide)
    rw [G2, if_neg hbp, if_neg hbqn] at hbA
    have hbq : b ≠ q := fun he => by
      rw [he, hqF] at hbA
      exact magic_free_ne_alloc hbA
    have hbqnn : b ≠ qnn := by
      intro he
      cases heM : freeList m Br' ++ freeList m Bl with
      | nil =>
        have : qnn = p := by rw [hqnn, heM]; rfl
        exact hbp (he.trans this)
      | cons a t =>
        have hmem : qnn ∈ freeList m Br' ++ freeList m Bl := by
          rw [hqnn, heM]
          exact List.mem_cons_self a t
        have := hM'free qnn hmem
        rw [he, this] at hbA
        exact magic_free_ne_alloc hbA
    exact ⟨hB2memR b hb, hbA, hbp, G7 b hbp hbq hbqn hbqnn⟩
  · intro c hc
    have h1 : c ≠ p := fun he => hc (he ▸ hBspan p hpB)
    have h2 : c ≠ q := fun he => hc (he ▸ hBspan q hqB)
    have h3 : c ≠ qn := fun he => hc (he ▸ hBspan qn hqnB)
    have h4 : c ≠ qnn := by
      intro he
      rcases hqnnB with h5 | h5
      · exact h1 (he.trans h5)
      · exact hc (he ▸ hBspan qnn h5)
    exact G7 c h1 h2 h3 h4

/-- Rebuilding the region invariant after `grub_free` splices `p` and then
coalesces it backwards into the preceding free tile `q`: `q` absorbs `p`'s
cells, `p`'s header is retired with magic 0 and the ring links of `q` and
`qn` are restored to their pre-splice values. -/
theorem free_rebuild_bwd (m m2 : Mem) (r : Region) (Bl' Br : List Nat)
    (p q qn : Nat)
    (haddr : r.addr = GRUB_MM_ALIGN * startCell r)
    (hsize : r.size = GRUB_MM_ALIGN * totalCells r)
    (htiles : TilesFrom m (startCell r) (totalCells r) (Bl' ++ q :: p :: Br))
    (hmagics : ∀ b ∈ Bl' ++ q :: p :: Br,
      (m b).magic = GRUB_MM_FREE_MAGIC ∨ (m b).magic = GRUB_MM_ALLOC_MAGIC)
    (hadj : List.Chain' (fun a b =>
      ¬((m a).magic = GRUB_MM_FREE_MAGIC ∧ (m b).magic = GRUB_MM_FREE_MAGIC))
      (Bl' ++ q :: p :: Br))
    (hpA : (m p).magic = GRUB_MM_ALLOC_MAGIC)
    (hqF : (m q).magic = GRUB_MM_FREE_MAGIC)
    (hqn : qn = (freeList m Br ++ freeList m (Bl' ++ [ q])).headD 0)
    (hcycM : cycChain m (freeList m Br ++ freeList m (Bl' ++ [ q])))
    (hBrNF : ∀ x ∈ Br.head?, (m x).magic ≠ GRUB_MM_FREE_MAGIC)
    (H1 : ∀ c, (m2 c).size = if c = q then (m q).size + (m p).size else (m c).size)
    (H2 : ∀ c, (m2 c).magic = if c = p then 0 else (m c).magic)
    (H3 : ∀ c, (m2 c).next = if c = p then qn else if c = q then qn else (m c).next)
    (H4 : ∀ c, (m2 c).prev = if c = p then q else if c = qn then q else (m c).prev) :
    FreeOut m r (Bl' ++ q :: p :: Br) p m2
      ((freeList m (Bl' ++ [ q]) ++ p :: freeList m Br).headD 0) := by
  have hndB : (Bl' ++ q :: p :: Br).Nodup := nodup_of_pairwise_lt
    (List.chain'_iff_pairwise.mp (tiles_sorted m htiles))
  obtain ⟨hqBl, hqT⟩ := nodup_parts hndB
  have hndB2 : ((Bl' ++ [ q]) ++ p :: Br).Nodup := by
    have e : (Bl' ++ [ q]) ++ p :: Br = Bl' ++ q :: p :: Br := by simp
    rw [e]
    exact hndB
  obtain ⟨hpBlq, hpBr⟩ := nodup_parts hndB2
  have hpBl : p ∉ Bl' := fun hmem => hpBlq (List.mem_append.mpr (.inl hmem))
  have hpq : p ≠ q := fun he => hpBlq (List.mem_append.mpr (.inr (by rw [he]; simp)))
  have hqp : q ≠ p := Ne.symm hpq
  have hqBr : q ∉ Br := fun hmem => hqT (List.mem_cons_of_mem p hmem)
  have hBspan : ∀ b ∈ Bl' ++ q :: p :: Br, inSpan r b := fun b hb => by
    have := tiles_bounds m htiles b hb
    exact ⟨this.1, this.2⟩
  have hpB : p ∈ Bl' ++ q :: p :: Br :=
    List.mem_append.mpr (.inr (List.mem_cons_of_mem q (List.mem_cons_self p Br)))
  have hqB : q ∈ Bl' ++ q :: p :: Br :=
    List.mem_append.mpr (.inr (List.mem_cons_self q _))
  have hLA : freeList m (Bl' ++ [ q]) = freeList m Bl' ++ [ q] := by
    rw [freeList_append, freeList_cons_free m q [] hqF]
    rfl
  rw [hLA] at hqn hcycM
  have hMB : ∀ x ∈ freeList m Br ++ (freeList m Bl' ++ [ q]),
      x ∈ Bl' ++ q :: p :: Br := by
    intro x hx
    rcases List.mem_append.mp hx with h1 | h1
    · exact List.mem_append.mpr (.inr (List.mem_cons_of_mem q
        (List.mem_cons_of_mem p (freeList_subset x h1))))
    · rcases List.mem_append.mp h1 with h2 | h2
      · exact List.mem_append.mpr (.inl (freeList_subset x h2))
      · have : x = q := by simpa using h2
        rw [this]
        exact hqB
  have hMfree : ∀ x ∈ freeList m Br ++ (freeList m Bl' ++ [ q]),
      (m x).magic = GRUB_MM_FREE_MAGIC := by
    intro x hx
    rcases List.mem_append.mp hx with h1 | h1
    · exact freeList_magic x h1
    · rcases List.mem_append.mp h1 with h2 | h2
      · exact freeList_magic x h2
      · have : x = q := by simpa using h2
        rw [this]
        exact hqF
  have hpM : p ∉ freeList m Br ++ (freeList m Bl' ++ [ q]) := by
    intro h
    have := hMfree p h
    rw [hpA] at this
    exact magic_free_ne_alloc this.symm
  have hMnil : freeList m Br ++ (freeList m Bl' ++ [ q]) ≠ [] := by simp
  have hqnM : qn ∈ freeList m Br ++ (freeList m Bl' ++ [ q]) := by
    obtain ⟨a, t, he⟩ := List.exists_cons_of_ne_nil hMnil
    rw [hqn, he]
    exact List.mem_cons_self a t
  have hqnF : (m qn).magic = GRUB_MM_FREE_MAGIC := hMfree qn hqnM
  have hqnp : qn ≠ p := fun he => hpM (he ▸ hqnM)
  have hqnB : qn ∈ Bl' ++ q :: p :: Br := hMB qn hqnM
  have hcycQ : cycChain m (q :: (freeList m Br ++ freeList m Bl')) := by
    have hMassoc : freeList m Br ++ (freeList m Bl' ++ [ q])
        = (freeList m Br ++ freeList m Bl') ++ q :: [] := by simp
    rw [hMassoc] at hcycM
    rw [cycChain_rotate] at hcycM
    rw [List.nil_append] at hcycM
    exact hcycM
  have hqnassoc : qn = ((freeList m Br ++ freeList m Bl') ++ [ q]).headD 0 := by
    rw [hqn]
    congr 1
    simp
  have hqlinks : (m q).next = qn ∧ (m qn).prev = q := by
    cases hRe : freeList m Br ++ freeList m Bl' with
    | nil =>
      have hqnq : qn = q := by
        rw [hqnassoc, hRe]
        rfl
      rw [hRe] at hcycQ
      have := (cycChain_singleton m q).mp hcycQ
      rw [hqnq]
      exact ⟨this.1, this.2⟩
    | cons a R2 =>
      have hqna : qn = a := by
        rw [hqnassoc, hRe]
        rfl
      rw [hRe] at hcycQ
      have h := (cycChain_cons_parts m q (a :: R2) (List.cons_ne_nil a R2)).mp hcycQ
      have hlk : linkRel m q a := by
        have := h.2.1
        simpa using this
      rw [hqna]
      exact ⟨hlk.1, hlk.2⟩
  have H7 : ∀ c, c ≠ p → c ≠ q → c ≠ qn → m2 c = m c := by
    intro c h1 h2 h3
    refine Header.extEq ?_ ?_ ?_ ?_
    · rw [H4]
      simp [h1, h3]
    · rw [H3]
      simp [h1, h2]
    · rw [H1]
      simp [h2]
    · rw [H2]
      simp [h1]
  have hq2F : (m2 q).magic = GRUB_MM_FREE_MAGIC := by
    rw [H2, if_neg hqp]
    exact hqF
  have hp20 : (m2 p).magic = 0 := by
    rw [H2, if_pos rfl]
  have e1 : freeList m2 Bl' = freeList m Bl' := by
    refine freeList_congr ?_
    intro b hb
    have h1 : b ≠ p := fun he => hpBl (he ▸ hb)
    rw [H2, if_neg h1]
  have e2 : freeList m2 Br = freeList m Br := by
    refine freeList_congr ?_
    intro b hb
    have h1 : b ≠ p := fun he => hpBr (he ▸ hb)
    rw [H2, if_neg h1]
  have hfl2 : freeList m2 (Bl' ++ q :: Br) = freeList m Bl' ++ q :: freeList m Br := by
    rw [freeList_append, freeList_cons_free _ q Br hq2F, e1, e2]
  have hheads : (freeList m Bl' ++ q :: freeList m Br).headD 0
      = ((freeList m Bl' ++ [ q]) ++ p :: freeList m Br).headD 0 := by
    cases freeList m Bl' with
    | nil => rfl
    | cons a t => rfl
  have hB2memR : ∀ b ∈ Bl' ++ q :: Br, b ∈ Bl' ++ q :: p :: Br := by
    intro b hb
    rcases List.mem_append.mp hb with h1 | h1
    · exact List.mem_append.mpr (.inl h1)
    · rcases List.mem_cons.mp h1 with h2 | h2
      · exact List.mem_append.mpr (.inr (by rw [h2]; exact List.mem_cons_self _ _))
      · exact List.mem_append.mpr (.inr (List.mem_cons_of_mem q
          (List.mem_cons_of_mem p h2)))
  have hB2mem : ∀ b ∈ Bl' ++ q :: p :: Br, b ≠ p → b ∈ Bl' ++ q :: Br := by
    intro b hb hbp
    rcases List.mem_append.mp hb with h1 | h1
    · exact List.mem_append.mpr (.inl h1)
    · rcases List.mem_cons.mp h1 with h2 | h2
      · exact List.mem_append.mpr (.inr (by rw [h2]; exact List.mem_cons_self _ _))
      · rcases List.mem_cons.mp h2 with h3 | h3
        · exact absurd h3 hbp
        · exact List.mem_append.mpr (.inr (List.mem_cons_of_mem q h3))
  obtain ⟨t1, ht1le, hBlT, hmidT⟩ := tiles_decomp m Bl' htiles
  obtain ⟨hqstart, hqs1, hqsle, hmidT2⟩ := hmidT
  obtain ⟨hpstart, hps1, hpsle, hBrT⟩ := hmidT2
  refine ⟨Bl' ++ q :: Br, ?_, ?_, ?_, ?_⟩
  · refine ⟨haddr, hsize, ?_, ?_, ?_, ?_⟩
    · show TilesFrom m2 (startCell r) (totalCells r) (Bl' ++ q :: Br)
      have e : totalCells r = t1 + (totalCells r - t1) := by omega
      rw [e]
      refine tiles_recomb _ Bl' ?_ ?_
      · refine tiles_congr ?_ hBlT
        intro b hb
        have h2 : b ≠ q := fun he => hqBl (he ▸ hb)
        rw [H1, if_neg h2]
      · have hH1q : (m2 q).size = (m q).size + (m p).size := by
          rw [H1, if_pos rfl]
        refine ⟨hqstart, ?_, ?_, ?_⟩
        · rw [hH1q]
          omega
        · rw [hH1q]
          omega
        · rw [hH1q]
          have e2a : startCell r + t1 + ((m q).size + (m p).size)
              = startCell r + t1 + (m q).size + (m p).size := by omega
          have e3a : totalCells r - t1 - ((m q).size + (m p).size)
              = totalCells r - t1 - (m q).size - (m p).size := by omega
          rw [e2a, e3a]
          refine tiles_congr ?_ hBrT
          intro b hb
          have h2 : b ≠ q := fun he => hqBr (he ▸ hb)
          rw [H1, if_neg h2]
    · intro b hb
      by_cases h1 : b = p
      · exfalso
        rw [h1] at hb
        rcases List.mem_append.mp hb with h2 | h2
        · exact hpBl h2
        · rcases List.mem_cons.mp h2 with h3 | h3
          · exact hpq h3
          · exact hpBr h3
      · rw [H2, if_neg h1]
        exact hmagics b (hB2memR b hb)
    · obtain ⟨hcBl, hcQPBr, hjoin⟩ := List.chain'_append.mp hadj
      have hcPBr : List.Chain' _ (p :: Br) := List.Chain'.tail hcQPBr
      have hcBr : List.Chain' _ Br := List.Chain'.tail hcPBr
      rw [List.chain'_append]
      refine ⟨?_, ?_, ?_⟩
      · refine chain'_imp_mem ?_ hcBl
        intro a ha b hb hab hcon
        have ha1 : a ≠ p := fun he => hpBl (he ▸ ha)
        have hb1 : b ≠ p := fun he => hpBl (he ▸ hb)
        rw [H2, H2, if_neg ha1, if_neg hb1] at hcon
        exact hab hcon
      · rw [List.chain'_cons']
        refine ⟨?_, ?_⟩
        · intro y hy hcon
          have hyBr : y ∈ Br := List.mem_of_mem_head? hy
          have hy1 : y ≠ p := fun he => hpBr (he ▸ hyBr)
          have h := hcon.2
          rw [H2, if_neg hy1] at h
          exact hBrNF y hy h
        · refine chain'_imp_mem ?_ hcBr
          intro a ha b hb hab hcon
          have ha1 : a ≠ p := fun he => hpBr (he ▸ ha)
          have hb1 : b ≠ p := fun he => hpBr (he ▸ hb)
          rw [H2, H2, if_neg ha1, if_neg hb1] at hcon
          exact hab hcon
      · intro x hx y hy
        have hxBl : x ∈ Bl' := List.mem_of_mem_getLast? hx
        have hx1 : x ≠ p := fun he => hpBl (he ▸ hxBl)
        intro hcon
        have hxfree : (m x).magic = GRUB_MM_FREE_MAGIC := by
          have h := hcon.1
          rw [H2, if_neg hx1] at h
          exact h
        have hjq := hjoin x hx q (by simp)
        exact hjq ⟨hxfree, hqF⟩
    · right
      rw [hfl2, ringShape_iff]
      refine ⟨by simp, by rw [hheads, hLA], ?_⟩
      rw [cycChain_rotate]
      have hcycQ2 : List.Chain' (linkRel m)
          ((q :: (freeList m Br ++ freeList m Bl'))
            ++ (q :: (freeList m Br ++ freeList m Bl')).take 1) := hcycQ
      show List.Chain' (linkRel m2)
        ((q :: (freeList m Br ++ freeList m Bl'))
          ++ (q :: (freeList m Br ++ freeList m Bl')).take 1)
      refine chain'_imp_mem ?_ hcycQ2
      intro x hx y hy hab
      have hmemx : x = q ∨ x ∈ freeList m Br ++ freeList m Bl' := by
        rcases List.mem_append.mp hx with h1 | h1
        · exact List.mem_cons.mp h1
        · left
          simpa using h1
      have hmemy : y = q ∨ y ∈ freeList m Br ++ freeList m Bl' := by
        rcases List.mem_append.mp hy with h1 | h1
        · exact List.mem_cons.mp h1
        · left
          simpa using h1
      have hMsk : ∀ z, z ∈ freeList m Br ++ freeList m Bl' →
          z ∈ freeList m Br ++ (freeList m Bl' ++ [ q]) := by
        intro z hz
        rcases List.mem_append.mp hz with h1 | h1
        · exact List.mem_append.mpr (.inl h1)
        · exact List.mem_append.mpr (.inr (List.mem_append.mpr (.inl h1)))
      have hx1 : x ≠ p := by
        rcases hmemx with h1 | h1
        · rw [h1]
          exact hqp
        · exact fun he => hpM (he ▸ hMsk x h1)
      have hy1 : y ≠ p := by
        rcases hmemy with h1 | h1
        · rw [h1]
          exact hqp
        · exact fun he => hpM (he ▸ hMsk y h1)
      constructor
      · rw [H3, if_neg hx1]
        by_cases h2 : x = q
        · rw [if_pos h2]
          rw [h2] at hab
          rw [← hqlinks.1]
          exact hab.1
        · rw [if_neg h2]
          exact hab.1
      · rw [H4, if_neg hy1]
        by_cases h3 : y = qn
        · rw [if_pos h3]
          rw [h3] at hab
          rw [← hqlinks.2]
          exact hab.2
        · rw [if_neg h3]
          exact hab.2
  · intro b hb hbA hbp
    have hbq : b ≠ q := fun he => by
      rw [he, hqF] at hbA
      exact magic_free_ne_alloc hbA
    have hbqn : b ≠ qn := fun he => by
      rw [he, hqnF] at hbA
      exact magic_free_ne_alloc hbA
    exact ⟨hB2mem b hb hbp, H7 b hbp hbq hbqn⟩
  · intro b hb hbA
    have hbp : b ≠ p := by
      intro he
      rw [he, hp20] at hbA
      exact absurd hbA (by decide)
    rw [H2, if_neg hbp] at hbA
    have hbq : b ≠ q := fun he => by
      rw [he, hqF] at hbA
      exact magic_free_ne_alloc hbA
    have hbqn : b ≠ qn := fun he => by
      rw [he, hqnF] at hbA
      exact magic_free_ne_alloc hbA
    exact ⟨hB2memR b hb, hbA, hbp, H7 b hbp hbq hbqn⟩
  · intro c hc
    have h1 : c ≠ p := fun he => hc (he ▸ hBspan p hpB)
    have h2 : c ≠ q := fun he => hc (he ▸ hBspan q hqB)
    have h3 : c ≠ qn := fun he => hc (he ▸ hBspan qn hqnB)
    exact H7 c h1 h2 h3

/-- Rebuilding the region invariant after `grub_free` splices `p` and then
coalesces forwards with `qn` and backwards into `q`: `q` absorbs both `p`'s
and `qn`'s cells, both absorbed headers are retired with magic 0. -/
theorem free_rebuild_both (m m2 : Mem) (r : Region) (Bl' Br' : List Nat)
    (p q qn qnn : Nat)
    (haddr : r.addr = GRUB_MM_ALIGN * startCell r)
    (hsize : r.size = GRUB_MM_ALIGN * totalCells r)
    (htiles : TilesFrom m (startCell r) (totalCells r) (Bl' ++ q :: p :: qn :: Br'))
    (hmagics : ∀ b ∈ Bl' ++ q :: p :: qn :: Br',
      (m b).magic = GRUB_MM_FREE_MAGIC ∨ (m b).magic = GRUB_MM_ALLOC_MAGIC)
    (hadj : List.Chain' (fun a b =>
      ¬((m a).magic = GRUB_MM_FREE_MAGIC ∧ (m b).magic = GRUB_MM_FREE_MAGIC))
      (Bl' ++ q :: p :: qn :: Br'))
    (hpA : (m p).magic = GRUB_MM_ALLOC_MAGIC)
    (hqF : (m q).magic = GRUB_MM_FREE_MAGIC)
    (hqnF : (m qn).magic = GRUB_MM_FREE_MAGIC)
    (hcycM : cycChain m (freeList m (qn :: Br') ++ freeList m (Bl' ++ [ q])))
    (hqnn : qnn = (freeList m Br' ++ freeList m Bl').headD q)
    (K1 : ∀ c, (m2 c).size = if c = q then (m q).size + (m p).size + (m qn).size
      else if c = p then (m p).size + (m qn).size else (m c).size)
    (K2 : ∀ c, (m2 c).magic = if c = p then 0 else if c = qn then 0 else (m c).magic)
    (K3 : ∀ c, (m2 c).next = if c = p then qnn else if c = q then qnn else (m c).next)
    (K4 : ∀ c, (m2 c).prev = if c = qnn then q else if c = p then q
      else if c = qn then p else (m c).prev) :
    FreeOut m r (Bl' ++ q :: p :: qn :: Br') p m2
      ((freeList m (Bl' ++ [ q]) ++ p :: freeList m (qn :: Br')).headD 0) := by
  have hndB : (Bl' ++ q :: p :: qn :: Br').Nodup := nodup_of_pairwise_lt
    (List.chain'_iff_pairwise.mp (tiles_sorted m htiles))
  obtain ⟨hqBl, hqT⟩ := nodup_parts hndB
  have hndB2 : ((Bl' ++ [ q]) ++ p :: qn :: Br').Nodup := by
    have e : (Bl' ++ [ q]) ++ p :: qn :: Br' = Bl' ++ q :: p :: qn :: Br' := by simp
    rw [e]
    exact hndB
  obtain ⟨hpBlq, hpT⟩ := nodup_parts hndB2
  have hndB3 : (((Bl' ++ [ q]) ++ [ p]) ++ qn :: Br').Nodup := by
    have e : ((Bl' ++ [ q]) ++ [ p]) ++ qn :: Br' = (Bl' ++ [ q]) ++ p :: qn :: Br' := by
      simp
    rw [e]
    exact hndB2
  obtain ⟨hqnBlqp, hqnBr'⟩ := nodup_parts hndB3
  have hpBl : p ∉ Bl' := fun hmem => hpBlq (List.mem_append.mpr (.inl hmem))
  have hpq : p ≠ q := fun he => hpBlq (List.mem_append.mpr (.inr (by rw [he]; simp)))
  have hqp : q ≠ p := Ne.symm hpq
  have hpqn : p ≠ qn := fun he => hpT (by rw [he]; exact List.mem_cons_self qn Br')
  have hpBr' : p ∉ Br' := fun hmem => hpT (List.mem_cons_of_mem qn hmem)
  have hqqn : q ≠ qn := by
    intro he
    refine hqT ?_
    rw [he]
    exact List.mem_cons_of_mem p (List.mem_cons_self qn Br')
  have hqBr' : q ∉ Br' := fun hmem => hqT (List.mem_cons_of_mem p
    (List.mem_cons_of_mem qn hmem))
  have hqnBl : qn ∉ Bl' := fun hmem => hqnBlqp (List.mem_append.mpr (.inl
    (List.mem_append.mpr (.inl hmem))))
  have hqnq : qn ≠ q := Ne.symm hqqn
  have hBspan : ∀ b ∈ Bl' ++ q :: p :: qn :: Br', inSpan r b := fun b hb => by
    have := tiles_bounds m htiles b hb
    exact ⟨this.1, this.2⟩
  have hpB : p ∈ Bl' ++ q :: p :: qn :: Br' :=
    List.mem_append.mpr (.inr (List.mem_cons_of_mem q (List.mem_cons_self p _)))
  have hqB : q ∈ Bl' ++ q :: p :: qn :: Br' :=
    List.mem_append.mpr (.inr (List.mem_cons_self q _))
  have hqnB : qn ∈ Bl' ++ q :: p :: qn :: Br' :=
    List.mem_append.mpr (.inr (List.mem_cons_of_mem q (List.mem_cons_of_mem p
      (List.mem_cons_self qn _))))
  have hLA : freeList m (Bl' ++ [ q]) = freeList m Bl' ++ [ q] := by
    rw [freeList_append, freeList_cons_free m q [] hqF]
    rfl
  have hLC : freeList m (qn :: Br') = qn :: freeList m Br' :=
    freeList_cons_free m qn Br' hqnF
  rw [hLA, hLC] at hcycM
  have hSBfacts : ∀ x ∈ freeList m Br' ++ freeList m Bl',
      x ∈ Bl' ++ q :: p :: qn :: Br' ∧ (m x).magic = GRUB_MM_FREE_MAGIC ∧
        x ≠ p ∧ x ≠ q ∧ x ≠ qn := by
    intro x hx
    rcases List.mem_append.mp hx with h1 | h1
    · have hxB : x ∈ Br' := freeList_subset x h1
      exact ⟨List.mem_append.mpr (.inr (List.mem_cons_of_mem q
          (List.mem_cons_of_mem p (List.mem_cons_of_mem qn hxB)))),
        freeList_magic x h1,
        fun he => hpBr' (he ▸ hxB), fun he => hqBr' (he ▸ hxB),
        fun he => hqnBr' (he ▸ hxB)⟩
    · have hxB : x ∈ Bl' := freeList_subset x h1
      exact ⟨List.mem_append.mpr (.inl hxB), freeList_magic x h1,
        fun he => hpBl (he ▸ hxB), fun he => hqBl (he ▸ hxB),
        fun he => hqnBl (he ▸ hxB)⟩
  have hqnnSq : qnn = q ∨ qnn ∈ freeList m Br' ++ freeList m Bl' := by
    cases he : freeList m Br' ++ freeList m Bl' with
    | nil =>
      left
      rw [hqnn, he]
      rfl
    | cons a t =>
      right
      rw [hqnn, he]
      exact List.mem_cons_self a t
  have hqnnp : qnn ≠ p := by
    rcases hqnnSq with h1 | h1
    · rw [h1]
      exact hqp
    · exact (hSBfacts qnn h1).2.2.1
  have hqnnqn : qnn ≠ qn := by
    rcases hqnnSq with h1 | h1
    · rw [h1]
      exact hqnq.symm
    · exact (hSBfacts qnn h1).2.2.2.2
  have hqnnB : qnn ∈ Bl' ++ q :: p :: qn :: Br' := by
    rcases hqnnSq with h1 | h1
    · rw [h1]
      exact hqB
    · exact (hSBfacts qnn h1).1
  have K7 : ∀ c, c ≠ p → c ≠ q → c ≠ qn → c ≠ qnn → m2 c = m c := by
    intro c h1 h2 h3 h4
    refine Header.extEq ?_ ?_ ?_ ?_
    · rw [K4]
      simp [h1, h3, h4]
    · rw [K3]
      simp [h1, h2]
    · rw [K1]
      simp [h1, h2]
    · rw [K2]
      simp [h1, h3]
  have hq2F : (m2 q).magic = GRUB_MM_FREE_MAGIC := by
    rw [K2, if_neg hqp, if_neg hqqn]
    exact hqF
  have hp20 : (m2 p).magic = 0 := by
    rw [K2, if_pos rfl]
  have hqn20 : (m2 qn).magic = 0 := by
    rw [K2, if_neg (Ne.symm hpqn), if_pos rfl]
  have e1 : freeList m2 Bl' = freeList m Bl' := by
    refine freeList_congr ?_
    intro b hb
    have h1 : b ≠ p := fun he => hpBl (he ▸ hb)
    have h3 : b ≠ qn := fun he => hqnBl (he ▸ hb)
    rw [K2, if_neg h1, if_neg h3]
  have e2 : freeList m2 Br' = freeList m Br' := by
    refine freeList_congr ?_
    intro b hb
    have h1 : b ≠ p := fun he => hpBr' (he ▸ hb)
    have h3 : b ≠ qn := fun he => hqnBr' (he ▸ hb)
    rw [K2, if_neg h1, if_neg h3]
  have hfl2 : freeList m2 (Bl' ++ q :: Br')
      = freeList m Bl' ++ q :: freeList m Br' := by
    rw [freeList_append, freeList_cons_free _ q Br' hq2F, e1, e2]
  have hheads : (freeList m Bl' ++ q :: freeList m Br').headD 0
      = ((freeList m Bl' ++ [ q]) ++ p :: qn :: freeList m Br').headD 0 := by
    cases freeList m Bl' with
    | nil => rfl
    | cons a t => rfl
  have hB2memR : ∀ b ∈ Bl' ++ q :: Br', b ∈ Bl' ++ q :: p :: qn :: Br' := by
    intro b hb
    rcases List.mem_append.mp hb with h1 | h1
    · exact List.mem_append.mpr (.inl h1)
    · rcases List.mem_cons.mp h1 with h2 | h2
      · exact List.mem_append.mpr (.inr (by rw [h2]; exact List.mem_cons_self _ _))
      · exact List.mem_append.mpr (.inr (List.mem_cons_of_mem q
          (List.mem_cons_of_mem p (List.mem_cons_of_mem qn h2))))
  have hB2mem : ∀ b ∈ Bl' ++ q :: p :: qn :: Br', b ≠ p → b ≠ qn →
      b ∈ Bl' ++ q :: Br' := by
    intro b hb hbp hbqn
    rcases List.mem_append.mp hb with h1 | h1
    · exact List.mem_append.mpr (.inl h1)
    · rcases List.mem_cons.mp h1 with h2 | h2
      · exact List.mem_append.mpr (.inr (by rw [h2]; exact List.mem_cons_self _ _))
      · rcases List.mem_cons.mp h2 with h3 | h3
        · exact absurd h3 hbp
        · rcases List.mem_cons.mp h3 with h4 | h4
          · exact absurd h4 hbqn
          · exact List.mem_append.mpr (.inr (List.mem_cons_of_mem q h4))
  obtain ⟨t1, ht1le, hBlT, hmidT⟩ := tiles_decomp m Bl' htiles
  obtain ⟨hqstart, hqs1, hqsle, hmidT2⟩ := hmidT
  obtain ⟨hpstart, hps1, hpsle, hmidT3⟩ := hmidT2
  obtain ⟨hqnstart, hqns1, hqnsle, hBrT⟩ := hmidT3
  refine ⟨Bl' ++ q :: Br', ?_, ?_, ?_, ?_⟩
  · refine ⟨haddr, hsize, ?_, ?_, ?_, ?_⟩
    · show TilesFrom m2 (startCell r) (totalCells r) (Bl' ++ q :: Br')
      have e : totalCells r = t1 + (totalCells r - t1) := by omega
      rw [e]
      refine tiles_recomb _ Bl' ?_ ?_
      · refine tiles_congr ?_ hBlT
        intro b hb
        have h2 : b ≠ q := fun he => hqBl (he ▸ hb)
        have h1 : b ≠ p := fun he => hpBl (he ▸ hb)
        rw [K1, if_neg h2, if_neg h1]
      · have hK1q : (m2 q).size = (m q).size + (m p).size + (m qn).size := by
          rw [K1, if_pos rfl]
        refine ⟨hqstart, ?_, ?_, ?_⟩
        · rw [hK1q]
          omega
        · rw [hK1q]
          omega
        · rw [hK1q]
          have e2a : startCell r + t1 + ((m q).size + (m p).size + (m qn).size)
              = startCell r + t1 + (m q).size + (m p).size + (m qn).size := by omega
          have e3a : totalCells r - t1 - ((m q).size + (m p).size + (m qn).size)
              = totalCells r - t1 - (m q).size - (m p).size - (m qn).size := by omega
          rw [e2a, e3a]
          refine tiles_congr ?_ hBrT
          intro b hb
          have h2 : b ≠ q := fun he => hqBr' (he ▸ hb)
          have h1 : b ≠ p := fun he => hpBr' (he ▸ hb)
          rw [K1, if_neg h2, if_neg h1]
    · intro b hb
      by_cases h1 : b = p
      · exfalso
        rw [h1] at hb
        rcases List.mem_append.mp hb with h2 | h2
        · exact hpBl h2
        · rcases List.mem_cons.mp h2 with h3 | h3
          · exact hpq h3
          · exact hpBr' h3
      · have h3 : b ≠ qn := by
          intro he
          rw [he] at hb
          rcases List.mem_append.mp hb with h4 | h4
          · exact hqnBl h4
          · rcases List.mem_cons.mp h4 with h5 | h5
            · exact hqnq h5
            · exact hqnBr' h5
        rw [K2, if_neg h1, if_neg h3]
        exact hmagics b (hB2memR b hb)
    · obtain ⟨hcBl, hcRest, hjoin⟩ := List.chain'_append.mp hadj
      have hcQnBr : List.Chain' _ (qn :: Br') :=
        List.Chain'.tail (List.Chain'.tail hcRest)
      obtain ⟨hqnHead, hcBr⟩ := List.chain'_cons'.mp hcQnBr
      rw [List.chain'_append]
      refine ⟨?_, ?_, ?_⟩
      · refine chain'_imp_mem ?_ hcBl
        intro a ha b hb hab hcon
        have ha1 : a ≠ p := fun he => hpBl (he ▸ ha)
        have ha3 : a ≠ qn := fun he => hqnBl (he ▸ ha)
        have hb1 : b ≠ p := fun he => hpBl (he ▸ hb)
        have hb3 : b ≠ qn := fun he => hqnBl (he ▸ hb)
        rw [K2, K2, if_neg ha1, if_neg ha3, if_neg hb1, if_neg hb3] at hcon
        exact hab hcon
      · rw [List.chain'_cons']
        refine ⟨?_, ?_⟩
        · intro y hy hcon
          have hyBr : y ∈ Br' := List.mem_of_mem_head? hy
          have hy1 : y ≠ p := fun he => hpBr' (he ▸ hyBr)
          have hy3 : y ≠ qn := fun he => hqnBr' (he ▸ hyBr)
          have h := hcon.2
          rw [K2, if_neg hy1, if_neg hy3] at h
          exact hqnHead y hy ⟨hqnF, h⟩
        · refine chain'_imp_mem ?_ hcBr
          intro a ha b hb hab hcon
          have ha1 : a ≠ p := fun he => hpBr' (he ▸ ha)
          have ha3 : a ≠ qn := fun he => hqnBr' (he ▸ ha)
          have hb1 : b ≠ p := fun he => hpBr' (he ▸ hb)
          have hb3 : b ≠ qn := fun he => hqnBr' (he ▸ hb)
          rw [K2, K2, if_neg ha1, if_neg ha3, if_neg hb1, if_neg hb3] at hcon
          exact hab hcon
      · intro x hx y hy
        have hxBl : x ∈ Bl' := List.mem_of_mem_getLast? hx
        have hx1 : x ≠ p := fun he => hpBl (he ▸ hxBl)
        have hx3 : x ≠ qn := fun he => hqnBl (he ▸ hxBl)
        intro hcon
        have hxfree : (m x).magic = GRUB_MM_FREE_MAGIC := by
          have h := hcon.1
          rw [K2, if_neg hx1, if_neg hx3] at h
          exact h
        have hjq := hjoin x hx q (by simp)
        exact hjq ⟨hxfree, hqF⟩
    · right
      rw [hfl2, ringShape_iff]
      refine ⟨by simp, by rw [hheads, hLA, hLC], ?_⟩
      rw [cycChain_rotate]
      have hndM : ((qn :: freeList m Br') ++ (freeList m Bl' ++ [ q])).Nodup := by
        have h : (freeList m (qn :: Br') ++ freeList m (Bl' ++ [ q])).Nodup :=
          nodup_M hndB2
        rw [hLA, hLC] at h
        exact h
      have hndM'' : (freeList m Br' ++ (freeList m Bl' ++ [ q])).Nodup :=
        (List.nodup_cons.mp hndM).2
      have hqS : q ∉ freeList m Br' ++ freeList m Bl' := by
        intro hmem
        have e : freeList m Br' ++ (freeList m Bl' ++ [ q])
            = (freeList m Br' ++ freeList m Bl') ++ [ q] := by simp
        rw [e] at hndM''
        exact (List.disjoint_of_nodup_append hndM'') hmem (by simp)
      have hcycM2 : cycChain m (qn :: (freeList m Br' ++ (freeList m Bl' ++ [ q]))) :=
        hcycM
      cases hSe : freeList m Br' ++ freeList m Bl' with
      | nil =>
        have hqnn2 : qnn = q := by
          rw [hqnn, hSe]
          rfl
        refine (cycChain_singleton m2 q).mpr ⟨?_, ?_⟩
        · rw [K3, if_neg hqp, if_pos rfl, hqnn2]
        · rw [K4, if_pos hqnn2.symm]
      | cons a R =>
        have hqnn2 : qnn = a := by
          rw [hqnn, hSe]
          rfl
        have hM''e : freeList m Br' ++ (freeList m Bl' ++ [ q])
            = a :: (R ++ [ q]) := by
          have e : freeList m Br' ++ (freeList m Bl' ++ [ q])
              = (freeList m Br' ++ freeList m Bl') ++ [ q] := by simp
          rw [e, hSe]
          rfl
        have hpartsOld := (cycChain_cons_parts m qn
          (freeList m Br' ++ (freeList m Bl' ++ [ q]))
          (by rw [hM''e]; simp)).mp hcycM2
        have hchainM'' : List.Chain' (linkRel m) (a :: (R ++ [ q])) := by
          have h := hpartsOld.1
          rw [hM''e] at h
          exact h
        have hchainSq : List.Chain' (linkRel m) ((a :: R) ++ [ q]) := by
          have e : (a :: R) ++ [ q] = a :: (R ++ [ q]) := by simp
          rw [e]
          exact hchainM''
        obtain ⟨hchainS, _, hjoinS⟩ := List.chain'_append.mp hchainSq
        have hglS : linkRel m ((a :: R).getLast (List.cons_ne_nil a R)) q := by
          refine hjoinS _ ?_ q (by simp)
          rw [List.getLast?_eq_getLast _ (List.cons_ne_nil a R)]
          rfl
        have hSsub : ∀ x ∈ a :: R, x ∈ freeList m Br' ++ freeList m Bl' := by
          intro x hx
          rw [hSe]
          exact hx
        refine (cycChain_cons_parts m2 q (a :: R) (List.cons_ne_nil a R)).mpr
          ⟨?_, ?_, ?_⟩
        · refine chain'_imp_mem2 ?_ hchainS
          intro x hx y hy hab
          have hxS : x ∈ a :: R := (List.dropLast_sublist _).subset hx
          have hyS : y ∈ a :: R := List.mem_cons_of_mem a hy
          obtain ⟨_, _, hx1, hx2, hx3⟩ := hSBfacts x (hSsub x hxS)
          obtain ⟨_, _, hy1, hy2, hy3⟩ := hSBfacts y (hSsub y hyS)
          have hy4 : y ≠ qnn := by
            rw [hqnn2]
            intro he
            have hnds : (a :: R).Nodup := by
              have h := hndM''
              rw [hM''e] at h
              have h2 : ((a :: R) ++ [ q]).Nodup := by
                have e : (a :: R) ++ [ q] = a :: (R ++ [ q]) := by simp
                rw [e]
                exact h
              exact (List.nodup_append.mp h2).1
            have := (List.nodup_cons.mp hnds).1
            refine this ?_
            rw [← he]
            exact hy
          constructor
          · rw [K3, if_neg hx1, if_neg hx2]
            exact hab.1
          · rw [K4, if_neg hy4, if_neg hy1, if_neg hy3]
            exact hab.2
        · refine ⟨?_, ?_⟩
          · rw [K3, if_neg hqp, if_pos rfl, hqnn2]
            rfl
          · show (m2 ((a :: R).headD 0)).prev = q
            rw [show (a :: R).headD 0 = a from rfl, ← hqnn2, K4, if_pos rfl]
        · refine ⟨?_, ?_⟩
          · obtain ⟨_, _, hg1, hg2, hg3⟩ := hSBfacts _
              (hSsub _ (List.getLast_mem (List.cons_ne_nil a R)))
            rw [K3, if_neg hg1, if_neg hg2]
            exact hglS.1
          · rw [K4]
            have hq4 : q ≠ qnn := by
              rw [hqnn2]
              intro he
              exact hqS (hSe ▸ (he ▸ List.mem_cons_self a R))
            rw [if_neg hq4, if_neg hqp, if_neg hqqn]
            exact hglS.2
  · intro b hb hbA hbp
    have hbq : b ≠ q := fun he => by
      rw [he, hqF] at hbA
      exact magic_free_ne_alloc hbA
    have hbqn : b ≠ qn := fun he => by
      rw [he, hqnF] at hbA
      exact magic_free_ne_alloc hbA
    have hbqnn : b ≠ qnn := by
      rcases hqnnSq with h1 | h1
      · rw [h1]
        exact hbq
      · intro he
        have := (hSBfacts qnn h1).2.1
        rw [he, this] at hbA
        exact magic_free_ne_alloc hbA
    exact ⟨hB2mem b hb hbp hbqn, K7 b hbp hbq hbqn hbqnn⟩
  · intro b hb hbA
    have hbp : b ≠ p := by
      intro he
      rw [he, hp20] at hbA
      exact absurd hbA (by decide)
    have hbqn : b ≠ qn := by
      intro he
      rw [he, hqn20] at hbA
      exact absurd hbA (by decide)
    rw [K2, if_neg hbp, if_neg hbqn] at hbA
    have hbq : b ≠ q := fun he => by
      rw [he, hqF] at hbA
      exact magic_free_ne_alloc hbA
    have hbqnn : b ≠ qnn := by
      rcases hqnnSq with h1 | h1
      · rw [h1]
        exact hbq
      · intro he
        have := (hSBfacts qnn h1).2.1
        rw [he, this] at hbA
        exact magic_free_ne_alloc hbA
    exact ⟨hB2memR b hb, hbA, hbp, K7 b hbp hbq hbqn hbqnn⟩
  · intro c hc
    have h1 : c ≠ p := fun he => hc (he ▸ hBspan p hpB)
    have h2 : c ≠ q := fun he => hc (he ▸ hBspan q hqB)
    have h3 : c ≠ qn := fun he => hc (he ▸ hBspan qn hqnB)
    have h4 : c ≠ qnn := fun he => hc (he ▸ hBspan qnn hqnnB)
    exact K7 c h1 h2 h3 h4

theorem freeMergeFwd_noop (m5 : Mem) (p : Nat)
    (h : ¬(p + (m5 p).size = (m5 p).next)) : freeMergeFwd m5 p = m5 := by
  unfold freeMergeFwd
  rw [if_neg h]

theorem freeMergeBwd_noop (m6 : Mem) (p q : Nat)
    (h : ¬(q + (m6 q).size = p)) : freeMergeBwd m6 p q = m6 := by
  unfold freeMergeBwd
  rw [if_neg h]

theorem freeMergeFwd_facts (m5 : Mem) (p qn qnn : Nat)
    (hnext : (m5 p).next = qn) (hcond : p + (m5 p).size = qn)
    (hqnn : (m5 qn).next = qnn) :
    (∀ c, ((freeMergeFwd m5 p) c).size =
      if c = p then (m5 p).size + (m5 qn).size else (m5 c).size) ∧
    (∀ c, ((freeMergeFwd m5 p) c).magic = if c = qn then 0 else (m5 c).magic) ∧
    (∀ c, ((freeMergeFwd m5 p) c).next = if c = p then qnn else (m5 c).next) ∧
    (∀ c, ((freeMergeFwd m5 p) c).prev = if c = qnn then p else (m5 c).prev) := by
  have hcond2 : p + (m5 p).size = (m5 p).next := by
    rw [hnext]
    exact hcond
  refine ⟨?_, ?_, ?_, ?_⟩
  · intro c
    unfold freeMergeFwd
    rw [if_pos hcond2]
    simp only [setPrev_size, setNext_size, setSize_size, setMagic_size,
      setMagic_next, hnext]
  · intro c
    unfold freeMergeFwd
    rw [if_pos hcond2]
    simp only [setPrev_magic, setNext_magic, setSize_magic, setMagic_magic,
      setMagic_next, hnext]
  · intro c
    unfold freeMergeFwd
    rw [if_pos hcond2]
    simp only [setPrev_next, setNext_next, setSize_next, setMagic_next, hnext, hqnn]
  · intro c
    unfold freeMergeFwd
    rw [if_pos hcond2]
    simp only [setPrev_prev, setNext_prev, setSize_prev, setMagic_prev,
      setNext_next, setSize_next, setMagic_next, hnext, hqnn, if_pos rfl]
    by_cases h : c = qnn <;> simp [h]

theorem freeMergeBwd_facts (m6 : Mem) (p q qn2 : Nat)
    (hcond : q + (m6 q).size = p)
    (hpnext : (m6 p).next = qn2) :
    (∀ c, ((freeMergeBwd m6 p q) c).size =
      if c = q then (m6 q).size + (m6 p).size else (m6 c).size) ∧
    (∀ c, ((freeMergeBwd m6 p q) c).magic = if c = p then 0 else (m6 c).magic) ∧
    (∀ c, ((freeMergeBwd m6 p q) c).next = if c = q then qn2 else (m6 c).next) ∧
    (∀ c, ((freeMergeBwd m6 p q) c).prev = if c = qn2 then q else (m6 c).prev) := by
  refine ⟨?_, ?_, ?_, ?_⟩
  · intro c
    unfold freeMergeBwd
    rw [if_pos hcond]
    simp only [setPrev_size, setNext_size, setSize_size, setMagic_size]
  · intro c
    unfold freeMergeBwd
    rw [if_pos hcond]
    simp only [setPrev_magic, setNext_magic, setSize_magic, setMagic_magic]
  · intro c
    unfold freeMergeBwd
    rw [if_pos hcond]
    simp only [setPrev_next, setNext_next, setSize_next, setMagic_next, hpnext]
  · intro c
    unfold freeMergeBwd
    rw [if_pos hcond]
    simp only [setPrev_prev, setNext_prev, setSize_prev, setMagic_prev,
      setNext_next, setSize_next, setMagic_next, hpnext, if_pos rfl]
    by_cases h : c = qn2 <;> simp [h]

theorem cycChain_comm (m : Mem) (LA LC : List Nat) :
    cycChain m (LA ++ LC) ↔ cycChain m (LC ++ LA) := by
  cases hA : LA with
  | nil => simp
  | cons a A2 =>
    cases hC : LC with
    | nil => simp
    | cons c C2 =>
      exact cycChain_swap m (a :: A2) (c :: C2)
        (List.cons_ne_nil a A2) (List.cons_ne_nil c C2)

theorem tiles_adjacent (m : Mem) {start total : Nat} (B1 : List Nat) (b y : Nat)
    (B2 : List Nat) (h : TilesFrom m start total (B1 ++ b :: y :: B2)) :
    y = b + (m b).size := by
  obtain ⟨t1, _, _, hmid⟩ := tiles_decomp m B1 h
  obtain ⟨hb, _, _, hrec⟩ := hmid
  obtain ⟨hy, _, _, _⟩ := hrec
  omega

/-- The full memory pipeline of `grub_free` on the non-sentinel path —
splice after the scan result, forward coalesce, backward coalesce —
restores the region invariant, whatever combination of coalesces fires. -/
theorem free_pipeline_preserve (m : Mem) (r : Region) (Bl Br : List Nat) (p q : Nat)
    (hreg : RegionB m r (Bl ++ p :: Br))
    (hpA : (m p).magic = GRUB_MM_ALLOC_MAGIC)
    (hMnil : freeList m Br ++ freeList m Bl ≠ [])
    (hq : q = (freeList m Br ++ freeList m Bl).getLast hMnil) :
    FreeOut m r (Bl ++ p :: Br) p
      (freeMergeBwd (freeMergeFwd (freeLink m p q) p) p q)
      ((freeList m Bl ++ p :: freeList m Br).headD 0) := by
  obtain ⟨haddr, hsize, htiles, hmagics, hadj, hring⟩ := hreg
  have hpnF : (m p).magic ≠ GRUB_MM_FREE_MAGIC := by
    rw [hpA]
    exact fun he => magic_free_ne_alloc he.symm
  have hflB : freeList m (Bl ++ p :: Br) = freeList m Bl ++ freeList m Br := by
    rw [freeList_append, freeList_cons_nonfree m p Br hpnF]
  have hcycL : cycChain m (freeList m Bl ++ freeList m Br) := by
    rcases hring with ⟨h1, _, _⟩ | h2
    · exfalso
      rw [hflB] at h1
      refine hMnil ?_
      have := List.append_eq_nil.mp h1
      rw [this.1, this.2]
      rfl
    · rw [hflB] at h2
      exact ((ringShape_iff _ _ _).mp h2).2.2
  have hcycM : cycChain m (freeList m Br ++ freeList m Bl) :=
    (cycChain_comm m (freeList m Bl) (freeList m Br)).mp hcycL
  have hpw : List.Pairwise (fun a b => a < b) (Bl ++ p :: Br) :=
    List.chain'_iff_pairwise.mp (tiles_sorted m htiles)
  have hndB : (Bl ++ p :: Br).Nodup := nodup_of_pairwise_lt hpw
  obtain ⟨hpBl, hpBr⟩ := nodup_parts hndB
  have hBlltp : ∀ x ∈ Bl, x < p := fun x hx =>
    (List.pairwise_append.mp hpw).2.2 x hx p (List.mem_cons_self p Br)
  have hpltBr : ∀ y ∈ Br, p < y := fun y hy =>
    (List.pairwise_cons.mp (List.pairwise_append.mp hpw).2.1).1 y hy
  have hMfacts : ∀ x ∈ freeList m Br ++ freeList m Bl,
      x ∈ Bl ++ p :: Br ∧ (m x).magic = GRUB_MM_FREE_MAGIC := by
    intro x hx
    rcases List.mem_append.mp hx with h1 | h1
    · exact ⟨List.mem_append.mpr (.inr (List.mem_cons_of_mem p
        (freeList_subset x h1))), freeList_magic x h1⟩
    · exact ⟨List.mem_append.mpr (.inl (freeList_subset x h1)), freeList_magic x h1⟩
  have hqM : q ∈ freeList m Br ++ freeList m Bl := by
    rw [hq]
    exact List.getLast_mem hMnil
  have hqF : (m q).magic = GRUB_MM_FREE_MAGIC := (hMfacts q hqM).2
  have hqp : q ≠ p := by
    intro he
    rw [he, hpA] at hqF
    exact magic_free_ne_alloc hqF.symm
  obtain ⟨qn, hqn⟩ : ∃ x, x = (freeList m Br ++ freeList m Bl).headD 0 := ⟨_, rfl⟩
  have hqnM : qn ∈ freeList m Br ++ freeList m Bl := by
    obtain ⟨a, t, he⟩ := List.exists_cons_of_ne_nil hMnil
    rw [hqn, he]
    exact List.mem_cons_self a t
  have hqnF : (m qn).magic = GRUB_MM_FREE_MAGIC := (hMfacts qn hqnM).2
  have hqnp : qn ≠ p := by
    intro he
    rw [he, hpA] at hqnF
    exact magic_free_ne_alloc hqnF.symm
  have hqnext : (m q).next = qn := by
    have hd := (cycChain_destruct m _ hMnil hcycM).2
    rw [← hq, ← hqn] at hd
    exact hd.1
  obtain ⟨F1, F2, F3, F4⟩ := freeLink_facts m p q qn hqp hqnp hqnext
  have h5pn : ((freeLink m p q) p).next = qn := by
    rw [F3]
    simp
  have h5ps : ((freeLink m p q) p).size = (m p).size := F1 p
  have h5qs : ((freeLink m p q) q).size = (m q).size := F1 q
  by_cases hfwd : p + (m p).size = qn
  · have hqnBr : qn ∈ Br := by
      rcases List.mem_append.mp (hMfacts qn hqnM).1 with h1 | h1
      · exfalso
        have := hBlltp qn h1
        omega
      · rcases List.mem_cons.mp h1 with h2 | h2
        · exact absurd h2 hqnp
        · exact h2
    cases Br with
    | nil => exact absurd hqnBr (List.not_mem_nil qn)
    | cons y Br2 =>
      have hy : y = p + (m p).size := tiles_adjacent m Bl p y Br2 htiles
      have hyqn : qn = y := by omega
      subst hyqn
      have hM2 : freeList m (qn :: Br2) ++ freeList m Bl
          = qn :: (freeList m Br2 ++ freeList m Bl) := by
        rw [freeList_cons_free m qn Br2 hqnF]
        rfl
      have hql : (freeList m (qn :: Br2) ++ freeList m Bl).getLast? = some q := by
        rw [hq]
        exact List.getLast?_eq_getLast _ hMnil
      rw [hM2] at hql
      obtain ⟨qnn, hqnn⟩ : ∃ x, x = ((freeLink m p q) qn).next := ⟨_, rfl⟩
      have hqnnval : qnn = (freeList m Br2 ++ freeList m Bl).headD p := by
        cases hM2e : freeList m Br2 ++ freeList m Bl with
        | nil =>
          rw [hM2e] at hql
          have hqqn : q = qn := by
            have : some qn = some q := hql
            exact (Option.some.inj this).symm
          rw [hqnn, F3, if_neg hqnp, if_pos hqqn.symm]
          rfl
        | cons a t =>
          rw [hM2e] at hql
          rw [List.getLast?_cons_cons] at hql
          have hqmem : q ∈ a :: t := List.mem_of_mem_getLast? (by rw [hql]; rfl)
          have hndM : (qn :: (freeList m Br2 ++ freeList m Bl)).Nodup := by
            have h : (freeList m (qn :: Br2) ++ freeList m Bl).Nodup :=
              nodup_M hndB
            rw [hM2] at h
            exact h
          have hqnq : qn ≠ q := by
            intro he
            have h1 := (List.nodup_cons.mp hndM).1
            rw [hM2e] at h1
            exact h1 (he ▸ hqmem)
          have hchain : (m qn).next = a := by
            have hcy : cycChain m (qn :: (freeList m Br2 ++ freeList m Bl)) := by
              rw [← hM2]
              exact hcycM
            rw [hM2e] at hcy
            have hd := (cycChain_destruct m _ (List.cons_ne_nil _ _) hcy).1
            exact (List.chain'_cons.mp hd).1.1
          rw [hqnn, F3, if_neg hqnp, if_neg hqnq, hchain]
          rfl
      obtain ⟨Gs, Gm, Gn, Gp⟩ := freeMergeFwd_facts (freeLink m p q) p qn qnn
        h5pn (by rw [h5ps]; exact hfwd) hqnn.symm
      by_cases hbwd : q + (m q).size = p
      · -- both coalesces fire
        have hqBl : q ∈ Bl := by
          rcases List.mem_append.mp (hMfacts q hqM).1 with h1 | h1
          · exact h1
          · exfalso
            rcases List.mem_cons.mp h1 with h2 | h2
            · exact hqp h2
            · have := hpltBr q h2
              omega
        obtain ⟨B1, rest, heBl⟩ := List.append_of_mem hqBl
        cases rest with
        | cons z rest2 =>
          exfalso
          have htz : TilesFrom m (startCell r) (totalCells r)
              (B1 ++ q :: z :: (rest2 ++ p :: qn :: Br2)) := by
            have e : Bl ++ p :: qn :: Br2
                = B1 ++ q :: z :: (rest2 ++ p :: qn :: Br2) := by
              rw [heBl]
              simp
            rw [← e]
            exact htiles
          have hz : z = q + (m q).size := tiles_adjacent m B1 q z _ htz
          have hzBl : z ∈ Bl := by
            rw [heBl]
            exact List.mem_append.mpr (.inr (List.mem_cons_of_mem q
              (List.mem_cons_self z rest2)))
          have : z = p := by omega
          exact hpBl (this ▸ hzBl)
        | nil =>
          subst heBl
          have hbwd6 : q + ((freeMergeFwd (freeLink m p q) p) q).size = p := by
            rw [Gs, if_neg hqp, h5qs]
            exact hbwd
          have h6pn : ((freeMergeFwd (freeLink m p q) p) p).next = qnn := by
            rw [Gn, if_pos rfl]
          obtain ⟨Vs, Vm, Vn, Vp⟩ := freeMergeBwd_facts
            (freeMergeFwd (freeLink m p q) p) p q qnn hbwd6 h6pn
          have hflBlq : freeList m (B1 ++ [ q]) = freeList m B1 ++ [ q] := by
            rw [freeList_append, freeList_cons_free m q [] hqF]
            rfl
          have hqnn2 : qnn = (freeList m Br2 ++ freeList m B1).headD q := by
            rw [hqnnval, hflBlq]
            have e : freeList m Br2 ++ (freeList m B1 ++ [ q])
                = (freeList m Br2 ++ freeList m B1) ++ [ q] := by simp
            rw [e]
            cases freeList m Br2 ++ freeList m B1 with
            | nil => rfl
            | cons a t => rfl
          have K1 : ∀ c, ((freeMergeBwd (freeMergeFwd (freeLink m p q) p) p q) c).size
              = if c = q then (m q).size + (m p).size + (m qn).size
                else if c = p then (m p).size + (m qn).size else (m c).size := by
            intro c
            rw [Vs]
            by_cases h2 : c = q
            · rw [if_pos h2, if_pos h2, Gs, if_neg hqp, h5qs, Gs, if_pos rfl,
                h5ps, F1]
              omega
            · rw [if_neg h2, if_neg h2, Gs]
              by_cases h1 : c = p
              · rw [if_pos h1, if_pos h1, h5ps, F1]
              · rw [if_neg h1, if_neg h1, F1]
          have K2 : ∀ c, ((freeMergeBwd (freeMergeFwd (freeLink m p q) p) p q) c).magic
              = if c = p then 0 else if c = qn then 0 else (m c).magic := by
            intro c
            rw [Vm]
            by_cases h1 : c = p
            · rw [if_pos h1, if_pos h1]
            · rw [if_neg h1, if_neg h1, Gm]
              by_cases h2 : c = qn
              · rw [if_pos h2, if_pos h2]
              · rw [if_neg h2, if_neg h2, F2, if_neg h1]
          have K3 : ∀ c, ((freeMergeBwd (freeMergeFwd (freeLink m p q) p) p q) c).next
              = if c = p then qnn else if c = q then qnn else (m c).next := by
            intro c
            rw [Vn]
            by_cases h2 : c = q
            · have h1 : c ≠ p := by
                rw [h2]
                exact hqp
              rw [if_pos h2, if_neg h1, if_pos h2]
            · rw [if_neg h2, Gn]
              by_cases h1 : c = p
              · rw [if_pos h1, if_pos h1]
              · rw [if_neg h1, if_neg h1, if_neg h2, F3, if_neg h1, if_neg h2]
          have K4 : ∀ c, ((freeMergeBwd (freeMergeFwd (freeLink m p q) p) p q) c).prev
              = if c = qnn then q else if c = p then q
                else if c = qn then p else (m c).prev := by
            intro c
            rw [Vp]
            by_cases h4 : c = qnn
            · rw [if_pos h4, if_pos h4]
            · rw [if_neg h4, if_neg h4, Gp, if_neg h4, F4]
          have eB : (B1 ++ [ q]) ++ p :: qn :: Br2 = B1 ++ q :: p :: qn :: Br2 := by
            simp
          rw [eB] at htiles hmagics hadj
          show FreeOut m r ((B1 ++ [ q]) ++ p :: qn :: Br2) p _ _
          rw [eB]
          exact free_rebuild_both m _ r B1 Br2 p q qn qnn haddr hsize htiles
            hmagics hadj hpA hqF hqnF hcycM hqnn2 K1 K2 K3 K4
      · -- only the forward coalesce fires
        have hm7 : freeMergeBwd (freeMergeFwd (freeLink m p q) p) p q
            = freeMergeFwd (freeLink m p q) p := by
          refine freeMergeBwd_noop _ p q ?_
          rw [Gs, if_neg hqp, h5qs]
          exact hbwd
        rw [hm7]
        have G1n : ∀ c, ((freeMergeFwd (freeLink m p q) p) c).size
            = if c = p then (m p).size + (m qn).size else (m c).size := by
          intro c
          rw [Gs]
          by_cases h : c = p
          · rw [if_pos h, if_pos h, h5ps, F1]
          · rw [if_neg h, if_neg h, F1]
        have G2n : ∀ c, ((freeMergeFwd (freeLink m p q) p) c).magic
            = if c = p then GRUB_MM_FREE_MAGIC else if c = qn then 0
              else (m c).magic := by
          intro c
          rw [Gm]
          by_cases h1 : c = p
          · have h2 : c ≠ qn := by
              rw [h1]
              exact fun he => hqnp he.symm
            rw [if_neg h2, F2, if_pos h1, if_pos h1]
          · by_cases h2 : c = qn
            · rw [if_pos h2, if_neg h1, if_pos h2]
            · rw [if_neg h2, F2, if_neg h1, if_neg h1, if_neg h2]
        have G3n : ∀ c, ((freeMergeFwd (freeLink m p q) p) c).next
            = if c = p then qnn else if c = q then p else (m c).next := by
          intro c
          rw [Gn]
          by_cases h1 : c = p
          · rw [if_pos h1, if_pos h1]
          · rw [if_neg h1, if_neg h1, F3, if_neg h1]
        have G4n : ∀ c, ((freeMergeFwd (freeLink m p q) p) c).prev
            = if c = qnn then p else if c = p then q
              else if c = qn then p else (m c).prev := by
          intro c
          rw [Gp]
          by_cases h1 : c = qnn
          · rw [if_pos h1, if_pos h1]
          · rw [if_neg h1, if_neg h1, F4]
        have hBlNF : ∀ x ∈ Bl.getLast?, (m x).magic ≠ GRUB_MM_FREE_MAGIC := by
          intro x hx hxF
          rcases List.eq_nil_or_concat Bl with hnil | ⟨B1, x2, heBl⟩
          · rw [hnil] at hx
            simp at hx
          · rw [List.concat_eq_append] at heBl
            have hx2 : x2 = x := by
              rw [heBl] at hx
              simp at hx
              omega
            subst hx2
            have hflBl : freeList m Bl = freeList m B1 ++ [ x2] := by
              rw [heBl, freeList_append, freeList_cons_free m x2 [] hxF]
              rfl
            have hql2 : (freeList m (qn :: Br2) ++ freeList m Bl).getLast?
                = some q := by
              rw [hq]
              exact List.getLast?_eq_getLast _ hMnil
            rw [hflBl] at hql2
            have hqx : q = x2 := by
              have e : freeList m (qn :: Br2) ++ (freeList m B1 ++ [ x2])
                  = (freeList m (qn :: Br2) ++ freeList m B1) ++ [ x2] := by simp
              rw [e] at hql2
              have : ((freeList m (qn :: Br2) ++ freeList m B1) ++ [ x2]).getLast?
                  = some x2 := by simp
              rw [this] at hql2
              exact (Option.some.inj hql2).symm
            have htz : TilesFrom m (startCell r) (totalCells r)
                (B1 ++ x2 :: p :: qn :: Br2) := by
              have e : Bl ++ p :: qn :: Br2 = B1 ++ x2 :: p :: qn :: Br2 := by
                rw [heBl]
                simp
              rw [← e]
              exact htiles
            have hxp : p = x2 + (m x2).size := tiles_adjacent m B1 x2 p _ htz
            rw [← hqx] at hxp
            exact hbwd hxp.symm
        exact free_rebuild_fwd m _ r Bl Br2 p q qn qnn haddr hsize htiles hmagics
          hadj hpA hqnF hMnil hq hcycM hqnnval hBlNF G1n G2n G3n G4n
  · -- no forward coalesce
    have hBrNF : ∀ x ∈ Br.head?, (m x).magic ≠ GRUB_MM_FREE_MAGIC := by
      intro x hx hxF
      cases hBre : Br with
      | nil =>
        rw [hBre] at hx
        simp at hx
      | cons y Br2 =>
        rw [hBre] at hx
        have hxy : x = y := by
          simp at hx
          omega
        subst hxy
        have htz : TilesFrom m (startCell r) (totalCells r)
            (Bl ++ p :: x :: Br2) := by
          rw [← hBre]
          exact htiles
        have hyval : x = p + (m p).size := tiles_adjacent m Bl p x Br2 htz
        have hqnx : qn = x := by
          rw [hqn, hBre, freeList_cons_free m x Br2 hxF]
          rfl
        rw [hqnx] at hfwd
        exact hfwd hyval.symm
    by_cases hbwd : q + (m q).size = p
    · -- only the backward coalesce fires
      have hqBl : q ∈ Bl := by
        rcases List.mem_append.mp (hMfacts q hqM).1 with h1 | h1
        · exact h1
        · exfalso
          rcases List.mem_cons.mp h1 with h2 | h2
          · exact hqp h2
          · have := hpltBr q h2
            omega
      obtain ⟨B1, rest, heBl⟩ := List.append_of_mem hqBl
      cases rest with
      | cons z rest2 =>
        exfalso
        have htz : TilesFrom m (startCell r) (totalCells r)
            (B1 ++ q :: z :: (rest2 ++ p :: Br)) := by
          have e : Bl ++ p :: Br = B1 ++ q :: z :: (rest2 ++ p :: Br) := by
            rw [heBl]
            simp
          rw [← e]
          exact htiles
        have hz : z = q + (m q).size := tiles_adjacent m B1 q z _ htz
        have hzBl : z ∈ Bl := by
          rw [heBl]
          exact List.mem_append.mpr (.inr (List.mem_cons_of_mem q
            (List.mem_cons_self z rest2)))
        have : z = p := by omega
        exact hpBl (this ▸ hzBl)
      | nil =>
        subst heBl
        have hm6 : freeMergeFwd (freeLink m p q) p = freeLink m p q := by
          refine freeMergeFwd_noop _ p ?_
          rw [h5ps, h5pn]
          exact hfwd
        rw [hm6]
        have hbwd5 : q + ((freeLink m p q) q).size = p := by
          rw [h5qs]
          exact hbwd
        obtain ⟨Ws, Wm, Wn, Wp⟩ := freeMergeBwd_facts (freeLink m p q) p q qn
          hbwd5 h5pn
        have H1 : ∀ c, ((freeMergeBwd (freeLink m p q) p q) c).size
            = if c = q then (m q).size + (m p).size else (m c).size := by
          intro c
          rw [Ws]
          by_cases h : c = q
          · rw [if_pos h, if_pos h, h5qs, h5ps]
          · rw [if_neg h, if_neg h, F1]
        have H2 : ∀ c, ((freeMergeBwd (freeLink m p q) p q) c).magic
            = if c = p then 0 else (m c).magic := by
          intro c
          rw [Wm]
          by_cases h : c = p
          · rw [if_pos h, if_pos h]
          · rw [if_neg h, if_neg h, F2, if_neg h]
        have H3 : ∀ c, ((freeMergeBwd (freeLink m p q) p q) c).next
            = if c = p then qn else if c = q then qn else (m c).next := by
          intro c
          rw [Wn]
          by_cases h2 : c = q
          · have h1 : c ≠ p := by
              rw [h2]
              exact hqp
            rw [if_pos h2, if_neg h1, if_pos h2]
          · rw [if_neg h2, F3, if_neg h2]
            rw [if_neg h2]
        have H4 : ∀ c, ((freeMergeBwd (freeLink m p q) p q) c).prev
            = if c = p then q else if c = qn then q else (m c).prev := by
          intro c
          rw [Wp]
          by_cases h3 : c = qn
          · have h1 : c ≠ p := by
              rw [h3]
              exact hqnp
            rw [if_pos h3, if_neg h1, if_pos h3]
          · rw [if_neg h3, F4, if_neg h3]
            rw [if_neg h3]
        have eB : (B1 ++ [ q]) ++ p :: Br = B1 ++ q :: p :: Br := by simp
        rw [eB] at htiles hmagics hadj
        show FreeOut m r ((B1 ++ [ q]) ++ p :: Br) p _ _
        rw [eB]
        exact free_rebuild_bwd m _ r B1 Br p q qn haddr hsize htiles hmagics
          hadj hpA hqF hqn hcycM hBrNF H1 H2 H3 H4
    · -- no coalesce: plain insertion
      have hm6 : freeMergeFwd (freeLink m p q) p = freeLink m p q := by
        refine freeMergeFwd_noop _ p ?_
        rw [h5ps, h5pn]
        exact hfwd
      rw [hm6]
      have hm7 : freeMergeBwd (freeLink m p q) p q = freeLink m p q := by
        refine freeMergeBwd_noop _ p q ?_
        rw [h5qs]
        exact hbwd
      rw [hm7]
      have hBlNF : ∀ x ∈ Bl.getLast?, (m x).magic ≠ GRUB_MM_FREE_MAGIC := by
        intro x hx hxF
        rcases List.eq_nil_or_concat Bl with hnil | ⟨B1, x2, heBl⟩
        · rw [hnil] at hx
          simp at hx
        · rw [List.concat_eq_append] at heBl
          have hx2 : x2 = x := by
            rw [heBl] at hx
            simp at hx
            omega
          subst hx2
          have hflBl : freeList m Bl = freeList m B1 ++ [ x2] := by
            rw [heBl, freeList_append, freeList_cons_free m x2 [] hxF]
            rfl
          have hql2 : (freeList m Br ++ freeList m Bl).getLast? = some q := by
            rw [hq]
            exact List.getLast?_eq_getLast _ hMnil
          rw [hflBl] at hql2
          have hqx : q = x2 := by
            have e : freeList m Br ++ (freeList m B1 ++ [ x2])
                = (freeList m Br ++ freeList m B1) ++ [ x2] := by simp
            rw [e] at hql2
            have : ((freeList m Br ++ freeList m B1) ++ [ x2]).getLast?
                = some x2 := by simp
            rw [this] at hql2
            exact (Option.some.inj hql2).symm
          have htz : TilesFrom m (startCell r) (totalCells r)
              (B1 ++ x2 :: p :: Br) := by
            have e : Bl ++ p :: Br = B1 ++ x2 :: p :: Br := by
              rw [heBl]
              simp
            rw [← e]
            exact htiles
          have hxp : p = x2 + (m x2).size := tiles_adjacent m B1 x2 p _ htz
          rw [← hqx] at hxp
          exact hbwd hxp.symm
      exact free_rebuild_insert m _ r Bl Br p q qn haddr hsize htiles hmagics
        hadj hpA hMnil hq hqn hcycM hBlNF hBrNF F1 F2 F3 F4

theorem getLast_append_right {l1 l2 : List Nat} (h2 : l2 ≠ [])
    (h : l1 ++ l2 ≠ []) : (l1 ++ l2).getLast h = l2.getLast h2 := by
  have e1 := List.getLast?_eq_getLast (l1 ++ l2) h
  have e2 := List.getLast?_eq_getLast l2 h2
  have e3 : (l1 ++ l2).getLast? = l2.getLast? :=
    List.getLast?_append_of_ne_nil l1 h2
  rw [e1, e2] at e3
  exact Option.some.inj e3

theorem getLast_eq_of_eq {l1 l2 : List Nat} (he : l1 = l2) (h1 : l1 ≠ [])
    (h2 : l2 ≠ []) : l1.getLast h1 = l2.getLast h2 := by
  subst he
  rfl

theorem get_header_ok_magic (st : MMState) (ptr p i : Nat) (r : Region)
    (h : get_header_from_pointer st ptr = .ok (p, i, r)) :
    (st.mem p).magic = GRUB_MM_ALLOC_MAGIC := by
  unfold get_header_from_pointer at h
  by_cases h1 : ptr &&& (GRUB_MM_ALIGN - 1) ≠ 0
  · rw [if_pos h1] at h
    exact absurd h (by simp)
  · rw [if_neg h1] at h
    cases hf : findRegion st.base ptr with
    | none =>
      rw [hf] at h
      exact absurd h (by simp)
    | some pr =>
      obtain ⟨i2, r2⟩ := pr
      rw [hf] at h
      simp only [] at h
      by_cases h2 : (st.mem (ptr / GRUB_MM_ALIGN - 1)).magic ≠ GRUB_MM_ALLOC_MAGIC
      · rw [if_pos h2] at h
        exact absurd h (by simp)
      · rw [if_neg h2] at h
        have h3 : (ptr / GRUB_MM_ALIGN - 1, i2, r2) = (p, i, r) := by
          injection h
        have h4 : ptr / GRUB_MM_ALIGN - 1 = p := (Prod.mk.injEq _ _ _ _).mp h3 |>.1
        rw [← h4]
        exact not_ne_iff.mp h2

/-- `grub_free` on a block of a region satisfying the invariant: it
returns normally, updates only that region's entry in the list, and the
region satisfies the invariant again (`FreeOut`). -/
theorem grub_free_preserve (st : MMState) (ptr p i : Nat) (r : Region)
    (Bl Br : List Nat)
    (hptr : ptr ≠ 0)
    (hget : get_header_from_pointer st ptr = .ok (p, i, r))
    (hreg : RegionB st.mem r (Bl ++ p :: Br)) :
    ∃ st2 f2, grub_free st ptr = .ok st2 ∧
      st2.base = st.base.set i { r with first := f2 } ∧
      st2.dat = st.dat ∧ st2.errno = st.errno ∧ st2.errmsg = st.errmsg ∧
      FreeOut st.mem r (Bl ++ p :: Br) p st2.mem f2 := by
  have hpA : (st.mem p).magic = GRUB_MM_ALLOC_MAGIC :=
    get_header_ok_magic st ptr p i r hget
  by_cases hsent : (st.mem r.first).magic = GRUB_MM_ALLOC_MAGIC
  · refine ⟨_, p, grub_free_run_sentinel st ptr p i r hptr hget hsent, rfl, rfl,
      rfl, rfl, ?_⟩
    exact free_sentinel_preserve st.mem r Bl Br p hreg hpA hsent
  · obtain ⟨haddr, hsize, htiles, hmagicsB, hadjB, hring⟩ := hreg
    have hpnF : (st.mem p).magic ≠ GRUB_MM_FREE_MAGIC := by
      rw [hpA]
      exact fun he => magic_free_ne_alloc he.symm
    have hflB : freeList st.mem (Bl ++ p :: Br)
        = freeList st.mem Bl ++ freeList st.mem Br := by
      rw [freeList_append, freeList_cons_nonfree st.mem p Br hpnF]
    have hrs : RingShape st.mem r.first (freeList st.mem (Bl ++ p :: Br)) := by
      rcases hring with ⟨_, h2, _⟩ | h2
      · exact absurd h2 hsent
      · exact h2
    rw [hflB] at hrs
    obtain ⟨hLne, hfirst, hcycL⟩ := (ringShape_iff _ _ _).mp hrs
    have hMnil : freeList st.mem Br ++ freeList st.mem Bl ≠ [] := by
      intro h
      obtain ⟨e1, e2⟩ := List.append_eq_nil.mp h
      refine hLne ?_
      rw [e1, e2]
      rfl
    have hcycM : cycChain st.mem (freeList st.mem Br ++ freeList st.mem Bl) :=
      (cycChain_comm st.mem _ _).mp hcycL
    have hpw : List.Pairwise (fun a b => a < b) (Bl ++ p :: Br) :=
      List.chain'_iff_pairwise.mp (tiles_sorted st.mem htiles)
    have hBlltp : ∀ x ∈ Bl, x < p := fun x hx =>
      (List.pairwise_append.mp hpw).2.2 x hx p (List.mem_cons_self p Br)
    have hpltBr : ∀ y ∈ Br, p < y := fun y hy =>
      (List.pairwise_cons.mp (List.pairwise_append.mp hpw).2.1).1 y hy
    have hLAltp : ∀ x ∈ freeList st.mem Bl, x < p := fun x hx =>
      hBlltp x (freeList_subset x hx)
    have hpltLC : ∀ y ∈ freeList st.mem Br, p < y := fun y hy =>
      hpltBr y (freeList_subset y hy)
    have hsortB : List.Pairwise (fun a b => a < b)
        (freeList st.mem Bl ++ freeList st.mem Br) := by
      have hsub : (freeList st.mem Bl ++ freeList st.mem Br).Sublist
          (Bl ++ p :: Br) := by
        rw [← hflB]
        exact List.filter_sublist _
      exact List.Pairwise.sublist hsub hpw
    have hsortL : List.Chain' (fun a b => a < b)
        (freeList st.mem Bl ++ freeList st.mem Br) :=
      List.chain'_iff_pairwise.mpr hsortB
    have hchainL : List.Chain' (linkRel st.mem)
        (freeList st.mem Bl ++ freeList st.mem Br) :=
      (cycChain_destruct st.mem _ hLne hcycL).1
    have hwrapL := (cycChain_destruct st.mem _ hLne hcycL).2
    have hallF : ∀ x ∈ freeList st.mem Bl ++ freeList st.mem Br,
        (st.mem x).magic = GRUB_MM_FREE_MAGIC := by
      intro x hx
      rcases List.mem_append.mp hx with h1 | h1
      · exact freeList_magic x h1
      · exact freeList_magic x h1
    have hfp : (st.mem r.first).prev
        = (freeList st.mem Bl ++ freeList st.mem Br).getLast hLne := by
      rw [hfirst]
      exact hwrapL.2
    have hlenL : (freeList st.mem Bl ++ freeList st.mem Br).length
        ≤ totalCells r := by
      have h1 : (freeList st.mem Bl ++ freeList st.mem Br).length
          ≤ (Bl ++ p :: Br).length := by
        rw [← hflB]
        exact List.Sublist.length_le (List.filter_sublist _)
      have h2 := tiles_length_le st.mem htiles
      omega
    obtain ⟨f0, L2, heL⟩ := List.exists_cons_of_ne_nil hLne
    have hf0 : r.first = f0 := by
      rw [hfirst, heL]
      rfl
    have hscan : freeScan st.mem r.first p (regionFuel r) r.first
        = .ok (((f0 :: L2).find? (fun x => decide (p < x))).getD
          ((f0 :: L2).getLast (List.cons_ne_nil f0 L2))) := by
      rw [hf0]
      refine freeScan_sorted st.mem f0 p L2 f0 (regionFuel r) ?_ ?_ ?_ ?_ ?_
      · rw [← heL]
        exact hchainL
      · rw [← heL]
        exact hsortL
      · intro x hx
        refine hallF x ?_
        rw [heL]
        exact hx
      · have hfp2 := hfp
        rw [hf0] at hfp2
        rw [hfp2]
        exact getLast_eq_of_eq heL hLne (List.cons_ne_nil f0 L2)
      · have : (f0 :: L2).length ≤ totalCells r := by
          rw [← heL]
          exact hlenL
        rw [regionFuel_eq r hsize]
        simp at this ⊢
        omega
    obtain ⟨q0, hq0⟩ : ∃ x, x = ((f0 :: L2).find? (fun x => decide (p < x))).getD
        ((f0 :: L2).getLast (List.cons_ne_nil f0 L2)) := ⟨_, rfl⟩
    rw [← hq0] at hscan
    have hq0L : ((freeList st.mem Bl ++ freeList st.mem Br).find?
          (fun x => decide (p < x))).getD
          ((freeList st.mem Bl ++ freeList st.mem Br).getLast hLne) = q0 := by
      rw [hq0]
      congr 1
      · rw [heL]
      · exact getLast_eq_of_eq heL hLne (List.cons_ne_nil f0 L2)
    have hsplice : (if p < q0 then (st.mem q0).prev else q0)
        = (freeList st.mem Br ++ freeList st.mem Bl).getLast hMnil := by
      obtain ⟨LC, hLCe⟩ : ∃ l, freeList st.mem Br = l := ⟨_, rfl⟩
      cases LC with
      | nil =>
        have hLAne : freeList st.mem Bl ≠ [] := by
          intro h
          refine hLne ?_
          rw [h, hLCe]
          rfl
        have hfind : (freeList st.mem Bl ++ freeList st.mem Br).find?
            (fun x => decide (p < x)) = none := by
          rw [List.find?_eq_none]
          intro x hx
          rcases List.mem_append.mp hx with h1 | h1
          · simp only [decide_eq_true_eq]
            have := hLAltp x h1
            omega
          · rw [hLCe] at h1
            exact absurd h1 (List.not_mem_nil x)
        have hq0v : q0 = (freeList st.mem Bl ++ freeList st.mem Br).getLast hLne := by
          rw [← hq0L, hfind]
          rfl
        have hq0LA : q0 = (freeList st.mem Bl).getLast hLAne := by
          rw [hq0v]
          refine getLast_eq_of_eq ?_ hLne hLAne
          rw [hLCe]
          simp
        have hq0lt : q0 < p := by
          rw [hq0LA]
          exact hLAltp _ (List.getLast_mem hLAne)
        rw [if_neg (by omega)]
        rw [hq0LA]
        refine getLast_eq_of_eq ?_ hLAne hMnil
        rw [hLCe]
        simp
      | cons y LC2 =>
        have hfind : (freeList st.mem Bl ++ freeList st.mem Br).find?
            (fun x => decide (p < x)) = some y := by
          rw [List.find?_append]
          have h1 : (freeList st.mem Bl).find? (fun x => decide (p < x)) = none := by
            rw [List.find?_eq_none]
            intro x hx
            simp only [decide_eq_true_eq]
            have := hLAltp x hx
            omega
          rw [h1, hLCe]
          have hpy0 : (fun x => decide (p < x)) y = true := by
            simp only [decide_eq_true_eq]
            exact hpltLC y (by rw [hLCe]; exact List.mem_cons_self y LC2)
          rw [List.find?_cons_of_pos LC2 hpy0]
          rfl
        have hq0v : q0 = y := by
          rw [← hq0L, hfind]
          rfl
        have hpy : p < y := by
          refine hpltLC y ?_
          rw [hLCe]
          exact List.mem_cons_self y LC2
        rw [if_pos (hq0v ▸ hpy), hq0v]
        obtain ⟨LA, hLAe⟩ : ∃ l, freeList st.mem Bl = l := ⟨_, rfl⟩
        cases LA with
        | nil =>
          have hyhead : (freeList st.mem Bl ++ freeList st.mem Br).headD 0 = y := by
            rw [hLAe, hLCe]
            rfl
          have : (st.mem y).prev
              = (freeList st.mem Bl ++ freeList st.mem Br).getLast hLne := by
            rw [← hyhead]
            exact hwrapL.2
          rw [this]
          refine getLast_eq_of_eq ?_ hLne hMnil
          rw [hLAe]
          simp
        | cons a LA2 =>
          have hLAne : a :: LA2 ≠ [] := List.cons_ne_nil a LA2
          have hchainL2 : List.Chain' (linkRel st.mem)
              ((a :: LA2) ++ y :: LC2) := by
            rw [← hLAe, ← hLCe]
            exact hchainL
          obtain ⟨_, _, hjoin⟩ := List.chain'_append.mp hchainL2
          have hlk : linkRel st.mem ((a :: LA2).getLast hLAne) y := by
            refine hjoin _ ?_ y (by simp)
            rw [List.getLast?_eq_getLast _ hLAne]
            rfl
          rw [hlk.2]
          have hBlnn : freeList st.mem Bl ≠ [] := by
            rw [hLAe]
            exact List.cons_ne_nil a LA2
          have e : (freeList st.mem Br ++ freeList st.mem Bl).getLast hMnil
              = (freeList st.mem Bl).getLast hBlnn :=
            getLast_append_right hBlnn hMnil
          rw [e]
          exact getLast_eq_of_eq hLAe.symm hLAne hBlnn
    obtain ⟨q, hqdef⟩ : ∃ x, x = (freeList st.mem Br ++ freeList st.mem Bl).getLast
        hMnil := ⟨_, rfl⟩
    have hqnext2 : (st.mem q).next
        = (freeList st.mem Br ++ freeList st.mem Bl).headD 0 := by
      have hd := (cycChain_destruct st.mem _ hMnil hcycM).2
      rw [← hqdef] at hd
      exact hd.1
    have hfirst1 : (if r.first = (st.mem q).next ∧ p < (st.mem q).next then p
          else r.first)
        = (freeList st.mem Bl ++ p :: freeList st.mem Br).headD 0 := by
      cases hLAe : freeList st.mem Bl with
      | nil =>
        have hLCne : freeList st.mem Br ≠ [] := by
          intro h
          refine hLne ?_
          rw [h, hLAe]
          rfl
        obtain ⟨y, LC2, hLCe⟩ := List.exists_cons_of_ne_nil hLCne
        have hqn : (st.mem q).next = y := by
          rw [hqnext2, hLCe, hLAe]
          rfl
        have hcond : r.first = (st.mem q).next ∧ p < (st.mem q).next := by
          constructor
          · rw [hqn, hfirst, hLAe, hLCe]
            rfl
          · rw [hqn]
            refine hpltLC y ?_
            rw [hLCe]
            exact List.mem_cons_self y LC2
        rw [if_pos hcond]
        rfl
      | cons a LA2 =>
        have hfa : r.first = a := by
          rw [hfirst, hLAe]
          rfl
        have hnc : ¬(r.first = (st.mem q).next ∧ p < (st.mem q).next) := by
          cases hLCe : freeList st.mem Br with
          | nil =>
            intro hcon
            have hqn : (st.mem q).next = a := by
              rw [hqnext2, hLCe, hLAe]
              rfl
            have := hcon.2
            rw [hqn] at this
            have h2 : a < p := hLAltp a (by rw [hLAe]; exact List.mem_cons_self a LA2)
            omega
          | cons y LC2 =>
            intro hcon
            have hqn : (st.mem q).next = y := by
              rw [hqnext2, hLCe, hLAe]
              rfl
            have h1 := hcon.1
            rw [hqn, hfa] at h1
            have h2 : a < p := hLAltp a (by rw [hLAe]; exact List.mem_cons_self a LA2)
            have h3 : p < y := hpltLC y (by rw [hLCe]; exact List.mem_cons_self y LC2)
            omega
        rw [if_neg hnc, hfa]
        rfl
    have hrun := grub_free_run st ptr p i r q0 hptr hget hsent hscan
    rw [hsplice, ← hqdef] at hrun
    rw [hfirst1] at hrun
    refine ⟨_, (freeList st.mem Bl ++ p :: freeList st.mem Br).headD 0, hrun, rfl,
      rfl, rfl, rfl, ?_⟩
    exact free_pipeline_preserve st.mem r Bl Br p q
      ⟨haddr, hsize, htiles, hmagicsB, hadjB, hring⟩ hpA hMnil hqdef

/-- Disjointness of the usable spans of two regions. -/
def spanDisj (r1 r2 : Region) : Prop := ∀ c, ¬(inSpan r1 c ∧ inSpan r2 c)

/-- The whole-allocator invariant: every registered region has a positive
start cell and satisfies the per-region invariant, and usable spans are
pairwise disjoint. -/
def StateWF (st : MMState) : Prop :=
  (∀ r ∈ st.base, 0 < startCell r ∧ RegInv st.mem r) ∧
  List.Pairwise spanDisj st.base

theorem findRegion_get : ∀ (rs : List Region) (ptr i : Nat) (r : Region),
    findRegion rs ptr = some (i, r) → rs.get? i = some r := by
  intro rs
  induction rs with
  | nil =>
    intro ptr i r h
    exact absurd h (by simp [findRegion])
  | cons r0 rs ih =>
    intro ptr i r h
    unfold findRegion at h
    by_cases h1 : r0.addr < ptr ∧ ptr ≤ r0.addr + r0.size
    · rw [if_pos h1] at h
      have h2 : (0, r0) = (i, r) := by
        injection h
      obtain ⟨h3, h4⟩ := Prod.mk.injEq _ _ _ _ |>.mp h2
      rw [← h3, ← h4]
      rfl
    · rw [if_neg h1] at h
      cases hf : findRegion rs ptr with
      | none =>
        rw [hf] at h
        exact absurd h (by simp)
      | some pr =>
        obtain ⟨i2, r2⟩ := pr
        rw [hf] at h
        have h2 : (i2 + 1, r2) = (i, r) := by
          injection h
        obtain ⟨h3, h4⟩ := Prod.mk.injEq _ _ _ _ |>.mp h2
        rw [← h3, ← h4]
        have := ih ptr i2 r2 hf
        simpa using this

/-- The region scan preserves every region: it either fails cleanly or
carves one region, leaving the list's geometry untouched and every other
region's memory unread. -/
theorem scanRegions_preserve (m : Mem) (align size : Nat) (pol : MmPolicy) :
    ∀ (rs : List Region), (∀ r ∈ rs, 0 < startCell r ∧ RegInv m r) →
    scanRegions m align size pol rs = .nofuel ∨
    scanRegions m align size pol rs = .ok none ∨
    ∃ m2 rs2 pc i r f2, scanRegions m align size pol rs
        = .ok (some (m2, rs2, GRUB_MM_ALIGN * pc)) ∧
      rs.get? i = some r ∧ rs2 = rs.set i { r with first := f2 } ∧
      (∀ B, RegionB m r B → CarveOut m r B m2 f2 pc) ∧
      (∀ c, ¬inSpan r c → m2 c = m c) := by
  intro rs
  induction rs with
  | nil =>
    intro _
    exact .inr (.inl rfl)
  | cons r0 rs ih =>
    intro hall
    have hr0 := hall r0 (List.mem_cons_self r0 rs)
    have hrest : ∀ r ∈ rs, 0 < startCell r ∧ RegInv m r := fun r hr =>
      hall r (List.mem_cons_of_mem r0 hr)
    unfold scanRegions
    by_cases hskip : r0.policies.get pol = .sSkip
    · rw [if_pos hskip]
      rcases ih hrest with h | h | ⟨m2, rs2, pc, i, r, f2, hrun, hget, hset, hc, hf⟩
      · rw [h]
        exact .inl rfl
      · rw [h]
        exact .inr (.inl rfl)
      · rw [hrun]
        refine .inr (.inr ⟨m2, r0 :: rs2, pc, i + 1, r, f2, rfl, ?_, ?_, hc, hf⟩)
        · simpa using hget
        · rw [hset]
          rfl
    · rw [if_neg hskip]
      obtain ⟨B0, hB0⟩ := hr0.2
      rcases real_malloc_preserve (regionFuel r0) m r0 B0 align size
          (r0.policies.get pol) hB0 hr0.1 with h | h | ⟨m2, f2, pc, hrun, hcarve⟩
      · rw [h]
        exact .inl rfl
      · rw [h]
        rcases ih hrest with h2 | h2 | ⟨m2, rs2, pc, i, r, f2, hrun, hget, hset, hc, hf⟩
        · rw [h2]
          exact .inl rfl
        · rw [h2]
          exact .inr (.inl rfl)
        · rw [hrun]
          refine .inr (.inr ⟨m2, r0 :: rs2, pc, i + 1, r, f2, rfl, ?_, ?_, hc, hf⟩)
          · simpa using hget
          · rw [hset]
            rfl
      · rw [hrun]
        refine .inr (.inr ⟨m2, { r0 with first := f2 } :: rs, pc, 0, r0, f2,
          rfl, rfl, rfl, ?_, ?_⟩)
        · intro B hB
          rcases real_malloc_preserve (regionFuel r0) m r0 B align size
              (r0.policies.get pol) hB hr0.1 with h2 | h2 | ⟨m3, f3, pc3, hrun2, hc2⟩
          · rw [hrun] at h2
            exact absurd h2 (by simp)
          · rw [hrun] at h2
            exact absurd h2 (by simp)
          · rw [hrun] at hrun2
            have h3 : (some (m2, f2, pc) : Option (Mem × Nat × Nat))
                = some (m3, f3, pc3) := by
              injection hrun2
            have h4 : (m2, f2, pc) = (m3, f3, pc3) := Option.some.inj h3
            obtain ⟨e1, e2⟩ := Prod.mk.injEq _ _ _ _ |>.mp h4
            obtain ⟨e3, e4⟩ := Prod.mk.injEq _ _ _ _ |>.mp e2
            rw [e1, e3, e4]
            exact hc2
        · obtain ⟨B2, bNew, _, _, _, _, _, _, _, _, hfr⟩ := hcarve
          exact hfr

theorem pairwise_set_first : ∀ (rs : List Region) (i : Nat) (r : Region) (f2 : Nat),
    rs.get? i = some r → List.Pairwise spanDisj rs →
    List.Pairwise spanDisj (rs.set i { r with first := f2 }) := by
  intro rs
  induction rs with
  | nil =>
    intro i r f2 hget _
    exact absurd hget (by simp)
  | cons x t ih =>
    intro i r f2 hget hpw
    obtain ⟨hx, ht⟩ := List.pairwise_cons.mp hpw
    cases i with
    | zero =>
      have hxr : x = r := by simpa using hget
      rw [List.set_cons_zero]
      refine List.pairwise_cons.mpr ⟨?_, ht⟩
      intro y hy
      have := hx y hy
      rw [hxr] at this
      exact this
    | succ j =>
      rw [List.set_cons_succ]
      refine List.pairwise_cons.mpr ⟨?_, ?_⟩
      · intro y hy
        rcases List.mem_or_eq_of_mem_set hy with h1 | h1
        · exact hx y h1
        · rw [h1]
          have hrt : r ∈ t := by
            have : t.get? j = some r := by simpa using hget
            exact List.get?_mem this
          exact hx r hrt
      · exact ih j r f2 (by simpa using hget) ht
  termination_by rs => rs.length

theorem wf_regions_set (m m2 : Mem) :
    ∀ (rs : List Region) (i : Nat) (r : Region) (f2 : Nat),
    rs.get? i = some r →
    (∀ r2 ∈ rs, 0 < startCell r2 ∧ RegInv m r2) →
    List.Pairwise spanDisj rs →
    RegInv m2 { r with first := f2 } →
    (∀ c, ¬inSpan r c → m2 c = m c) →
    ∀ r2 ∈ rs.set i { r with first := f2 }, 0 < startCell r2 ∧ RegInv m2 r2 := by
  intro rs
  induction rs with
  | nil =>
    intro i r f2 hget _ _ _ _
    exact absurd hget (by simp)
  | cons x t ih =>
    intro i r f2 hget hall hpw hnew hf
    obtain ⟨hx, ht⟩ := List.pairwise_cons.mp hpw
    cases i with
    | zero =>
      have hxr : x = r := by simpa using hget
      rw [List.set_cons_zero]
      intro r2 hr2
      rcases List.mem_cons.mp hr2 with h1 | h1
      · rw [h1]
        refine ⟨?_, hnew⟩
        show 0 < startCell { r with first := f2 }
        have := (hall x (List.mem_cons_self x t)).1
        rw [hxr] at this
        exact this
      · have h2 := hall r2 (List.mem_cons_of_mem x h1)
        refine ⟨h2.1, ?_⟩
        obtain ⟨B, hB⟩ := h2.2
        refine ⟨B, regionB_congr ?_ hB⟩
        intro c hc
        refine hf c ?_
        intro hcon
        have := hx r2 h1
        rw [hxr] at this
        exact this c ⟨hcon, hc⟩
    | succ j =>
      rw [List.set_cons_succ]
      have hrt : r ∈ t := by
        have : t.get? j = some r := by simpa using hget
        exact List.get?_mem this
      intro r2 hr2
      rcases List.mem_cons.mp hr2 with h1 | h1
      · rw [h1]
        have h2 := hall x (List.mem_cons_self x t)
        refine ⟨h2.1, ?_⟩
        obtain ⟨B, hB⟩ := h2.2
        refine ⟨B, regionB_congr ?_ hB⟩
        intro c hc
        refine hf c ?_
        intro hcon
        exact hx r hrt c ⟨hc, hcon⟩
      · exact ih j r f2 (by simpa using hget)
          (fun r3 hr3 => hall r3 (List.mem_cons_of_mem x hr3)) ht hnew hf r2 h1

theorem memalign_policy_run (st : MMState) (align size : Nat) (pol : MmPolicy) :
    grub_memalign_policy idHook idHook st align size pol =
      match scanRegions st.mem (align % WORD) (size % WORD) pol st.base with
      | .ok (some (m2, rs2, ptr)) => .ok ({ st with mem := m2, base := rs2 }, some ptr)
      | .ok none => .ok ({ st with errno := GRUB_ERR_OUT_OF_MEMORY, errmsg := "out of memory" }, none)
      | .fatal => .fatal
      | .nofuel => .nofuel := by
  show memalignGo (align % WORD) (size % WORD) pol [idHook, idHook] st = _
  cases h : scanRegions st.mem (align % WORD) (size % WORD) pol st.base with
  | fatal =>
    unfold memalignGo
    rw [h]
  | nofuel =>
    unfold memalignGo
    rw [h]
  | ok o =>
    cases o with
    | some v =>
      obtain ⟨m2, rs2, ptr⟩ := v
      unfold memalignGo
      rw [h]
    | none =>
      show memalignGo _ _ pol [idHook, idHook] st = _
      unfold memalignGo
      rw [h]
      show memalignGo _ _ pol [idHook] st = _
      unfold memalignGo
      rw [h]
      show memalignGo _ _ pol [] st = _
      unfold memalignGo
      rw [h]

/-- A successful `grub_memalign_policy` with identity hooks preserves the
whole-allocator invariant; on a pointer return exactly one region is
carved, the rest of memory and the region list untouched. -/
theorem memalign_policy_wf (st : MMState) (align size : Nat) (pol : MmPolicy)
    (hwf : StateWF st) (st2 : MMState) (res : Option Nat)
    (hrun : grub_memalign_policy idHook idHook st align size pol = .ok (st2, res)) :
    StateWF st2 ∧ st2.dat = st.dat ∧
    ((res = none ∧ st2.mem = st.mem ∧ st2.base = st.base) ∨
     (∃ i r f2 pc, res = some (GRUB_MM_ALIGN * pc) ∧
        st.base.get? i = some r ∧
        st2.base = st.base.set i { r with first := f2 } ∧
        (∀ B, RegionB st.mem r B → CarveOut st.mem r B st2.mem f2 pc) ∧
        (∀ c, ¬inSpan r c → st2.mem c = st.mem c))) := by
  rw [memalign_policy_run] at hrun
  rcases scanRegions_preserve st.mem (align % WORD) (size % WORD) pol st.base
      hwf.1 with h | h | ⟨m2, rs2, pc, i, r, f2, hsc, hget, hset, hc, hf⟩
  · rw [h] at hrun
    exact absurd hrun (by simp)
  · rw [h] at hrun
    have he : ({ st with errno := GRUB_ERR_OUT_OF_MEMORY, errmsg := "out of memory" }, (none : Option Nat)) = (st2, res) := by
      injection hrun
    obtain ⟨he1, he2⟩ := Prod.mk.injEq _ _ _ _ |>.mp he
    rw [← he1, ← he2]
    exact ⟨⟨hwf.1, hwf.2⟩, rfl, .inl ⟨rfl, rfl, rfl⟩⟩
  · rw [hsc] at hrun
    have he : ({ st with mem := m2, base := rs2 },
        some (GRUB_MM_ALIGN * pc)) = (st2, res) := by
      injection hrun
    obtain ⟨he1, he2⟩ := Prod.mk.injEq _ _ _ _ |>.mp he
    rw [← he1, ← he2]
    obtain ⟨B0, hB0⟩ := (hwf.1 r (List.get?_mem hget)).2
    obtain ⟨B2, bNew, _, _, hRB2, _⟩ := hc B0 hB0
    refine ⟨⟨?_, ?_⟩, rfl, .inr ⟨i, r, f2, pc, rfl, hget, ?_, ?_, ?_⟩⟩
    · show ∀ r2 ∈ rs2, 0 < startCell r2 ∧ RegInv m2 r2
      rw [hset]
      exact wf_regions_set st.mem m2 st.base i r f2 hget hwf.1 hwf.2
        ⟨B2, hRB2⟩ hf
    · show List.Pairwise spanDisj rs2
      rw [hset]
      exact pairwise_set_first st.base i r f2 hget hwf.2
    · exact hset
    · exact hc
    · exact hf

theorem tiles_unique (m : Mem) :
    ∀ {B1 B2 : List Nat} {start total : Nat},
      TilesFrom m start total B1 → TilesFrom m start total B2 → B1 = B2 := by
  intro B1
  induction B1 with
  | nil =>
    intro B2 start total h1 h2
    have ht : total = 0 := h1
    cases B2 with
    | nil => rfl
    | cons b B2 =>
      obtain ⟨_, hs1, hs2, _⟩ := h2
      omega
  | cons b B1 ih =>
    intro B2 start total h1 h2
    obtain ⟨hb, hs1, hs2, hrec1⟩ := h1
    cases B2 with
    | nil =>
      have ht : total = 0 := h2
      omega
    | cons b2 B2 =>
      obtain ⟨hb2, _, _, hrec2⟩ := h2
      have hbe : b = b2 := by omega
      rw [hbe]
      rw [hbe] at hrec1
      exact congrArg (b2 :: ·) (ih hrec1 hrec2)

theorem mask31_mul32 (k : Nat) : (GRUB_MM_ALIGN * k) &&& (GRUB_MM_ALIGN - 1) = 0 := by
  have h1 : (GRUB_MM_ALIGN * k) &&& (GRUB_MM_ALIGN - 1) = (GRUB_MM_ALIGN * k) % 2 ^ 5 := by
    have h2 : GRUB_MM_ALIGN - 1 = 2 ^ 5 - 1 := rfl
    rw [h2]
    exact Nat.and_pow_two_sub_one_eq_mod _ 5
  rw [h1]
  show 32 * k % 32 = 0
  omega

theorem findRegion_eq : ∀ (rs : List Region) (i : Nat) (r : Region) (p : Nat),
    rs.get? i = some r →
    (∀ r2 ∈ rs, r2.addr = GRUB_MM_ALIGN * startCell r2 ∧
      r2.size = GRUB_MM_ALIGN * totalCells r2) →
    List.Pairwise spanDisj rs →
    inSpan r p →
    findRegion rs (GRUB_MM_ALIGN * (p + 1)) = some (i, r) := by
  intro rs
  induction rs with
  | nil =>
    intro i r p hget _ _ _
    exact absurd hget (by simp)
  | cons x t ih =>
    intro i r p hget hgeom hpw hin
    obtain ⟨hx, ht⟩ := List.pairwise_cons.mp hpw
    obtain ⟨hxa, hxs⟩ := hgeom x (List.mem_cons_self x t)
    have h32 : GRUB_MM_ALIGN = 32 := rfl
    cases i with
    | zero =>
      have hxr : x = r := by simpa using hget
      subst hxr
      have hin2 : startCell x ≤ p ∧ p < startCell x + totalCells x := hin
      have hcond : x.addr < GRUB_MM_ALIGN * (p + 1) ∧
          GRUB_MM_ALIGN * (p + 1) ≤ x.addr + x.size := by
        rw [hxa, hxs, h32]
        omega
      unfold findRegion
      rw [if_pos hcond]
    | succ j =>
      have hrt : t.get? j = some r := by simpa using hget
      have hrmem : r ∈ t := List.get?_mem hrt
      unfold findRegion
      rw [if_neg ?_]
      · rw [ih j r p hrt (fun r2 hr2 => hgeom r2 (List.mem_cons_of_mem x hr2))
          ht hin]
      · intro hcon
        refine hx r hrmem p ⟨?_, hin⟩
        constructor
        · have h1 := hcon.1
          rw [hxa, h32] at h1
          show startCell x ≤ p
          omega
        · have h2 := hcon.2
          rw [hxa, hxs, h32] at h2
          show p < endCell x
          unfold endCell
          omega

theorem findRegion_set_first : ∀ (rs : List Region) (i : Nat) (r : Region)
    (f2 : Nat) (ptr j : Nat) (r2 : Region),
    rs.get? i = some r →
    findRegion rs ptr = some (j, r2) →
    findRegion (rs.set i { r with first := f2 }) ptr
      = some (j, if j = i then { r with first := f2 } else r2) := by
  intro rs
  induction rs with
  | nil =>
    intro i r f2 ptr j r2 hget _
    exact absurd hget (by simp)
  | cons x t ih =>
    intro i r f2 ptr j r2 hget hfind
    unfold findRegion at hfind
    cases i with
    | zero =>
      have hxr : x = r := by simpa using hget
      subst hxr
      rw [List.set_cons_zero]
      by_cases h1 : x.addr < ptr ∧ ptr ≤ x.addr + x.size
      · rw [if_pos h1] at hfind
        have h2 : (0, x) = (j, r2) := by injection hfind
        obtain ⟨h3, h4⟩ := Prod.mk.injEq _ _ _ _ |>.mp h2
        unfold findRegion
        rw [if_pos h1]
        rw [← h3]
        rfl
      · rw [if_neg h1] at hfind
        unfold findRegion
        rw [if_neg h1]
        cases hf : findRegion t ptr with
        | none =>
          rw [hf] at hfind
          exact absurd hfind (by simp)
        | some pr =>
          obtain ⟨j2, r3⟩ := pr
          rw [hf] at hfind
          have h2 : (j2 + 1, r3) = (j, r2) := by injection hfind
          obtain ⟨h3, h4⟩ := Prod.mk.injEq _ _ _ _ |>.mp h2
          rw [← h3, ← h4]
          have hj : ¬(j2 + 1 = 0) := by omega
          rw [if_neg hj]
    | succ k =>
      rw [List.set_cons_succ]
      by_cases h1 : x.addr < ptr ∧ ptr ≤ x.addr + x.size
      · rw [if_pos h1] at hfind
        have h2 : (0, x) = (j, r2) := by injection hfind
        obtain ⟨h3, h4⟩ := Prod.mk.injEq _ _ _ _ |>.mp h2
        unfold findRegion
        rw [if_pos h1, ← h3, ← h4]
        rw [if_neg (by omega)]
      · rw [if_neg h1] at hfind
        unfold findRegion
        rw [if_neg h1]
        cases hf : findRegion t ptr with
        | none =>
          rw [hf] at hfind
          exact absurd hfind (by simp)
        | some pr =>
          obtain ⟨j2, r3⟩ := pr
          rw [hf] at hfind
          have h2 : (j2 + 1, r3) = (j, r2) := by injection hfind
          obtain ⟨h3, h4⟩ := Prod.mk.injEq _ _ _ _ |>.mp h2
          have hget2 : t.get? k = some r := by simpa using hget
          rw [ih k r f2 ptr j2 r3 hget2 hf]
          rw [← h3, ← h4]
          by_cases hjk : j2 = k
          · rw [if_pos hjk, if_pos (by omega)]
          · rw [if_neg hjk, if_neg (by omega : ¬(j2 + 1 = k + 1))]

theorem get_header_ok_index (st : MMState) (ptr p i : Nat) (r : Region)
    (h : get_header_from_pointer st ptr = .ok (p, i, r)) :
    st.base.get? i = some r ∧ p = ptr / GRUB_MM_ALIGN - 1 ∧
      ptr &&& (GRUB_MM_ALIGN - 1) = 0 := by
  unfold get_header_from_pointer at h
  by_cases h1 : ptr &&& (GRUB_MM_ALIGN - 1) ≠ 0
  · rw [if_pos h1] at h
    exact absurd h (by simp)
  · rw [if_neg h1] at h
    cases hf : findRegion st.base ptr with
    | none =>
      rw [hf] at h
      exact absurd h (by simp)
    | some pr =>
      obtain ⟨i2, r2⟩ := pr
      rw [hf] at h
      simp only [] at h
      by_cases h2 : (st.mem (ptr / GRUB_MM_ALIGN - 1)).magic ≠ GRUB_MM_ALLOC_MAGIC
      · rw [if_pos h2] at h
        exact absurd h (by simp)
      · rw [if_neg h2] at h
        have h3 : (ptr / GRUB_MM_ALIGN - 1, i2, r2) = (p, i, r) := by
          injection h
        obtain ⟨h4, h5⟩ := Prod.mk.injEq _ _ _ _ |>.mp h3
        obtain ⟨h6, h7⟩ := Prod.mk.injEq _ _ _ _ |>.mp h5
        refine ⟨?_, h4.symm, not_ne_iff.mp h1⟩
        rw [← h6, ← h7]
        exact findRegion_get st.base ptr i2 r2 hf

/-- Reconstruction of `get_header_from_pointer` on the pointer of an
allocated block of a well-formed region. -/
theorem get_header_of_block (st : MMState) (p i : Nat) (r : Region)
    (hget : st.base.get? i = some r)
    (hgeom : ∀ r2 ∈ st.base, r2.addr = GRUB_MM_ALIGN * startCell r2 ∧
      r2.size = GRUB_MM_ALIGN * totalCells r2)
    (hpw : List.Pairwise spanDisj st.base)
    (hin : inSpan r p)
    (hmag : (st.mem p).magic = GRUB_MM_ALLOC_MAGIC) :
    get_header_from_pointer st (GRUB_MM_ALIGN * (p + 1)) = .ok (p, i, r) := by
  unfold get_header_from_pointer
  rw [if_neg (by rw [mask31_mul32]; simp)]
  rw [findRegion_eq st.base i r p hget hgeom hpw hin]
  have hdiv : GRUB_MM_ALIGN * (p + 1) / GRUB_MM_ALIGN - 1 = p := by
    rw [Nat.mul_div_cancel_left _ (by decide : 0 < GRUB_MM_ALIGN)]
    omega
  simp only [hdiv]
  rw [if_neg (by rw [hmag]; simp)]

/-- `grub_free` of a block of a well-formed state: invariant preserved,
one region's `first` updated, everything else untouched. -/
theorem grub_free_wf (st : MMState) (ptr p i : Nat) (r : Region)
    (Bl Br : List Nat)
    (hwf : StateWF st)
    (hptr : ptr ≠ 0)
    (hget : get_header_from_pointer st ptr = .ok (p, i, r))
    (hreg : RegionB st.mem r (Bl ++ p :: Br)) :
    ∃ st2 f2, grub_free st ptr = .ok st2 ∧ StateWF st2 ∧
      st2.dat = st.dat ∧ st2.errno = st.errno ∧ st2.errmsg = st.errmsg ∧
      st2.base = st.base.set i { r with first := f2 } ∧
      FreeOut st.mem r (Bl ++ p :: Br) p st2.mem f2 := by
  obtain ⟨st2, f2, hrun, hbase, hdat, herr, hmsg, hout⟩ :=
    grub_free_preserve st ptr p i r Bl Br hptr hget hreg
  have hidx := (get_header_ok_index st ptr p i r hget).1
  have hout2 := hout
  obtain ⟨B2, hRB2, _, _, hframe⟩ := hout
  refine ⟨st2, f2, hrun, ⟨?_, ?_⟩, hdat, herr, hmsg, hbase, hout2⟩
  · show ∀ r2 ∈ st2.base, 0 < startCell r2 ∧ RegInv st2.mem r2
    rw [hbase]
    exact wf_regions_set st.mem st2.mem st.base i r f2 hidx hwf.1 hwf.2
      ⟨B2, hRB2⟩ hframe
  · show List.Pairwise spanDisj st2.base
    rw [hbase]
    exact pairwise_set_first st.base i r f2 hidx hwf.2

theorem get?_set_self : ∀ (rs : List Region) (i : Nat) (r v : Region),
    rs.get? i = some r → (rs.set i v).get? i = some v := by
  intro rs
  induction rs with
  | nil =>
    intro i r v h
    exact absurd h (by simp)
  | cons x t ih =>
    intro i r v h
    cases i with
    | zero => rfl
    | succ j =>
      rw [List.set_cons_succ]
      exact ih j r v (by simpa using h)

theorem get?_set_ne : ∀ (rs : List Region) (i j : Nat) (v : Region), i ≠ j →
    (rs.set i v).get? j = rs.get? j := by
  intro rs
  induction rs with
  | nil =>
    intro i j v _
    simp
  | cons x t ih =>
    intro i j v hij
    cases i with
    | zero =>
      cases j with
      | zero => exact absurd rfl hij
      | succ k => rfl
    | succ i2 =>
      cases j with
      | zero => rfl
      | succ k =>
        rw [List.set_cons_succ]
        show (t.set i2 v).get? k = t.get? k
        exact ih i2 k v (by omega)

theorem pairwise_get?_lt {R : Region → Region → Prop} :
    ∀ (rs : List Region) (i j : Nat) (a b : Region), List.Pairwise R rs →
    i < j → rs.get? i = some a → rs.get? j = some b → R a b := by
  intro rs
  induction rs with
  | nil =>
    intro i j a b _ _ h
    exact absurd h (by simp)
  | cons x t ih =>
    intro i j a b hpw hij ha hb
    obtain ⟨hx, ht⟩ := List.pairwise_cons.mp hpw
    cases i with
    | zero =>
      have hxa : x = a := by simpa using ha
      obtain ⟨j2, rfl⟩ : ∃ j2, j = j2 + 1 := ⟨j - 1, by omega⟩
      have hbt : t.get? j2 = some b := by simpa using hb
      rw [← hxa]
      exact hx b (List.get?_mem hbt)
    | succ i2 =>
      obtain ⟨j2, rfl⟩ : ∃ j2, j = j2 + 1 := ⟨j - 1, by omega⟩
      exact ih i2 j2 a b ht (by omega) (by simpa using ha) (by simpa using hb)

theorem pairwise_spanDisj_get? (rs : List Region) (i j : Nat) (a b : Region)
    (hpw : List.Pairwise spanDisj rs) (hij : i ≠ j)
    (ha : rs.get? i = some a) (hb : rs.get? j = some b) : spanDisj a b := by
  rcases Nat.lt_or_ge i j with h | h
  · exact pairwise_get?_lt rs i j a b hpw h ha hb
  · have h2 : j < i := by omega
    have h3 := pairwise_get?_lt rs j i b a hpw h2 hb ha
    intro c hc
    exact h3 c ⟨hc.2, hc.1⟩

theorem get_header_congr (st st2 : MMState) (ptr : Nat)
    (hm : st2.mem = st.mem) (hb : st2.base = st.base) :
    get_header_from_pointer st2 ptr = get_header_from_pointer st ptr := by
  unfold get_header_from_pointer
  rw [hm, hb]

theorem map_addr_size_set : ∀ (rs : List Region) (i : Nat) (r : Region) (f2 : Nat),
    rs.get? i = some r →
    (rs.set i { r with first := f2 }).map (fun r2 => (r2.addr, r2.size))
      = rs.map (fun r2 => (r2.addr, r2.size)) := by
  intro rs
  induction rs with
  | nil =>
    intro i r f2 h
    exact absurd h (by simp)
  | cons x t ih =>
    intro i r f2 h
    cases i with
    | zero =>
      have hxr : x = r := by simpa using h
      rw [List.set_cons_zero, List.map_cons, List.map_cons, hxr]
    | succ j =>
      rw [List.set_cons_succ, List.map_cons, List.map_cons,
        ih j r f2 (by simpa using h)]

/-- A live allocation of a well-formed state: the pointer is the byte
address of the cell after an `ALLOC` block of its owning region. -/
def ValidAlloc (st : MMState) (ptr : Nat) : Prop :=
  ∃ p i r Bl Br, ptr = GRUB_MM_ALIGN * (p + 1) ∧
    get_header_from_pointer st ptr = .ok (p, i, r) ∧
    RegionB st.mem r (Bl ++ p :: Br)

/-- One step of the paired-allocate/free run: a public allocation call
(with identity reclamation hooks) or a free of an outstanding pointer. -/
inductive C2Step : MMState × List Nat → MMState × List Nat → Prop
  | allocSome (st : MMState) (O : List Nat) (align size : Nat) (pol : MmPolicy)
      (st2 : MMState) (ptr : Nat) :
      grub_memalign_policy idHook idHook st align size pol = .ok (st2, some ptr) →
      C2Step (st, O) (st2, ptr :: O)
  | allocNone (st : MMState) (O : List Nat) (align size : Nat) (pol : MmPolicy)
      (st2 : MMState) :
      grub_memalign_policy idHook idHook st align size pol = .ok (st2, none) →
      C2Step (st, O) (st2, O)
  | free (st : MMState) (O : List Nat) (ptr : Nat) (st2 : MMState) :
      ptr ∈ O →
      grub_free st ptr = .ok st2 →
      C2Step (st, O) (st2, O.erase ptr)

/-- Reflexive-transitive closure of `C2Step`. -/
inductive C2Reach : MMState × List Nat → MMState × List Nat → Prop
  | refl (s : MMState × List Nat) : C2Reach s s
  | step (s1 s2 s3 : MMState × List Nat) :
      C2Reach s1 s2 → C2Step s2 s3 → C2Reach s1 s3

/-- The run invariant: the state is well formed, the outstanding pointers
are distinct live allocations, and every `ALLOC` block of every region is
an outstanding pointer. -/
def C2Inv (st : MMState) (O : List Nat) : Prop :=
  StateWF st ∧ O.Nodup ∧
  (∀ ptr ∈ O, ValidAlloc st ptr) ∧
  (∀ i r B b, st.base.get? i = some r → RegionB st.mem r B → b ∈ B →
    (st.mem b).magic = GRUB_MM_ALLOC_MAGIC → GRUB_MM_ALIGN * (b + 1) ∈ O)

/-- Every run step keeps the run invariant and the regions\' geometry. -/
theorem C2Step_inv (st st2 : MMState) (O O2 : List Nat)
    (hstep : C2Step (st, O) (st2, O2)) (hinv : C2Inv st O) :
    C2Inv st2 O2 ∧ st2.base.map (fun r2 => (r2.addr, r2.size))
      = st.base.map (fun r2 => (r2.addr, r2.size)) := by
  obtain ⟨hwf, hnd, hval, hcomp⟩ := hinv
  cases hstep with
  | allocNone _ _ align size pol _ hrun =>
    obtain ⟨hwf2, hdat, hd⟩ := memalign_policy_wf st align size pol hwf st2 none hrun
    rcases hd with ⟨_, hmem, hbase⟩ | ⟨i, r, f2, pc, hres, _⟩
    · refine ⟨⟨hwf2, hnd, ?_, ?_⟩, by rw [hbase]⟩
      · intro ptr hptr
        obtain ⟨p, i, r, Bl, Br, heq, hget, hreg⟩ := hval ptr hptr
        refine ⟨p, i, r, Bl, Br, heq, ?_, ?_⟩
        · rw [get_header_congr st st2 ptr hmem hbase]
          exact hget
        · rw [hmem]
          exact hreg
      · intro i r B b hget hreg hb hmag
        rw [hmem] at hreg hmag
        rw [hbase] at hget
        exact hcomp i r B b hget hreg hb hmag
    · exact absurd hres (by simp)
  | allocSome _ _ align size pol _ ptr hrun =>
    obtain ⟨hwf2, hdat, hd⟩ :=
      memalign_policy_wf st align size pol hwf st2 (some ptr) hrun
    rcases hd with ⟨hres, _⟩ | ⟨i, r, f2, pc, hres, hget, hbase, hcarve, hframe⟩
    · exact absurd hres (by simp)
    · have hptrv : ptr = GRUB_MM_ALIGN * pc := by
        have := Option.some.inj hres
        rw [this]
      obtain ⟨B, hB⟩ := (hwf.1 r (List.get?_mem hget)).2
      obtain ⟨B2, bNew, hpc, hspan, hRB2, hbB2, hbA, hbNot, hpres, hpres2, hfr2⟩ :=
        hcarve B hB
      have hgeom2 : ∀ r2 ∈ st2.base, r2.addr = GRUB_MM_ALIGN * startCell r2 ∧
          r2.size = GRUB_MM_ALIGN * totalCells r2 := by
        intro r2 hr2
        obtain ⟨B3, hB3⟩ := (hwf2.1 r2 hr2).2
        exact ⟨hB3.1, hB3.2.1⟩
      have hget2 : st2.base.get? i = some { r with first := f2 } := by
        rw [hbase]
        exact get?_set_self st.base i r _ hget
      have hvalNew : ValidAlloc st2 ptr := by
        obtain ⟨Bl2, Br2, hB2e⟩ := List.append_of_mem hbB2
        refine ⟨bNew, i, { r with first := f2 }, Bl2, Br2, by rw [hptrv, hpc], ?_, ?_⟩
        · rw [hptrv, hpc]
          exact get_header_of_block st2 bNew i { r with first := f2 } hget2
            hgeom2 hwf2.2 hspan hbA
        · rw [← hB2e]
          exact hRB2
      have hvalOld : ∀ ptr2 ∈ O, ValidAlloc st2 ptr2 := by
        intro ptr2 hptr2
        obtain ⟨p2, i2, r2, Bl2, Br2, heq2, hget2b, hreg2⟩ := hval ptr2 hptr2
        have hmag2 := get_header_ok_magic st ptr2 p2 i2 r2 hget2b
        have hidx2 := (get_header_ok_index st ptr2 p2 i2 r2 hget2b).1
        have hp2B : p2 ∈ Bl2 ++ p2 :: Br2 :=
          List.mem_append.mpr (.inr (List.mem_cons_self p2 Br2))
        have hp2span : inSpan r2 p2 := by
          have := tiles_bounds st.mem hreg2.2.2.1 p2 hp2B
          exact ⟨this.1, this.2⟩
        by_cases hii : i2 = i
        · rw [hii] at hidx2
          have hr2r : r2 = r := by
            have := hidx2.symm.trans hget
            exact Option.some.inj this
          subst hr2r
          have hBe : Bl2 ++ p2 :: Br2 = B :=
            tiles_unique st.mem hreg2.2.2.1 hB.2.2.1
          have hp2Ba : p2 ∈ B := hBe ▸ hp2B
          obtain ⟨hp2B2, hp2mem⟩ := hpres p2 hp2Ba hmag2
          obtain ⟨Bl3, Br3, hB3e⟩ := List.append_of_mem hp2B2
          refine ⟨p2, i, { r2 with first := f2 }, Bl3, Br3, heq2, ?_, ?_⟩
          · rw [heq2]
            refine get_header_of_block st2 p2 i { r2 with first := f2 }
              (by rw [hbase]; exact get?_set_self st.base i r2 _ hget)
              hgeom2 hwf2.2 hp2span ?_
            rw [hp2mem]
            exact hmag2
          · rw [← hB3e]
            exact hRB2
        · have hdisj := pairwise_spanDisj_get? st.base i2 i r2 r hwf.2 hii
            hidx2 hget
          have hp2mem : st2.mem p2 = st.mem p2 := by
            refine hframe p2 ?_
            intro hcon
            exact hdisj p2 ⟨hp2span, hcon⟩
          refine ⟨p2, i2, r2, Bl2, Br2, heq2, ?_, ?_⟩
          · rw [heq2]
            refine get_header_of_block st2 p2 i2 r2 ?_ hgeom2 hwf2.2 hp2span ?_
            · rw [hbase]
              rw [get?_set_ne st.base i i2 _ (fun he => hii he.symm)]
              exact hidx2
            · rw [hp2mem]
              exact hmag2
          · refine regionB_congr ?_ hreg2
            intro c hc
            refine hframe c ?_
            intro hcon
            exact hdisj c ⟨hc, hcon⟩
      have hnotin : ptr ∉ O := by
        intro hmem
        obtain ⟨p2, i2, r2, Bl2, Br2, heq2, hget2b, hreg2⟩ := hval ptr hmem
        have hp2 : p2 = bNew := by
          rw [hptrv, hpc] at heq2
          have h32 : GRUB_MM_ALIGN = 32 := rfl
          rw [h32] at heq2
          omega
        subst hp2
        have hmag2 := get_header_ok_magic st ptr p2 i2 r2 hget2b
        have hidx2 := (get_header_ok_index st ptr p2 i2 r2 hget2b).1
        have hp2B : p2 ∈ Bl2 ++ p2 :: Br2 :=
          List.mem_append.mpr (.inr (List.mem_cons_self p2 Br2))
        have hp2span : inSpan r2 p2 := by
          have := tiles_bounds st.mem hreg2.2.2.1 p2 hp2B
          exact ⟨this.1, this.2⟩
        by_cases hii : i2 = i
        · rw [hii] at hidx2
          have hr2r : r2 = r := Option.some.inj (hidx2.symm.trans hget)
          subst hr2r
          have hBe : Bl2 ++ p2 :: Br2 = B :=
            tiles_unique st.mem hreg2.2.2.1 hB.2.2.1
          exact hbNot ⟨hBe ▸ hp2B, hmag2⟩
        · have hdisj := pairwise_spanDisj_get? st.base i2 i r2 r hwf.2 hii
            hidx2 hget
          exact hdisj p2 ⟨hp2span, hspan⟩
      refine ⟨⟨hwf2, List.nodup_cons.mpr ⟨hnotin, hnd⟩, ?_, ?_⟩, ?_⟩
      · intro ptr2 hptr2
        rcases List.mem_cons.mp hptr2 with h1 | h1
        · rw [h1]
          exact hvalNew
        · exact hvalOld ptr2 h1
      · intro i2 r2 B3 b hget3 hreg3 hb hmag3
        by_cases hii : i2 = i
        · subst hii
          have hr2 : r2 = { r with first := f2 } :=
            Option.some.inj (hget3.symm.trans hget2)
          subst hr2
          have hB3e : B3 = B2 := tiles_unique st2.mem hreg3.2.2.1 hRB2.2.2.1
          rw [hB3e] at hb
          rcases hpres2 b hb hmag3 with h1 | ⟨hbB, hbold, _⟩
          · rw [h1, ← hpc, ← hptrv]
            exact List.mem_cons_self ptr O
          · exact List.mem_cons_of_mem ptr (hcomp i2 r B b hget hB hbB hbold)
        · have hget4 : st.base.get? i2 = some r2 := by
            rw [hbase] at hget3
            rw [get?_set_ne st.base i i2 _ (fun he => hii he.symm)] at hget3
            exact hget3
          have hdisj := pairwise_spanDisj_get? st.base i2 i r2 r hwf.2 hii
            hget4 hget
          have hframe2 : ∀ c, inSpan r2 c → st2.mem c = st.mem c := by
            intro c hc
            refine hframe c ?_
            intro hcon
            exact hdisj c ⟨hc, hcon⟩
          have hreg4 : RegionB st.mem r2 B3 := by
            refine regionB_congr ?_ hreg3
            intro c hc
            exact (hframe2 c hc).symm
          have hbspan : inSpan r2 b := by
            have := tiles_bounds st2.mem hreg3.2.2.1 b hb
            exact ⟨this.1, this.2⟩
          have hmag4 : (st.mem b).magic = GRUB_MM_ALLOC_MAGIC := by
            rw [← hframe2 b hbspan]
            exact hmag3
          exact List.mem_cons_of_mem ptr (hcomp i2 r2 B3 b hget4 hreg4 hb hmag4)
      · rw [hbase]
        exact map_addr_size_set st.base i r f2 hget
  | free _ _ ptr _ hmem hrun =>
    obtain ⟨p, i, r, Bl, Br, heq, hget, hreg⟩ := hval ptr hmem
    have hptr0 : ptr ≠ 0 := by
      rw [heq]
      have h32 : GRUB_MM_ALIGN = 32 := rfl
      rw [h32]
      omega
    obtain ⟨st2b, f2, hrun2, hwf2, hdat, herr, hmsg, hbase, hout⟩ :=
      grub_free_wf st ptr p i r Bl Br hwf hptr0 hget hreg
    have hst2 : st2b = st2 := by
      rw [hrun2] at hrun
      injection hrun
    rw [hst2] at hwf2 hdat herr hmsg hbase hout
    obtain ⟨B2, hRB2, hpresF, hpres2F, hframeF⟩ := hout
    have hidx := (get_header_ok_index st ptr p i r hget).1
    have hgeom2 : ∀ r2 ∈ st2.base, r2.addr = GRUB_MM_ALIGN * startCell r2 ∧
        r2.size = GRUB_MM_ALIGN * totalCells r2 := by
      intro r2 hr2
      obtain ⟨B3, hB3⟩ := (hwf2.1 r2 hr2).2
      exact ⟨hB3.1, hB3.2.1⟩
    have hget2 : st2.base.get? i = some { r with first := f2 } := by
      rw [hbase]
      exact get?_set_self st.base i r _ hidx
    refine ⟨⟨hwf2, List.Nodup.erase ptr hnd, ?_, ?_⟩, ?_⟩
    · intro ptr2 hptr2
      have hptr2O : ptr2 ∈ O := List.mem_of_mem_erase hptr2
      have hne : ptr2 ≠ ptr := by
        intro he
        rw [he] at hptr2
        exact (hnd.not_mem_erase) hptr2
      obtain ⟨p2, i2, r2, Bl2, Br2, heq2, hget2b, hreg2⟩ := hval ptr2 hptr2O
      have hmag2 := get_header_ok_magic st ptr2 p2 i2 r2 hget2b
      have hidx2 := (get_header_ok_index st ptr2 p2 i2 r2 hget2b).1
      have hp2B : p2 ∈ Bl2 ++ p2 :: Br2 :=
        List.mem_append.mpr (.inr (List.mem_cons_self p2 Br2))
      have hp2span : inSpan r2 p2 := by
        have := tiles_bounds st.mem hreg2.2.2.1 p2 hp2B
        exact ⟨this.1, this.2⟩
      have hp2p : p2 ≠ p := by
        intro he
        refine hne ?_
        rw [heq2, heq, he]
      by_cases hii : i2 = i
      · rw [hii] at hidx2
        have hr2r : r2 = r := Option.some.inj (hidx2.symm.trans hidx)
        subst hr2r
        have hBe : Bl2 ++ p2 :: Br2 = Bl ++ p :: Br :=
          tiles_unique st.mem hreg2.2.2.1 hreg.2.2.1
        obtain ⟨hp2B2, hp2mem⟩ := hpresF p2 (hBe ▸ hp2B) hmag2 hp2p
        obtain ⟨Bl3, Br3, hB3e⟩ := List.append_of_mem hp2B2
        refine ⟨p2, i, { r2 with first := f2 }, Bl3, Br3, heq2, ?_, ?_⟩
        · rw [heq2]
          refine get_header_of_block st2 p2 i { r2 with first := f2 } hget2
            hgeom2 hwf2.2 hp2span ?_
          rw [hp2mem]
          exact hmag2
        · rw [← hB3e]
          exact hRB2
      · have hdisj := pairwise_spanDisj_get? st.base i2 i r2 r hwf.2 hii
          hidx2 hidx
        have hframe2 : ∀ c, inSpan r2 c → st2.mem c = st.mem c := by
          intro c hc
          refine hframeF c ?_
          intro hcon
          exact hdisj c ⟨hc, hcon⟩
        refine ⟨p2, i2, r2, Bl2, Br2, heq2, ?_, ?_⟩
        · rw [heq2]
          refine get_header_of_block st2 p2 i2 r2 ?_ hgeom2 hwf2.2 hp2span ?_
          · rw [hbase]
            rw [get?_set_ne st.base i i2 _ (fun he => hii he.symm)]
            exact hidx2
          · rw [hframe2 p2 hp2span]
            exact hmag2
        · refine regionB_congr ?_ hreg2
          intro c hc
          exact hframe2 c hc
    · intro i2 r2 B3 b hget3 hreg3 hb hmag3
      by_cases hii : i2 = i
      · subst hii
        have hr2 : r2 = { r with first := f2 } :=
          Option.some.inj (hget3.symm.trans hget2)
        subst hr2
        have hB3e : B3 = B2 := tiles_unique st2.mem hreg3.2.2.1 hRB2.2.2.1
        rw [hB3e] at hb
        obtain ⟨hbB, hbold, hbp, _⟩ := hpres2F b hb hmag3
        have hO : GRUB_MM_ALIGN * (b + 1) ∈ O :=
          hcomp i2 r (Bl ++ p :: Br) b hidx hreg hbB hbold
        refine List.mem_erase_of_ne ?_ |>.mpr hO
        intro he
        rw [heq] at he
        have h32 : GRUB_MM_ALIGN = 32 := rfl
        rw [h32] at he
        exact hbp (by omega)
      · have hget4 : st.base.get? i2 = some r2 := by
          rw [hbase] at hget3
          rw [get?_set_ne st.base i i2 _ (fun he => hii he.symm)] at hget3
          exact hget3
        have hdisj := pairwise_spanDisj_get? st.base i2 i r2 r hwf.2 hii
          hget4 hidx
        have hframe2 : ∀ c, inSpan r2 c → st2.mem c = st.mem c := by
          intro c hc
          refine hframeF c ?_
          intro hcon
          exact hdisj c ⟨hc, hcon⟩
        have hreg4 : RegionB st.mem r2 B3 := by
          refine regionB_congr ?_ hreg3
          intro c hc
          exact (hframe2 c hc).symm
        have hbspan : inSpan r2 b := by
          have := tiles_bounds st2.mem hreg3.2.2.1 b hb
          exact ⟨this.1, this.2⟩
        have hmag4 : (st.mem b).magic = GRUB_MM_ALLOC_MAGIC := by
          rw [← hframe2 b hbspan]
          exact hmag3
        have hO : GRUB_MM_ALIGN * (b + 1) ∈ O :=
          hcomp i2 r2 B3 b hget4 hreg4 hb hmag4
        refine List.mem_erase_of_ne ?_ |>.mpr hO
        intro he
        have hpspan : inSpan r p := by
          have hpB : p ∈ Bl ++ p :: Br :=
            List.mem_append.mpr (.inr (List.mem_cons_self p Br))
          have := tiles_bounds st.mem hreg.2.2.1 p hpB
          exact ⟨this.1, this.2⟩
        rw [heq] at he
        have h32 : GRUB_MM_ALIGN = 32 := rfl
        rw [h32] at he
        have hbp : b = p := by omega
        rw [hbp] at hbspan
        exact hdisj p ⟨hbspan, hpspan⟩
    · rw [hbase]
      exact map_addr_size_set st.base i r f2 hidx

/-- The run invariant and the region geometry hold along any run. -/
theorem C2Reach_inv (s1 s2 : MMState × List Nat)
    (hreach : C2Reach s1 s2) (hinv : C2Inv s1.1 s1.2) :
    C2Inv s2.1 s2.2 ∧ s2.1.base.map (fun r2 => (r2.addr, r2.size))
      = s1.1.base.map (fun r2 => (r2.addr, r2.size)) := by
  induction hreach with
  | refl => exact ⟨hinv, rfl⟩
  | step sa sb hr hstep ih =>
    have h3 := C2Step_inv sa.1 sb.1 sa.2 sb.2 hstep ih.1
    exact ⟨h3.1, h3.2.trans ih.2⟩

/-- A region of the invariant with no allocated block is one free
self-looped block covering the whole usable span. -/
theorem all_free_single_block (m : Mem) (r : Region) (B : List Nat)
    (hreg : RegionB m r B) (h0 : 0 < totalCells r)
    (hall : ∀ b ∈ B, (m b).magic ≠ GRUB_MM_ALLOC_MAGIC) :
    B = [startCell r] ∧ (m (startCell r)).magic = GRUB_MM_FREE_MAGIC ∧
    (m (startCell r)).size = totalCells r ∧ r.first = startCell r ∧
    (m (startCell r)).next = startCell r ∧ (m (startCell r)).prev = startCell r := by
  obtain ⟨haddr, hsize, htiles, hmagics, hadj, hring⟩ := hreg
  cases B with
  | nil =>
    exfalso
    have : totalCells r = 0 := htiles
    omega
  | cons b0 rest =>
    have hfree : ∀ b ∈ b0 :: rest, (m b).magic = GRUB_MM_FREE_MAGIC := by
      intro b hb
      rcases hmagics b hb with h | h
      · exact h
      · exact absurd h (hall b hb)
    obtain ⟨hb0, hs1, hs2, hrec⟩ := htiles
    cases rest with
    | cons b1 rest2 =>
      exfalso
      have hpair := (List.chain'_cons.mp hadj).1
      exact hpair ⟨hfree b0 (List.mem_cons_self _ _),
        hfree b1 (List.mem_cons_of_mem b0 (List.mem_cons_self _ _))⟩
    | nil =>
      have hsz : (m b0).size = totalCells r := by
        have : totalCells r - (m b0).size = 0 := hrec
        omega
      have hb0free : (m b0).magic = GRUB_MM_FREE_MAGIC :=
        hfree b0 (List.mem_cons_self _ _)
      have hfl : freeList m [b0] = [b0] := freeList_cons_free m b0 [] hb0free
      rcases hring with ⟨h1, _, _⟩ | h2
      · exfalso
        rw [hfl] at h1
        exact absurd h1 (by simp)
      · rw [hfl] at h2
        obtain ⟨hf1, hchain⟩ := h2
        have hlk : linkRel m b0 b0 := (List.chain'_cons.mp hchain).1
        subst hb0
        exact ⟨rfl, hb0free, hsz, hf1, hlk.1, hlk.2⟩

/-- C2: for any sequence of allocation calls each paired with a later free
of the returned pointer — a run of `C2Step`s from an all-free well-formed
state in which every outstanding pointer has been freed by the end — each
region is back to a single free block: its ring is one FREE self-looped
header whose size is the region\'s original usable span in cells. -/
theorem C2_paired_allocate_free_round_trip
    (st0 : MMState) (hinv0 : C2Inv st0 [])
    (st2 : MMState) (O2 : List Nat)
    (hreach : C2Reach (st0, []) (st2, O2))
    (hdone : O2 = [])
    (i : Nat) (r0 r2 : Region)
    (hget0 : st0.base.get? i = some r0)
    (hget2 : st2.base.get? i = some r2)
    (h0 : 0 < totalCells r0) :
    r2.addr = r0.addr ∧ r2.size = r0.size ∧
    ∃ B, RegionB st2.mem r2 B ∧ B = [startCell r0] ∧
      (st2.mem (startCell r0)).magic = GRUB_MM_FREE_MAGIC ∧
      (st2.mem (startCell r0)).size = totalCells r0 ∧
      r2.first = startCell r0 ∧
      (st2.mem (startCell r0)).next = startCell r0 ∧
      (st2.mem (startCell r0)).prev = startCell r0 := by
  obtain ⟨hinv2, hmap⟩ := C2Reach_inv (st0, []) (st2, O2) hreach hinv0
  obtain ⟨hwf2, _, _, hcomp2⟩ := hinv2
  have hmg : (st2.base.map (fun r3 => (r3.addr, r3.size))).get? i
      = (st0.base.map (fun r3 => (r3.addr, r3.size))).get? i := by
    rw [hmap]
  rw [List.get?_map, List.get?_map, hget0, hget2] at hmg
  have hpair : (r2.addr, r2.size) = (r0.addr, r0.size) := by
    simpa using hmg
  obtain ⟨hA, hS⟩ := Prod.mk.injEq _ _ _ _ |>.mp hpair
  have hstart : startCell r2 = startCell r0 := by
    unfold startCell
    rw [hA]
  have htot : totalCells r2 = totalCells r0 := by
    unfold totalCells
    rw [hS]
  obtain ⟨B, hB⟩ := (hwf2.1 r2 (List.get?_mem hget2)).2
  have hall : ∀ b ∈ B, (st2.mem b).magic ≠ GRUB_MM_ALLOC_MAGIC := by
    intro b hb hmag
    have := hcomp2 i r2 B b hget2 hB hb hmag
    rw [hdone] at this
    exact absurd this (List.not_mem_nil _)
  have h02 : 0 < totalCells r2 := by omega
  obtain ⟨hBe, hm1, hm2, hm3, hm4, hm5⟩ := all_free_single_block st2.mem r2 B hB
    h02 hall
  rw [hstart] at hBe hm1 hm2 hm3 hm4 hm5
  rw [htot] at hm2
  exact ⟨hA, hS, B, hB, hBe, hm1, hm2, hm3, hm4, hm5⟩

/-- The region record installed by `stOne`. -/
def rOne : Region := { first := 130, addr := 4160, size := 960, policies := polFirstOnly }

theorem stOne_base : stOne.base = [rOne] := by decide

theorem stOne_mem_130 : stOne.mem 130 = ⟨130, 130, 30, GRUB_MM_FREE_MAGIC⟩ := by
  decide

theorem stOne_regionB : RegionB stOne.mem rOne [ 130] := by
  refine ⟨by decide, by decide, ?_, ?_, ?_, ?_⟩
  · show (130 : Nat) = startCell rOne ∧ 1 ≤ (stOne.mem 130).size ∧
      (stOne.mem 130).size ≤ totalCells rOne ∧
      TilesFrom stOne.mem (startCell rOne + (stOne.mem 130).size)
        (totalCells rOne - (stOne.mem 130).size) []
    rw [stOne_mem_130]
    refine ⟨by decide, by decide, by decide, ?_⟩
    show totalCells rOne - (30 : Nat) = 0
    decide
  · intro b hb
    have hb1 : b = 130 := by simpa using hb
    rw [hb1, stOne_mem_130]
    left
    rfl
  · simp
  · right
    have hfl : freeList stOne.mem [ 130] = [ 130] := by
      refine freeList_cons_free stOne.mem 130 [] ?_
      rw [stOne_mem_130]
    rw [hfl]
    refine ⟨by decide, ?_⟩
    refine List.chain'_cons.mpr ⟨?_, List.chain'_singleton 130⟩
    constructor
    · rw [stOne_mem_130]
    · rw [stOne_mem_130]

theorem stOne_inv : C2Inv stOne [] := by
  refine ⟨⟨?_, ?_⟩, by simp, ?_, ?_⟩
  · intro r hr
    rw [stOne_base] at hr
    have hr1 : r = rOne := by simpa using hr
    rw [hr1]
    exact ⟨by decide, [ 130], stOne_regionB⟩
  · rw [stOne_base]
    simp
  · intro ptr hptr
    exact absurd hptr (List.not_mem_nil ptr)
  · intro i r B b hget hreg hb hmag
    rw [stOne_base] at hget
    cases i with
    | zero =>
      have hr : r = rOne := by
        have h2 : rOne = r := by simpa using hget
        exact h2.symm
      subst hr
      have hBe : B = [ 130] := tiles_unique stOne.mem hreg.2.2.1 stOne_regionB.2.2.1
      rw [hBe] at hb
      have hb1 : b = 130 := by simpa using hb
      rw [hb1, stOne_mem_130] at hmag
      exact absurd hmag (by decide)
    | succ j =>
      exact absurd hget (by simp)

/-- Witness: the trivial run on the freshly donated 1 KiB region already
satisfies the round-trip conclusion. -/
theorem C2_paired_allocate_free_round_trip_witness :
    rOne.addr = rOne.addr ∧ rOne.size = rOne.size ∧
    ∃ B, RegionB stOne.mem rOne B ∧ B = [startCell rOne] ∧
      (stOne.mem (startCell rOne)).magic = GRUB_MM_FREE_MAGIC ∧
      (stOne.mem (startCell rOne)).size = totalCells rOne ∧
      rOne.first = startCell rOne ∧
      (stOne.mem (startCell rOne)).next = startCell rOne ∧
      (stOne.mem (startCell rOne)).prev = startCell rOne :=
  C2_paired_allocate_free_round_trip stOne stOne_inv stOne [] (C2Reach.refl _)
    rfl 0 rOne rOne (by rw [stOne_base]; rfl) (by rw [stOne_base]; rfl) (by decide)

theorem spanDisj_symm {r1 r2 : Region} (h : spanDisj r1 r2) : spanDisj r2 r1 :=
  fun c hc => h c ⟨hc.2, hc.1⟩

theorem pairwise_spanDisj_insert (r : Region) :
    ∀ rs : List Region, (∀ r2 ∈ rs, spanDisj r r2) →
      rs.Pairwise spanDisj → (insertRegion r rs).Pairwise spanDisj
  | [], _, _ => by
    show List.Pairwise spanDisj [ r]
    simp
  | q :: qs, hall, h => by
    rcases List.pairwise_cons.mp h with ⟨hq, hqs⟩
    unfold insertRegion
    by_cases hgt : q.size > r.size
    · rw [if_pos hgt]
      refine List.pairwise_cons.mpr ⟨?_, h⟩
      intro b hb
      exact hall b hb
    · rw [if_neg hgt]
      refine List.pairwise_cons.mpr ⟨?_, pairwise_spanDisj_insert r qs
        (fun r2 hr2 => hall r2 (List.mem_cons_of_mem q hr2)) hqs⟩
      intro b hb
      rcases mem_insertRegion hb with h1 | h2
      · rw [h1]
        exact spanDisj_symm (hall q (List.mem_cons_self q qs))
      · exact hq b h2

/-- Donating a fresh, span-disjoint chunk keeps the whole-allocator
invariant: the new region is installed as a single free self-looped block
and no other region\'s memory is touched. -/
theorem init_region_wf (st : MMState) (addr size : Nat) (pol : Policies)
    (hwf : StateWF st) (hsz : size < WORD) (had : addr + 31 < WORD)
    (hsep : ∀ r2 ∈ st.base, ∀ c, inSpan r2 c →
        ¬(addr ≤ GRUB_MM_ALIGN * c ∧ GRUB_MM_ALIGN * c < addr + size)) :
    StateWF (grub_mm_init_region st addr size pol) := by
  have hC9 := C9_region_installation st addr size pol hsz had
  by_cases hlt : size < GRUB_MM_ALIGN * 4
  · rw [hC9.1 hlt]
    exact hwf
  · have hge : GRUB_MM_ALIGN * 4 ≤ size := by omega
    obtain ⟨hbase, hlen, hmemhc, hframe, _⟩ :=
      hC9.2 hge ((addr + 31) / 32 + 2) ((size - ((addr + 31) / 32 * 32 - addr) - 64) / 32)
        rfl rfl
    have h324 : GRUB_MM_ALIGN * 4 = 128 := by norm_num [GRUB_MM_ALIGN]
    obtain ⟨q, hq1, hq2⟩ : ∃ q, 32 * q ≤ addr + 31 ∧ addr + 31 < 32 * q + 32 :=
      ⟨(addr + 31) / 32, by omega, by omega⟩
    have hqe : (addr + 31) / 32 = q := by omega
    rw [hqe] at hbase hmemhc hframe
    obtain ⟨u, hu1, hu2⟩ : ∃ u, 32 * u ≤ size - (32 * q - addr) - 64 ∧
        size - (32 * q - addr) - 64 < 32 * u + 32 := by
      refine ⟨(size - (32 * q - addr) - 64) / 32, ?_, ?_⟩
      · omega
      · omega
    have hue : (size - (q * 32 - addr) - 64) / 32 = u := by
      have e : q * 32 = 32 * q := by omega
      rw [e]
      omega
    rw [hue] at hbase hmemhc
    set hc := q + 2 with hhc
    set rN : Region := { first := hc, addr := 32 * hc, size := 32 * u, policies := pol } with hrN
    have hu0 : 1 ≤ u := by omega
    have hstart : startCell rN = hc := by
      show 32 * hc / GRUB_MM_ALIGN = hc
      have h32 : GRUB_MM_ALIGN = 32 := rfl
      rw [h32]
      omega
    have htot : totalCells rN = u := by
      show 32 * u / GRUB_MM_ALIGN = u
      have h32 : GRUB_MM_ALIGN = 32 := rfl
      rw [h32]
      omega
    have hspanN : ∀ c, inSpan rN c → addr ≤ GRUB_MM_ALIGN * c ∧
        GRUB_MM_ALIGN * c < addr + size := by
      intro c hc2
      obtain ⟨h1, h2⟩ := hc2
      rw [hstart] at h1
      have h3 : c < startCell rN + totalCells rN := h2
      rw [hstart, htot] at h3
      have h32 : GRUB_MM_ALIGN = 32 := rfl
      rw [h32]
      omega
    have hRB : RegionB (grub_mm_init_region st addr size pol).mem rN [ hc] := by
      refine ⟨?_, ?_, ?_, ?_, ?_, ?_⟩
      · show 32 * hc = GRUB_MM_ALIGN * startCell rN
        rw [hstart]
        rfl
      · show 32 * u = GRUB_MM_ALIGN * totalCells rN
        rw [htot]
        rfl
      · refine ⟨hstart.symm, ?_, ?_, ?_⟩
        · rw [hmemhc]
          exact hu0
        · rw [hmemhc, htot]
        · rw [hmemhc, htot]
          show u - u = 0
          omega
      · intro b hb
        have hb1 : b = hc := by simpa using hb
        rw [hb1, hmemhc]
        left
        rfl
      · simp
      · right
        have hfl : freeList (grub_mm_init_region st addr size pol).mem [ hc]
            = [ hc] := by
          refine freeList_cons_free _ hc [] ?_
          rw [hmemhc]
        rw [hfl]
        refine ⟨rfl, ?_⟩
        refine List.chain'_cons.mpr ⟨?_, List.chain'_singleton hc⟩
        constructor
        · rw [hmemhc]
        · rw [hmemhc]
    have hdisjN : ∀ r2 ∈ st.base, spanDisj rN r2 := by
      intro r2 hr2 c hcon
      exact hsep r2 hr2 c hcon.2 (hspanN c hcon.1)
    have hframe2 : ∀ r2 ∈ st.base, ∀ c, inSpan r2 c →
        (grub_mm_init_region st addr size pol).mem c = st.mem c := by
      intro r2 hr2 c hc2
      refine hframe c ?_
      intro he
      refine hdisjN r2 hr2 c ⟨?_, hc2⟩
      rw [he]
      refine ⟨?_, ?_⟩
      · rw [hstart]
      · show hc < startCell rN + totalCells rN
        rw [hstart, htot]
        omega
    constructor
    · intro r2 hr2
      rw [hbase] at hr2
      rcases mem_insertRegion hr2 with h1 | h1
      · rw [h1]
        refine ⟨?_, [ hc], hRB⟩
        rw [hstart]
        omega
      · obtain ⟨hpos, hRI⟩ := hwf.1 r2 h1
        obtain ⟨B, hB⟩ := hRI
        exact ⟨hpos, B, regionB_congr (fun c hc2 => hframe2 r2 h1 c hc2) hB⟩
    · rw [hbase]
      exact pairwise_spanDisj_insert rN st.base hdisjN hwf.2

/-- The in-place extension of `grub_rememalign_policy`, split out of it:
split the following free block, unlink its head, absorb it into `p`. -/
def growMem (m : Mem) (p p2 n : Nat) : Mem :=
  let m1 := split_chunk m p2 (n - (m p).size)
  let m2 := setPrev m1 ((m1 p2).next) ((m1 p2).prev)
  let m3 := setNext m2 ((m2 p2).prev) ((m2 p2).next)
  setSize m3 p n

/-- The `first` fixups of the in-place extension. -/
def growFirst (m : Mem) (r : Region) (p p2 n : Nat) : Nat :=
  let m1 := split_chunk m p2 (n - (m p).size)
  let m2 := setPrev m1 ((m1 p2).next) ((m1 p2).prev)
  let m3 := setNext m2 ((m2 p2).prev) ((m2 p2).next)
  let first1 := if r.first = p2 then (m3 p2).next else r.first
  if first1 = p2 then p else first1

/-- What a successful in-place extension guarantees: the invariant for the
updated region, the grown block still allocated, all other allocated
blocks untouched, and no write outside the region's span. -/
def GrowOut (m : Mem) (r : Region) (B : List Nat) (p : Nat) (m2 : Mem)
    (f2 : Nat) : Prop :=
  ∃ B2, RegionB m2 { r with first := f2 } B2 ∧
    p ∈ B2 ∧ (m2 p).magic = GRUB_MM_ALLOC_MAGIC ∧
    (∀ b ∈ B, (m b).magic = GRUB_MM_ALLOC_MAGIC → b ≠ p → b ∈ B2 ∧ m2 b = m b) ∧
    (∀ b ∈ B2, (m2 b).magic = GRUB_MM_ALLOC_MAGIC →
      b = p ∨ (b ∈ B ∧ (m b).magic = GRUB_MM_ALLOC_MAGIC ∧ b ≠ p ∧ m2 b = m b)) ∧
    (∀ c, ¬inSpan r c → m2 c = m c)

/-- Rebuilding the region invariant after an in-place extension that
absorbs the whole following free block: the absorbed block leaves the
tiling and the free ring, and the ring is repaired around it. -/
theorem grow_rebuild_nosplit (m m2 : Mem) (r : Region) (Bl Br' : List Nat)
    (p p2 n : Nat)
    (hreg : RegionB m r (Bl ++ p :: p2 :: Br'))
    (hpA : (m p).magic = GRUB_MM_ALLOC_MAGIC)
    (hp2F : (m p2).magic = GRUB_MM_FREE_MAGIC)
    (hn : n = (m p).size + (m p2).size)
    (G1 : ∀ c, (m2 c).size = if c = p then n else (m c).size)
    (G2 : ∀ c, (m2 c).magic = (m c).magic)
    (G3 : ∀ c, (m2 c).next = if c = (m p2).prev then (m p2).next else (m c).next)
    (G4 : ∀ c, (m2 c).prev = if c = (m p2).next then (m p2).prev else (m c).prev)
    (f2 : Nat)
    (hf2 : f2 = (freeList m Bl ++ freeList m Br').headD p) :
    GrowOut m r (Bl ++ p :: p2 :: Br') p m2 f2 := by
  obtain ⟨haddr, hsize, htiles, hmagics, hadj, hring⟩ := hreg
  have hp2eq : p2 = p + (m p).size := tiles_adjacent m Bl p p2 Br' htiles
  have hsortP : (Bl ++ p :: p2 :: Br').Pairwise (fun a b => a < b) :=
    List.chain'_iff_pairwise.mp (tiles_sorted m htiles)
  have hndB : (Bl ++ p :: p2 :: Br').Nodup := nodup_of_pairwise_lt hsortP
  have hltBl : ∀ b ∈ Bl, b < p := by
    intro b hb
    exact (List.pairwise_append.mp hsortP).2.2 b hb p (List.mem_cons_self p _)
  have hsortR : (p :: p2 :: Br').Pairwise (fun a b => a < b) :=
    (List.pairwise_append.mp hsortP).2.1
  have hgtBr : ∀ b ∈ Br', p2 < b := by
    intro b hb
    exact (List.pairwise_cons.mp (List.pairwise_cons.mp hsortR).2).1 b hb
  have hpp2lt : p < p2 :=
    (List.pairwise_cons.mp hsortR).1 p2 (List.mem_cons_self p2 _)
  have hBspan : ∀ b ∈ Bl ++ p :: p2 :: Br', inSpan r b := fun b hb => by
    have := tiles_bounds m htiles b hb
    exact ⟨this.1, this.2⟩
  have hpB : p ∈ Bl ++ p :: p2 :: Br' :=
    List.mem_append.mpr (.inr (List.mem_cons_self p _))
  have hpNF : (m p).magic ≠ GRUB_MM_FREE_MAGIC := by
    rw [hpA]
    decide
  have hFL : freeList m (Bl ++ p :: p2 :: Br')
      = freeList m Bl ++ p2 :: freeList m Br' := by
    rw [freeList_append, freeList_cons_nonfree m p _ hpNF,
      freeList_cons_free m p2 _ hp2F]
  have hp2mem : p2 ∈ freeList m (Bl ++ p :: p2 :: Br') := by
    rw [hFL]
    exact List.mem_append.mpr (.inr (List.mem_cons_self _ _))
  have hringS : RingShape m r.first (freeList m (Bl ++ p :: p2 :: Br')) := by
    rcases hring with ⟨h1, _, _⟩ | h2
    · rw [h1] at hp2mem
      simp at hp2mem
    · exact h2
  have hnpFL : (m p2).next ∈ freeList m (Bl ++ p :: p2 :: Br') :=
    ring_next_mem hringS hp2mem
  have hspFL : (m p2).prev ∈ freeList m (Bl ++ p :: p2 :: Br') :=
    ring_prev_mem hringS hp2mem
  have hnpF : (m ((m p2).next)).magic = GRUB_MM_FREE_MAGIC :=
    freeList_magic _ hnpFL
  have hspF : (m ((m p2).prev)).magic = GRUB_MM_FREE_MAGIC :=
    freeList_magic _ hspFL
  have F7 : ∀ c, c ≠ p → c ≠ (m p2).prev → c ≠ (m p2).next → m2 c = m c := by
    intro c h1 h2 h3
    refine Header.extEq ?_ ?_ ?_ ?_
    · rw [G4, if_neg h3]
    · rw [G3, if_neg h2]
    · rw [G1, if_neg h1]
    · exact G2 c
  have hpresA : ∀ b, (m b).magic = GRUB_MM_ALLOC_MAGIC → b ≠ p → m2 b = m b := by
    intro b hb h1
    refine F7 b h1 ?_ ?_
    · intro he
      rw [he, hspF] at hb
      exact magic_free_ne_alloc hb
    · intro he
      rw [he, hnpF] at hb
      exact magic_free_ne_alloc hb
  have hsub : ∀ b ∈ Bl ++ p :: Br', b ∈ Bl ++ p :: p2 :: Br' := by
    intro b hb
    rcases List.mem_append.mp hb with h1 | h1
    · exact List.mem_append.mpr (.inl h1)
    · rcases List.mem_cons.mp h1 with h2 | h2
      · exact List.mem_append.mpr (.inr (h2 ▸ List.mem_cons_self p _))
      · exact List.mem_append.mpr
          (.inr (List.mem_cons_of_mem p (List.mem_cons_of_mem p2 h2)))
  obtain ⟨t1, ht1le, htBl, htRest⟩ := tiles_decomp m Bl htiles
  obtain ⟨hpstart, hsz1, hszle, htRest2⟩ := htRest
  obtain ⟨hp2start, hsz2, hszle2, htBr⟩ := htRest2
  have htBl2 : TilesFrom m2 (startCell r) t1 Bl := by
    refine tiles_congr ?_ htBl
    intro b hb
    rw [G1, if_neg (by have := hltBl b hb; omega)]
  have htBr3 : TilesFrom m2 (startCell r + t1 + (m p).size + (m p2).size)
      (totalCells r - t1 - (m p).size - (m p2).size) Br' := by
    refine tiles_congr ?_ htBr
    intro b hb
    rw [G1, if_neg (by have := hgtBr b hb; omega)]
  have hszp2 : (m2 p).size = n := by
    rw [G1, if_pos rfl]
  have htMid : TilesFrom m2 (startCell r + t1) (totalCells r - t1) (p :: Br') := by
    refine ⟨hpstart, by omega, by omega, ?_⟩
    rw [hszp2]
    have e1 : startCell r + t1 + n
        = startCell r + t1 + (m p).size + (m p2).size := by omega
    have e2 : totalCells r - t1 - n
        = totalCells r - t1 - (m p).size - (m p2).size := by omega
    rw [e1, e2]
    exact htBr3
  have htiles2 : TilesFrom m2 (startCell r) (totalCells r) (Bl ++ p :: Br') := by
    have h1 := tiles_recomb m2 Bl htBl2 htMid
    have e : t1 + (totalCells r - t1) = totalCells r := by omega
    rw [e] at h1
    exact h1
  have hflBl2 : freeList m2 Bl = freeList m Bl := freeList_congr (fun b _ => G2 b)
  have hflBr2 : freeList m2 Br' = freeList m Br' := freeList_congr (fun b _ => G2 b)
  have hpNF2 : (m2 p).magic ≠ GRUB_MM_FREE_MAGIC := by
    rw [G2]
    exact hpNF
  have hFL2 : freeList m2 (Bl ++ p :: Br') = freeList m Bl ++ freeList m Br' := by
    rw [freeList_append, freeList_cons_nonfree _ p _ hpNF2, hflBl2, hflBr2]
  refine ⟨Bl ++ p :: Br', ⟨haddr, hsize, htiles2, ?_, ?_, ?_⟩, ?_, ?_, ?_, ?_, ?_⟩
  · intro b hb
    rw [G2]
    exact hmagics b (hsub b hb)
  · obtain ⟨hcBl, hcP, hjoin⟩ := List.chain'_append.mp hadj
    obtain ⟨hpHead, hcP2⟩ := List.chain'_cons'.mp hcP
    obtain ⟨hp2Head, hcBr⟩ := List.chain'_cons'.mp hcP2
    rw [List.chain'_append]
    refine ⟨?_, ?_, ?_⟩
    · refine chain'_imp_mem ?_ hcBl
      intro a _ b _ hr
      rw [G2, G2]
      exact hr
    · refine List.chain'_cons'.mpr ⟨?_, ?_⟩
      · intro y _ hcon
        rw [G2, hpA] at hcon
        exact absurd hcon.1 (by decide)
      · refine chain'_imp_mem ?_ hcBr
        intro a _ b _ hr
        rw [G2, G2]
        exact hr
    · intro x _ y hy hcon
      have hy2 : p = y := by simpa using hy
      have h9 := hcon.2
      rw [← hy2, G2, hpA] at h9
      exact absurd h9 (by decide)
  · by_cases hnil : freeList m Bl ++ freeList m Br' = []
    · left
      have hf2p : f2 = p := by
        rw [hf2, hnil]
        rfl
      refine ⟨by rw [hFL2, hnil], ?_, ?_⟩
      · rw [hf2p, G2]
        exact hpA
      · rw [hf2p]
        exact List.mem_append.mpr (.inr (List.mem_cons_self p _))
    · right
      obtain ⟨hFne, hfirstF, hcycF⟩ :=
        (ringShape_iff m r.first (freeList m (Bl ++ p :: p2 :: Br'))).mp hringS
      rw [hFL] at hcycF
      have hcycRot : cycChain m (p2 :: (freeList m Br' ++ freeList m Bl)) :=
        (cycChain_rotate m (freeList m Bl) (freeList m Br') p2).mp hcycF
      have hS : freeList m Br' ++ freeList m Bl ≠ [] := by
        intro he
        rcases List.append_eq_nil.mp he with ⟨h1, h2⟩
        exact hnil (by simp [h1, h2])
      obtain ⟨hchS, hlk1, hlk2⟩ :=
        (cycChain_cons_parts m p2 (freeList m Br' ++ freeList m Bl) hS).mp hcycRot
      have hndp2S : (p2 :: (freeList m Br' ++ freeList m Bl)).Nodup := by
        have h1 := nodup_M (m := m) hndB
        rwa [freeList_cons_free m p2 _ hp2F] at h1
      have hndS : (freeList m Br' ++ freeList m Bl).Nodup :=
        (List.nodup_cons.mp hndp2S).2
      have hnpeq : (m p2).next
          = (freeList m Br' ++ freeList m Bl).headD 0 := hlk1.1
      have hspeq : (m p2).prev
          = (freeList m Br' ++ freeList m Bl).getLast hS := hlk2.2
      have hchS2 : List.Chain' (linkRel m2) (freeList m Br' ++ freeList m Bl) := by
        refine chain'_imp_mem2 ?_ hchS
        intro a ha b hb hab
        have ha2 : a ≠ (m p2).prev := by
          rw [hspeq]
          intro he
          exact getLast_not_mem_dropLast hndS hS (he ▸ ha)
        have hb2 : b ≠ (m p2).next := by
          rw [hnpeq]
          intro he
          exact head_not_mem_tail hndS hS (he ▸ hb)
        exact ⟨by rw [G3, if_neg ha2]; exact hab.1,
          by rw [G4, if_neg hb2]; exact hab.2⟩
      have hwrap : linkRel m2
          ((freeList m Br' ++ freeList m Bl).getLast hS)
          ((freeList m Br' ++ freeList m Bl).headD 0) := by
        constructor
        · rw [G3, if_pos hspeq.symm]
          exact hnpeq
        · rw [G4, if_pos hnpeq.symm]
          exact hspeq
      have hcycS2 : cycChain m2 (freeList m Br' ++ freeList m Bl) :=
        cycChain_of_chain m2 _ hS hchS2 hwrap
      have hcycNew : cycChain m2 (freeList m Bl ++ freeList m Br') :=
        (cycChain_comm m2 (freeList m Br') (freeList m Bl)).mp hcycS2
      rw [hFL2]
      refine (ringShape_iff m2 f2 _).mpr ⟨hnil, ?_, hcycNew⟩
      obtain ⟨a, t, he⟩ := List.exists_cons_of_ne_nil hnil
      rw [hf2, he]
      rfl
  · exact List.mem_append.mpr (.inr (List.mem_cons_self p _))
  · rw [G2]
    exact hpA
  · intro b hb hbA hbp
    have hbne2 : b ≠ p2 := by
      intro he
      rw [he, hp2F] at hbA
      exact magic_free_ne_alloc hbA
    refine ⟨?_, hpresA b hbA hbp⟩
    rcases List.mem_append.mp hb with h1 | h1
    · exact List.mem_append.mpr (.inl h1)
    · rcases List.mem_cons.mp h1 with h2 | h2
      · exact absurd h2 hbp
      · rcases List.mem_cons.mp h2 with h3 | h3
        · exact absurd h3 hbne2
        · exact List.mem_append.mpr (.inr (List.mem_cons_of_mem p h3))
  · intro b hb hbA
    by_cases h1 : b = p
    · exact .inl h1
    · right
      have hbA2 : (m b).magic = GRUB_MM_ALLOC_MAGIC := by
        rw [G2] at hbA
        exact hbA
      exact ⟨hsub b hb, hbA2, h1, hpresA b hbA2 h1⟩
  · intro c hc
    refine F7 c ?_ ?_ ?_
    · intro he
      exact hc (he ▸ hBspan p hpB)
    · intro he
      exact hc (he ▸ hBspan _ (freeList_subset _ hspFL))
    · intro he
      exact hc (he ▸ hBspan _ (freeList_subset _ hnpFL))

/-- Rebuilding the region invariant after an in-place extension that
splits the following free block: the remainder block takes the absorbed
block's place in the tiling and in the free ring. -/
theorem grow_rebuild_split (m m2 : Mem) (r : Region) (Bl Br' : List Nat)
    (p p2 n w q2 : Nat)
    (hreg : RegionB m r (Bl ++ p :: p2 :: Br'))
    (hpA : (m p).magic = GRUB_MM_ALLOC_MAGIC)
    (hp2F : (m p2).magic = GRUB_MM_FREE_MAGIC)
    (hwdef : w = n - (m p).size)
    (hq2 : q2 = p2 + w)
    (hlt : (m p).size < n)
    (hw2 : w < (m p2).size)
    (G1 : ∀ c, (m2 c).size = if c = p then n else if c = p2 then w
      else if c = q2 then (m p2).size - w else (m c).size)
    (G2 : ∀ c, (m2 c).magic = if c = q2 then GRUB_MM_FREE_MAGIC else (m c).magic)
    (G3 : ∀ c, (m2 c).next = if c = p2 then q2
      else if c = q2 then (if (m p2).next = p2 then q2 else (m p2).next)
      else if c = (m p2).prev then q2 else (m c).next)
    (G4 : ∀ c, (m2 c).prev
      = if c = q2 then (if (m p2).next = p2 then q2 else (m p2).prev)
      else if c = (m p2).next then q2 else (m c).prev)
    (f2 : Nat)
    (hf2 : f2 = (freeList m Bl ++ q2 :: freeList m Br').headD 0) :
    GrowOut m r (Bl ++ p :: p2 :: Br') p m2 f2 := by
  obtain ⟨haddr, hsize, htiles, hmagics, hadj, hring⟩ := hreg
  have hp2eq : p2 = p + (m p).size := tiles_adjacent m Bl p p2 Br' htiles
  have hw1 : 1 ≤ w := by omega
  have hsortP : (Bl ++ p :: p2 :: Br').Pairwise (fun a b => a < b) :=
    List.chain'_iff_pairwise.mp (tiles_sorted m htiles)
  have hndB : (Bl ++ p :: p2 :: Br').Nodup := nodup_of_pairwise_lt hsortP
  have hltBl : ∀ b ∈ Bl, b < p := by
    intro b hb
    exact (List.pairwise_append.mp hsortP).2.2 b hb p (List.mem_cons_self p _)
  have hsortR : (p :: p2 :: Br').Pairwise (fun a b => a < b) :=
    (List.pairwise_append.mp hsortP).2.1
  have hpp2lt : p < p2 :=
    (List.pairwise_cons.mp hsortR).1 p2 (List.mem_cons_self p2 _)
  have heB : Bl ++ p :: p2 :: Br' = (Bl ++ [p]) ++ p2 :: Br' := by simp
  have htiles' : TilesFrom m (startCell r) (totalCells r) ((Bl ++ [p]) ++ p2 :: Br') := by
    rw [← heB]
    exact htiles
  have hgeBr : ∀ b ∈ Br', p2 + (m p2).size ≤ b := tiles_no_overlap m htiles'
  have hq2notB : q2 ∉ Bl ++ p :: p2 :: Br' := by
    rw [heB]
    exact tiles_interior_not_mem m htiles' (by omega) (by omega)
  have hBspan : ∀ b ∈ Bl ++ p :: p2 :: Br', inSpan r b := fun b hb => by
    have := tiles_bounds m htiles b hb
    exact ⟨this.1, this.2⟩
  have hpB : p ∈ Bl ++ p :: p2 :: Br' :=
    List.mem_append.mpr (.inr (List.mem_cons_self p _))
  have hp2B : p2 ∈ Bl ++ p :: p2 :: Br' :=
    List.mem_append.mpr (.inr (List.mem_cons_of_mem p (List.mem_cons_self p2 _)))
  have hpNF : (m p).magic ≠ GRUB_MM_FREE_MAGIC := by
    rw [hpA]
    decide
  have hFL : freeList m (Bl ++ p :: p2 :: Br')
      = freeList m Bl ++ p2 :: freeList m Br' := by
    rw [freeList_append, freeList_cons_nonfree m p _ hpNF,
      freeList_cons_free m p2 _ hp2F]
  have hp2mem : p2 ∈ freeList m (Bl ++ p :: p2 :: Br') := by
    rw [hFL]
    exact List.mem_append.mpr (.inr (List.mem_cons_self _ _))
  have hringS : RingShape m r.first (freeList m (Bl ++ p :: p2 :: Br')) := by
    rcases hring with ⟨h1, _, _⟩ | h2
    · rw [h1] at hp2mem
      simp at hp2mem
    · exact h2
  have hnpFL : (m p2).next ∈ freeList m (Bl ++ p :: p2 :: Br') :=
    ring_next_mem hringS hp2mem
  have hspFL : (m p2).prev ∈ freeList m (Bl ++ p :: p2 :: Br') :=
    ring_prev_mem hringS hp2mem
  have hnpF : (m ((m p2).next)).magic = GRUB_MM_FREE_MAGIC :=
    freeList_magic _ hnpFL
  have hspF : (m ((m p2).prev)).magic = GRUB_MM_FREE_MAGIC :=
    freeList_magic _ hspFL
  have hnpq2 : (m p2).next ≠ q2 := fun he =>
    hq2notB (he ▸ freeList_subset _ hnpFL)
  have hspq2 : (m p2).prev ≠ q2 := fun he =>
    hq2notB (he ▸ freeList_subset _ hspFL)
  have hpq2 : p ≠ q2 := fun he => hq2notB (he ▸ hpB)
  have hp2q2 : p2 ≠ q2 := by omega
  have F7 : ∀ c, c ≠ p → c ≠ p2 → c ≠ q2 → c ≠ (m p2).prev →
      c ≠ (m p2).next → m2 c = m c := by
    intro c h1 h2 h3 h4 h5
    refine Header.extEq ?_ ?_ ?_ ?_
    · rw [G4, if_neg h3, if_neg h5]
    · rw [G3, if_neg h2, if_neg h3, if_neg h4]
    · rw [G1, if_neg h1, if_neg h2, if_neg h3]
    · rw [G2, if_neg h3]
  have hpresA : ∀ b ∈ Bl ++ p :: p2 :: Br',
      (m b).magic = GRUB_MM_ALLOC_MAGIC → b ≠ p → m2 b = m b := by
    intro b hb hbA h1
    refine F7 b h1 ?_ ?_ ?_ ?_
    · intro he
      rw [he, hp2F] at hbA
      exact magic_free_ne_alloc hbA
    · intro he
      exact hq2notB (he ▸ hb)
    · intro he
      rw [he, hspF] at hbA
      exact magic_free_ne_alloc hbA
    · intro he
      rw [he, hnpF] at hbA
      exact magic_free_ne_alloc hbA
  obtain ⟨t1, ht1le, htBl, htRest⟩ := tiles_decomp m Bl htiles
  obtain ⟨hpstart, hsz1, hszle, htRest2⟩ := htRest
  obtain ⟨hp2start, hsz2, hszle2, htBr⟩ := htRest2
  have htBl2 : TilesFrom m2 (startCell r) t1 Bl := by
    refine tiles_congr ?_ htBl
    intro b hb
    have hblt := hltBl b hb
    rw [G1, if_neg (by omega), if_neg (by omega), if_neg (by omega)]
  have htBr3 : TilesFrom m2 (startCell r + t1 + (m p).size + (m p2).size)
      (totalCells r - t1 - (m p).size - (m p2).size) Br' := by
    refine tiles_congr ?_ htBr
    intro b hb
    have hbge := hgeBr b hb
    rw [G1, if_neg (by omega), if_neg (by omega), if_neg (by omega)]
  have hszp2 : (m2 p).size = n := by
    rw [G1, if_pos rfl]
  have hszq2 : (m2 q2).size = (m p2).size - w := by
    rw [G1, if_neg (Ne.symm hpq2), if_neg (Ne.symm hp2q2), if_pos rfl]
  have htMid : TilesFrom m2 (startCell r + t1) (totalCells r - t1)
      (p :: q2 :: Br') := by
    refine ⟨hpstart, by omega, by omega, ?_⟩
    rw [hszp2]
    refine ⟨by omega, by omega, by omega, ?_⟩
    rw [hszq2]
    have e1 : startCell r + t1 + n + ((m p2).size - w)
        = startCell r + t1 + (m p).size + (m p2).size := by omega
    have e2 : totalCells r - t1 - n - ((m p2).size - w)
        = totalCells r - t1 - (m p).size - (m p2).size := by omega
    rw [e1, e2]
    exact htBr3
  have htiles2 : TilesFrom m2 (startCell r) (totalCells r)
      (Bl ++ p :: q2 :: Br') := by
    have h1 := tiles_recomb m2 Bl htBl2 htMid
    have e : t1 + (totalCells r - t1) = totalCells r := by omega
    rw [e] at h1
    exact h1
  have hmagBl : ∀ b ∈ Bl, (m2 b).magic = (m b).magic := by
    intro b hb
    have hblt := hltBl b hb
    rw [G2, if_neg (by omega)]
  have hmagBr : ∀ b ∈ Br', (m2 b).magic = (m b).magic := by
    intro b hb
    have hbge := hgeBr b hb
    rw [G2, if_neg (by omega)]
  have hmagp : (m2 p).magic = (m p).magic := by
    rw [G2, if_neg hpq2]
  have hmagq2 : (m2 q2).magic = GRUB_MM_FREE_MAGIC := by
    rw [G2, if_pos rfl]
  have hflBl2 : freeList m2 Bl = freeList m Bl := freeList_congr hmagBl
  have hflBr2 : freeList m2 Br' = freeList m Br' := freeList_congr hmagBr
  have hpNF2 : (m2 p).magic ≠ GRUB_MM_FREE_MAGIC := by
    rw [hmagp]
    exact hpNF
  have hFL2 : freeList m2 (Bl ++ p :: q2 :: Br')
      = freeList m Bl ++ q2 :: freeList m Br' := by
    rw [freeList_append, freeList_cons_nonfree _ p _ hpNF2,
      freeList_cons_free _ q2 _ hmagq2, hflBl2, hflBr2]
  refine ⟨Bl ++ p :: q2 :: Br', ⟨haddr, hsize, htiles2, ?_, ?_, ?_⟩,
    ?_, ?_, ?_, ?_, ?_⟩
  · intro b hb
    rcases List.mem_append.mp hb with h1 | h1
    · rw [hmagBl b h1]
      exact hmagics b (List.mem_append.mpr (.inl h1))
    · rcases List.mem_cons.mp h1 with h2 | h2
      · rw [h2, hmagp]
        exact hmagics p hpB
      · rcases List.mem_cons.mp h2 with h3 | h3
        · rw [h3, hmagq2]
          exact .inl rfl
        · rw [hmagBr b h3]
          exact hmagics b (List.mem_append.mpr
            (.inr (List.mem_cons_of_mem p (List.mem_cons_of_mem p2 h3))))
  · obtain ⟨hcBl, hcP, hjoin⟩ := List.chain'_append.mp hadj
    obtain ⟨hpHead, hcP2⟩ := List.chain'_cons'.mp hcP
    obtain ⟨hp2Head, hcBr⟩ := List.chain'_cons'.mp hcP2
    rw [List.chain'_append]
    refine ⟨?_, ?_, ?_⟩
    · refine chain'_imp_mem ?_ hcBl
      intro a ha b hb hr
      rw [hmagBl a ha, hmagBl b hb]
      exact hr
    · refine List.chain'_cons'.mpr ⟨?_, ?_⟩
      · intro y _ hcon
        rw [hmagp, hpA] at hcon
        exact absurd hcon.1 (by decide)
      · refine List.chain'_cons'.mpr ⟨?_, ?_⟩
        · intro y hy hcon
          have hyBr : y ∈ Br' := List.mem_of_mem_head? hy
          have hyF : ¬((m p2).magic = GRUB_MM_FREE_MAGIC ∧
              (m y).magic = GRUB_MM_FREE_MAGIC) := hp2Head y hy
          rw [hmagBr y hyBr] at hcon
          exact hyF ⟨hp2F, hcon.2⟩
        · refine chain'_imp_mem ?_ hcBr
          intro a ha b hb hr
          rw [hmagBr a ha, hmagBr b hb]
          exact hr
    · intro x hx y hy hcon
      have hy2 : p = y := by simpa using hy
      have h9 := hcon.2
      rw [← hy2, hmagp, hpA] at h9
      exact absurd h9 (by decide)
  · right
    obtain ⟨hFne, hfirstF, hcycF⟩ :=
      (ringShape_iff m r.first (freeList m (Bl ++ p :: p2 :: Br'))).mp hringS
    rw [hFL] at hcycF
    have hcycRot : cycChain m (p2 :: (freeList m Br' ++ freeList m Bl)) :=
      (cycChain_rotate m (freeList m Bl) (freeList m Br') p2).mp hcycF
    have hndp2S : (p2 :: (freeList m Br' ++ freeList m Bl)).Nodup := by
      have h1 := nodup_M (m := m) hndB
      rwa [freeList_cons_free m p2 _ hp2F] at h1
    have hndS : (freeList m Br' ++ freeList m Bl).Nodup :=
      (List.nodup_cons.mp hndp2S).2
    have hp2S : p2 ∉ freeList m Br' ++ freeList m Bl :=
      (List.nodup_cons.mp hndp2S).1
    have hq2S : q2 ∉ freeList m Br' ++ freeList m Bl := by
      intro hq
      rcases List.mem_append.mp hq with h1 | h1
      · exact hq2notB (List.mem_append.mpr
          (.inr (List.mem_cons_of_mem p
            (List.mem_cons_of_mem p2 (freeList_subset _ h1)))))
      · exact hq2notB (List.mem_append.mpr (.inl (freeList_subset _ h1)))
    have hcycNew : cycChain m2 (q2 :: (freeList m Br' ++ freeList m Bl)) := by
      by_cases hS0 : freeList m Br' ++ freeList m Bl = []
      · rw [hS0]
        rw [hS0] at hcycRot
        have hsing := (cycChain_singleton m p2).mp hcycRot
        refine (cycChain_singleton m2 q2).mpr ⟨?_, ?_⟩
        · rw [G3, if_neg (Ne.symm hp2q2), if_pos rfl, if_pos hsing.1]
        · rw [G4, if_pos rfl, if_pos hsing.1]
      · obtain ⟨hchS, hlk1, hlk2⟩ :=
          (cycChain_cons_parts m p2 (freeList m Br' ++ freeList m Bl) hS0).mp hcycRot
        have hnpeq : (m p2).next
            = (freeList m Br' ++ freeList m Bl).headD 0 := hlk1.1
        have hspeq : (m p2).prev
            = (freeList m Br' ++ freeList m Bl).getLast hS0 := hlk2.2
        have hnpS : (m p2).next ∈ freeList m Br' ++ freeList m Bl := by
          obtain ⟨a, t, he⟩ := List.exists_cons_of_ne_nil hS0
          rw [hnpeq, he]
          exact List.mem_cons_self a t
        have hspS : (m p2).prev ∈ freeList m Br' ++ freeList m Bl := by
          rw [hspeq]
          exact List.getLast_mem hS0
        have hnpp2 : (m p2).next ≠ p2 := fun he => hp2S (he ▸ hnpS)
        have hchS2 : List.Chain' (linkRel m2)
            (freeList m Br' ++ freeList m Bl) := by
          refine chain'_imp_mem2 ?_ hchS
          intro a ha b hb hab
          have haS : a ∈ freeList m Br' ++ freeList m Bl :=
            List.dropLast_subset _ ha
          have hbS : b ∈ freeList m Br' ++ freeList m Bl :=
            List.tail_subset _ hb
          have ha2 : a ≠ (m p2).prev := by
            rw [hspeq]
            intro he
            exact getLast_not_mem_dropLast hndS hS0 (he ▸ ha)
          have hb2 : b ≠ (m p2).next := by
            rw [hnpeq]
            intro he
            exact head_not_mem_tail hndS hS0 (he ▸ hb)
          have ha3 : a ≠ p2 := fun he => hp2S (he ▸ haS)
          have ha4 : a ≠ q2 := fun he => hq2S (he ▸ haS)
          have hb4 : b ≠ q2 := fun he => hq2S (he ▸ hbS)
          exact ⟨by rw [G3, if_neg ha3, if_neg ha4, if_neg ha2]; exact hab.1,
            by rw [G4, if_neg hb4, if_neg hb2]; exact hab.2⟩
        refine (cycChain_cons_parts m2 q2 _ hS0).mpr ⟨hchS2, ?_, ?_⟩
        · constructor
          · rw [G3, if_neg (Ne.symm hp2q2), if_pos rfl, if_neg hnpp2]
            exact hnpeq
          · have hh1 : (freeList m Br' ++ freeList m Bl).headD 0 ≠ q2 := by
              intro he
              exact hq2S (he ▸ hnpeq ▸ hnpS)
            rw [G4, if_neg hh1, if_pos hnpeq.symm]
        · constructor
          · have hg1 : (freeList m Br' ++ freeList m Bl).getLast hS0 ≠ p2 := by
              intro he
              exact hp2S (he ▸ List.getLast_mem hS0)
            have hg2 : (freeList m Br' ++ freeList m Bl).getLast hS0 ≠ q2 := by
              intro he
              exact hq2S (he ▸ List.getLast_mem hS0)
            rw [G3, if_neg hg1, if_neg hg2, if_pos hspeq.symm]
          · rw [G4, if_pos rfl, if_neg hnpp2]
            exact hspeq
    rw [hFL2]
    have hcycFin : cycChain m2 (freeList m Bl ++ q2 :: freeList m Br') :=
      (cycChain_rotate m2 (freeList m Bl) (freeList m Br') q2).mpr hcycNew
    refine (ringShape_iff m2 f2 _).mpr ⟨by simp, ?_, hcycFin⟩
    exact hf2
  · exact List.mem_append.mpr (.inr (List.mem_cons_self p _))
  · rw [hmagp]
    exact hpA
  · intro b hb hbA hbp
    have hbne2 : b ≠ p2 := by
      intro he
      rw [he, hp2F] at hbA
      exact magic_free_ne_alloc hbA
    refine ⟨?_, hpresA b hb hbA hbp⟩
    rcases List.mem_append.mp hb with h1 | h1
    · exact List.mem_append.mpr (.inl h1)
    · rcases List.mem_cons.mp h1 with h2 | h2
      · exact absurd h2 hbp
      · rcases List.mem_cons.mp h2 with h3 | h3
        · exact absurd h3 hbne2
        · exact List.mem_append.mpr
            (.inr (List.mem_cons_of_mem p (List.mem_cons_of_mem q2 h3)))
  · intro b hb hbA
    by_cases h1 : b = p
    · exact .inl h1
    · right
      have hbB : b ∈ Bl ++ p :: p2 :: Br' := by
        rcases List.mem_append.mp hb with h2 | h2
        · exact List.mem_append.mpr (.inl h2)
        · rcases List.mem_cons.mp h2 with h3 | h3
          · exact absurd h3 h1
          · rcases List.mem_cons.mp h3 with h4 | h4
            · exfalso
              rw [h4, hmagq2] at hbA
              exact magic_free_ne_alloc hbA
            · exact List.mem_append.mpr
                (.inr (List.mem_cons_of_mem p (List.mem_cons_of_mem p2 h4)))
      have hbq2 : b ≠ q2 := fun he => hq2notB (he ▸ hbB)
      have hbA2 : (m b).magic = GRUB_MM_ALLOC_MAGIC := by
        rw [G2, if_neg hbq2] at hbA
        exact hbA
      exact ⟨hbB, hbA2, h1, hpresA b hbB hbA2 h1⟩
  · intro c hc
    by_cases h3 : c = q2
    · exfalso
      refine hc ?_
      have h4 := hBspan p2 hp2B
      have h5 : p2 + (m p2).size ≤ startCell r + totalCells r := by
        have : p2 = startCell r + t1 + (m p).size := by omega
        unfold endCell at h4
        omega
      unfold inSpan at h4 ⊢
      unfold endCell at h4 ⊢
      omega
    · refine F7 c ?_ ?_ h3 ?_ ?_
      · intro he
        exact hc (he ▸ hBspan p hpB)
      · intro he
        exact hc (he ▸ hBspan p2 hp2B)
      · intro he
        exact hc (he ▸ hBspan _ (freeList_subset _ hspFL))
      · intro he
        exact hc (he ▸ hBspan _ (freeList_subset _ hnpFL))

/-- Field effects of the in-place extension when the whole following free
block is absorbed (`split_chunk` is a no-op). -/
theorem growMem_facts_nosplit (m : Mem) (r : Region) (p p2 n : Nat)
    (hns : (m p2).size ≤ n - (m p).size) :
    (∀ c, ((growMem m p p2 n) c).size = if c = p then n else (m c).size) ∧
    (∀ c, ((growMem m p p2 n) c).magic = (m c).magic) ∧
    (∀ c, ((growMem m p p2 n) c).next
      = if c = (m p2).prev then (m p2).next else (m c).next) ∧
    (∀ c, ((growMem m p p2 n) c).prev
      = if c = (m p2).next then (m p2).prev else (m c).prev) ∧
    growFirst m r p p2 n
      = (if (if r.first = p2 then (m p2).next else r.first) = p2 then p
        else (if r.first = p2 then (m p2).next else r.first)) := by
  have hm1 : split_chunk m p2 (n - (m p).size) = m := split_chunk_noop m p2 _ hns
  refine ⟨?_, ?_, ?_, ?_, ?_⟩
  · intro c
    simp [growMem, hm1]
  · intro c
    simp [growMem, hm1]
  · intro c
    simp only [growMem, hm1, setSize_next, setNext_next, setPrev_next,
      setPrev_prev, ite_self]
  · intro c
    simp only [growMem, hm1, setSize_prev, setNext_prev, setPrev_prev,
      setPrev_next, ite_self]
  · simp only [growFirst, hm1, setNext_next, setPrev_next, setPrev_prev, ite_self]

/-- Field effects of the in-place extension when the following free block
is split, general ring case: its ring successor is another node. -/
theorem growMem_facts_split (m : Mem) (r : Region) (p p2 n : Nat)
    (hlt : (m p).size < n)
    (hw2 : n - (m p).size < (m p2).size)
    (hnp2 : (m p2).next ≠ p2)
    (hnpq2 : (m p2).next ≠ p2 + (n - (m p).size))
    (hspq2 : (m p2).prev ≠ p2 + (n - (m p).size))
    (hpp2 : p ≠ p2)
    (hpq2 : p ≠ p2 + (n - (m p).size))
    (hnpp : (m p2).next ≠ p)
    (hspp : (m p2).prev ≠ p) :
    (∀ c, ((growMem m p p2 n) c).size = if c = p then n
      else if c = p2 then n - (m p).size
      else if c = p2 + (n - (m p).size) then (m p2).size - (n - (m p).size)
      else (m c).size) ∧
    (∀ c, ((growMem m p p2 n) c).magic
      = if c = p2 + (n - (m p).size) then GRUB_MM_FREE_MAGIC else (m c).magic) ∧
    (∀ c, ((growMem m p p2 n) c).next = if c = p2 then p2 + (n - (m p).size)
      else if c = p2 + (n - (m p).size) then
        (if (m p2).next = p2 then p2 + (n - (m p).size) else (m p2).next)
      else if c = (m p2).prev then p2 + (n - (m p).size) else (m c).next) ∧
    (∀ c, ((growMem m p p2 n) c).prev = if c = p2 + (n - (m p).size) then
        (if (m p2).next = p2 then p2 + (n - (m p).size) else (m p2).prev)
      else if c = (m p2).next then p2 + (n - (m p).size) else (m c).prev) ∧
    growFirst m r p p2 n
      = (if (if r.first = p2 then p2 + (n - (m p).size) else r.first) = p2 then p
        else (if r.first = p2 then p2 + (n - (m p).size) else r.first)) := by
  have hw1 : 1 ≤ n - (m p).size := by omega
  have hp2q2 : ¬(p2 = p2 + (n - (m p).size)) := by omega
  have hm1 : split_chunk m p2 (n - (m p).size) = fun c =>
      if c = p2 then { m p2 with next := p2 + (n - (m p).size), size := n - (m p).size }
      else if c = p2 + (n - (m p).size) then
        ⟨p2, (m p2).next, (m p2).size - (n - (m p).size), GRUB_MM_FREE_MAGIC⟩
      else if c = (m p2).next then { m ((m p2).next) with prev := p2 + (n - (m p).size) }
      else m c :=
    split_chunk_eq m p2 (n - (m p).size) ((m p2).next) hw2 hw1 rfl hnp2 hnpq2
  have k1 : p2 ≠ p := Ne.symm hpp2
  have k2 : p2 + (n - (m p).size) ≠ p := Ne.symm hpq2
  have k3 : p2 + (n - (m p).size) ≠ p2 := Ne.symm hp2q2
  have k5 : ¬(n - (m p).size = 0) := by omega
  have k6 : p2 ≠ (m p2).next := Ne.symm hnp2
  have k7 : p2 + (n - (m p).size) ≠ (m p2).prev := Ne.symm hspq2
  have k8 : p2 + (n - (m p).size) ≠ (m p2).next := Ne.symm hnpq2
  refine ⟨?_, ?_, ?_, ?_, ?_⟩
  · intro c
    simp only [growMem, hm1, setSize_size, setNext_size, setPrev_size,
      setPrev_next, setPrev_prev, if_pos rfl, if_neg hp2q2, ite_self]
    by_cases h1 : c = p
    · simp [h1, hpp2, hpq2, hnp2, hnpq2, hspq2, hp2q2, hnpp, hspp, k1, k2, k3, k5, k6, k7, k8]
    · by_cases h2 : c = p2
      · simp [h1, h2, hpp2, hpq2, hnp2, hnpq2, hspq2, hp2q2, hnpp, hspp, k1, k2, k3, k5, k6, k7, k8]
      · by_cases h3 : c = p2 + (n - (m p).size)
        · simp [h1, h2, h3, hpp2, hpq2, hnp2, hnpq2, hspq2, hp2q2, hnpp, hspp, k1, k2, k3, k5, k6, k7, k8]
        · by_cases h4 : c = (m p2).next
          · simp [h1, h2, h3, h4, hpp2, hpq2, hnp2, hnpq2, hspq2, hp2q2, hnpp, hspp, k1, k2, k3, k5, k6, k7, k8]
          · simp [h1, h2, h3, h4, hpp2, hpq2, hnp2, hnpq2, hspq2, hp2q2, hnpp, hspp, k1, k2, k3, k5, k6, k7, k8]
  · intro c
    simp only [growMem, hm1, setSize_magic, setNext_magic, setPrev_magic,
      setPrev_next, setPrev_prev, if_pos rfl, if_neg hp2q2, ite_self]
    by_cases h2 : c = p2
    · simp [h2, hpp2, hpq2, hnp2, hnpq2, hspq2, hp2q2, hnpp, hspp, k1, k2, k3, k5, k6, k7, k8]
    · by_cases h3 : c = p2 + (n - (m p).size)
      · simp [h2, h3, hpp2, hpq2, hnp2, hnpq2, hspq2, hp2q2, hnpp, hspp, k1, k2, k3, k5, k6, k7, k8]
      · by_cases h4 : c = (m p2).next
        · simp [h2, h3, h4, hpp2, hpq2, hnp2, hnpq2, hspq2, hp2q2, hnpp, hspp, k1, k2, k3, k5, k6, k7, k8]
        · simp [h2, h3, h4, hpp2, hpq2, hnp2, hnpq2, hspq2, hp2q2, hnpp, hspp, k1, k2, k3, k5, k6, k7, k8]
  · intro c
    simp only [growMem, hm1, setSize_next, setNext_next, setPrev_next,
      setPrev_prev, if_pos rfl, if_neg hp2q2, ite_self]
    by_cases h1 : c = (m p2).prev
    · by_cases h2 : c = p2
      · simp [h1, h2, hpp2, hpq2, hnp2, hnpq2, hspq2, hp2q2, hnpp, hspp, k1, k2, k3, k5, k6, k7, k8]
      · by_cases h3 : c = p2 + (n - (m p).size)
        · exact absurd (h1.symm.trans h3) hspq2
        · simp [h1, h2, h3, hpp2, hpq2, hnp2, hnpq2, hspq2, hp2q2, hnpp, hspp, k1, k2, k3, k5, k6, k7, k8]
    · by_cases h2 : c = p2
      · simp [h1, h2, hpp2, hpq2, hnp2, hnpq2, hspq2, hp2q2, hnpp, hspp, k1, k2, k3, k5, k6, k7, k8]
      · by_cases h3 : c = p2 + (n - (m p).size)
        · simp [h1, h2, h3, hpp2, hpq2, hnp2, hnpq2, hspq2, hp2q2, hnpp, hspp, k1, k2, k3, k5, k6, k7, k8]
        · by_cases h4 : c = (m p2).next
          · simp [h1, h2, h3, h4, hpp2, hpq2, hnp2, hnpq2, hspq2, hp2q2, hnpp, hspp, k1, k2, k3, k5, k6, k7, k8]
          · simp [h1, h2, h3, h4, hpp2, hpq2, hnp2, hnpq2, hspq2, hp2q2, hnpp, hspp, k1, k2, k3, k5, k6, k7, k8]
  · intro c
    simp only [growMem, hm1, setSize_prev, setNext_prev, setPrev_prev,
      setPrev_next, if_pos rfl, if_neg hp2q2, ite_self]
    by_cases h3 : c = p2 + (n - (m p).size)
    · simp [h3, hpp2, hpq2, hnp2, hnpq2, hspq2, hp2q2, hnpp, hspp, k1, k2, k3, k5, k6, k7, k8]
    · by_cases h2 : c = p2
      · have h5 : ¬(c = (m p2).next) := by
          rw [h2]
          exact fun he => hnp2 he.symm
        simp [h2, h3, h5, hpp2, hpq2, hnp2, hnpq2, hspq2, hp2q2, hnpp, hspp, k1, k2, k3, k5, k6, k7, k8]
      · by_cases h4 : c = (m p2).next
        · simp [h2, h3, h4, hpp2, hpq2, hnp2, hnpq2, hspq2, hp2q2, hnpp, hspp, k1, k2, k3, k5, k6, k7, k8]
        · simp [h2, h3, h4, hpp2, hpq2, hnp2, hnpq2, hspq2, hp2q2, hnpp, hspp, k1, k2, k3, k5, k6, k7, k8]
  · simp [growFirst, hm1, hpp2, hpq2, hnp2, hnpq2, hspq2, hp2q2, hnpp, hspp,
      k1, k2, k3, k5, k6, k7, k8]


/-- Field effects of the in-place extension when the following free block
is split and it is the only ring node (a self-loop). -/
theorem growMem_facts_split_self (m : Mem) (r : Region) (p p2 n : Nat)
    (hlt : (m p).size < n)
    (hw2 : n - (m p).size < (m p2).size)
    (hnp : (m p2).next = p2)
    (hsp : (m p2).prev = p2)
    (hpp2 : p ≠ p2)
    (hpq2 : p ≠ p2 + (n - (m p).size)) :
    (∀ c, ((growMem m p p2 n) c).size = if c = p then n
      else if c = p2 then n - (m p).size
      else if c = p2 + (n - (m p).size) then (m p2).size - (n - (m p).size)
      else (m c).size) ∧
    (∀ c, ((growMem m p p2 n) c).magic
      = if c = p2 + (n - (m p).size) then GRUB_MM_FREE_MAGIC else (m c).magic) ∧
    (∀ c, ((growMem m p p2 n) c).next = if c = p2 then p2 + (n - (m p).size)
      else if c = p2 + (n - (m p).size) then
        (if (m p2).next = p2 then p2 + (n - (m p).size) else (m p2).next)
      else if c = (m p2).prev then p2 + (n - (m p).size) else (m c).next) ∧
    (∀ c, ((growMem m p p2 n) c).prev = if c = p2 + (n - (m p).size) then
        (if (m p2).next = p2 then p2 + (n - (m p).size) else (m p2).prev)
      else if c = (m p2).next then p2 + (n - (m p).size) else (m c).prev) ∧
    growFirst m r p p2 n
      = (if (if r.first = p2 then p2 + (n - (m p).size) else r.first) = p2 then p
        else (if r.first = p2 then p2 + (n - (m p).size) else r.first)) := by
  have hw1 : 1 ≤ n - (m p).size := by omega
  have hp2q2 : ¬(p2 = p2 + (n - (m p).size)) := by omega
  have hm1 : split_chunk m p2 (n - (m p).size) = fun c =>
      if c = p2 then { m p2 with prev := p2 + (n - (m p).size), next := p2 + (n - (m p).size), size := n - (m p).size }
      else if c = p2 + (n - (m p).size) then
        ⟨p2, p2, (m p2).size - (n - (m p).size), GRUB_MM_FREE_MAGIC⟩
      else m c :=
    split_chunk_eq_self m p2 (n - (m p).size) hw2 hw1 hnp
  have k1 : p2 ≠ p := Ne.symm hpp2
  have k2 : p2 + (n - (m p).size) ≠ p := Ne.symm hpq2
  have k3 : p2 + (n - (m p).size) ≠ p2 := Ne.symm hp2q2
  have k5 : ¬(n - (m p).size = 0) := by omega
  refine ⟨?_, ?_, ?_, ?_, ?_⟩
  · intro c
    simp only [growMem, hm1, setSize_size, setNext_size, setPrev_size,
      setPrev_next, setPrev_prev, if_pos rfl, if_neg hp2q2, ite_self]
    by_cases h1 : c = p
    · simp [h1, hnp, hsp, hpp2, hpq2, hp2q2, k1, k2, k3, k5]
    · by_cases h2 : c = p2
      · simp [h1, h2, hnp, hsp, hpp2, hpq2, hp2q2, k1, k2, k3, k5]
      · by_cases h3 : c = p2 + (n - (m p).size)
        · simp [h1, h2, h3, hnp, hsp, hpp2, hpq2, hp2q2, k1, k2, k3, k5]
        · simp [h1, h2, h3, hnp, hsp, hpp2, hpq2, hp2q2, k1, k2, k3, k5]
  · intro c
    simp only [growMem, hm1, setSize_magic, setNext_magic, setPrev_magic,
      setPrev_next, setPrev_prev, if_pos rfl, if_neg hp2q2, ite_self]
    by_cases h2 : c = p2
    · simp [h2, hnp, hsp, hp2q2, k3, k5]
    · by_cases h3 : c = p2 + (n - (m p).size)
      · simp [h2, h3, hnp, hsp, k3, k5]
      · simp [h2, h3, hnp, hsp, k3, k5]
  · intro c
    simp only [growMem, hm1, setSize_next, setNext_next, setPrev_next,
      setPrev_prev, if_pos rfl, if_neg hp2q2, ite_self]
    by_cases h2 : c = p2
    · simp [h2, hnp, hsp, hp2q2, k3, k5]
    · by_cases h3 : c = p2 + (n - (m p).size)
      · simp [h2, h3, hnp, hsp, k3, k5]
      · simp [h2, h3, hnp, hsp, k3, k5]
  · intro c
    simp only [growMem, hm1, setSize_prev, setNext_prev, setPrev_prev,
      setPrev_next, if_pos rfl, if_neg hp2q2, ite_self]
    by_cases h2 : c = p2
    · simp [h2, hnp, hsp, hp2q2, k3, k5]
    · by_cases h3 : c = p2 + (n - (m p).size)
      · simp [h2, h3, hnp, hsp, k3, k5]
      · simp [h2, h3, hnp, hsp, k3, k5]
  · simp [growFirst, hm1, hnp, hsp, hpp2, hpq2, hp2q2, k1, k2, k3, k5]

/-- The grow-in-place surgery of `grub_rememalign_policy` — split the
following free block, unlink it, extend `p`, repair `first` — preserves
the region invariant whenever the next tile is free and the request fits
in the pair of tiles. -/
theorem grow_preserve (m : Mem) (r : Region) (Bl Br' : List Nat) (p p2 n : Nat)
    (hreg : RegionB m r (Bl ++ p :: p2 :: Br'))
    (hpA : (m p).magic = GRUB_MM_ALLOC_MAGIC)
    (hp2F : (m p2).magic = GRUB_MM_FREE_MAGIC)
    (hlt : (m p).size < n)
    (hge : n ≤ (m p).size + (m p2).size) :
    GrowOut m r (Bl ++ p :: p2 :: Br') p (growMem m p p2 n)
      (growFirst m r p p2 n) := by
  have hregK := hreg
  obtain ⟨haddr, hsize, htiles, hmagics, hadj, hring⟩ := hregK
  have hp2eq : p2 = p + (m p).size := tiles_adjacent m Bl p p2 Br' htiles
  obtain ⟨t1, ht1le, htBl, htRest⟩ := tiles_decomp m Bl htiles
  obtain ⟨hpstart, hsz1, hszle, htRest2⟩ := htRest
  obtain ⟨hp2start, hsz2, hszle2, htBr⟩ := htRest2
  have hpp2 : p ≠ p2 := by omega
  have hsortP : (Bl ++ p :: p2 :: Br').Pairwise (fun a b => a < b) :=
    List.chain'_iff_pairwise.mp (tiles_sorted m htiles)
  have hndB : (Bl ++ p :: p2 :: Br').Nodup := nodup_of_pairwise_lt hsortP
  have hpNF : (m p).magic ≠ GRUB_MM_FREE_MAGIC := by
    rw [hpA]
    decide
  have hFL : freeList m (Bl ++ p :: p2 :: Br')
      = freeList m Bl ++ p2 :: freeList m Br' := by
    rw [freeList_append, freeList_cons_nonfree m p _ hpNF,
      freeList_cons_free m p2 _ hp2F]
  have hp2mem : p2 ∈ freeList m (Bl ++ p :: p2 :: Br') := by
    rw [hFL]
    exact List.mem_append.mpr (.inr (List.mem_cons_self _ _))
  have hringS : RingShape m r.first (freeList m (Bl ++ p :: p2 :: Br')) := by
    rcases hring with ⟨h1, _, _⟩ | h2
    · rw [h1] at hp2mem
      simp at hp2mem
    · exact h2
  obtain ⟨hFne, hfirstD0, hcycF0⟩ :=
    (ringShape_iff m r.first (freeList m (Bl ++ p :: p2 :: Br'))).mp hringS
  have hfirstD : r.first = (freeList m Bl ++ p2 :: freeList m Br').headD 0 := by
    rw [hfirstD0, hFL]
  have hcycF : cycChain m (freeList m Bl ++ p2 :: freeList m Br') := by
    rw [hFL] at hcycF0
    exact hcycF0
  have hcycRot : cycChain m (p2 :: (freeList m Br' ++ freeList m Bl)) :=
    (cycChain_rotate m (freeList m Bl) (freeList m Br') p2).mp hcycF
  have hndp2S : (p2 :: (freeList m Br' ++ freeList m Bl)).Nodup := by
    have h1 := nodup_M (m := m) hndB
    rwa [freeList_cons_free m p2 _ hp2F] at h1
  have hp2S : p2 ∉ freeList m Br' ++ freeList m Bl :=
    (List.nodup_cons.mp hndp2S).1
  have hnpFL : (m p2).next ∈ freeList m (Bl ++ p :: p2 :: Br') :=
    ring_next_mem hringS hp2mem
  have hspFL : (m p2).prev ∈ freeList m (Bl ++ p :: p2 :: Br') :=
    ring_prev_mem hringS hp2mem
  have hnpF : (m ((m p2).next)).magic = GRUB_MM_FREE_MAGIC :=
    freeList_magic _ hnpFL
  have hspF : (m ((m p2).prev)).magic = GRUB_MM_FREE_MAGIC :=
    freeList_magic _ hspFL
  have hnpp : (m p2).next ≠ p := by
    intro he
    rw [he, hpA] at hnpF
    exact magic_free_ne_alloc hnpF.symm
  have hspp : (m p2).prev ≠ p := by
    intro he
    rw [he, hpA] at hspF
    exact magic_free_ne_alloc hspF.symm
  by_cases hsplit : n - (m p).size < (m p2).size
  · have hpq2 : p ≠ p2 + (n - (m p).size) := by omega
    have heB : Bl ++ p :: p2 :: Br' = (Bl ++ [p]) ++ p2 :: Br' := by simp
    have htiles' : TilesFrom m (startCell r) (totalCells r)
        ((Bl ++ [p]) ++ p2 :: Br') := by
      rw [← heB]
      exact htiles
    have hq2notB : p2 + (n - (m p).size) ∉ Bl ++ p :: p2 :: Br' := by
      rw [heB]
      exact tiles_interior_not_mem m htiles' (by omega) (by omega)
    have hnpq2 : (m p2).next ≠ p2 + (n - (m p).size) := fun he =>
      hq2notB (he ▸ freeList_subset _ hnpFL)
    have hspq2 : (m p2).prev ≠ p2 + (n - (m p).size) := fun he =>
      hq2notB (he ▸ freeList_subset _ hspFL)
    by_cases hsing : (m p2).next = p2
    · have hSnil : freeList m Br' ++ freeList m Bl = [] := by
        by_contra hS
        obtain ⟨hchS, hlk1, hlk2⟩ :=
          (cycChain_cons_parts m p2 (freeList m Br' ++ freeList m Bl) hS).mp hcycRot
        have hnpS : (m p2).next ∈ freeList m Br' ++ freeList m Bl := by
          obtain ⟨x, t, he⟩ := List.exists_cons_of_ne_nil hS
          rw [hlk1.1, he]
          exact List.mem_cons_self x t
        rw [hsing] at hnpS
        exact hp2S hnpS
      have hFRnil : freeList m Br' = [] := (List.append_eq_nil.mp hSnil).1
      have hFLnil : freeList m Bl = [] := (List.append_eq_nil.mp hSnil).2
      have hcycSing : cycChain m [p2] := by
        have h1 := hcycF
        rw [hFLnil, hFRnil] at h1
        simpa using h1
      have hsp : (m p2).prev = p2 := ((cycChain_singleton m p2).mp hcycSing).2
      obtain ⟨G1, G2, G3, G4, G5⟩ :=
        growMem_facts_split_self m r p p2 n hlt hsplit hsing hsp hpp2 hpq2
      refine grow_rebuild_split m (growMem m p p2 n) r Bl Br' p p2 n
        (n - (m p).size) (p2 + (n - (m p).size)) hreg hpA hp2F rfl rfl hlt hsplit
        G1 G2 G3 G4 (growFirst m r p p2 n) ?_
      rw [G5, hFLnil, hFRnil]
      have hrf : r.first = p2 := by
        rw [hfirstD, hFLnil]
        rfl
      rw [hrf]
      simp [show ¬(p2 + (n - (m p).size) = p2) by omega]
    · obtain ⟨G1, G2, G3, G4, G5⟩ :=
        growMem_facts_split m r p p2 n hlt hsplit hsing hnpq2 hspq2 hpp2 hpq2
          hnpp hspp
      refine grow_rebuild_split m (growMem m p p2 n) r Bl Br' p p2 n
        (n - (m p).size) (p2 + (n - (m p).size)) hreg hpA hp2F rfl rfl hlt hsplit
        G1 G2 G3 G4 (growFirst m r p p2 n) ?_
      rw [G5]
      cases hFLe : freeList m Bl with
      | nil =>
        have hrf : r.first = p2 := by
          rw [hfirstD, hFLe]
          rfl
        rw [hrf]
        simp [show ¬(p2 + (n - (m p).size) = p2) by omega]
      | cons a FL2 =>
        have hrf : r.first = a := by
          rw [hfirstD, hFLe]
          rfl
        have hap2 : ¬(a = p2) := by
          intro he
          refine hp2S (List.mem_append.mpr (.inr ?_))
          rw [← he, hFLe]
          exact List.mem_cons_self a FL2
        rw [hrf]
        simp [hap2]
  · have hns : (m p2).size ≤ n - (m p).size := by omega
    have hn : n = (m p).size + (m p2).size := by omega
    obtain ⟨G1, G2, G3, G4, G5⟩ := growMem_facts_nosplit m r p p2 n hns
    refine grow_rebuild_nosplit m (growMem m p p2 n) r Bl Br' p p2 n hreg hpA
      hp2F hn G1 G2 G3 G4 (growFirst m r p p2 n) ?_
    rw [G5]
    cases hFLe : freeList m Bl with
    | cons a FL2 =>
      have hrf : r.first = a := by
        rw [hfirstD, hFLe]
        rfl
      have hap2 : ¬(a = p2) := by
        intro he
        refine hp2S (List.mem_append.mpr (.inr ?_))
        rw [← he, hFLe]
        exact List.mem_cons_self a FL2
      rw [hrf]
      simp [hap2]
    | nil =>
      have hrf : r.first = p2 := by
        rw [hfirstD, hFLe]
        rfl
      cases hFRe : freeList m Br' with
      | nil =>
        have hcycSing : cycChain m [p2] := by
          have h1 := hcycF
          rw [hFLe, hFRe] at h1
          simpa using h1
        have hnp : (m p2).next = p2 := ((cycChain_singleton m p2).mp hcycSing).1
        rw [hrf, hnp]
        simp
      | cons b FR2 =>
        have hS : freeList m Br' ++ freeList m Bl ≠ [] := by
          simp [hFRe]
        obtain ⟨hchS, hlk1, hlk2⟩ :=
          (cycChain_cons_parts m p2 (freeList m Br' ++ freeList m Bl) hS).mp hcycRot
        have hnp : (m p2).next = b := by
          have h1 := hlk1.1
          rw [hFRe, hFLe] at h1
          simpa using h1
        have hbp2 : ¬(b = p2) := by
          intro he
          refine hp2S (List.mem_append.mpr (.inl ?_))
          rw [← he, hFRe]
          exact List.mem_cons_self b FR2
        rw [hrf, hnp]
        simp [hbp2]

/-- Run equation for `grub_rememalign_policy` on the grow-in-place path. -/
theorem rememalign_run_grow (h1 h2 : MMState → MMState) (st : MMState)
    (ptr align size : Nat) (pol : MmPolicy) (p i : Nat) (r : Region)
    (hptr : ptr ≠ 0)
    (hsz : ¬(size % WORD = 0))
    (hget : get_header_from_pointer st ptr = .ok (p, i, r))
    (hlt : (st.mem p).size < calcN (size % WORD))
    (hcond : GRUB_MM_ALIGN * (p + (st.mem p).size)
        < r.addr + (r.size <<< GRUB_MM_ALIGN_LOG2) ∧
      (st.mem (p + (st.mem p).size)).magic = GRUB_MM_FREE_MAGIC ∧
      (st.mem p).size + (st.mem (p + (st.mem p).size)).size
        ≥ calcN (size % WORD)) :
    grub_rememalign_policy h1 h2 st ptr align size pol = .ok ({ st with mem := growMem st.mem p (p + (st.mem p).size) (calcN (size % WORD)), base := st.base.set i { r with first := growFirst st.mem r p (p + (st.mem p).size) (calcN (size % WORD)) } }, some ptr) := by
  unfold grub_rememalign_policy
  rw [if_neg hptr, if_neg hsz, hget]
  simp only []
  rw [if_neg (by omega : ¬((st.mem p).size ≥ calcN (size % WORD))), if_pos hcond]
  unfold growMem growFirst
  rfl


end GrubMM
